import Mathlib

/-!
The worker scan scheduler, the czar result receiver and the query front end of
qserv.

A shallow embedding of

* `core/modules/wsched/ChunkTasksQueue.cc` (namespace `wsched`): the per-chunk
  task queue of the worker's scan scheduler,
* `core/modules/ccontrol/MergingHandler.cc` (namespace `ccontrol`): the state
  machine that receives one worker's framed result stream and hands the bodies
  to the merger,
* `core/modules/ccontrol/UserQueryFactory.cc` (namespace `ccontrol`): the factory
  of user queries,
* `master/src/TaskMsgFactory2.cc`, `src/TableMerger.cc` and
  `master/src/QueryTemplate.cc` (namespace `master`): the task message of a chunk
  query, the names of the merge tables and the statements of a merge, and the
  rendering of a query template, and
* the duplicate check of select lists that
  `core/modules/qproc/testQueryAnaDuplSelectExpr.cc` tests (namespace `qana`).

Collaborators whose code is not part of these files (the memory manager, the
scheduler policy, the protobuf codec, the MD5 routine, the merger, the job, the
query analysis, the clock, the C library calls of the table merger, the token
separation rule) are parameters of the definitions.
-/

namespace wsched

/-! ## Tasks -/

/-- One table of a task's scan info (`scanInfo.infoTables`). -/
structure ScanTableInfo where
  db : String
  table : String
  scanRating : Int
  deriving DecidableEq, Repr

/-- A `wbase::Task`. `ptr` is the address of the shared task object (what
`task.get()` returns), `memHandle` is `none` while the task has no memory
handle. Task objects are held by value: `setMemHandle` in `ChunkTasks::ready`
updates the copy that moves to the ready slot. -/
structure Task where
  ptr : Nat
  queryId : Nat
  jobId : Int
  chunkId : Int
  infoTables : List ScanTableInfo
  entryTime : Nat
  memHandle : Option Nat
  deriving DecidableEq, Repr

/-- Modelled from the spec: the test `Task::idsMatch(queryId, jobId)` of the
missing `wbase/Task.h`; a task is identified by its query id and job id. -/
def Task.idsMatch (t : Task) (queryId : Nat) (jobId : Int) : Bool :=
  t.queryId == queryId && t.jobId == jobId

/-- Modelled from the spec: the test `Task::hasMemHandle()` of the missing
`wbase/Task.h`; a task has no memory handle until one is attached. -/
def Task.hasMemHandle (t : Task) : Bool := t.memHandle.isSome

/-! ## The standard heap algorithms

`SlowTableHeap` keeps its tasks in a `std::vector` arranged by `std::push_heap`,
`std::pop_heap` and `std::make_heap` under `compareFunc`. The C++ standard fixes
what these algorithms guarantee, not the arrangement they produce, so they are
taken as parameters together with their guarantees. -/

/-- The range is a heap under `cmp`: no element is ordered before its child
(the parent of position `i` is position `(i - 1) / 2`). -/
def IsHeap (cmp : Task → Task → Bool) (l : List Task) : Prop :=
  ∀ i p c, 0 < i → l[(i - 1) / 2]? = some p → l[i]? = some c → cmp p c = false

/-- The comparator is a strict weak ordering (the C++ `Compare` requirement),
stated as asymmetry and negative transitivity. -/
def StrictWeakOrder (cmp : Task → Task → Bool) : Prop :=
  (∀ a b, cmp a b = true → cmp b a = false) ∧
  (∀ a b c, cmp a b = false → cmp b c = false → cmp a c = false)

/-- The comparator `SlowTableHeap::compareFunc` and the three standard heap
algorithms applied to the whole vector, with the guarantees the C++ standard
gives for them. -/
structure StdHeap where
  compareFunc : Task → Task → Bool
  push_heap : List Task → List Task
  pop_heap : List Task → List Task
  make_heap : List Task → List Task
  push_heap_perm : ∀ l, List.Perm (push_heap l) l
  pop_heap_perm : ∀ l, List.Perm (pop_heap l) l
  make_heap_perm : ∀ l, List.Perm (make_heap l) l
  pop_heap_back : ∀ a l, (pop_heap (a :: l)).getLast? = some a
  push_heap_heap : StrictWeakOrder compareFunc → ∀ l x, IsHeap compareFunc l →
    IsHeap compareFunc (push_heap (l ++ [x]))
  pop_heap_heap : StrictWeakOrder compareFunc → ∀ l, IsHeap compareFunc l →
    IsHeap compareFunc (pop_heap l).dropLast
  make_heap_heap : StrictWeakOrder compareFunc → ∀ l, IsHeap compareFunc (make_heap l)

/-- Descending order under `cmp`: an earlier element is never ordered before a
later one. -/
def notBefore (cmp : Task → Task → Bool) (a b : Task) : Prop := cmp a b = false

instance (cmp : Task → Task → Bool) : DecidableRel (notBefore cmp) :=
  fun a b => inferInstanceAs (Decidable (cmp a b = false))

/-- Sort descending under `cmp`; a sorted range is a heap. -/
def sortDesc (cmp : Task → Task → Bool) (l : List Task) : List Task :=
  List.insertionSort (notBefore cmp) l

theorem sortDesc_perm (cmp : Task → Task → Bool) (l : List Task) :
    List.Perm (sortDesc cmp l) l :=
  List.perm_insertionSort _ l

theorem sortDesc_pairwise (cmp : Task → Task → Bool) (hc : StrictWeakOrder cmp)
    (l : List Task) : List.Pairwise (notBefore cmp) (sortDesc cmp l) := by
  haveI : IsTotal Task (notBefore cmp) := ⟨fun a b => by
    unfold notBefore
    cases hab : cmp a b
    · exact Or.inl rfl
    · exact Or.inr (hc.1 a b hab)⟩
  haveI : IsTrans Task (notBefore cmp) := ⟨fun a b c hab hbc => hc.2 a b c hab hbc⟩
  exact List.sorted_insertionSort (notBefore cmp) l

theorem isHeap_of_pairwise (cmp : Task → Task → Bool) (l : List Task)
    (h : List.Pairwise (notBefore cmp) l) : IsHeap cmp l := by
  intro i p c hi hp hc
  have hlt : (i - 1) / 2 < i := by omega
  obtain ⟨h1, e1⟩ := List.getElem?_eq_some.mp hp
  obtain ⟨h2, e2⟩ := List.getElem?_eq_some.mp hc
  have := List.pairwise_iff_getElem.mp h ((i - 1) / 2) i h1 h2 hlt
  rw [e1, e2] at this
  exact this

theorem sortDesc_isHeap (cmp : Task → Task → Bool) (hc : StrictWeakOrder cmp)
    (l : List Task) : IsHeap cmp (sortDesc cmp l) :=
  isHeap_of_pairwise cmp _ (sortDesc_pairwise cmp hc l)

/-- Sort-based pop: the first element goes to the back, the rest is arranged. -/
def sortPop (cmp : Task → Task → Bool) : List Task → List Task
  | [] => []
  | a :: l => sortDesc cmp l ++ [a]

/-- A conforming implementation of the heap algorithms: every arrangement is
the descending sort. -/
def sortHeap (cmp : Task → Task → Bool) : StdHeap where
  compareFunc := cmp
  push_heap := sortDesc cmp
  pop_heap := sortPop cmp
  make_heap := sortDesc cmp
  push_heap_perm := sortDesc_perm cmp
  pop_heap_perm := by
    intro l
    cases l with
    | nil => exact List.Perm.refl _
    | cons a l =>
      show List.Perm (sortDesc cmp l ++ [a]) (a :: l)
      exact (List.perm_append_singleton a _).trans ((sortDesc_perm cmp l).cons a)
  make_heap_perm := sortDesc_perm cmp
  pop_heap_back := by
    intro a l
    show (sortDesc cmp l ++ [a]).getLast? = some a
    simp
  push_heap_heap := fun hc l x _ => sortDesc_isHeap cmp hc (l ++ [x])
  pop_heap_heap := by
    intro hc l _
    cases l with
    | nil => intro i p c _ hp _; simp [sortPop] at hp
    | cons a l =>
      show IsHeap cmp (sortDesc cmp l ++ [a]).dropLast
      rw [List.dropLast_concat]
      exact sortDesc_isHeap cmp hc l
  make_heap_heap := fun hc l => sortDesc_isHeap cmp hc l

/-! ## The memory manager and the scheduler policy -/

/-- The lock options of `memman::TableInfo::LockType` used by the queue. -/
inductive LockType where
  | REQUIRED
  | FLEXIBLE
  | NOLOCK
  deriving DecidableEq, Repr

/-- A `memman::TableInfo`: table name and the two lock options. -/
structure TableInfo where
  tableName : String
  lckOptTbl : LockType
  lckOptIdx : LockType
  deriving DecidableEq, Repr

/-- One request `_memMan->prepare(tblVect, chunkId)`. -/
structure PrepareCall where
  tblVect : List TableInfo
  chunkId : Int
  deriving DecidableEq, Repr

/-- The values of `errno` that `ChunkTasks::ready` tells apart. -/
inductive Errno where
  | ENOMEM
  | ENOENT
  | other
  deriving DecidableEq, Repr

/-- What one `prepare` request gives: the handle, and `errno` (read only when
the handle is 0). -/
structure PrepareResult where
  handle : Nat
  errno : Errno
  deriving DecidableEq, Repr

/-- The memory manager as seen during one scheduler call: `answer k` is what it
gives to the `k`-th request made so far, `ISEMPTY` is the handle
`memman::MemMan::HandleType::ISEMPTY`. -/
structure MemMan where
  ISEMPTY : Nat
  answer : Nat → PrepareResult

/-- The owning scheduler as seen during one call of `_ready`. -/
structure SchedulerPolicy where
  getActiveChunkCount : Int
  getMaxActiveChunks : Int
  chunkAlreadyActive : Int → Bool

/-! ## ChunkTasks -/

/-- The result type `ChunkTasks::ReadyState`. -/
inductive ReadyState where
  | READY
  | NOT_READY
  | NO_RESOURCES
  deriving DecidableEq, Repr

/-- The tasks of one chunk. `_activeTasks` is the vector `_activeTasks._tasks` of
the `SlowTableHeap`, `_inFlightTasks` the set of task addresses. -/
structure ChunkTasks where
  _chunkId : Int
  _active : Bool
  _resourceStarved : Bool
  _activeTasks : List Task
  _pendingTasks : List Task
  _inFlightTasks : List Nat
  _readyTask : Option Task
  deriving DecidableEq, Repr

/-- Modelled from the spec: the constructor `ChunkTasks(chunkId, memMan)` of the
missing `ChunkTasksQueue.h`: a chunk that is not active and holds no task. -/
def ChunkTasks.new (chunkId : Int) : ChunkTasks :=
  { _chunkId := chunkId, _active := false, _resourceStarved := false, _activeTasks := [],
    _pendingTasks := [], _inFlightTasks := [], _readyTask := none }

/-- The method `SlowTableHeap::push`: `push_back`, then `std::push_heap`. -/
def SlowTableHeap.push (H : StdHeap) (tasks : List Task) (task : Task) : List Task :=
  H.push_heap (tasks ++ [task])

/-- The method `SlowTableHeap::pop`, the vector it leaves: nothing happens on an
empty heap, else `std::pop_heap`, then `pop_back`. -/
def SlowTableHeap.pop (H : StdHeap) (tasks : List Task) : List Task :=
  if tasks.isEmpty then tasks else (H.pop_heap tasks).dropLast

/-- Modelled from the spec: the method `SlowTableHeap::heapify` of the missing
`ChunkTasksQueue.h`, which restores the heap order of the vector
(`std::make_heap`). -/
def SlowTableHeap.heapify (H : StdHeap) (tasks : List Task) : List Task :=
  H.make_heap tasks

/-- The lambda `eraseFunc` of `ChunkTasks::removeTask`: erase the first task of
the vector whose ids match and return it. -/
def eraseFunc (queryId : Nat) (jobId : Int) : List Task → Option Task × List Task
  | [] => (none, [])
  | t :: rest =>
    if t.idsMatch queryId jobId then (some t, rest)
    else ((eraseFunc queryId jobId rest).1, t :: (eraseFunc queryId jobId rest).2)

/-- The method `ChunkTasks::removeTask`. -/
def ChunkTasks.removeTask (H : StdHeap) (ct : ChunkTasks) (task : Task) :
    Option Task × ChunkTasks :=
  match eraseFunc task.queryId task.jobId ct._activeTasks with
  | (some r, rest) => (some r, { ct with _activeTasks := SlowTableHeap.heapify H rest })
  | (none, _) =>
    ((eraseFunc task.queryId task.jobId ct._pendingTasks).1,
     { ct with _pendingTasks := (eraseFunc task.queryId task.jobId ct._pendingTasks).2 })

/-- The method `ChunkTasks::queTask`; `now` is what `time()` gives. -/
def ChunkTasks.queTask (H : StdHeap) (now : Nat) (ct : ChunkTasks) (a : Task) : ChunkTasks :=
  if ct._active then
    { ct with _pendingTasks := ct._pendingTasks ++ [{ a with entryTime := now }] }
  else
    { ct with _activeTasks := SlowTableHeap.push H ct._activeTasks { a with entryTime := now } }

/-- The method `ChunkTasks::movePendingToActive`. -/
def ChunkTasks.movePendingToActive (H : StdHeap) (ct : ChunkTasks) : ChunkTasks :=
  { ct with
    _activeTasks := ct._pendingTasks.foldl (SlowTableHeap.push H) ct._activeTasks
    _pendingTasks := [] }

/-- The method `ChunkTasks::setActive`. Its parameter defaults to true in the
calls `setActive()`. -/
def ChunkTasks.setActive (H : StdHeap) (ct : ChunkTasks) (active : Bool) : ChunkTasks :=
  let ct1 := if ct._active != active then
      (if ct._active && !active then ct.movePendingToActive H else ct)
    else ct
  { ct1 with _active := active }

/-- The method `ChunkTasks::empty`. -/
def ChunkTasks.empty (ct : ChunkTasks) : Bool :=
  ct._activeTasks.isEmpty && ct._pendingTasks.isEmpty

/-- The method `ChunkTasks::readyToAdvance`. -/
def ChunkTasks.readyToAdvance (ct : ChunkTasks) : Bool :=
  ct._activeTasks.isEmpty && ct._inFlightTasks.isEmpty

/-- What `ChunkTasks::ready` leaves: the chunk, the requests made to the memory
manager so far, and the state returned (`none` when `std::bad_exception` is
thrown). -/
structure ReadyResult where
  ct : ChunkTasks
  asks : List PrepareCall
  state : Option ReadyState

/-- The end of `ChunkTasks::ready`: the top task, carrying `handle` if one was
just attached, is popped from the heap into the ready slot. -/
def ChunkTasks.takeTop (H : StdHeap) (ct : ChunkTasks) (task : Task) : ChunkTasks :=
  { ct with _activeTasks := SlowTableHeap.pop H ct._activeTasks, _readyTask := some task }

/-- The method `ChunkTasks::ready`. `asks` are the requests already made to the
memory manager during the enclosing call. -/
def ChunkTasks.ready (H : StdHeap) (mm : MemMan) (useFlexibleLock : Bool)
    (asks : List PrepareCall) (ct : ChunkTasks) : ReadyResult :=
  if ct._readyTask.isSome then ⟨ct, asks, some .READY⟩
  else match ct._activeTasks with
    | [] => ⟨ct, asks, some .NOT_READY⟩
    | task :: _ =>
      if !task.hasMemHandle then
        let lckOptTbl := if useFlexibleLock then LockType.FLEXIBLE else LockType.REQUIRED
        let tblVect := task.infoTables.map
          (fun tbl => TableInfo.mk (tbl.db ++ "/" ++ tbl.table) lckOptTbl LockType.NOLOCK)
        let asks1 := asks ++ [⟨tblVect, task.chunkId⟩]
        let res := mm.answer asks.length
        if res.handle = 0 then
          match res.errno with
          | .ENOMEM => ⟨{ ct with _resourceStarved := true }, asks1, some .NO_RESOURCES⟩
          | .ENOENT =>
            ⟨({ ct with _resourceStarved := false }).takeTop H
                { task with memHandle := some mm.ISEMPTY }, asks1, some .READY⟩
          | .other => ⟨ct, asks1, none⟩
        else
          ⟨({ ct with _resourceStarved := false }).takeTop H
              { task with memHandle := some res.handle }, asks1, some .READY⟩
      else ⟨ct.takeTop H task, asks, some .READY⟩

/-- What `ChunkTasks::getTask` leaves: the chunk, the requests to the memory
manager, the task returned (`none` for `nullptr`), and whether an exception was
thrown. -/
structure ChunkGetResult where
  ct : ChunkTasks
  asks : List PrepareCall
  task : Option Task
  thrown : Bool

/-- Insert into the set of in-flight task addresses. -/
def inFlightInsert (s : List Nat) (p : Nat) : List Nat :=
  if p ∈ s then s else p :: s

/-- The method `ChunkTasks::getTask`. -/
def ChunkTasks.getTask (H : StdHeap) (mm : MemMan) (useFlexibleLock : Bool)
    (asks : List PrepareCall) (ct : ChunkTasks) : ChunkGetResult :=
  let r := ct.ready H mm useFlexibleLock asks
  match r.state with
  | none => ⟨r.ct, r.asks, none, true⟩
  | some .READY =>
    match r.ct._readyTask with
    | none => ⟨r.ct, r.asks, none, false⟩
    | some task =>
      ⟨{ r.ct with
          _readyTask := none
          _inFlightTasks :=
            if task.chunkId = r.ct._chunkId then inFlightInsert r.ct._inFlightTasks task.ptr
            else r.ct._inFlightTasks },
        r.asks, some task, false⟩
  | some _ => ⟨r.ct, r.asks, none, false⟩

/-- The method `ChunkTasks::taskComplete`. -/
def ChunkTasks.taskComplete (ct : ChunkTasks) (task : Task) : ChunkTasks :=
  { ct with _inFlightTasks := ct._inFlightTasks.erase task.ptr }

/-! ## ChunkTasksQueue

`_chunkMap` is a `std::map<int, ChunkTasks::Ptr>`: the entries are kept in
ascending order of chunk id. An iterator into the map is the key it designates,
`none` being `end()`. `_readyChunk` points to a `ChunkTasks` of the map and is
held as that chunk's id, `none` being `nullptr`. -/

/-- The map from chunk id to the chunk's tasks, in ascending key order. -/
abbrev ChunkMap := List (Int × ChunkTasks)

/-- The lookup `_chunkMap.find(chunkId)`, giving what the iterator designates. -/
def ChunkMap.find (m : ChunkMap) (chunkId : Int) : Option ChunkTasks :=
  match m with
  | [] => none
  | (k, ct) :: rest => if k = chunkId then some ct else ChunkMap.find rest chunkId

/-- The insertion `_chunkMap.insert(ele)`: it fails if the key already exists. -/
def ChunkMap.insert (m : ChunkMap) (chunkId : Int) (ct : ChunkTasks) : ChunkMap :=
  match m with
  | [] => [(chunkId, ct)]
  | (k, c) :: rest =>
    if chunkId < k then (chunkId, ct) :: (k, c) :: rest
    else if k = chunkId then (k, c) :: rest
    else (k, c) :: ChunkMap.insert rest chunkId ct

/-- The removal `_chunkMap.erase(iter)` of the entry an iterator designates. -/
def ChunkMap.erase (m : ChunkMap) (chunkId : Int) : ChunkMap :=
  match m with
  | [] => []
  | (k, c) :: rest => if k = chunkId then rest else (k, c) :: ChunkMap.erase rest chunkId

/-- A change made through an iterator or pointer to the `ChunkTasks` of a key. -/
def ChunkMap.set (m : ChunkMap) (chunkId : Int) (ct : ChunkTasks) : ChunkMap :=
  match m with
  | [] => []
  | (k, c) :: rest =>
    if k = chunkId then (k, ct) :: rest else (k, c) :: ChunkMap.set rest chunkId ct

/-- The iterator `_chunkMap.begin()`; it is `end()` on an empty map. -/
def ChunkMap.begin (m : ChunkMap) : Option Int := m.head?.map Prod.fst

/-- The increment `++iter` of a valid iterator: the next larger key, or
`end()`. -/
def ChunkMap.next (m : ChunkMap) (chunkId : Int) : Option Int :=
  match m with
  | [] => none
  | (k, _) :: rest => if chunkId < k then some k else ChunkMap.next rest chunkId

/-- The state of a `ChunkTasksQueue`. -/
structure ChunkTasksQueue where
  _chunkMap : ChunkMap
  _activeChunk : Option Int
  _readyChunk : Option Int
  _taskCount : Int
  _resourceStarved : Bool
  deriving DecidableEq, Repr

/-- Modelled from the spec: the queue as constructed (the member initialisers are
in the missing `ChunkTasksQueue.h`): no chunk, `_activeChunk` at `end()`, no
ready chunk, no task counted. -/
def ChunkTasksQueue.new : ChunkTasksQueue :=
  { _chunkMap := [], _activeChunk := none, _readyChunk := none, _taskCount := 0,
    _resourceStarved := false }

/-- The method `ChunkTasksQueue::queueTask`. -/
def ChunkTasksQueue.queueTask (H : StdHeap) (now : Nat) (q : ChunkTasksQueue) (task : Task) :
    ChunkTasksQueue :=
  let chunkId := task.chunkId
  let m1 := match q._chunkMap.find chunkId with
    | none => q._chunkMap.insert chunkId (ChunkTasks.new chunkId)
    | some _ => q._chunkMap
  match m1.find chunkId with
  | none => { q with _chunkMap := m1, _taskCount := q._taskCount + 1 }
  | some ct =>
    { q with _chunkMap := m1.set chunkId (ct.queTask H now task), _taskCount := q._taskCount + 1 }

/-- How a call of `_ready` ends: it returns a value, `std::bad_exception`
leaves it, it dereferences an iterator that designates no entry, or the bound on
the scan loop of this embedding is used up. -/
inductive ReadyRet where
  | value (b : Bool)
  | thrown
  | invalidIterator
  | outOfFuel
  deriving DecidableEq, Repr

/-- What a call of `_ready` leaves: the queue, the requests made to the memory
manager, and how the call ended. -/
structure ReadyOut where
  q : ChunkTasksQueue
  asks : List PrepareCall
  ret : ReadyRet

/-- Modelled from the spec: the helper `ChunkTasksQueue::_empty` of the missing
`ChunkTasksQueue.h`: the mapping is empty. -/
def ChunkTasksQueue._empty (q : ChunkTasksQueue) : Bool := q._chunkMap.isEmpty

/-- The scan loop of `_ready` (lines 133 to 158), entered with the iterator
`iter` and the state `chunkState` of the chunk it designates. -/
def ChunkTasksQueue.scanLoop (H : StdHeap) (mm : MemMan) (sched : Option SchedulerPolicy)
    (useFlexibleLock : Bool) : Nat → ChunkTasksQueue → List PrepareCall → Int → ReadyState →
    ReadyOut
  | 0, q, asks, _, _ => ⟨q, asks, .outOfFuel⟩
  | fuel + 1, q, asks, iter, chunkState =>
    if chunkState ≠ .READY ∧ chunkState ≠ .NO_RESOURCES then
      let iter1 := match q._chunkMap.next iter with
        | none => q._chunkMap.begin
        | some k => some k
      if iter1 = q._activeChunk then ⟨q, asks, .value false⟩
      else
        match iter1 with
        | none => ⟨q, asks, .invalidIterator⟩
        | some k =>
          match q._chunkMap.find k with
          | none => ⟨q, asks, .invalidIterator⟩
          | some ct =>
            if (match sched with
                | none => false
                | some s => decide (s.getActiveChunkCount ≥ s.getMaxActiveChunks)
                    && !s.chunkAlreadyActive ct._chunkId) then
              ⟨q, asks, .value false⟩
            else
              let r := ct.ready H mm useFlexibleLock asks
              let q1 := { q with _chunkMap := q._chunkMap.set k r.ct }
              match r.state with
              | none => ⟨q1, r.asks, .thrown⟩
              | some st =>
                ChunkTasksQueue.scanLoop H mm sched useFlexibleLock fuel q1 r.asks k st
    else if chunkState = .NO_RESOURCES then ⟨q, asks, .value false⟩
    else ⟨{ q with _readyChunk := some iter }, asks, .value true⟩

/-- The part of `_ready` from line 130 on: the state of the active chunk is
asked, then the scan loop runs. -/
def ChunkTasksQueue.readyScan (H : StdHeap) (mm : MemMan) (sched : Option SchedulerPolicy)
    (useFlexibleLock : Bool) (q : ChunkTasksQueue) (asks : List PrepareCall) : ReadyOut :=
  match q._activeChunk with
  | none => ⟨q, asks, .invalidIterator⟩
  | some k =>
    match q._chunkMap.find k with
    | none => ⟨q, asks, .invalidIterator⟩
    | some ct =>
      let r := ct.ready H mm useFlexibleLock asks
      let q1 := { q with _chunkMap := q._chunkMap.set k r.ct }
      match r.state with
      | none => ⟨q1, r.asks, .thrown⟩
      | some st =>
        ChunkTasksQueue.scanLoop H mm sched useFlexibleLock (q1._chunkMap.length + 1) q1 r.asks k st

/-- The part of `_ready` from line 103 to 128: the active chunk `k`, whose tasks
`ct` were found not ready, is left behind if it is ready to advance. -/
def ChunkTasksQueue.readyAdvance (H : StdHeap) (mm : MemMan) (sched : Option SchedulerPolicy)
    (useFlexibleLock : Bool) (q : ChunkTasksQueue) (asks : List PrepareCall) (k : Int)
    (ct : ChunkTasks) : ReadyOut :=
  if ct.readyToAdvance then
    let newActive := match q._chunkMap.next k with
      | none => q._chunkMap.begin
      | some n => some n
    let ct1 := ct.setActive H false
    let m1 := q._chunkMap.set k ct1
    let newActive1 := if ct1.empty then (if newActive = some k then none else newActive)
      else newActive
    let m2 := if ct1.empty then m1.erase k else m1
    let q1 := { q with _chunkMap := m2, _activeChunk := newActive1 }
    match newActive1 with
    | none => ⟨q1, asks, .value false⟩
    | some n =>
      match m2.find n with
      | none => ⟨q1, asks, .invalidIterator⟩
      | some cn =>
        let q2 := { q1 with
          _chunkMap := m2.set n ((cn.movePendingToActive H).setActive H true) }
        q2.readyScan H mm sched useFlexibleLock asks
  else q.readyScan H mm sched useFlexibleLock asks

/-- The method `ChunkTasksQueue::_ready`. -/
def ChunkTasksQueue._ready (H : StdHeap) (mm : MemMan) (sched : Option SchedulerPolicy)
    (useFlexibleLock : Bool) (q : ChunkTasksQueue) (asks : List PrepareCall) : ReadyOut :=
  if q._readyChunk.isSome then ⟨q, asks, .value true⟩
  else if q._empty then ⟨q, asks, .value false⟩
  else
    let q1 := match q._activeChunk with
      | some _ => q
      | none =>
        match q._chunkMap.begin with
        | none => q
        | some b =>
          match q._chunkMap.find b with
          | none => { q with _activeChunk := some b }
          | some cb =>
            { q with _activeChunk := some b, _chunkMap := q._chunkMap.set b (cb.setActive H true) }
    match q1._activeChunk with
    | none => ⟨q1, asks, .invalidIterator⟩
    | some k =>
      match q1._chunkMap.find k with
      | none => ⟨q1, asks, .invalidIterator⟩
      | some ct =>
        let r := ct.ready H mm useFlexibleLock asks
        let q2 := { q1 with _chunkMap := q1._chunkMap.set k r.ct }
        match r.state with
        | none => ⟨q2, r.asks, .thrown⟩
        | some .READY => ⟨{ q2 with _readyChunk := some k }, r.asks, .value true⟩
        | some _ => q2.readyAdvance H mm sched useFlexibleLock r.asks k r.ct

/-- The method `ChunkTasksQueue::ready`. -/
def ChunkTasksQueue.ready (H : StdHeap) (mm : MemMan) (sched : Option SchedulerPolicy)
    (useFlexibleLock : Bool) (q : ChunkTasksQueue) : ReadyOut :=
  q._ready H mm sched useFlexibleLock []

/-- What `ChunkTasksQueue::getTask` leaves: the queue, the requests made to the
memory manager, the task returned (`none` for `nullptr`) and how the call of
`_ready` inside ended. -/
structure GetTaskOut where
  q : ChunkTasksQueue
  asks : List PrepareCall
  task : Option Task
  ret : ReadyRet

/-- The method `ChunkTasksQueue::getTask`. An exception of `_ready` leaves the
method at once; its return value is not looked at. -/
def ChunkTasksQueue.getTask (H : StdHeap) (mm : MemMan) (sched : Option SchedulerPolicy)
    (useFlexibleLock : Bool) (q : ChunkTasksQueue) : GetTaskOut :=
  let r := q._ready H mm sched useFlexibleLock []
  match r.ret with
  | .value _ =>
    match r.q._readyChunk with
    | none => ⟨r.q, r.asks, none, r.ret⟩
    | some k =>
      match r.q._chunkMap.find k with
      | none => ⟨r.q, r.asks, none, .invalidIterator⟩
      | some ct =>
        let g := ct.getTask H mm useFlexibleLock r.asks
        if g.thrown then
          ⟨{ r.q with _chunkMap := r.q._chunkMap.set k g.ct }, g.asks, none, .thrown⟩
        else
          ⟨{ r.q with
              _chunkMap := r.q._chunkMap.set k g.ct
              _readyChunk := none
              _taskCount := r.q._taskCount - 1 }, g.asks, g.task, r.ret⟩
  | _ => ⟨r.q, r.asks, none, r.ret⟩

/-- The method `ChunkTasksQueue::taskComplete`. -/
def ChunkTasksQueue.taskComplete (q : ChunkTasksQueue) (task : Task) : ChunkTasksQueue :=
  match q._chunkMap.find task.chunkId with
  | none => q
  | some ct => { q with _chunkMap := q._chunkMap.set task.chunkId (ct.taskComplete task) }

/-- The method `ChunkTasksQueue::removeTask`. -/
def ChunkTasksQueue.removeTask (H : StdHeap) (q : ChunkTasksQueue) (task : Task) :
    Option Task × ChunkTasksQueue :=
  match q._chunkMap.find task.chunkId with
  | none => (none, q)
  | some ct =>
    let r := ct.removeTask H task
    let q1 := { q with _chunkMap := q._chunkMap.set task.chunkId r.2 }
    match r.1 with
    | some t => (some t, { q1 with _taskCount := q1._taskCount - 1 })
    | none => (none, q1)

/-- The method `ChunkTasksQueue::nextTaskDifferentChunkId`. -/
def ChunkTasksQueue.nextTaskDifferentChunkId (q : ChunkTasksQueue) : Bool :=
  match q._activeChunk with
  | none => true
  | some k =>
    match q._chunkMap.find k with
    | none => true
    | some ct => ct.readyToAdvance

/-- The method `ChunkTasksQueue::getActiveChunkId`. -/
def ChunkTasksQueue.getActiveChunkId (q : ChunkTasksQueue) : Int :=
  match q._activeChunk with
  | none => -1
  | some k =>
    match q._chunkMap.find k with
    | none => -1
    | some ct => ct._chunkId

/-! ## Counting the tasks of a queue -/

/-- The tasks a chunk holds according to the scheduler invariant of the
specification: active heap, pending list and in-flight set. -/
def ChunkTasks.heldWithInFlight (ct : ChunkTasks) : Nat :=
  ct._activeTasks.length + ct._pendingTasks.length + ct._inFlightTasks.length

/-- The tasks of a chunk that were queued and not yet handed out or removed:
active heap, pending list and the ready slot. -/
def ChunkTasks.queued (ct : ChunkTasks) : Nat :=
  ct._activeTasks.length + ct._pendingTasks.length + (if ct._readyTask.isSome then 1 else 0)

/-- Sum of `heldWithInFlight` over all chunks of the map. -/
def ChunkMap.sumHeldWithInFlight (m : ChunkMap) : Nat :=
  (m.map (fun e => e.2.heldWithInFlight)).sum

/-- Sum of `queued` over all chunks of the map. -/
def ChunkMap.sumQueued (m : ChunkMap) : Nat :=
  (m.map (fun e => e.2.queued)).sum

/-- The states of a queue reachable from the constructed queue by calls of
`queueTask`, `ready`, `getTask`, `taskComplete` and `removeTask`, whatever the
arguments, the clock, the memory manager and the scheduler policy are. -/
inductive Reachable (H : StdHeap) : ChunkTasksQueue → Prop where
  | new : Reachable H ChunkTasksQueue.new
  | queueTask (q : ChunkTasksQueue) (now : Nat) (task : Task) :
      Reachable H q → Reachable H (q.queueTask H now task)
  | ready (q : ChunkTasksQueue) (mm : MemMan) (sched : Option SchedulerPolicy) (flex : Bool) :
      Reachable H q → Reachable H (q.ready H mm sched flex).q
  | getTask (q : ChunkTasksQueue) (mm : MemMan) (sched : Option SchedulerPolicy) (flex : Bool) :
      Reachable H q → Reachable H (q.getTask H mm sched flex).q
  | taskComplete (q : ChunkTasksQueue) (task : Task) :
      Reachable H q → Reachable H (q.taskComplete task)
  | removeTask (q : ChunkTasksQueue) (task : Task) :
      Reachable H q → Reachable H (q.removeTask H task).2

/-- A ready chunk is a chunk of the map with a task in its ready slot. -/
def ReadyChunkOk (m : ChunkMap) (rc : Option Int) : Prop :=
  ∀ k, rc = some k → ∃ ct, m.find k = some ct ∧ ct._readyTask.isSome = true

/-- The invariant behind the task count: `_taskCount` is the number of queued
tasks, and a ready chunk is a chunk of the map with a task in its ready slot. -/
def CountInv (q : ChunkTasksQueue) : Prop :=
  q._taskCount = (q._chunkMap.sumQueued : Int) ∧ ReadyChunkOk q._chunkMap q._readyChunk

end wsched

namespace ccontrol

/-! ## MergingHandler

The handler receives the reply stream of one worker. The transport fills
`_buffer` and calls `flush`; the handler decodes one header or one body per
call and passes every body to the merger. -/

/-- The receive states `MergingHandler::MsgState`. -/
inductive MsgState where
  | INVALID
  | HEADER_SIZE_WAIT
  | RESULT_WAIT
  | RESULT_RECV
  | RESULT_EXTRA
  | HEADER_ERR
  | RESULT_ERR
  deriving DecidableEq, Repr

/-- The function `MergingHandler::getStateStr`. -/
def getStateStr : MsgState → String
  | .INVALID => "INVALID"
  | .HEADER_SIZE_WAIT => "HEADER_SIZE_WAIT"
  | .RESULT_WAIT => "RESULT_WAIT"
  | .RESULT_RECV => "RESULT_RECV"
  | .RESULT_EXTRA => "RESULT_EXTRA"
  | .HEADER_ERR => "HEADER_ERR"
  | .RESULT_ERR => "RESULT_ERR"

/-- The fields of a `proto::ProtoHeader` read by the handler. Byte strings are
lists of byte values. -/
structure ProtoHeader where
  size : Nat
  md5 : List Nat
  wname : String
  deriving DecidableEq, Repr

/-- A `proto::Result`: the continuation flag and the rest of the message. -/
structure Result where
  continues : Bool
  payload : List Nat
  deriving DecidableEq, Repr

/-- A `proto::WorkerResponse`. -/
structure WorkerResponse where
  headerSize : Nat
  protoHeader : ProtoHeader
  result : Result
  deriving DecidableEq, Repr

/-- An error record `Error(code, msg)`. -/
structure Error where
  code : Int
  msg : String
  deriving DecidableEq, Repr

/-- The protocol layer used by the handler: the size of the header envelope,
the message codes of `log/msgCode.h`, the header decoder
`ProtoHeaderWrap::unwrap` (it reads the buffer and fills the response), the body
decoder `ProtoImporter<Result>::setMsgFrom`, the digest `StringHash::getMd5`, and
a default-constructed `WorkerResponse`. -/
structure Proto where
  PROTO_HEADER_SIZE : Nat
  MSG_RESULT_DECODE : Int
  MSG_RESULT_MD5 : Int
  MSG_RESULT_ERROR : Int
  unwrap : WorkerResponse → List Nat → Bool × WorkerResponse
  setMsgFrom : Result → List Nat → Bool × Result
  getMd5 : List Nat → List Nat
  newWorkerResponse : WorkerResponse

/-- The job that owns the handler, as `getJobQuery().lock()` finds it. -/
structure JobQuery where
  isCancelled : Bool
  deriving DecidableEq, Repr

/-- What surrounds the handler during one call of `flush`: the owning job
(`none` when the weak pointer has expired), what `_infileMerger->merge` answers
for a response, and the message of `_infileMerger->getError()`. -/
structure World where
  jobQuery : Option JobQuery
  merge : WorkerResponse → Bool
  mergerErrorMsg : String

/-- The state of a `MergingHandler`. `_response` is `none` while the shared
pointer is null. -/
structure MergingHandler where
  _tableName : String
  _error : Error
  _state : MsgState
  _response : Option WorkerResponse
  _flushed : Bool
  _wName : String
  _buffer : List Nat
  deriving DecidableEq, Repr

/-- What a call of `flush` does to its collaborators, in the order in which it
happens. -/
inductive Event where
  | logSizeMismatch (expected : Nat) (got : Int)
  | unwrapHeader (ok : Bool)
  | verifyMd5 (ok : Bool)
  | decodeBody (ok : Bool)
  | merge (response : WorkerResponse) (ok : Bool)
  deriving DecidableEq, Repr

/-- How a call of `flush` ends: it returns a value, `_merge` throws `Bug`, or the
behaviour is undefined (a null `_response` is dereferenced, or `_buffer[0]` is
read from an empty buffer). -/
inductive FlushRet where
  | returned (b : Bool)
  | thrownBug
  | undefinedBehaviour
  deriving DecidableEq, Repr

/-- What a call of `flush` leaves: the handler, the caller's `last`, how the
call ended, and what happened during the call. -/
structure FlushOut where
  h : MergingHandler
  last : Bool
  ret : FlushRet
  events : List Event
  deriving DecidableEq, Repr

/-- The operation `std::vector<char>::resize(n)`: the first `n` bytes are kept,
missing ones are zero. -/
def resize (buffer : List Nat) (n : Nat) : List Nat :=
  buffer.take n ++ List.replicate (n - buffer.length) 0

/-- The method `MergingHandler::_setError`. -/
def MergingHandler._setError (h : MergingHandler) (code : Int) (msg : String) :
    MergingHandler :=
  { h with _error := ⟨code, msg⟩ }

/-- The method `MergingHandler::_initState`. -/
def MergingHandler._initState (P : Proto) (h : MergingHandler) : MergingHandler :=
  ({ h with _buffer := resize h._buffer P.PROTO_HEADER_SIZE,
            _state := .HEADER_SIZE_WAIT })._setError 0 ""

/-- Modelled from the spec: the initial value of `_flushed`, a member initialiser
of the missing `MergingHandler.h`: nothing was forwarded to the merger yet. -/
def initialFlushed : Bool := false

/-- Modelled from the spec: the initial value of `_wName`, a member initialiser
of the missing `MergingHandler.h`: the placeholder "~" that `flush` tests for
while no worker name is recorded. -/
def initialWName : String := "~"

/-- The constructor of `MergingHandler`: the response is allocated, then
`_initState` runs on the empty buffer. -/
def MergingHandler.new (P : Proto) (tableName : String) : MergingHandler :=
  MergingHandler._initState P
    { _tableName := tableName, _error := ⟨0, ""⟩, _state := .INVALID,
      _response := some P.newWorkerResponse, _flushed := initialFlushed,
      _wName := initialWName, _buffer := [] }

/-- The method `MergingHandler::_verifyResult` on the response `r`: the
comparison, and the handler it leaves. -/
def MergingHandler._verifyResult (P : Proto) (h : MergingHandler) (r : WorkerResponse) :
    Bool × MergingHandler :=
  if r.protoHeader.md5 ≠ P.getMd5 h._buffer then
    (false, { h._setError P.MSG_RESULT_MD5 "Result message MD5 mismatch" with
                _state := .RESULT_ERR })
  else (true, h)

/-- The method `MergingHandler::_setResult` on the response `r`: the body is
decoded into `r.result`. -/
def MergingHandler._setResult (P : Proto) (h : MergingHandler) (r : WorkerResponse) :
    Bool × MergingHandler :=
  let d := P.setMsgFrom r.result h._buffer
  let h1 := { h with _response := some { r with result := d.2 } }
  if !d.1 then
    (false, { h1._setError P.MSG_RESULT_DECODE "Error decoding result msg" with
                _state := .RESULT_ERR })
  else (true, h1)

/-- What `_merge` leaves: the handler, the value returned (`none` when `Bug` is
thrown) and the calls of the merger. -/
structure MergeOut where
  h : MergingHandler
  success : Option Bool
  events : List Event

/-- The method `MergingHandler::_merge` on the response `r`. -/
def MergingHandler._merge (P : Proto) (W : World) (h : MergingHandler) (r : WorkerResponse) :
    MergeOut :=
  match W.jobQuery with
  | some job =>
    if job.isCancelled then ⟨h, some false, []⟩
    else if h._flushed then ⟨h, none, []⟩
    else
      let success := W.merge r
      let h1 := if !success then
          { h._setError P.MSG_RESULT_ERROR W.mergerErrorMsg with _state := .RESULT_ERR }
        else h
      ⟨{ h1 with _response := none }, some success, [.merge r success]⟩
  | none => ⟨h, some false, []⟩

/-- The check at the head of `flush`: a size mismatch is logged unless the state
is `RESULT_EXTRA`. Buffer sizes are far below 2^31, so the conversion
`(int)_buffer.size()` is exact. -/
def sizeCheck (h : MergingHandler) (bLen : Int) : List Event :=
  if bLen < 0 ∨ bLen ≠ (h._buffer.length : Int) then
    (if h._state ≠ .RESULT_EXTRA then [.logSizeMismatch h._buffer.length bLen] else [])
  else []

/-- The case `HEADER_SIZE_WAIT` of `flush` on the response `r` and a buffer that
starts with the byte `b0`. -/
def MergingHandler.flushHeaderSizeWait (P : Proto) (h : MergingHandler) (r : WorkerResponse)
    (b0 : Nat) (last : Bool) (ev : List Event) : FlushOut :=
  let u := P.unwrap { r with headerSize := b0 % 256 } h._buffer
  let h1 := { h with _response := some u.2 }
  if !u.1 then
    let s := "From:" ++ h._wName ++ "Error decoding proto header for " ++ getStateStr h._state
    ⟨{ h1._setError P.MSG_RESULT_DECODE s with _state := .HEADER_ERR }, last,
      .returned false, ev ++ [.unwrapHeader false]⟩
  else
    let h2 := if h._wName = "~" then { h1 with _wName := u.2.protoHeader.wname } else h1
    ⟨{ h2 with _buffer := resize h._buffer u.2.protoHeader.size, _state := .RESULT_WAIT }, last,
      .returned true, ev ++ [.unwrapHeader true]⟩

/-- The case `RESULT_EXTRA` of `flush` on the response `r`. -/
def MergingHandler.flushResultExtra (P : Proto) (h : MergingHandler) (r : WorkerResponse)
    (last : Bool) (ev : List Event) : FlushOut :=
  let u := P.unwrap r h._buffer
  let h1 := { h with _response := some u.2 }
  if !u.1 then
    ⟨{ h1._setError P.MSG_RESULT_DECODE
          ("Error decoding proto header for " ++ getStateStr h._state) with
        _state := .HEADER_ERR }, last, .returned false, ev ++ [.unwrapHeader false]⟩
  else
    ⟨{ h1 with _buffer := resize h._buffer u.2.protoHeader.size, _state := .RESULT_WAIT }, last,
      .returned true, ev ++ [.unwrapHeader true]⟩

/-- The case `RESULT_WAIT` of `flush` on the response `r`. After `_setResult`
the response of the handler is `r1`, the response with the decoded body. -/
def MergingHandler.flushResult (P : Proto) (W : World) (h : MergingHandler)
    (r : WorkerResponse) (last : Bool) (ev : List Event) : FlushOut :=
  let v := h._verifyResult P r
  if !v.1 then ⟨v.2, last, .returned false, ev ++ [.verifyMd5 false]⟩
  else
    let d := v.2._setResult P r
    if !d.1 then ⟨d.2, last, .returned false, ev ++ [.verifyMd5 true, .decodeBody false]⟩
    else
      let r1 : WorkerResponse := { r with result := (P.setMsgFrom r.result h._buffer).2 }
      let msgContinues := r1.result.continues
      let h1 := if msgContinues then
          { d.2 with _state := .RESULT_EXTRA, _buffer := resize [] P.PROTO_HEADER_SIZE }
        else { d.2 with _state := .RESULT_RECV, _buffer := [] }
      let last1 := if msgContinues then last else true
      let m := h1._merge P W r1
      match m.success with
      | none => ⟨m.h, last1, .thrownBug, ev ++ [.verifyMd5 true, .decodeBody true] ++ m.events⟩
      | some success =>
        let h2 := if msgContinues then { m.h with _response := some P.newWorkerResponse }
          else m.h
        ⟨h2, last1, .returned success, ev ++ [.verifyMd5 true, .decodeBody true] ++ m.events⟩

/-- The message of `flush` in the states `RESULT_RECV`, `HEADER_ERR` and
`RESULT_ERR`; a `bool` is streamed as 0 or 1. -/
def unexpectedMsg (h : MergingHandler) (last : Bool) : String :=
  "Unexpected message From:" ++ h._wName ++ " flush state=" ++ getStateStr h._state
    ++ " last=" ++ (if last then "1" else "0")

/-- The method `MergingHandler::flush`. -/
def MergingHandler.flush (P : Proto) (W : World) (h : MergingHandler) (bLen : Int)
    (last : Bool) : FlushOut :=
  let ev := sizeCheck h bLen
  match h._state with
  | .HEADER_SIZE_WAIT =>
    match h._response, h._buffer with
    | some r, b0 :: _ => h.flushHeaderSizeWait P r b0 last ev
    | _, _ => ⟨h, last, .undefinedBehaviour, ev⟩
  | .RESULT_WAIT =>
    match h._response with
    | some r => h.flushResult P W r last ev
    | none => ⟨h, last, .undefinedBehaviour, ev⟩
  | .RESULT_EXTRA =>
    match h._response with
    | some r => h.flushResultExtra P r last ev
    | none => ⟨h, last, .undefinedBehaviour, ev⟩
  | .RESULT_RECV | .HEADER_ERR | .RESULT_ERR =>
    ⟨h._setError P.MSG_RESULT_ERROR (unexpectedMsg h last), last, .returned false, ev⟩
  | .INVALID =>
    ⟨h._setError P.MSG_RESULT_ERROR "Unexpected message (invalid)", last, .returned false, ev⟩

/-- The method `MergingHandler::errorFlush`. -/
def MergingHandler.errorFlush (h : MergingHandler) (msg : String) (code : Int) :
    MergingHandler :=
  h._setError code msg

/-- The method `MergingHandler::finished`. -/
def MergingHandler.finished (h : MergingHandler) : Bool := h._flushed

/-- The method `MergingHandler::reset`: the value returned and the handler. -/
def MergingHandler.reset (P : Proto) (h : MergingHandler) : Bool × MergingHandler :=
  if h._flushed then (false, h) else (true, h._initState P)

/-- The handler when `flush` reaches the merge step: the body is decoded into
the response, state, buffer and `last` are already set for what follows. -/
def MergingHandler.beforeMerge (P : Proto) (h : MergingHandler) (r : WorkerResponse) :
    MergingHandler :=
  if (P.setMsgFrom r.result h._buffer).2.continues then
    { h with _response := some { r with result := (P.setMsgFrom r.result h._buffer).2 },
             _state := .RESULT_EXTRA, _buffer := resize [] P.PROTO_HEADER_SIZE }
  else
    { h with _response := some { r with result := (P.setMsgFrom r.result h._buffer).2 },
             _state := .RESULT_RECV, _buffer := [] }

/-- The handlers reachable from a constructed handler: the transport fills the
buffer (keeping its size), `flush` is called (and its behaviour is defined),
`reset` or `errorFlush` is called. -/
inductive Reachable (P : Proto) : MergingHandler → Prop where
  | new (tableName : String) : Reachable P (MergingHandler.new P tableName)
  | fill (h : MergingHandler) (bytes : List Nat) :
      Reachable P h → bytes.length = h._buffer.length → Reachable P { h with _buffer := bytes }
  | flush (h : MergingHandler) (W : World) (bLen : Int) (last : Bool) :
      Reachable P h → (h.flush P W bLen last).ret ≠ .undefinedBehaviour →
      Reachable P (h.flush P W bLen last).h
  | reset (h : MergingHandler) : Reachable P h → Reachable P (h.reset P).2
  | errorFlush (h : MergingHandler) (msg : String) (code : Int) :
      Reachable P h → Reachable P (h.errorFlush msg code)

/-- Whether a call of the merger is among the events. -/
def Event.isMerge : Event → Bool
  | .merge _ _ => true
  | _ => false

/-! ### Sample collaborators

A small protocol layer for concrete runs: a header is the three bytes
`[headerSize, size, md5]`, it decodes unless it starts with 0; the digest of a
buffer is the sum of its bytes modulo 256; a body decodes unless it is empty, its
first byte is the continuation flag. -/

/-- A small protocol layer, see above. -/
def sampleProto : Proto where
  PROTO_HEADER_SIZE := 3
  MSG_RESULT_DECODE := 1
  MSG_RESULT_MD5 := 2
  MSG_RESULT_ERROR := 3
  unwrap := fun r b =>
    (decide (b.headD 0 ≠ 0),
     { r with protoHeader := { size := b.getD 1 0, md5 := [b.getD 2 0], wname := "worker1" } })
  setMsgFrom := fun _ b => (!b.isEmpty, { continues := decide (b.headD 0 = 1), payload := b.tail })
  getMd5 := fun b => [b.sum % 256]
  newWorkerResponse := ⟨0, ⟨0, [], ""⟩, ⟨false, []⟩⟩

/-- The job is alive and not cancelled, the merger accepts every body. -/
def goodWorld : World :=
  { jobQuery := some ⟨false⟩, merge := fun _ => true, mergerErrorMsg := "" }

/-- The job was cancelled; the merger would accept every body. -/
def cancelledWorld : World :=
  { jobQuery := some ⟨true⟩, merge := fun _ => true, mergerErrorMsg := "" }

/-- The transport delivers `bytes`: it fills `_buffer` with them and calls
`flush` with their number. -/
def MergingHandler.receive (P : Proto) (W : World) (h : MergingHandler) (bytes : List Nat)
    (last : Bool) : FlushOut :=
  ({ h with _buffer := bytes }).flush P W bytes.length last

/-- A handler waiting for the two-byte body `[0, 7]` announced by its header. -/
def sampleResultWait : MergingHandler :=
  { _tableName := "result_1", _error := ⟨0, ""⟩, _state := .RESULT_WAIT,
    _response := some ⟨3, ⟨2, [7], "worker1"⟩, ⟨false, []⟩⟩, _flushed := false,
    _wName := "worker1", _buffer := [0, 7] }

/-- The sample handler after a byte of the body was corrupted on the wire. -/
def sampleCorrupted : MergingHandler := { sampleResultWait with _buffer := [0, 8] }

end ccontrol

namespace master

/-! ## TaskMsgFactory2

`master/src/TaskMsgFactory2.cc`: the factory that builds the task message sent to
a worker for one chunk of a user query. -/

/-- Modelled from the spec: a `ChunkQuerySpec` of the missing `ChunkQuerySpec.h`:
database, chunk id, query text, sub-chunk ids, and the pointer `nextFragment` to
the next link of the chain (`none` for a null pointer). -/
inductive ChunkQuerySpec where
  | mk (db : String) (chunkId : Int) (query : String) (subChunks : List Int)
      (nextFragment : Option ChunkQuerySpec)

/-- The member `db`. -/
def ChunkQuerySpec.db : ChunkQuerySpec → String
  | .mk db _ _ _ _ => db

/-- The member `chunkId`. -/
def ChunkQuerySpec.chunkId : ChunkQuerySpec → Int
  | .mk _ chunkId _ _ _ => chunkId

/-- The member `query`. -/
def ChunkQuerySpec.query : ChunkQuerySpec → String
  | .mk _ _ query _ _ => query

/-- The member `subChunks`. -/
def ChunkQuerySpec.subChunks : ChunkQuerySpec → List Int
  | .mk _ _ _ subChunks _ => subChunks

/-- The member `nextFragment`. -/
def ChunkQuerySpec.nextFragment : ChunkQuerySpec → Option ChunkQuerySpec
  | .mk _ _ _ _ nextFragment => nextFragment

/-- Modelled from the spec: the message `TaskMsg::Fragment` of the missing
`worker.proto`; a field that was never set is `none`. -/
structure Fragment where
  resulttable : Option String
  query : Option String
  subchunk : List Int
  deriving DecidableEq, Repr

/-- Modelled from the spec: the message `TaskMsg` of the missing `worker.proto`;
a field that was never set is `none`. -/
structure TaskMsg where
  session : Option Int
  db : Option String
  chunkid : Option Int
  fragment : List Fragment
  deriving DecidableEq, Repr

/-- A message as `new TaskMsg` gives it: no field set, no fragment. -/
def TaskMsg.new : TaskMsg := { session := none, db := none, chunkid := none, fragment := [] }

/-- The state of a `TaskMsgFactory2::Impl`. -/
structure Impl where
  _session : Int
  _resultTable : String
  _taskMsg : Option TaskMsg
  deriving DecidableEq, Repr

/-- The method `Impl::addFragment`: a fragment is added to the message, its result
table and query are set, and `add_subchunk` is applied to each sub-chunk id in
turn. -/
def Impl.addFragment (m : TaskMsg) (resultName : String) (subChunks : List Int)
    (query : String) : TaskMsg :=
  let frag0 : Fragment := { resulttable := none, query := none, subchunk := [] }
  let frag1 := { frag0 with resulttable := some resultName }
  let frag2 := { frag1 with query := some query }
  let frag3 := subChunks.foldl (fun f c => { f with subchunk := f.subchunk ++ [c] }) frag2
  { m with fragment := m.fragment ++ [frag3] }

/-- The loop `while(sPtr)` of `Impl::makeMsg`, entered with `sPtr` pointing to a
link of the chain. -/
def Impl.addChain (resultTable : String) : TaskMsg → ChunkQuerySpec → TaskMsg
  | m, .mk _ _ query subChunks none => Impl.addFragment m resultTable subChunks query
  | m, .mk _ _ query subChunks (some next) =>
    Impl.addChain resultTable (Impl.addFragment m resultTable subChunks query) next

/-- The method `Impl::makeMsg`: the factory as it is left (its `_taskMsg` is the
new message) and the message returned. -/
def Impl.makeMsg (self : Impl) (s : ChunkQuerySpec) (chunkResultName : String) :
    Impl × TaskMsg :=
  let resultTable := if !chunkResultName.isEmpty then chunkResultName else self._resultTable
  let m0 := TaskMsg.new
  let m1 := { m0 with session := some self._session }
  let m2 := { m1 with db := some s.db }
  let m3 := { m2 with chunkid := some s.chunkId }
  let m4 := if s.nextFragment.isSome then Impl.addChain resultTable m3 s
    else Impl.addFragment m3 resultTable s.subChunks s.query
  ({ self with _taskMsg := some m4 }, m4)

/-- The constructor `TaskMsgFactory2(session)`: the default result table of the
implementation object is `"Asdfasfd"`. -/
def TaskMsgFactory2.new (session : Int) : Impl :=
  { _session := session, _resultTable := "Asdfasfd", _taskMsg := none }

/-- The links of the chain that starts at `s`, in chain order. -/
def ChunkQuerySpec.links : ChunkQuerySpec → List ChunkQuerySpec
  | .mk db chunkId query subChunks none => [.mk db chunkId query subChunks none]
  | .mk db chunkId query subChunks (some next) =>
    .mk db chunkId query subChunks (some next) :: ChunkQuerySpec.links next

/-- A chain of two links for chunk 7 of database `LSST`. -/
def sampleSpec : ChunkQuerySpec :=
  .mk "LSST" 7 "SELECT a FROM Object_7_1" [1, 2]
    (some (.mk "LSST" 7 "SELECT a FROM Object_7_3" [3] none))

end master

namespace master

/-! ## TableMerger

`src/TableMerger.cc`: the names of the target table and of the merge table, fixed
when a `TableMerger` is constructed. -/

/-- Modelled from the spec: the members of `TableMergerConfig` (missing
`TableMerger.h`) that `TableMerger.cc` reads. -/
structure TableMergerConfig where
  targetDb : String
  targetTable : String
  mySqlCmd : String
  user : String
  socket : String
  fixupSelect : String
  fixupPost : String
  deriving DecidableEq, Repr

/-- The two members of a `struct timeval`. -/
structure Timeval where
  tv_sec : Int
  tv_usec : Int
  deriving DecidableEq, Repr

/-- What the call `gettimeofday(&now, NULL)` gives: its return code and the
content of `now` after it. -/
structure Clock where
  rc : Int
  now : Timeval
  deriving DecidableEq, Repr

/-- The helper `getTimeStampId`. `NDEBUG` tells whether assertions are compiled
out; a failed assertion aborts the program (`none`). The remainder `%` of C++
truncates towards zero. -/
def getTimeStampId (NDEBUG : Bool) (clock : Clock) : Option String :=
  if !NDEBUG && clock.rc != 0 then none
  else some (toString (clock.now.tv_sec.tmod 10000) ++ toString clock.now.tv_usec)

/-- Modelled from the spec: the members of `SqlConfig` (missing `sql.h`) that
`makeSqlConfig` sets. -/
structure SqlConfig where
  username : String
  dbName : String
  socket : String
  deriving DecidableEq, Repr

/-- The helper `makeSqlConfig`. -/
def makeSqlConfig (c : TableMergerConfig) : SqlConfig :=
  { username := c.user, dbName := c.targetDb, socket := c.socket }

/-- The state of a `TableMerger` that the constructor sets. -/
structure TableMerger where
  _config : TableMergerConfig
  _sqlConfig : SqlConfig
  _tableCount : Int
  _mergeTable : String
  _loadCmd : String
  deriving DecidableEq, Repr

/-- The method `TableMerger::_fixupTargetName`; `none` when an assertion fails. -/
def TableMerger._fixupTargetName (NDEBUG : Bool) (clock : Clock) (self : TableMerger) :
    Option TableMerger :=
  let named : Option TableMerger :=
    if self._config.targetTable.isEmpty then
      if !NDEBUG && self._config.targetDb.isEmpty then none
      else
        match getTimeStampId NDEBUG clock with
        | none => none
        | some id =>
          some { self with
            _config := { self._config with
              targetTable := self._config.targetDb ++ ".result_" ++ id } }
    else some self
  match named with
  | none => none
  | some m =>
    if !m._config.fixupSelect.isEmpty then
      some { m with _mergeTable := m._config.targetTable ++ "_m" }
    else some { m with _mergeTable := m._config.targetTable }

/-- The constructor `TableMerger(c)`; `_cmdBase` is
`"%1% --socket=%2% -u %3% %4%"`. -/
def TableMerger.new (NDEBUG : Bool) (clock : Clock) (c : TableMergerConfig) :
    Option TableMerger :=
  match TableMerger._fixupTargetName NDEBUG clock
      { _config := c, _sqlConfig := makeSqlConfig c, _tableCount := 0, _mergeTable := "",
        _loadCmd := "" } with
  | none => none
  | some m =>
    some { m with
      _loadCmd := c.mySqlCmd ++ " --socket=" ++ c.socket ++ " -u " ++ c.user ++ " " ++ c.targetDb }

/-- A configuration that names neither a target table nor a target database. -/
def unnamedConfig : TableMergerConfig :=
  { targetDb := "", targetTable := "", mySqlCmd := "mysql", user := "qsmaster",
    socket := "/tmp/mysql.sock", fixupSelect := "", fixupPost := "" }

/-- A configuration for database `qservResult` without target table, with a
fixup select. -/
def sampleConfig : TableMergerConfig :=
  { unnamedConfig with targetDb := "qservResult", fixupSelect := "SUM(x)" }

/-- A clock reading: 1234567 seconds and 89 microseconds. -/
def sampleClock : Clock := { rc := 0, now := { tv_sec := 1234567, tv_usec := 89 } }

end master

namespace ccontrol

/-! ## UserQueryFactory

`core/modules/ccontrol/UserQueryFactory.cc`: the factory that classifies the SQL
text of a user query and builds the matching `UserQuery`. -/

/-- Modelled from the spec: the tests of `UserQueryType` (missing
`UserQueryType.h`); a test that succeeds gives the names it extracts from the
text. -/
structure UserQueryType where
  isSelect : String → Bool
  isDropTable : String → Option (String × String)
  isDropDb : String → Option String
  isFlushChunksCache : String → Option String

/-- The `QuerySession` of a SELECT after the guarded block of `newUserQuery`
(`setDefaultDb`, then `analyzeQuery`): the arguments given to it, whether an
exception left the block, and what `getError()` reports afterwards. -/
structure QuerySession where
  defaultDb : String
  query : String
  threw : Bool
  error : String
  deriving DecidableEq, Repr

/-- The collaborators of the factory: the classification of the text, and the
query analysis, which for a default database and a text tells whether an
exception leaves the guarded block and what the session reports as its error. -/
structure Collaborators where
  queryType : UserQueryType
  analyze : String → String → Bool × String

/-- The state shared between the user queries of a factory
(`UserQueryFactory::Impl`), as far as `newUserQuery` hands it on. -/
structure FactoryImpl where
  executiveConfig : String
  mysqlResultConfig : String
  qMetaCzarId : Nat
  deriving DecidableEq, Repr

/-- The executive `Executive::newExecutive(executiveConfig, messageStore)`. -/
structure Executive where
  config : String
  deriving DecidableEq, Repr

/-- The merger configuration `InfileMergerConfig(mysqlResultConfig)`. -/
structure InfileMergerConfig where
  mySqlConfig : String
  deriving DecidableEq, Repr

/-- The user query objects the factory builds; a pointer argument that is null is
`none`. -/
inductive UserQuery where
  | select (qs : QuerySession) (executive : Option Executive)
      (infileMergerConfig : Option InfileMergerConfig) (qMetaCzarId : Nat)
      (errorExtra : String)
  | drop (dbName : String) (tableName : String) (qMetaCzarId : Nat)
  | flushChunksCache (dbName : String)
  | invalid (message : String)
  deriving DecidableEq, Repr

/-- The methods `newUserQuery` calls on the new `UserQuerySelect`. -/
inductive SetupCall where
  | qMetaRegister
  | setupChunking
  deriving DecidableEq, Repr

/-- The method `UserQueryFactory::newUserQuery`: the user query returned and the
calls made on it before it is returned. -/
def UserQueryFactory.newUserQuery (C : Collaborators) (impl : FactoryImpl) (query : String)
    (defaultDb : String) : UserQuery × List SetupCall :=
  if C.queryType.isSelect query then
    let qs : QuerySession :=
      { defaultDb := defaultDb, query := query, threw := (C.analyze defaultDb query).1,
        error := (C.analyze defaultDb query).2 }
    let errorExtra :=
      if qs.threw then "Unknown failure occurred setting up QuerySession (query is invalid)."
      else ""
    let sessionValid1 := if qs.threw then false else true
    let sessionValid := if !qs.error.isEmpty then false else sessionValid1
    let executive : Option Executive :=
      if sessionValid then some ⟨impl.executiveConfig⟩ else none
    let infileMergerConfig : Option InfileMergerConfig :=
      if sessionValid then some ⟨impl.mysqlResultConfig⟩ else none
    (.select qs executive infileMergerConfig impl.qMetaCzarId errorExtra,
      if sessionValid then [.qMetaRegister, .setupChunking] else [])
  else
    match C.queryType.isDropTable query with
    | some (dbName, tableName) =>
      (.drop (if dbName.isEmpty then defaultDb else dbName) tableName impl.qMetaCzarId, [])
    | none =>
      match C.queryType.isDropDb query with
      | some dbName => (.drop dbName "" impl.qMetaCzarId, [])
      | none =>
        match C.queryType.isFlushChunksCache query with
        | some dbName => (.flushChunksCache dbName, [])
        | none => (.invalid ("Invalid or unsupported query: " ++ query), [])

/-- Collaborators that take every text for a SELECT; the analysis throws on the
text `"SELECT"` and reports an error for the text `"SELECT 1 AS a, 2 AS a"`. -/
def sampleCollaborators : Collaborators :=
  { queryType :=
      { isSelect := fun _ => true, isDropTable := fun _ => none, isDropDb := fun _ => none,
        isFlushChunksCache := fun _ => none },
    analyze := fun _ query =>
      if query = "SELECT" then (true, "")
      else if query = "SELECT 1 AS a, 2 AS a" then (false, "AnalysisError:duplicate a")
      else (false, "") }

/-- A factory state. -/
def sampleImpl : FactoryImpl :=
  { executiveConfig := "localhost:1094", mysqlResultConfig := "qservResult", qMetaCzarId := 1 }

end ccontrol

namespace qana

/-! ## Duplicate select expressions

The analysis step `DuplSelectExprPlugin` is exercised by
`core/modules/qproc/testQueryAnaDuplSelectExpr.cc`; its own code is not part of
the source and is modelled from the specification and from what the test
expects. -/

/-- Modelled from the spec: an expression of a select list (missing
`query/ValueExpr.h`): a column, with the table qualifier and the alias it is
given (empty when it has none), or another expression such as a function call,
with its text and its alias. -/
inductive SelectExpr where
  | column (table : String) (name : String) (asName : String)
  | other (text : String) (asName : String)
  deriving DecidableEq, Repr

/-- Lower-casing of a name (`boost::algorithm::to_lower`). -/
def lower (s : String) : String := String.mk (s.data.map Char.toLower)

/-- Modelled from the spec: the output name of a select-list expression: its
alias, or the column name if it is a column without alias, in lower case and
without the table qualifier; an expression that is neither a column nor aliased
has none. -/
def SelectExpr.outputName : SelectExpr → Option String
  | .column _ name asName => some (lower (if asName.isEmpty then name else asName))
  | .other _ asName => if asName.isEmpty then none else some (lower asName)

/-- The positions of `name` in the list of output names, counted from `i` for
the first entry. -/
def positionsFrom (name : String) : Nat → List (Option String) → List Nat
  | _, [] => []
  | i, n :: rest =>
    if n = some name then i :: positionsFrom name (i + 1) rest
    else positionsFrom name (i + 1) rest

/-- The 1-based positions of `name` in the select list. -/
def positions (name : String) (names : List (Option String)) : List Nat :=
  positionsFrom name 1 names

/-- The positions as they appear in the message: each preceded by a blank. -/
def positionsText (ps : List Nat) : String :=
  String.join (ps.map (fun p => " " ++ toString p))

/-- Modelled from the spec: the output names that occur more than once in the
select list, each once. -/
def duplicateNames (names : List (Option String)) : List String :=
  ((names.filterMap id).filter
    (fun n => decide (2 ≤ names.countP (fun x => decide (x = some n))))).dedup

/-- Modelled from the spec: the error codes of the missing `util/Error.h`. -/
inductive ErrorCode where
  | DUPLICATE_SELECT_EXPR
  | other (code : Nat)
  deriving DecidableEq, Repr

/-- An `util::Error`: code and message. -/
structure Error where
  code : ErrorCode
  msg : String
  deriving DecidableEq, Repr

/-- The texts of the missing `DuplSelectExprPlugin` and `MultiError`: the format
`ERR_MSG`, given by the three pieces around its placeholders `%1%` and `%2%`,
the text `EXCEPTION_MSG`, and the rendering `MultiError::toOneLineString`. -/
structure PluginText where
  ERR_MSG : String × String × String
  EXCEPTION_MSG : String
  toOneLineString : List Error → String

/-- The application `boost::format(ERR_MSG) % name % pos`. -/
def PluginText.format (P : PluginText) (name : String) (pos : String) : String :=
  P.ERR_MSG.1 ++ name ++ P.ERR_MSG.2.1 ++ pos ++ P.ERR_MSG.2.2

/-- The helper `build_exception_msg` of the test (lines 100 to 110): the message
the test expects for one duplicated name. Its first parameter is not used. -/
def build_exception_msg (P : PluginText) (_n : String) (name : String) (pos : String) :
    String :=
  let multiError : List Error := []
  let dupl_err_msg := P.format name pos
  let error : Error := ⟨.DUPLICATE_SELECT_EXPR, dupl_err_msg⟩
  let multiError := multiError ++ [error]
  "AnalysisError:" ++ P.EXCEPTION_MSG ++ P.toOneLineString multiError

/-- Modelled from the spec: the errors of the duplicate check: one
`DUPLICATE_SELECT_EXPR` error for each output name that occurs more than once,
its message built from the name and the positions of its occurrences. -/
def getDuplicateAndPosition (P : PluginText) (names : List (Option String)) : List Error :=
  (duplicateNames names).map
    (fun n => ⟨.DUPLICATE_SELECT_EXPR, P.format n (positionsText (positions n names))⟩)

/-- Modelled from the spec: the analysis of a select list by the missing
`DuplSelectExprPlugin`: `none` when the select list passes, else the message of
the analysis error that the query session reports. -/
def analyzeSelectList (P : PluginText) (selectList : List SelectExpr) : Option String :=
  let errors := getDuplicateAndPosition P (selectList.map SelectExpr.outputName)
  if errors.isEmpty then none
  else some ("AnalysisError:" ++ P.EXCEPTION_MSG ++ P.toOneLineString errors)

/-- The select list of the test case `Alias`. -/
def selectAlias : List SelectExpr :=
  [.column "" "chunkId" "f1", .column "" "pm_declErr" "f1"]

/-- The select list of the test case `CaseInsensitive`. -/
def selectCaseInsensitive : List SelectExpr :=
  [.column "" "chunkId" "", .column "" "CHUNKID" ""]

/-- The select list of the test case `Function`. -/
def selectFunction : List SelectExpr :=
  [.other "sum(pm_declErr)" "", .column "" "chunkId" "f1", .column "" "chunkId" "f1",
   .other "avg(pm_declErr)" ""]

/-- The select list of the test case `Simple`. -/
def selectSimple : List SelectExpr :=
  [.column "" "pm_declErr" "", .column "" "chunkId" "", .column "" "ra_Test" ""]

/-- The select list of the test case `SameNameDifferentTable`. -/
def selectSameNameDifferentTable : List SelectExpr :=
  [.column "o1" "objectId" "", .column "o2" "objectId" "",
   .other "scisql_angSep(o1.ra_PS, o1.decl_PS, o2.ra_PS, o2.decl_PS)" "distance"]

end qana

namespace ccontrol

/-- The job is alive and not cancelled, the merger rejects every body. -/
def failingWorld : World :=
  { jobQuery := some ⟨false⟩, merge := fun _ => false, mergerErrorMsg := "merge failed" }

/-- A constructed handler after the header `[3, 2, 7]` was received and the
transport put the body `[0, 7]` into the buffer. -/
def sampleBodyArrived : MergingHandler :=
  { ((MergingHandler.new sampleProto "result_1").receive sampleProto goodWorld
      [3, 2, 7] false).h with _buffer := [0, 7] }

/-- The handler `sampleBodyArrived` after `flush` passed the body to a merger
that rejected it. -/
def sampleMergeFailed : MergingHandler :=
  (sampleBodyArrived.flush sampleProto failingWorld 2 false).h

end ccontrol

namespace master

/-- Modelled from the spec: the status codes of `TableMergerError` (the
enumeration is declared in the missing `TableMerger.h`) that `TableMerger.cc`
assigns. -/
inductive ErrorStatus where
  | IMPORT
  | MYSQLOPEN
  | MERGEWRITE
  | TERMINATE
  | MYSQLCONNECT
  | MYSQLEXEC
  deriving DecidableEq, Repr

/-- Modelled from the spec: the members of `TableMergerError` (missing
`TableMerger.h`) that `TableMerger.cc` assigns. -/
structure TableMergerError where
  status : ErrorStatus
  errorCode : Int
  description : String
  deriving DecidableEq, Repr

/-- What surrounds the merger during one call of `merge`: the return code of
`system(command)`, whether `popen(command, "w")` gives a stream, whether
`fwrite` writes the block it is given completely, and the return code of
`pclose`. -/
structure Shell where
  system : String → Int
  popen : String → Bool
  fwrite : String → Bool
  pclose : Int

/-- The calls a merger makes to the C library, in the order in which it makes
them. -/
inductive LibCall where
  | system (command : String)
  | popen (command : String)
  | fwrite (block : String)
  | pclose
  deriving DecidableEq, Repr

/-- What a step of `merge` leaves: the value returned, what was assigned to
`_error` (if anything), and the calls made. -/
structure StepOut where
  ret : Bool
  error : Option TableMergerError
  calls : List LibCall
  deriving DecidableEq, Repr

/-- The format `_dropSql`, filled in. -/
def TableMerger._dropSql (table : String) : String := "DROP TABLE IF EXISTS " ++ table ++ ";"

/-- The format `_createSql`, filled in. -/
def TableMerger._createSql (table source : String) : String :=
  "CREATE TABLE IF NOT EXISTS " ++ table ++ " SELECT * FROM " ++ source ++ ";"

/-- The format `_insertSql`, filled in. -/
def TableMerger._insertSql (table source : String) : String :=
  "INSERT INTO " ++ table ++ " SELECT * FROM " ++ source ++ ";"

/-- The format `_cleanupSql`, filled in. -/
def TableMerger._cleanupSql (table : String) : String := "DROP TABLE IF EXISTS " ++ table ++ ";"

/-- The method `TableMerger::_buildMergeSql`. -/
def TableMerger._buildMergeSql (self : TableMerger) (tableName : String) (create : Bool) :
    String :=
  let cleanup := TableMerger._cleanupSql tableName
  if create then
    TableMerger._dropSql self._mergeTable ++ TableMerger._createSql self._mergeTable tableName
      ++ cleanup
  else TableMerger._insertSql self._mergeTable tableName ++ cleanup

/-- The value of `fwrite(sql.c_str(), sql.size(), sizeof(char), fp)`: the number
of items written, where the one item is the whole block of `sql.size()` bytes;
it is 0 for a block of size 0. -/
def fwriteItems (w : Shell) (sql : String) : Int :=
  if sql.utf8ByteSize = 0 then 0 else if w.fwrite sql then 1 else 0

/-- The method `TableMerger::_applySql`. -/
def TableMerger._applySql (w : Shell) (self : TableMerger) (sql : String) : StepOut :=
  if !w.popen self._loadCmd then
    ⟨false, some ⟨.MYSQLOPEN, 0, "Error starting mysql process."⟩, [.popen self._loadCmd]⟩
  else
    let written := fwriteItems w sql
    if written ≠ (sql.utf8ByteSize : Int) then
      ⟨false, some ⟨.MERGEWRITE, written, "Error writing sql to mysql process.."⟩,
        [.popen self._loadCmd, .fwrite sql, .pclose]⟩
    else
      let r := w.pclose
      if r = -1 then
        ⟨false, some ⟨.TERMINATE, r, "Error finalizing merge step.."⟩,
          [.popen self._loadCmd, .fwrite sql, .pclose]⟩
      else ⟨true, none, [.popen self._loadCmd, .fwrite sql, .pclose]⟩

/-- The method `TableMerger::_importResult`. -/
def TableMerger._importResult (w : Shell) (self : TableMerger) (dumpFile : String) : StepOut :=
  let rc := w.system (self._loadCmd ++ "<" ++ dumpFile)
  if rc ≠ 0 then
    ⟨false, some ⟨.IMPORT, rc, "Error importing result db."⟩,
      [.system (self._loadCmd ++ "<" ++ dumpFile)]⟩
  else ⟨true, none, [.system (self._loadCmd ++ "<" ++ dumpFile)]⟩

/-- What `merge` leaves: the merger, the value returned, the last assignment to
`_error` during the call (if any), and the calls made. -/
structure MergeOut where
  self : TableMerger
  ret : Bool
  error : Option TableMergerError
  calls : List LibCall
  deriving DecidableEq, Repr

/-- The later of two assignments to `_error`. -/
def laterError (first second : Option TableMergerError) : Option TableMergerError :=
  match second with
  | some e => some e
  | none => first

/-- The method `TableMerger::merge`. The value of `_importResult` is not looked
at. The counter `_tableCount` stays far below the range of its type. -/
def TableMerger.merge (w : Shell) (self : TableMerger) (dumpFile tableName : String) :
    MergeOut :=
  let imp := self._importResult w dumpFile
  let count := self._tableCount + 1
  if count = 1 then
    let sql := self._buildMergeSql tableName true
    let a := self._applySql w sql
    ⟨{ self with _tableCount := if !a.ret then count - 1 else count }, a.ret,
      laterError imp.error a.error, imp.calls ++ a.calls⟩
  else
    let sql := self._buildMergeSql tableName false
    let a := self._applySql w sql
    ⟨{ self with _tableCount := count }, a.ret, laterError imp.error a.error,
      imp.calls ++ a.calls⟩

/-- One call of `merge` with what surrounds it. -/
structure MergeCall where
  w : Shell
  dumpFile : String
  tableName : String

/-- A sequence of calls of `merge`, one after the other: for every call the
merger it is made on and what it leaves. -/
def TableMerger.merges (self : TableMerger) : List MergeCall → List (TableMerger × MergeCall × MergeOut)
  | [] => []
  | c :: cs =>
    (self, c, self.merge c.w c.dumpFile c.tableName) ::
      TableMerger.merges (self.merge c.w c.dumpFile c.tableName).self cs

/-- The create statement as the specification writes it, for the merge table
and the table `t` that is merged. -/
def createStatement (mergeTable t : String) : String :=
  "DROP TABLE IF EXISTS " ++ mergeTable ++ ";CREATE TABLE IF NOT EXISTS " ++ mergeTable ++
    " SELECT * FROM " ++ t ++ ";DROP TABLE IF EXISTS " ++ t ++ ";"

/-- The insert statement as the specification writes it, for the merge table and
the table `t` that is merged. -/
def insertStatement (mergeTable t : String) : String :=
  "INSERT INTO " ++ mergeTable ++ " SELECT * FROM " ++ t ++ ";DROP TABLE IF EXISTS " ++ t ++ ";"

/-- A configuration for the target table `qservResult.result_1`, without fixup
select. -/
def namedConfig : TableMergerConfig :=
  { unnamedConfig with targetDb := "qservResult", targetTable := "qservResult.result_1" }

/-- The merger constructed from `namedConfig`. -/
def sampleMerger : TableMerger :=
  { _config := namedConfig, _sqlConfig := makeSqlConfig namedConfig, _tableCount := 0,
    _mergeTable := "qservResult.result_1",
    _loadCmd := "mysql --socket=/tmp/mysql.sock -u qsmaster qservResult" }

/-- Every command succeeds and every block is written completely. -/
def goodShell : Shell :=
  { system := fun _ => 0, popen := fun _ => true, fwrite := fun _ => true, pclose := 0 }

/-- The import of the dump file fails with code 256; the commands that follow
succeed and every block is written completely. -/
def importFailsShell : Shell := { goodShell with system := fun _ => 256 }

end master

namespace master

/-! ## QueryTemplate

A `QueryTemplate` is a list of entries; rendering it streams the values of the
entries into a string, separated where `sqlShouldSeparate` says so. The function
`sqlShouldSeparate` (declared in the missing `sqltoken.h`), the value of
`isDynamic` for a `StringEntry` (inherited from the base class declared in the
missing `QueryTemplate.h`) and the mapping `EntryMapping::mapEntry` are taken as
parameters. -/

/-- The entries of a `QueryTemplate`: the subclasses `TableEntry`, `ColumnEntry`
and `StringEntry` of `QueryTemplate::Entry`. -/
inductive Entry where
  | TableEntry (db table : String)
  | ColumnEntry (db table column : String)
  | StringEntry (s : String)
  deriving DecidableEq, Repr

/-- The method `getValue` of the three entry classes. -/
def Entry.getValue : Entry → String
  | .TableEntry db table => (if !db.isEmpty then db ++ "." else "") ++ table
  | .ColumnEntry db table column =>
    (if !db.isEmpty then db ++ "." else "") ++ (if !table.isEmpty then table ++ "." else "")
      ++ column
  | .StringEntry s => s

/-- The method `isDynamic` of the three entry classes; `stringIsDynamic` is what
a `StringEntry` inherits. -/
def Entry.isDynamic (stringIsDynamic : Bool) : Entry → Bool
  | .TableEntry _ _ => true
  | .ColumnEntry _ _ _ => true
  | .StringEntry _ => stringIsDynamic

/-- The state of the helper `SpacedOutput`; `os` is what was streamed so far. -/
structure SpacedOutput where
  os : String
  last : String
  sep : String
  count : Int
  deriving DecidableEq, Repr

/-- The constructor `SpacedOutput(os, sep)`. -/
def SpacedOutput.new (os sep : String) : SpacedOutput :=
  { os := os, last := "", sep := sep, count := 0 }

/-- The call operator of `SpacedOutput` on a string. The arguments of
`sqlShouldSeparate` are evaluated before it is called: `*(last.end()-1)` reads
the last character of `last`. The result is `none` when `last` is empty, where
that read is outside the string and the behaviour is undefined. -/
def SpacedOutput.callString (sqlShouldSeparate : String → Char → Char → Bool)
    (so : SpacedOutput) (s : String) : Option SpacedOutput :=
  if s.isEmpty then some so
  else
    match so.last.data.getLast? with
    | none => none
    | some back =>
      let os1 := if sqlShouldSeparate so.last back (s.data.headD ' ') then so.os ++ so.sep
        else so.os
      some { so with os := os1 ++ s, last := s }

/-- The call operator of `SpacedOutput` on an entry. -/
def SpacedOutput.callEntry (sqlShouldSeparate : String → Char → Char → Bool)
    (so : SpacedOutput) (e : Entry) : Option SpacedOutput :=
  match so.callString sqlShouldSeparate e.getValue with
  | none => none
  | some so1 => some { so1 with count := so1.count + 1 }

/-- The helper `outputString` on a list of entries: the string streamed, or
`none` when the behaviour is undefined. -/
def outputString (sqlShouldSeparate : String → Char → Char → Bool) (c : List Entry) :
    Option String :=
  match c.foldlM (SpacedOutput.callEntry sqlShouldSeparate) (SpacedOutput.new "" " ") with
  | none => none
  | some so => some so.os

/-- The state of the helper `EntryMerger`. -/
structure EntryMerger where
  _candidates : List Entry
  _entries : List Entry
  deriving DecidableEq, Repr

/-- The method `EntryMerger::_checkMergeable`. -/
def EntryMerger._checkMergeable (stringIsDynamic : Bool) (left right : Entry) : Bool :=
  !(left.isDynamic stringIsDynamic || right.isDynamic stringIsDynamic)

/-- The method `EntryMerger::_mergeCurrent`. -/
def EntryMerger._mergeCurrent (sqlShouldSeparate : String → Char → Char → Bool)
    (em : EntryMerger) : Option EntryMerger :=
  if em._candidates.length > 1 then
    match outputString sqlShouldSeparate em._candidates with
    | none => none
    | some s => some { _candidates := [], _entries := em._entries ++ [.StringEntry s] }
  else
    match em._candidates.getLast? with
    | some back =>
      some { _candidates := em._candidates.dropLast, _entries := em._entries ++ [back] }
    | none => some em

/-- The call operator of `EntryMerger`. -/
def EntryMerger.call (sqlShouldSeparate : String → Char → Char → Bool)
    (stringIsDynamic : Bool) (em : EntryMerger) (e : Entry) : Option EntryMerger :=
  let merged : Option EntryMerger :=
    match em._candidates.getLast? with
    | some back =>
      if !EntryMerger._checkMergeable stringIsDynamic back e then
        em._mergeCurrent sqlShouldSeparate
      else some em
    | none => some em
  match merged with
  | none => none
  | some em1 => some { em1 with _candidates := em1._candidates ++ [e] }

/-- The method `QueryTemplate::_optimize`: the entries are run through an
`EntryMerger`, which is then packed. -/
def QueryTemplate._optimize (sqlShouldSeparate : String → Char → Char → Bool)
    (stringIsDynamic : Bool) (_entries : List Entry) : Option EntryMerger :=
  match _entries.foldlM (EntryMerger.call sqlShouldSeparate stringIsDynamic)
      { _candidates := [], _entries := [] } with
  | none => none
  | some em => em._mergeCurrent sqlShouldSeparate

/-- The method `QueryTemplate::dbgStr`. -/
def QueryTemplate.dbgStr (sqlShouldSeparate : String → Char → Char → Bool)
    (stringIsDynamic : Bool) (_entries : List Entry) : Option String :=
  match QueryTemplate._optimize sqlShouldSeparate stringIsDynamic _entries with
  | none => none
  | some _ => outputString sqlShouldSeparate _entries

/-- The method `QueryTemplate::generate`; `mapEntry` is `em.mapEntry`. -/
def QueryTemplate.generate (sqlShouldSeparate : String → Char → Char → Bool)
    (mapEntry : Entry → Entry) (_entries : List Entry) : Option String :=
  outputString sqlShouldSeparate (_entries.map mapEntry)

end master

namespace ccontrol

/-- The handler `sampleMergeFailed` after `reset`, when the transport has put the
next header `[3, 2, 7]` into its buffer. -/
def sampleAfterReset : MergingHandler :=
  { (sampleMergeFailed.reset sampleProto).2 with _buffer := [3, 2, 7] }

end ccontrol

namespace master

/-- Two calls of `merge`, for the tables `r_1` and `r_2`, during which every
command succeeds and every block is written completely. -/
def sampleMergeCalls : List MergeCall :=
  [⟨goodShell, "/tmp/r_1.dump", "r_1"⟩, ⟨goodShell, "/tmp/r_2.dump", "r_2"⟩]

end master

namespace wsched

/-- A conforming heap implementation under a comparator that orders no task
before another. -/
def plainHeap : StdHeap := sortHeap (fun _ _ => false)

/-- A memory manager that grants every request with handle 7. -/
def grantingMemMan : MemMan := ⟨1, fun _ => ⟨7, .other⟩⟩

/-- A task of query 1, job 0 on chunk 5 that scans no table. -/
def sampleTask : Task :=
  { ptr := 100, queryId := 1, jobId := 0, chunkId := 5, infoTables := [], entryTime := 0,
    memHandle := none }

/-- The tasks of chunk `c` as `queueTask` finds them: those of the entry of the
map, or a new `ChunkTasks` if the map has no entry for `c`. -/
def ChunkTasksQueue.chunkOrNew (q : ChunkTasksQueue) (c : Int) : ChunkTasks :=
  (q._chunkMap.find c).getD (ChunkTasks.new c)

/-- A comparator that orders tasks by query id: the task with the larger query
id is on top of the heap. -/
def byQueryId (a b : Task) : Bool := decide (a.queryId < b.queryId)

/-- A conforming heap implementation under `byQueryId`. -/
def queryHeap : StdHeap := sortHeap byQueryId

/-- A memory manager that is out of memory at every request. -/
def starvedMemMan : MemMan := ⟨1, fun _ => ⟨0, .ENOMEM⟩⟩

/-- A memory manager that finds no file at every request. -/
def notFoundMemMan : MemMan := ⟨1, fun _ => ⟨0, .ENOENT⟩⟩

/-- A memory manager whose file system fails at every request. -/
def brokenMemMan : MemMan := ⟨1, fun _ => ⟨0, .other⟩⟩

/-- The chunk 5 with `sampleTask` on its heap. -/
def sampleChunk : ChunkTasks := { ChunkTasks.new 5 with _activeTasks := [sampleTask] }

/-- The queue after `sampleTask` was queued and handed out: the task is in
flight on chunk 5. -/
def sampleInFlight : ChunkTasksQueue :=
  ((ChunkTasksQueue.new.queueTask plainHeap 0 sampleTask).getTask
    plainHeap grantingMemMan none false).q

/-- The queue after `sampleTask` was queued: the task is on the heap of chunk 5. -/
def sampleQueued : ChunkTasksQueue := ChunkTasksQueue.new.queueTask plainHeap 0 sampleTask

/-- The queue after `sampleTask` was queued, handed out and completed: chunk 5
is the active chunk and holds nothing. -/
def sampleDrained : ChunkTasksQueue := sampleInFlight.taskComplete sampleTask

/-- The request `ChunkTasks::ready` makes to the memory manager for the task on
top of the heap: one entry `db/table` per table of the scan info, locked as
required or flexibly, and the chunk id of the task. -/
def prepareCallOf (task : Task) (useFlexibleLock : Bool) : PrepareCall :=
  ⟨task.infoTables.map (fun tbl => TableInfo.mk (tbl.db ++ "/" ++ tbl.table)
      (if useFlexibleLock then LockType.FLEXIBLE else LockType.REQUIRED) LockType.NOLOCK),
    task.chunkId⟩

/-- The queue with chunk 5 as active chunk and `sampleTask` on its heap. -/
def sampleActive : ChunkTasksQueue :=
  { _chunkMap := [(5, { sampleChunk with _active := true })], _activeChunk := some 5,
    _readyChunk := none, _taskCount := 1, _resourceStarved := false }

/-- Every entry of the map satisfies `Pc`. -/
def ChunkMap.All (Pc : Int → ChunkTasks → Prop) (m : ChunkMap) : Prop :=
  ∀ e ∈ m, Pc e.1 e.2

/-- The tasks of the entry for chunk `k` belong to chunk `k`: the `ChunkTasks`
carries the id `k`, and so does every task on its heap, in its pending list and
in its ready slot. -/
def ChunkTasks.keyed (k : Int) (ct : ChunkTasks) : Prop :=
  ct._chunkId = k ∧ (∀ t ∈ ct._activeTasks, t.chunkId = k) ∧
  (∀ t ∈ ct._pendingTasks, t.chunkId = k) ∧ (∀ t, ct._readyTask = some t → t.chunkId = k)

/-- A task of query 1, job 0 on chunk 1. -/
def taskA : Task :=
  { ptr := 1, queryId := 1, jobId := 0, chunkId := 1, infoTables := [], entryTime := 0,
    memHandle := none }

/-- A task of query 1, job 1 on chunk 2. -/
def taskB1 : Task :=
  { ptr := 2, queryId := 1, jobId := 1, chunkId := 2, infoTables := [], entryTime := 0,
    memHandle := none }

/-- A task of query 2, job 0 on chunk 2; `byQueryId` orders `taskB1` before it. -/
def taskB2 : Task :=
  { ptr := 3, queryId := 2, jobId := 0, chunkId := 2, infoTables := [], entryTime := 0,
    memHandle := none }

/-- The call `getTask` after `taskA` was queued: chunk 1 becomes the active chunk
and `taskA` is handed out. -/
def runA : GetTaskOut :=
  (ChunkTasksQueue.new.queueTask queryHeap 0 taskA).getTask queryHeap grantingMemMan none false

/-- The call `getTask` after `taskB1` was queued next: chunk 1 has nothing to run
but `taskA` is still in flight, the scan reaches chunk 2. -/
def runB1 : GetTaskOut :=
  (runA.q.queueTask queryHeap 0 taskB1).getTask queryHeap grantingMemMan none false

/-- The call `getTask` after `taskB2` was queued next. -/
def runB2 : GetTaskOut :=
  (runB1.q.queueTask queryHeap 0 taskB2).getTask queryHeap grantingMemMan none false

/-- The operations on the tasks of one chunk. -/
inductive ChunkOp where
  | ready (mm : MemMan) (useFlexibleLock : Bool)
  | getTask (mm : MemMan) (useFlexibleLock : Bool)
  | queTask (now : Nat) (task : Task)
  | taskComplete (task : Task)
  | removeTask (task : Task)

/-- One operation on the tasks of a chunk: the chunk it leaves and the task it
hands out, if any. -/
def ChunkTasks.apply (H : StdHeap) (ct : ChunkTasks) : ChunkOp → ChunkTasks × Option Task
  | .ready mm flex => ((ct.ready H mm flex []).ct, none)
  | .getTask mm flex => ((ct.getTask H mm flex []).ct, (ct.getTask H mm flex []).task)
  | .queTask now task => (ct.queTask H now task, none)
  | .taskComplete task => (ct.taskComplete task, none)
  | .removeTask task => ((ct.removeTask H task).2, none)

/-- The tasks handed out by a sequence of operations on one chunk, in the order
in which they are handed out. -/
def ChunkTasks.handedOut (H : StdHeap) : ChunkTasks → List ChunkOp → List Task
  | _, [] => []
  | ct, op :: ops =>
    match (ct.apply H op).2 with
    | some t => t :: ChunkTasks.handedOut H (ct.apply H op).1 ops
    | none => ChunkTasks.handedOut H (ct.apply H op).1 ops

/-- The comparator does not look at the memory handle of a task. -/
def IgnoresMemHandle (cmp : Task → Task → Bool) : Prop :=
  ∀ a b h, cmp { a with memHandle := h } b = cmp a b ∧ cmp a { b with memHandle := h } = cmp a b

/-- The task in the ready slot, if any, is not ordered before any task on the
heap. -/
def ChunkTasks.slotOnTop (cmp : Task → Task → Bool) (ct : ChunkTasks) : Prop :=
  ∀ r, ct._readyTask = some r → ∀ x ∈ ct._activeTasks, cmp r x = false

/-- The task `b` is not ordered before any task on the heap or in the ready
slot. -/
def ChunkTasks.boundedBy (cmp : Task → Task → Bool) (b : Task) (ct : ChunkTasks) : Prop :=
  (∀ x ∈ ct._activeTasks, cmp b x = false) ∧ (∀ r, ct._readyTask = some r → cmp b r = false)

/-- An active chunk in order: it is flagged active, its heap is a heap, and the
task in its ready slot is on top. -/
def ChunkTasks.ordered (cmp : Task → Task → Bool) (ct : ChunkTasks) : Prop :=
  ct._active = true ∧ IsHeap cmp ct._activeTasks ∧ ct.slotOnTop cmp

/-- The active chunk 5 with the tasks of queries 1 and 2 on its heap. -/
def sampleOrdered : ChunkTasks :=
  { ChunkTasks.new 5 with
    _active := true,
    _activeTasks := [{ sampleTask with queryId := 2 }, sampleTask] }

/-- The calls on a queue: `queueTask`, `taskComplete`, `removeTask` and `ready`,
with what the clock, the memory manager and the scheduler policy are at the
call. -/
inductive QueueOp where
  | queueTask (now : Nat) (task : Task)
  | taskComplete (task : Task)
  | removeTask (task : Task)
  | ready (mm : MemMan) (sched : Option SchedulerPolicy) (useFlexibleLock : Bool)

/-- The queue after one call. -/
def ChunkTasksQueue.applyOp (H : StdHeap) (q : ChunkTasksQueue) : QueueOp → ChunkTasksQueue
  | .queueTask now task => q.queueTask H now task
  | .taskComplete task => q.taskComplete task
  | .removeTask task => (q.removeTask H task).2
  | .ready mm sched flex => (q.ready H mm sched flex).q

/-- The queue after a sequence of calls. -/
def ChunkTasksQueue.applyOps (H : StdHeap) (q : ChunkTasksQueue) (ops : List QueueOp) :
    ChunkTasksQueue :=
  ops.foldl (ChunkTasksQueue.applyOp H) q

/-- The ready chunk is chunk `r`, and the task in its ready slot is `t`. -/
def ChunkTasksQueue.readyIs (q : ChunkTasksQueue) (r : Int) (t : Task) : Prop :=
  q._readyChunk = some r ∧ ∃ ct, q._chunkMap.find r = some ct ∧ ct._readyTask = some t

/-- A scheduler policy that is at its limit of one active chunk and reports no
chunk as already active. -/
def fullPolicy : SchedulerPolicy :=
  { getActiveChunkCount := 1, getMaxActiveChunks := 1, chunkAlreadyActive := fun _ => false }

/-- The queue with `taskA` of chunk 1 in flight and `taskB1` on the heap of
chunk 2. -/
def sampleTwoChunks : ChunkTasksQueue := runA.q.queueTask queryHeap 0 taskB1

/-- The iterator after `++iter` with the wrap-around of the scan: the next larger
key of the map, or its first key after the last one. -/
def ChunkMap.nextWrap (m : ChunkMap) (iter : Int) : Option Int :=
  match m.next iter with
  | none => m.begin
  | some k => some k

/-- A second task of query 1 on chunk 1. -/
def taskA2 : Task := { taskA with ptr := 4, jobId := 1 }

/-- The queue after `taskA` was queued and handed out, `taskA2` was queued and
`taskA` completed: chunk 1 is the only chunk and the active chunk, nothing is on
its heap or in flight, and `taskA2` is on its pending list. -/
def samplePending : ChunkTasksQueue :=
  (runA.q.queueTask queryHeap 0 taskA2).taskComplete taskA

/-- The queue after `sampleTask` was queued and `ready` was called: chunk 5 is
the active chunk and the ready chunk, `sampleTask` is in its ready slot. -/
def sampleReadyCached : ChunkTasksQueue :=
  (sampleQueued.ready plainHeap grantingMemMan none false).q

/-- The keys of the map, in the order of its entries. -/
def ChunkMap.keys (m : ChunkMap) : List Int := m.map Prod.fst

/-- The representation invariants of a queue: the entries of the map are in
ascending order of their keys; `_activeChunk`, unless it is at the end,
designates an entry of the map, whose tasks are flagged active; and while
another chunk is cached as the ready chunk, the active chunk has nothing on its
heap and no task in its ready slot. -/
def ChunkTasksQueue.Valid (q : ChunkTasksQueue) : Prop :=
  q._chunkMap.keys.Pairwise (fun a b => a < b) ∧
  ∀ a, q._activeChunk = some a →
    ∃ ct, q._chunkMap.find a = some ct ∧ ct._active = true ∧
      ∀ r, q._readyChunk = some r → r ≠ a → ct._activeTasks = [] ∧ ct._readyTask = none

/-- The keys the scan still has before it, seen from the iterator `iter` with
`a` the active chunk: the keys after `iter`, and those before `a` if the scan has
not wrapped around yet. -/
def ChunkMap.remaining (m : ChunkMap) (a : Int) (iter : Int) : Nat :=
  m.keys.countP (fun x =>
    if a ≤ iter then decide (iter < x ∨ x < a) else decide (iter < x ∧ x < a))

/-- The scan loop of `_ready` (lines 133 to 158) together with the keys of the
chunks whose `ready` it calls at line 150, in the order of the calls. Its first
component is `scanLoop`. -/
def ChunkTasksQueue.scanLoopLog (H : StdHeap) (mm : MemMan) (sched : Option SchedulerPolicy)
    (useFlexibleLock : Bool) : Nat → ChunkTasksQueue → List PrepareCall → Int → ReadyState →
    ReadyOut × List Int
  | 0, q, asks, _, _ => (⟨q, asks, .outOfFuel⟩, [])
  | fuel + 1, q, asks, iter, chunkState =>
    if chunkState ≠ .READY ∧ chunkState ≠ .NO_RESOURCES then
      let iter1 := match q._chunkMap.next iter with
        | none => q._chunkMap.begin
        | some k => some k
      if iter1 = q._activeChunk then (⟨q, asks, .value false⟩, [])
      else
        match iter1 with
        | none => (⟨q, asks, .invalidIterator⟩, [])
        | some k =>
          match q._chunkMap.find k with
          | none => (⟨q, asks, .invalidIterator⟩, [])
          | some ct =>
            if (match sched with
                | none => false
                | some s => decide (s.getActiveChunkCount ≥ s.getMaxActiveChunks)
                    && !s.chunkAlreadyActive ct._chunkId) then
              (⟨q, asks, .value false⟩, [])
            else
              let r := ct.ready H mm useFlexibleLock asks
              let q1 := { q with _chunkMap := q._chunkMap.set k r.ct }
              match r.state with
              | none => (⟨q1, r.asks, .thrown⟩, [k])
              | some st =>
                ((ChunkTasksQueue.scanLoopLog H mm sched useFlexibleLock fuel q1 r.asks k st).1,
                  k :: (ChunkTasksQueue.scanLoopLog H mm sched useFlexibleLock fuel q1 r.asks k
                    st).2)
    else if chunkState = .NO_RESOURCES then (⟨q, asks, .value false⟩, [])
    else (⟨{ q with _readyChunk := some iter }, asks, .value true⟩, [])

/-- The active chunk `a` of the queue has nothing on its heap and no task in its
ready slot. -/
def ChunkTasksQueue.activeIdle (q : ChunkTasksQueue) (a : Int) : Prop :=
  ∀ ct, q._chunkMap.find a = some ct → ct._activeTasks = [] ∧ ct._readyTask = none

/-- The order in which the scan visits keys, seen from the iterator `iter` with
`a` the active chunk: one ascending run of keys above `a` (all after `iter`),
then, after the wrap-around, one ascending run of keys below `a`; once the scan
is below `a` the first run is over. -/
def scanOrder (a : Int) (iter : Int) (log : List Int) : Prop :=
  ∃ l1 l2, log = l1 ++ l2 ∧ l1.Pairwise (fun x y => x < y) ∧ l2.Pairwise (fun x y => x < y) ∧
    (∀ x ∈ l1, a < x ∧ iter < x) ∧ (∀ x ∈ l2, x < a) ∧
    (iter < a → l1 = [] ∧ ∀ x ∈ l2, iter < x)

/-- What the scan loop leaves, started at `iter` on the queue `q` with active
chunk `a`: the keys of the map, the entry of the active chunk and `_activeChunk`
are as before; a ready chunk other than the active chunk is cached only if the
active chunk is idle; the loop ends by returning or by the exception; and the
chunks it asked are keys of the map, visited in scan order. -/
def ScanPost (a : Int) (iter : Int) (q : ChunkTasksQueue) (out : ReadyOut × List Int) : Prop :=
  out.1.q._chunkMap.keys = q._chunkMap.keys ∧
  out.1.q._chunkMap.find a = q._chunkMap.find a ∧
  out.1.q._activeChunk = some a ∧
  (∀ r, out.1.q._readyChunk = some r → r ≠ a → q.activeIdle a) ∧
  out.1.ret ≠ .outOfFuel ∧ out.1.ret ≠ .invalidIterator ∧
  scanOrder a iter out.2 ∧ (∀ x ∈ out.2, x ∈ q._chunkMap.keys)

/-- What a call of `_ready` leaves: a queue that satisfies the representation
invariants, and the call ends by returning or by the exception. -/
def ReadyPost (out : ReadyOut) : Prop :=
  out.q.Valid ∧ out.ret ≠ .outOfFuel ∧ out.ret ≠ .invalidIterator

/-- The tasks of chunk 5 in `sampleReadyCached`: flagged active, with
`sampleTask` and its memory handle in the ready slot. -/
def sampleReadySlot : ChunkTasks :=
  { ChunkTasks.new 5 with
    _active := true,
    _readyTask := some { sampleTask with memHandle := some 7 } }

/-- What identifies a queued task while the scheduler holds it: the task as it
was passed to `queueTask`, apart from the entry time, which `queTask` sets, and
the memory handle, which `ready` attaches. -/
def Task.core (t : Task) : Task := { t with entryTime := 0, memHandle := none }

/-- The ids of a task: query id and job id. -/
def Task.ids (t : Task) : Nat × Int := (t.queryId, t.jobId)

/-- The tasks a chunk holds for the scheduler: active heap, pending list and
ready slot, in this order. -/
def ChunkTasks.held (ct : ChunkTasks) : List Task :=
  ct._activeTasks ++ ct._pendingTasks ++ ct._readyTask.toList

/-- The tasks held by the chunks of the map. -/
def ChunkMap.held (m : ChunkMap) : List Task := (m.map (fun e => e.2.held)).flatten

/-- The sum of a number `w` over the chunks of the map. -/
def ChunkMap.sumOver (w : ChunkTasks → Nat) (m : ChunkMap) : Nat := (m.map (fun e => w e.2)).sum

/-- How often the task `x` is held by a chunk, apart from entry time and memory
handle. -/
def ChunkTasks.countCore (x : Task) (ct : ChunkTasks) : Nat :=
  (ct.held.map Task.core).count x

/-- The calls of the scheduler. -/
inductive SchedCall where
  | queueTask (now : Nat) (task : Task)
  | ready (mm : MemMan) (sched : Option SchedulerPolicy) (flex : Bool)
  | getTask (mm : MemMan) (sched : Option SchedulerPolicy) (flex : Bool)
  | taskComplete (task : Task)
  | removeTask (task : Task)

/-- A queue together with the history of the calls made on it: the tasks passed
to `queueTask`, the tasks returned by `getTask`, and the tasks returned by
`removeTask`, each in the order of the calls. -/
structure Run where
  q : ChunkTasksQueue
  queued : List Task
  handedOut : List Task
  removed : List Task

/-- One call on the queue of a run. -/
def Run.step (H : StdHeap) (r : Run) : SchedCall → Run
  | .queueTask now task =>
    { r with q := r.q.queueTask H now task, queued := r.queued ++ [task] }
  | .ready mm sched flex => { r with q := (r.q.ready H mm sched flex).q }
  | .getTask mm sched flex =>
    { r with q := (r.q.getTask H mm sched flex).q,
             handedOut := r.handedOut ++ (r.q.getTask H mm sched flex).task.toList }
  | .taskComplete task => { r with q := r.q.taskComplete task }
  | .removeTask task =>
    { r with q := (r.q.removeTask H task).2,
             removed := r.removed ++ (r.q.removeTask H task).1.toList }

/-- The run of a sequence of calls on the constructed queue. -/
def Run.run (H : StdHeap) (calls : List SchedCall) : Run :=
  calls.foldl (Run.step H) ⟨ChunkTasksQueue.new, [], [], []⟩

/-- The conservation law of a run, for one task `x`: as often as `x` was
queued, it is held by a chunk or was returned by `getTask` or `removeTask`. -/
def Run.Conserved (r : Run) (x : Task) : Prop :=
  (r.queued.map Task.core).count x =
    r.q._chunkMap.sumOver (ChunkTasks.countCore x) + (r.handedOut.map Task.core).count x +
      (r.removed.map Task.core).count x

/-- A task of query 2, job 0 on chunk 5 that scans no table. -/
def sampleTask2 : Task := { sampleTask with ptr := 101, queryId := 2 }

/-! ### The map operations -/

theorem ChunkMap.find_set_self (m : ChunkMap) (k : Int) (c ct : ChunkTasks)
    (h : m.find k = some c) : (m.set k ct).find k = some ct := by
  induction m with
  | nil => simp [ChunkMap.find] at h
  | cons e rest ih =>
    obtain ⟨k1, c1⟩ := e
    by_cases hk : k1 = k
    · simp [ChunkMap.set, ChunkMap.find, hk]
    · simp only [ChunkMap.find, hk, if_false] at h
      simp [ChunkMap.set, ChunkMap.find, hk, ih h]

theorem ChunkMap.find_set_ne (m : ChunkMap) (k k1 : Int) (ct : ChunkTasks) (h : k1 ≠ k) :
    (m.set k ct).find k1 = m.find k1 := by
  induction m with
  | nil => rfl
  | cons e rest ih =>
    obtain ⟨k2, c2⟩ := e
    by_cases hk : k2 = k
    · subst hk
      have : ¬ k2 = k1 := fun e => h e.symm
      simp [ChunkMap.set, ChunkMap.find, this]
    · by_cases hk1 : k2 = k1
      · subst hk1
        simp [ChunkMap.set, ChunkMap.find, hk]
      · simp [ChunkMap.set, ChunkMap.find, hk, hk1, ih]

theorem ChunkMap.find_insert_self (m : ChunkMap) (k : Int) (ct : ChunkTasks)
    (h : m.find k = none) : (m.insert k ct).find k = some ct := by
  induction m with
  | nil => simp [ChunkMap.insert, ChunkMap.find]
  | cons e rest ih =>
    obtain ⟨k1, c1⟩ := e
    by_cases hk : k1 = k
    · simp [ChunkMap.find, hk] at h
    · simp only [ChunkMap.find, hk, if_false] at h
      by_cases hlt : k < k1
      · simp [ChunkMap.insert, ChunkMap.find, hlt]
      · simp [ChunkMap.insert, ChunkMap.find, hlt, hk, ih h]

theorem ChunkMap.find_insert_ne (m : ChunkMap) (k k1 : Int) (ct : ChunkTasks) (h : k1 ≠ k) :
    (m.insert k ct).find k1 = m.find k1 := by
  have h1 : ¬ k = k1 := fun e => h e.symm
  induction m with
  | nil => simp [ChunkMap.insert, ChunkMap.find, h1]
  | cons e rest ih =>
    obtain ⟨k2, c2⟩ := e
    by_cases hlt : k < k2
    · simp [ChunkMap.insert, ChunkMap.find, hlt, h1]
    · by_cases hk : k2 = k
      · simp [ChunkMap.insert, ChunkMap.find, hlt, hk]
      · by_cases hk1 : k2 = k1
        · subst hk1
          simp [ChunkMap.insert, ChunkMap.find, hlt, hk]
        · simp [ChunkMap.insert, ChunkMap.find, hlt, hk, hk1, ih]

theorem ChunkMap.find_erase_ne (m : ChunkMap) (k k1 : Int) (h : k1 ≠ k) :
    (m.erase k).find k1 = m.find k1 := by
  induction m with
  | nil => rfl
  | cons e rest ih =>
    obtain ⟨k2, c2⟩ := e
    by_cases hk : k2 = k
    · subst hk
      have : ¬ k2 = k1 := fun e => h e.symm
      simp [ChunkMap.erase, ChunkMap.find, this]
    · by_cases hk1 : k2 = k1
      · subst hk1
        simp [ChunkMap.erase, ChunkMap.find, hk]
      · simp [ChunkMap.erase, ChunkMap.find, hk, hk1, ih]

theorem ChunkMap.sumQueued_set (m : ChunkMap) (k : Int) (c ct : ChunkTasks)
    (h : m.find k = some c) :
    (m.set k ct).sumQueued + c.queued = m.sumQueued + ct.queued := by
  induction m with
  | nil => simp [ChunkMap.find] at h
  | cons e rest ih =>
    obtain ⟨k1, c1⟩ := e
    by_cases hk : k1 = k
    · simp only [ChunkMap.find, hk, if_true, Option.some.injEq] at h
      subst h
      simp [ChunkMap.set, ChunkMap.sumQueued, hk]
      omega
    · simp only [ChunkMap.find, hk, if_false] at h
      have := ih h
      simp only [ChunkMap.sumQueued] at this
      simp [ChunkMap.set, ChunkMap.sumQueued, hk]
      omega

theorem ChunkMap.sumQueued_insert (m : ChunkMap) (k : Int) (ct : ChunkTasks)
    (h : m.find k = none) : (m.insert k ct).sumQueued = m.sumQueued + ct.queued := by
  induction m with
  | nil => simp [ChunkMap.insert, ChunkMap.sumQueued]
  | cons e rest ih =>
    obtain ⟨k1, c1⟩ := e
    by_cases hk : k1 = k
    · simp [ChunkMap.find, hk] at h
    · simp only [ChunkMap.find, hk, if_false] at h
      have := ih h
      simp only [ChunkMap.sumQueued] at this
      by_cases hlt : k < k1
      · simp [ChunkMap.insert, ChunkMap.sumQueued, hlt]
        omega
      · simp [ChunkMap.insert, ChunkMap.sumQueued, hlt, hk, this]
        omega

theorem ChunkMap.sumQueued_erase (m : ChunkMap) (k : Int) (c : ChunkTasks)
    (h : m.find k = some c) : (m.erase k).sumQueued + c.queued = m.sumQueued := by
  induction m with
  | nil => simp [ChunkMap.find] at h
  | cons e rest ih =>
    obtain ⟨k1, c1⟩ := e
    by_cases hk : k1 = k
    · simp only [ChunkMap.find, hk, if_true, Option.some.injEq] at h
      subst h
      simp [ChunkMap.erase, ChunkMap.sumQueued, hk]
      omega
    · simp only [ChunkMap.find, hk, if_false] at h
      have := ih h
      simp only [ChunkMap.sumQueued] at this
      simp [ChunkMap.erase, ChunkMap.sumQueued, hk]
      omega

/-! ### The operations of one chunk -/

theorem SlowTableHeap.push_length (H : StdHeap) (l : List Task) (t : Task) :
    (SlowTableHeap.push H l t).length = l.length + 1 := by
  unfold SlowTableHeap.push
  rw [(H.push_heap_perm _).length_eq]
  simp

theorem SlowTableHeap.pop_length (H : StdHeap) (a : Task) (l : List Task) :
    (SlowTableHeap.pop H (a :: l)).length = l.length := by
  unfold SlowTableHeap.pop
  simp [(H.pop_heap_perm _).length_eq]

theorem foldl_push_length (H : StdHeap) (p l : List Task) :
    (p.foldl (SlowTableHeap.push H) l).length = l.length + p.length := by
  induction p generalizing l with
  | nil => simp
  | cons a p ih =>
    simp only [List.foldl_cons, List.length_cons]
    rw [ih, SlowTableHeap.push_length]
    omega

theorem eraseFunc_none (queryId : Nat) (jobId : Int) (l : List Task)
    (h : (eraseFunc queryId jobId l).1 = none) : (eraseFunc queryId jobId l).2 = l := by
  induction l with
  | nil => rfl
  | cons t rest ih =>
    by_cases hm : t.idsMatch queryId jobId = true
    · simp [eraseFunc, hm] at h
    · simp only [eraseFunc, hm] at h ⊢
      simp only [Bool.false_eq_true, if_false] at h ⊢
      rw [ih h]

theorem eraseFunc_some (queryId : Nat) (jobId : Int) (l : List Task) (r : Task)
    (h : (eraseFunc queryId jobId l).1 = some r) :
    (eraseFunc queryId jobId l).2.length + 1 = l.length := by
  induction l with
  | nil => simp [eraseFunc] at h
  | cons t rest ih =>
    by_cases hm : t.idsMatch queryId jobId = true
    · simp [eraseFunc, hm]
    · simp only [eraseFunc, hm] at h ⊢
      simp only [Bool.false_eq_true, if_false] at h ⊢
      simp [ih h]

theorem ChunkTasks.queTask_queued (H : StdHeap) (now : Nat) (ct : ChunkTasks) (a : Task) :
    (ct.queTask H now a).queued = ct.queued + 1 ∧
    (ct.queTask H now a)._readyTask = ct._readyTask := by
  unfold ChunkTasks.queTask ChunkTasks.queued
  by_cases h : ct._active = true
  · simp [h]
    omega
  · simp [h, SlowTableHeap.push_length]
    omega

theorem ChunkTasks.movePendingToActive_queued (H : StdHeap) (ct : ChunkTasks) :
    (ct.movePendingToActive H).queued = ct.queued ∧
    (ct.movePendingToActive H)._readyTask = ct._readyTask := by
  simp [ChunkTasks.movePendingToActive, ChunkTasks.queued, foldl_push_length]

theorem ChunkTasks.setActive_queued (H : StdHeap) (ct : ChunkTasks) (active : Bool) :
    (ct.setActive H active).queued = ct.queued ∧
    (ct.setActive H active)._readyTask = ct._readyTask := by
  have h := ChunkTasks.movePendingToActive_queued H ct
  unfold ChunkTasks.setActive
  by_cases h1 : (ct._active != active) = true
  · by_cases h2 : (ct._active && !active) = true
    · simp only [h1, h2, if_true]
      exact ⟨h.1, h.2⟩
    · simp only [h1, h2, if_true]
      exact ⟨rfl, rfl⟩
  · simp only [h1]
    exact ⟨rfl, rfl⟩

theorem ChunkTasks.takeTop_queued (H : StdHeap) (ct : ChunkTasks) (a t : Task) (l : List Task)
    (h1 : ct._activeTasks = a :: l) (h2 : ct._readyTask.isSome = false) :
    (ct.takeTop H t).queued = ct.queued := by
  simp [ChunkTasks.takeTop, ChunkTasks.queued, h1, h2, SlowTableHeap.pop_length]
  omega

theorem ChunkTasks.ready_queued (H : StdHeap) (mm : MemMan) (flex : Bool)
    (asks : List PrepareCall) (ct : ChunkTasks) :
    (ct.ready H mm flex asks).ct.queued = ct.queued := by
  unfold ChunkTasks.ready
  by_cases h : ct._readyTask.isSome = true
  · simp [h]
  · rw [if_neg h]
    have h0 : ct._readyTask = none := by simpa using h
    cases hl : ct._activeTasks with
    | nil => rfl
    | cons a l =>
      simp only []
      by_cases hm : a.hasMemHandle = true
      · simp [hm, ChunkTasks.takeTop, ChunkTasks.queued, SlowTableHeap.pop_length, hl, h0]
        omega
      · by_cases hh : (mm.answer asks.length).handle = 0
        · cases he : (mm.answer asks.length).errno <;>
            simp [hm, hh, he, ChunkTasks.takeTop, ChunkTasks.queued, SlowTableHeap.pop_length,
              hl, h0]
          omega
        · simp [hm, hh, ChunkTasks.takeTop, ChunkTasks.queued, SlowTableHeap.pop_length, hl, h0]
          omega

theorem ChunkTasks.ready_slot (H : StdHeap) (mm : MemMan) (flex : Bool)
    (asks : List PrepareCall) (ct : ChunkTasks) :
    ((ct.ready H mm flex asks).state = some .READY →
      (ct.ready H mm flex asks).ct._readyTask.isSome = true) ∧
    ((ct.ready H mm flex asks).state ≠ some .READY →
      (ct.ready H mm flex asks).ct._readyTask = none) := by
  unfold ChunkTasks.ready
  by_cases h : ct._readyTask.isSome = true
  · simp [h]
  · rw [if_neg h]
    have h0 : ct._readyTask = none := by simpa using h
    cases hl : ct._activeTasks with
    | nil => simp [h0]
    | cons a l =>
      simp only []
      by_cases hm : a.hasMemHandle = true
      · simp [hm, ChunkTasks.takeTop]
      · by_cases hh : (mm.answer asks.length).handle = 0
        · cases he : (mm.answer asks.length).errno <;>
            simp [hm, hh, he, ChunkTasks.takeTop, h0]
        · simp [hm, hh, ChunkTasks.takeTop]

theorem ChunkTasks.removeTask_queued (H : StdHeap) (ct : ChunkTasks) (task : Task) :
    (ct.removeTask H task).2._readyTask = ct._readyTask ∧
    ((ct.removeTask H task).2.queued + (if (ct.removeTask H task).1.isSome then 1 else 0)
      = ct.queued) := by
  unfold ChunkTasks.removeTask
  cases he : eraseFunc task.queryId task.jobId ct._activeTasks with
  | mk r rest =>
    cases r with
    | some r =>
      have h1 := eraseFunc_some task.queryId task.jobId ct._activeTasks r (by rw [he])
      rw [he] at h1
      simp only [ChunkTasks.queued, SlowTableHeap.heapify, (H.make_heap_perm _).length_eq]
      simp at h1 ⊢
      omega
    | none =>
      simp only []
      cases hp : (eraseFunc task.queryId task.jobId ct._pendingTasks).1 with
      | none =>
        have h2 := eraseFunc_none task.queryId task.jobId ct._pendingTasks hp
        simp [ChunkTasks.queued, h2]
      | some r =>
        have h2 := eraseFunc_some task.queryId task.jobId ct._pendingTasks r hp
        simp [ChunkTasks.queued]
        omega

theorem ChunkTasks.getTask_queued (H : StdHeap) (mm : MemMan) (flex : Bool)
    (asks : List PrepareCall) (ct : ChunkTasks) (h : ct._readyTask.isSome = true) :
    (ct.getTask H mm flex asks).thrown = false ∧
    (ct.getTask H mm flex asks).ct.queued + 1 = ct.queued ∧
    (ct.getTask H mm flex asks).task = ct._readyTask := by
  have hr : ct.ready H mm flex asks = ⟨ct, asks, some .READY⟩ := by
    simp [ChunkTasks.ready, h]
  unfold ChunkTasks.getTask
  rw [hr]
  cases ht : ct._readyTask with
  | none => simp [ht] at h
  | some t => simp [ChunkTasks.queued, ht]

theorem ChunkTasks.taskComplete_queued (ct : ChunkTasks) (task : Task) :
    (ct.taskComplete task).queued = ct.queued ∧
    (ct.taskComplete task)._readyTask = ct._readyTask := by
  simp [ChunkTasks.taskComplete, ChunkTasks.queued]

/-! ### The operations of the queue keep the count -/

theorem ChunkMap.sumQueued_set_eq (m : ChunkMap) (k : Int) (c ct : ChunkTasks)
    (h : m.find k = some c) (hq : ct.queued = c.queued) :
    (m.set k ct).sumQueued = m.sumQueued := by
  have := ChunkMap.sumQueued_set m k c ct h
  omega

theorem ReadyChunkOk.set (m : ChunkMap) (rc : Option Int) (k : Int) (c ct : ChunkTasks)
    (h : ReadyChunkOk m rc) (hf : m.find k = some c)
    (hs : c._readyTask.isSome = true → ct._readyTask.isSome = true) :
    ReadyChunkOk (m.set k ct) rc := by
  intro k1 hk1
  obtain ⟨c1, hc1, hs1⟩ := h k1 hk1
  by_cases e : k1 = k
  · subst e
    rw [hf] at hc1
    cases hc1
    exact ⟨ct, ChunkMap.find_set_self m k1 c ct hf, hs hs1⟩
  · exact ⟨c1, by rw [ChunkMap.find_set_ne m k k1 ct e]; exact hc1, hs1⟩

theorem ReadyChunkOk.none (m : ChunkMap) : ReadyChunkOk m none := by
  intro k hk
  cases hk

theorem scanLoop_countInv (H : StdHeap) (mm : MemMan) (sched : Option SchedulerPolicy)
    (flex : Bool) (fuel : Nat) : ∀ (q : ChunkTasksQueue) (asks : List PrepareCall) (iter : Int)
    (st : ReadyState), q._taskCount = (q._chunkMap.sumQueued : Int) → q._readyChunk = none →
    (st = .READY → ∃ ct, q._chunkMap.find iter = some ct ∧ ct._readyTask.isSome = true) →
    CountInv (ChunkTasksQueue.scanLoop H mm sched flex fuel q asks iter st).q := by
  induction fuel with
  | zero =>
    intro q asks iter st hc hr _
    show CountInv q
    exact ⟨hc, by rw [hr]; exact ReadyChunkOk.none _⟩
  | succ fuel ih =>
    intro q asks iter st hc hr hst
    have base : CountInv q := ⟨hc, by rw [hr]; exact ReadyChunkOk.none _⟩
    unfold ChunkTasksQueue.scanLoop
    split
    · simp only []
      split
      · exact base
      · split
        · exact base
        · rename_i k _
          split
          · exact base
          · rename_i ct hfind
            split
            · exact base
            · have hq := ChunkTasks.ready_queued H mm flex asks ct
              have hsum := ChunkMap.sumQueued_set_eq q._chunkMap k ct _ hfind hq
              split
              · exact ⟨by simpa [hsum] using hc, by
                  show ReadyChunkOk _ q._readyChunk
                  rw [hr]
                  exact ReadyChunkOk.none _⟩
              · rename_i st1 hst1
                apply ih
                · simpa [hsum] using hc
                · exact hr
                · intro hst2
                  subst hst2
                  exact ⟨_, ChunkMap.find_set_self _ k ct _ hfind,
                    (ChunkTasks.ready_slot H mm flex asks ct).1 hst1⟩
    · rename_i hne
      split
      · exact base
      · have hst1 : st = .READY := by
          cases st <;> simp_all
        obtain ⟨ct, hct, hs⟩ := hst hst1
        refine ⟨hc, ?_⟩
        intro k hk
        simp only [Option.some.injEq] at hk
        subst hk
        exact ⟨ct, hct, hs⟩

theorem readyScan_countInv (H : StdHeap) (mm : MemMan) (sched : Option SchedulerPolicy)
    (flex : Bool) (q : ChunkTasksQueue) (asks : List PrepareCall)
    (hc : q._taskCount = (q._chunkMap.sumQueued : Int)) (hr : q._readyChunk = none) :
    CountInv (q.readyScan H mm sched flex asks).q := by
  have base : CountInv q := ⟨hc, by rw [hr]; exact ReadyChunkOk.none _⟩
  unfold ChunkTasksQueue.readyScan
  split
  · exact base
  · rename_i k _
    split
    · exact base
    · rename_i ct hfind
      have hq := ChunkTasks.ready_queued H mm flex asks ct
      have hsum := ChunkMap.sumQueued_set_eq q._chunkMap k ct _ hfind hq
      simp only []
      split
      · exact ⟨by simpa [hsum] using hc, by
                  show ReadyChunkOk _ q._readyChunk
                  rw [hr]
                  exact ReadyChunkOk.none _⟩
      · rename_i st1 hst1
        apply scanLoop_countInv
        · simpa [hsum] using hc
        · exact hr
        · intro hst2
          subst hst2
          exact ⟨_, ChunkMap.find_set_self _ k ct _ hfind,
            (ChunkTasks.ready_slot H mm flex asks ct).1 hst1⟩

theorem ChunkTasks.queued_eq_zero_of_empty (ct : ChunkTasks) (h1 : ct.empty = true)
    (h2 : ct._readyTask = none) : ct.queued = 0 := by
  unfold ChunkTasks.empty at h1
  simp only [Bool.and_eq_true, List.isEmpty_iff] at h1
  simp [ChunkTasks.queued, h1.1, h1.2, h2]

theorem readyAdvance_countInv (H : StdHeap) (mm : MemMan) (sched : Option SchedulerPolicy)
    (flex : Bool) (q : ChunkTasksQueue) (asks : List PrepareCall) (k : Int) (ct : ChunkTasks)
    (hc : q._taskCount = (q._chunkMap.sumQueued : Int)) (hr : q._readyChunk = none)
    (hfind : q._chunkMap.find k = some ct) (hslot : ct._readyTask = none) :
    CountInv (q.readyAdvance H mm sched flex asks k ct).q := by
  unfold ChunkTasksQueue.readyAdvance
  split
  · have hq1 := ChunkTasks.setActive_queued H ct false
    have hsum1 := ChunkMap.sumQueued_set_eq q._chunkMap k ct _ hfind hq1.1
    have hfind1 := ChunkMap.find_set_self q._chunkMap k ct (ct.setActive H false) hfind
    have hsum2 : (if (ct.setActive H false).empty = true
        then (q._chunkMap.set k (ct.setActive H false)).erase k
        else q._chunkMap.set k (ct.setActive H false)).sumQueued = q._chunkMap.sumQueued := by
      split
      · rename_i he
        have h0 := ChunkTasks.queued_eq_zero_of_empty _ he (by rw [hq1.2]; exact hslot)
        have := ChunkMap.sumQueued_erase _ k _ hfind1
        omega
      · exact hsum1
    simp only []
    split
    · exact ⟨by simpa [hsum2] using hc, by
        show ReadyChunkOk _ q._readyChunk
        rw [hr]
        exact ReadyChunkOk.none _⟩
    · rename_i n _
      split
      · exact ⟨by simpa [hsum2] using hc, by
          show ReadyChunkOk _ q._readyChunk
          rw [hr]
          exact ReadyChunkOk.none _⟩
      · rename_i cn hcn
        apply readyScan_countInv
        · have hq3 : ((cn.movePendingToActive H).setActive H true).queued = cn.queued := by
            rw [(ChunkTasks.setActive_queued H _ true).1,
              (ChunkTasks.movePendingToActive_queued H cn).1]
          have hsum3 := ChunkMap.sumQueued_set_eq _ n cn _ hcn hq3
          simpa [hsum3, hsum2] using hc
        · exact hr
  · exact readyScan_countInv H mm sched flex q asks hc hr

theorem _ready_countInv (H : StdHeap) (mm : MemMan) (sched : Option SchedulerPolicy)
    (flex : Bool) (q : ChunkTasksQueue) (asks : List PrepareCall) (h : CountInv q) :
    CountInv (q._ready H mm sched flex asks).q := by
  unfold ChunkTasksQueue._ready
  split
  · exact h
  · rename_i hrc
    have hr : q._readyChunk = none := by simpa using hrc
    split
    · exact h
    · -- the state after `_activeChunk` was made valid
      have h1 : ∀ q1 : ChunkTasksQueue, q1._taskCount = q._taskCount →
          q1._chunkMap.sumQueued = q._chunkMap.sumQueued → q1._readyChunk = none →
          CountInv (match q1._activeChunk with
            | none => (⟨q1, asks, .invalidIterator⟩ : ReadyOut)
            | some k =>
              match q1._chunkMap.find k with
              | none => ⟨q1, asks, .invalidIterator⟩
              | some ct =>
                let r := ct.ready H mm flex asks
                let q2 := { q1 with _chunkMap := q1._chunkMap.set k r.ct }
                match r.state with
                | none => ⟨q2, r.asks, .thrown⟩
                | some .READY => ⟨{ q2 with _readyChunk := some k }, r.asks, .value true⟩
                | some _ => q2.readyAdvance H mm sched flex r.asks k r.ct).q := by
        intro q1 e1 e2 e3
        have hc1 : q1._taskCount = (q1._chunkMap.sumQueued : Int) := by rw [e1, e2]; exact h.1
        have base : CountInv q1 := ⟨hc1, by rw [e3]; exact ReadyChunkOk.none _⟩
        split
        · exact base
        · rename_i k _
          split
          · exact base
          · rename_i ct hfind
            have hq := ChunkTasks.ready_queued H mm flex asks ct
            have hsum := ChunkMap.sumQueued_set_eq q1._chunkMap k ct _ hfind hq
            have hself := ChunkMap.find_set_self q1._chunkMap k ct (ct.ready H mm flex asks).ct hfind
            simp only []
            split
            · exact ⟨by simpa [hsum] using hc1, by
                show ReadyChunkOk _ q1._readyChunk
                rw [e3]
                exact ReadyChunkOk.none _⟩
            · rename_i hst
              refine ⟨by simpa [hsum] using hc1, ?_⟩
              intro k1 hk1
              simp only [Option.some.injEq] at hk1
              subst hk1
              exact ⟨_, hself, (ChunkTasks.ready_slot H mm flex asks ct).1 hst⟩
            · rename_i st hne hst
              apply readyAdvance_countInv
              · simpa [hsum] using hc1
              · exact e3
              · exact hself
              · apply (ChunkTasks.ready_slot H mm flex asks ct).2
                rw [hst]
                intro e
                cases e
                exact hne rfl
      apply h1
      · split
        · rfl
        · split
          · rfl
          · split <;> rfl
      · split
        · rfl
        · split
          · rfl
          · split
            · rfl
            · rename_i b hb _ cb hcb
              exact ChunkMap.sumQueued_set_eq _ b cb _ hcb (ChunkTasks.setActive_queued H cb true).1
      · split
        · exact hr
        · split
          · exact hr
          · split <;> exact hr

theorem getTask_countInv (H : StdHeap) (mm : MemMan) (sched : Option SchedulerPolicy)
    (flex : Bool) (q : ChunkTasksQueue) (h : CountInv q) :
    CountInv (q.getTask H mm sched flex).q := by
  have hr := _ready_countInv H mm sched flex q [] h
  unfold ChunkTasksQueue.getTask
  simp only []
  split
  · split
    · exact hr
    · rename_i k hk
      obtain ⟨ct, hct, hs⟩ := hr.2 k hk
      rw [hct]
      simp only []
      have hg := ChunkTasks.getTask_queued H mm flex (q._ready H mm sched flex []).asks ct hs
      rw [if_neg (by simp [hg.1])]
      have hsum := ChunkMap.sumQueued_set _ k ct
        (ct.getTask H mm flex (q._ready H mm sched flex []).asks).ct hct
      refine ⟨?_, ReadyChunkOk.none _⟩
      have h1 := hr.1
      dsimp only
      rw [h1]
      omega
  · exact hr

theorem queueTask_countInv (H : StdHeap) (now : Nat) (q : ChunkTasksQueue) (task : Task)
    (h : CountInv q) : CountInv (q.queueTask H now task) := by
  unfold ChunkTasksQueue.queueTask
  simp only []
  cases hf : q._chunkMap.find task.chunkId with
  | some ct =>
    simp only [hf]
    have hq := ChunkTasks.queTask_queued H now ct task
    have hsum := ChunkMap.sumQueued_set _ task.chunkId ct (ct.queTask H now task) hf
    refine ⟨?_, ?_⟩
    · dsimp only
      rw [h.1]
      omega
    · exact ReadyChunkOk.set _ _ _ ct _ h.2 hf (by rw [hq.2]; exact id)
  | none =>
    simp only []
    have hself := ChunkMap.find_insert_self q._chunkMap task.chunkId
      (ChunkTasks.new task.chunkId) hf
    rw [hself]
    simp only []
    have hins := ChunkMap.sumQueued_insert q._chunkMap task.chunkId
      (ChunkTasks.new task.chunkId) hf
    have hq := ChunkTasks.queTask_queued H now (ChunkTasks.new task.chunkId) task
    have hsum := ChunkMap.sumQueued_set _ task.chunkId (ChunkTasks.new task.chunkId)
      ((ChunkTasks.new task.chunkId).queTask H now task) hself
    refine ⟨?_, ?_⟩
    · dsimp only
      rw [h.1]
      have : (ChunkTasks.new task.chunkId).queued = 0 := rfl
      omega
    · apply ReadyChunkOk.set _ _ _ _ _ _ hself (by rw [hq.2]; exact id)
      intro k hk
      obtain ⟨c, hc, hs⟩ := h.2 k hk
      have hne : k ≠ task.chunkId := by
        intro e
        rw [e, hf] at hc
        cases hc
      exact ⟨c, by rw [ChunkMap.find_insert_ne _ _ _ _ hne]; exact hc, hs⟩

theorem taskComplete_countInv (q : ChunkTasksQueue) (task : Task) (h : CountInv q) :
    CountInv (q.taskComplete task) := by
  unfold ChunkTasksQueue.taskComplete
  split
  · exact h
  · rename_i ct hf
    have hq := ChunkTasks.taskComplete_queued ct task
    refine ⟨?_, ?_⟩
    · show q._taskCount = _
      rw [h.1]
      have := ChunkMap.sumQueued_set_eq _ task.chunkId ct (ct.taskComplete task) hf hq.1
      simp only [this]
    · exact ReadyChunkOk.set _ _ _ ct _ h.2 hf (by rw [hq.2]; exact id)

theorem removeTask_countInv (H : StdHeap) (q : ChunkTasksQueue) (task : Task)
    (h : CountInv q) : CountInv (q.removeTask H task).2 := by
  unfold ChunkTasksQueue.removeTask
  split
  · exact h
  · rename_i ct hf
    have hq := ChunkTasks.removeTask_queued H ct task
    have hsum := ChunkMap.sumQueued_set _ task.chunkId ct (ct.removeTask H task).2 hf
    have hro : ReadyChunkOk (q._chunkMap.set task.chunkId (ct.removeTask H task).2)
        q._readyChunk :=
      ReadyChunkOk.set _ _ _ ct _ h.2 hf (by rw [hq.1]; exact id)
    simp only []
    split
    · rename_i t ht
      rw [ht] at hq
      refine ⟨?_, hro⟩
      dsimp only
      rw [h.1]
      simp at hq
      omega
    · rename_i ht
      rw [ht] at hq
      refine ⟨?_, hro⟩
      dsimp only
      rw [h.1]
      simp at hq
      omega

/-- In every reachable state `_taskCount` is the number of queued tasks that
were neither handed out nor removed, and the ready chunk holds a ready task. -/
theorem reachable_countInv (H : StdHeap) (q : ChunkTasksQueue) (h : Reachable H q) :
    CountInv q := by
  induction h with
  | new => exact ⟨rfl, ReadyChunkOk.none _⟩
  | queueTask q now task _ ih => exact queueTask_countInv H now q task ih
  | ready q mm sched flex _ ih => exact _ready_countInv H mm sched flex q [] ih
  | getTask q mm sched flex _ ih => exact getTask_countInv H mm sched flex q ih
  | taskComplete q task _ ih => exact taskComplete_countInv q task ih
  | removeTask q task _ ih => exact removeTask_countInv H q task ih

end wsched

namespace ccontrol

/-! ### The cases of `flush` in state `RESULT_WAIT` -/

theorem sizeCheck_isMerge (h : MergingHandler) (bLen : Int) :
    ∀ e ∈ sizeCheck h bLen, e.isMerge = false := by
  intro e he
  unfold sizeCheck at he
  split at he
  · split at he
    · simp only [List.mem_singleton] at he
      subst he
      rfl
    · simp at he
  · simp at he

theorem flush_resultWait (P : Proto) (W : World) (h : MergingHandler) (r : WorkerResponse)
    (bLen : Int) (last : Bool) (hs : h._state = .RESULT_WAIT) (hr : h._response = some r) :
    h.flush P W bLen last = h.flushResult P W r last (sizeCheck h bLen) := by
  unfold MergingHandler.flush
  simp only [hs, hr]

theorem flushResult_md5_mismatch (P : Proto) (W : World) (h : MergingHandler)
    (r : WorkerResponse) (last : Bool) (ev : List Event)
    (hm : r.protoHeader.md5 ≠ P.getMd5 h._buffer) :
    h.flushResult P W r last ev =
      ⟨{ h with _error := ⟨P.MSG_RESULT_MD5, "Result message MD5 mismatch"⟩,
                _state := .RESULT_ERR },
        last, .returned false, ev ++ [.verifyMd5 false]⟩ := by
  simp [MergingHandler.flushResult, MergingHandler._verifyResult, hm,
    MergingHandler._setError]

theorem flushResult_decode_error (P : Proto) (W : World) (h : MergingHandler)
    (r : WorkerResponse) (last : Bool) (ev : List Event)
    (hm : r.protoHeader.md5 = P.getMd5 h._buffer)
    (hd : (P.setMsgFrom r.result h._buffer).1 = false) :
    h.flushResult P W r last ev =
      ⟨{ h with _response := some { r with result := (P.setMsgFrom r.result h._buffer).2 },
                _error := ⟨P.MSG_RESULT_DECODE, "Error decoding result msg"⟩,
                _state := .RESULT_ERR },
        last, .returned false, ev ++ [.verifyMd5 true, .decodeBody false]⟩ := by
  simp [MergingHandler.flushResult, MergingHandler._verifyResult, hm,
    MergingHandler._setResult, hd, MergingHandler._setError]

theorem flushResult_merge_step (P : Proto) (W : World) (h : MergingHandler)
    (r : WorkerResponse) (last : Bool) (ev : List Event)
    (hm : r.protoHeader.md5 = P.getMd5 h._buffer)
    (hd : (P.setMsgFrom r.result h._buffer).1 = true) :
    h.flushResult P W r last ev =
      (let r1 : WorkerResponse := { r with result := (P.setMsgFrom r.result h._buffer).2 }
       let msgContinues := (P.setMsgFrom r.result h._buffer).2.continues
       let last1 := if msgContinues then last else true
       let m := (h.beforeMerge P r)._merge P W r1
       match m.success with
       | none => ⟨m.h, last1, .thrownBug, ev ++ [.verifyMd5 true, .decodeBody true] ++ m.events⟩
       | some success =>
         ⟨if msgContinues then { m.h with _response := some P.newWorkerResponse } else m.h,
           last1, .returned success, ev ++ [.verifyMd5 true, .decodeBody true] ++ m.events⟩) := by
  by_cases hc : (P.setMsgFrom r.result h._buffer).2.continues = true <;>
    simp [MergingHandler.flushResult, MergingHandler._verifyResult, hm,
      MergingHandler._setResult, hd, MergingHandler.beforeMerge, hc]

theorem _merge_no_job (P : Proto) (W : World) (h : MergingHandler) (r : WorkerResponse)
    (hj : W.jobQuery = none) : h._merge P W r = ⟨h, some false, []⟩ := by
  simp [MergingHandler._merge, hj]

theorem _merge_cancelled (P : Proto) (W : World) (h : MergingHandler) (r : WorkerResponse)
    (job : JobQuery) (hj : W.jobQuery = some job) (hc : job.isCancelled = true) :
    h._merge P W r = ⟨h, some false, []⟩ := by
  simp [MergingHandler._merge, hj, hc]

theorem _merge_bug (P : Proto) (W : World) (h : MergingHandler) (r : WorkerResponse)
    (job : JobQuery) (hj : W.jobQuery = some job) (hc : job.isCancelled = false)
    (hf : h._flushed = true) : h._merge P W r = ⟨h, none, []⟩ := by
  simp [MergingHandler._merge, hj, hc, hf]

theorem _merge_called (P : Proto) (W : World) (h : MergingHandler) (r : WorkerResponse)
    (job : JobQuery) (hj : W.jobQuery = some job) (hc : job.isCancelled = false)
    (hf : h._flushed = false) :
    h._merge P W r =
      ⟨{ (if W.merge r = true then h
          else { h with _error := ⟨P.MSG_RESULT_ERROR, W.mergerErrorMsg⟩,
                        _state := .RESULT_ERR }) with _response := none },
        some (W.merge r), [.merge r (W.merge r)]⟩ := by
  by_cases hm : W.merge r = true <;>
    simp [MergingHandler._merge, hj, hc, hf, hm, MergingHandler._setError]

theorem beforeMerge_flushed (P : Proto) (h : MergingHandler) (r : WorkerResponse) :
    (h.beforeMerge P r)._flushed = h._flushed := by
  unfold MergingHandler.beforeMerge
  split <;> rfl

theorem beforeMerge_error (P : Proto) (h : MergingHandler) (r : WorkerResponse) :
    (h.beforeMerge P r)._error = h._error := by
  unfold MergingHandler.beforeMerge
  split <;> rfl

end ccontrol

/-! ## The claims -/

namespace wsched

/-- C1, as stated, fails: after `queueTask` of one task and `getTask`, which is
a reachable state, `_taskCount` is 0 while the chunk map holds one task (the
task handed out is in the in-flight set of its chunk), so the sum over active
heap, pending list and in-flight set is 1. -/
theorem taskCount_sumHeldWithInFlight_counterexample :
    Reachable plainHeap
      ((ChunkTasksQueue.new.queueTask plainHeap 0 sampleTask).getTask
        plainHeap grantingMemMan none false).q ∧
    ((ChunkTasksQueue.new.queueTask plainHeap 0 sampleTask).getTask
        plainHeap grantingMemMan none false).q._taskCount = 0 ∧
    ((ChunkTasksQueue.new.queueTask plainHeap 0 sampleTask).getTask
        plainHeap grantingMemMan none false).q._chunkMap.sumHeldWithInFlight = 1 :=
  ⟨Reachable.getTask _ _ _ _ (Reachable.queueTask _ _ _ Reachable.new), by decide, by decide⟩

/-- C1, amended: in every state of `ChunkTasksQueue` reachable from the empty
queue by `queueTask`, `ready`, `getTask`, `taskComplete` and `removeTask`,
`_taskCount` equals the sum, over all chunks in the chunk map, of the number of
tasks in the chunk's active heap plus its pending list plus one if the chunk
holds a task in its ready slot; tasks in flight are not counted. -/
theorem taskCount_eq_sumQueued (H : StdHeap) (q : ChunkTasksQueue) (h : Reachable H q) :
    q._taskCount = (q._chunkMap.sumQueued : Int) :=
  (reachable_countInv H q h).1

/-- Witness for `taskCount_eq_sumQueued`: the queue after one `queueTask` and one
`getTask`. -/
theorem taskCount_eq_sumQueued_witness :
    Reachable plainHeap
      ((ChunkTasksQueue.new.queueTask plainHeap 0 sampleTask).getTask
        plainHeap grantingMemMan none false).q ∧
    ((ChunkTasksQueue.new.queueTask plainHeap 0 sampleTask).getTask
        plainHeap grantingMemMan none false).q._taskCount =
      ((((ChunkTasksQueue.new.queueTask plainHeap 0 sampleTask).getTask
        plainHeap grantingMemMan none false).q._chunkMap.sumQueued : Nat) : Int) :=
  ⟨Reachable.getTask _ _ _ _ (Reachable.queueTask _ _ _ Reachable.new),
   taskCount_eq_sumQueued plainHeap _
     (Reachable.getTask _ _ _ _ (Reachable.queueTask _ _ _ Reachable.new))⟩

end wsched

namespace ccontrol

/-- C2, as stated, fails: the sample handler is in state `RESULT_WAIT`, the MD5
of its buffer equals the digest of its header, but the owning job is cancelled,
and `flush` does not call the merger. -/
theorem flush_merge_iff_md5_counterexample :
    sampleResultWait._state = .RESULT_WAIT ∧
    (∃ r, sampleResultWait._response = some r ∧
      r.protoHeader.md5 = sampleProto.getMd5 sampleResultWait._buffer) ∧
    ∀ e ∈ (sampleResultWait.flush sampleProto cancelledWorld 2 false).events,
      e.isMerge = false := by
  refine ⟨rfl, ⟨_, rfl, by decide⟩, by decide⟩

/-- C2, amended: for every flush call in state `RESULT_WAIT` with buffer bytes B
and header digest H, the comparison md5(B) == H is the first thing evaluated
(after the size check); the merger's merge is invoked during that flush if and
only if the comparison holds, the body decodes, the owning job exists and is not
cancelled and nothing was flushed before; and when it is invoked, it is invoked
once, on the decoded body, after the comparison and the decoding. -/
theorem flush_merge_iff_all_checks (P : Proto) (W : World) (h : MergingHandler)
    (r : WorkerResponse) (bLen : Int) (last : Bool)
    (hs : h._state = .RESULT_WAIT) (hr : h._response = some r) :
    (∃ rest, (h.flush P W bLen last).events =
        sizeCheck h bLen ++
          Event.verifyMd5 (decide (r.protoHeader.md5 = P.getMd5 h._buffer)) :: rest) ∧
    ((∃ e ∈ (h.flush P W bLen last).events, e.isMerge = true) ↔
      (r.protoHeader.md5 = P.getMd5 h._buffer ∧ (P.setMsgFrom r.result h._buffer).1 = true ∧
        W.jobQuery = some ⟨false⟩ ∧ h._flushed = false)) ∧
    ((r.protoHeader.md5 = P.getMd5 h._buffer ∧ (P.setMsgFrom r.result h._buffer).1 = true ∧
        W.jobQuery = some ⟨false⟩ ∧ h._flushed = false) →
      (h.flush P W bLen last).events =
        sizeCheck h bLen ++
          [.verifyMd5 true, .decodeBody true,
           .merge { r with result := (P.setMsgFrom r.result h._buffer).2 }
             (W.merge { r with result := (P.setMsgFrom r.result h._buffer).2 })]) := by
  have hsz := sizeCheck_isMerge h bLen
  rw [flush_resultWait P W h r bLen last hs hr]
  by_cases hm : r.protoHeader.md5 = P.getMd5 h._buffer
  swap
  · rw [flushResult_md5_mismatch P W h r last _ hm]
    refine ⟨⟨[], by simp [hm]⟩, ?_, fun hc => absurd hc.1 hm⟩
    constructor
    · rintro ⟨e, he, hme⟩
      simp only [List.mem_append, List.mem_singleton] at he
      rcases he with he | he
      · rw [hsz e he] at hme
        cases hme
      · subst he
        cases hme
    · intro hc
      exact absurd hc.1 hm
  by_cases hd : (P.setMsgFrom r.result h._buffer).1 = true
  swap
  · have hd0 : (P.setMsgFrom r.result h._buffer).1 = false := by simpa using hd
    rw [flushResult_decode_error P W h r last _ hm hd0]
    refine ⟨⟨[.decodeBody false], by simp [hm]⟩, ?_, fun hc => absurd hc.2.1 hd⟩
    constructor
    · rintro ⟨e, he, hme⟩
      simp only [List.mem_append, List.mem_cons, List.mem_singleton, List.not_mem_nil,
        or_false] at he
      rcases he with he | he | he
      · rw [hsz e he] at hme
        cases hme
      · subst he
        cases hme
      · subst he
        cases hme
    · intro hc
      exact absurd hc.2.1 hd
  rw [flushResult_merge_step P W h r last _ hm hd]
  dsimp only
  have hfl := beforeMerge_flushed P h r
  cases hj : W.jobQuery with
  | none =>
    rw [_merge_no_job P W _ _ hj]
    refine ⟨⟨[.decodeBody true], by simp [hm]⟩, ?_, fun hc => by simp at hc⟩
    constructor
    · rintro ⟨e, he, hme⟩
      simp only [List.append_nil, List.mem_append, List.mem_cons, List.mem_singleton,
        List.not_mem_nil, or_false] at he
      rcases he with he | he | he
      · rw [hsz e he] at hme
        cases hme
      · subst he
        cases hme
      · subst he
        cases hme
    · intro hc
      simp at hc
  | some job =>
    by_cases hc : job.isCancelled = true
    · rw [_merge_cancelled P W _ _ job hj hc]
      have hne : job ≠ ⟨false⟩ := by
        intro e
        rw [e] at hc
        cases hc
      refine ⟨⟨[.decodeBody true], by simp [hm]⟩, ?_, fun hx => by simp [hne] at hx⟩
      constructor
      · rintro ⟨e, he, hme⟩
        simp only [List.append_nil, List.mem_append, List.mem_cons, List.mem_singleton,
          List.not_mem_nil, or_false] at he
        rcases he with he | he | he
        · rw [hsz e he] at hme
          cases hme
        · subst he
          cases hme
        · subst he
          cases hme
      · intro hx
        simp [hne] at hx
    · have hc0 : job.isCancelled = false := by simpa using hc
      have hjob : job = ⟨false⟩ := by
        cases job
        simp at hc0
        simp [hc0]
      by_cases hf : h._flushed = true
      · rw [_merge_bug P W _ _ job hj hc0 (by rw [hfl]; exact hf)]
        refine ⟨⟨[.decodeBody true], by simp [hm]⟩, ?_, fun hx => by simp [hf] at hx⟩
        constructor
        · rintro ⟨e, he, hme⟩
          simp only [List.append_nil, List.mem_append, List.mem_cons, List.mem_singleton,
            List.not_mem_nil, or_false] at he
          rcases he with he | he | he
          · rw [hsz e he] at hme
            cases hme
          · subst he
            cases hme
          · subst he
            cases hme
        · intro hx
          simp [hf] at hx
      · have hf0 : h._flushed = false := by simpa using hf
        rw [_merge_called P W _ _ job hj hc0 (by rw [hfl]; exact hf0)]
        refine ⟨⟨_, by simp [hm]; rfl⟩, ?_, fun _ => by simp⟩
        constructor
        · intro _
          exact ⟨hm, hd, by rw [hjob], hf0⟩
        · intro _
          exact ⟨.merge { r with result := (P.setMsgFrom r.result h._buffer).2 }
            (W.merge { r with result := (P.setMsgFrom r.result h._buffer).2 }), by simp, rfl⟩

/-- Witness for `flush_merge_iff_all_checks`: the sample handler in state
`RESULT_WAIT`, with a live job. -/
theorem flush_merge_iff_all_checks_witness :
    sampleResultWait._state = .RESULT_WAIT ∧
    ∃ e ∈ (sampleResultWait.flush sampleProto goodWorld 2 false).events, e.isMerge = true :=
  ⟨rfl, (flush_merge_iff_all_checks sampleProto goodWorld sampleResultWait _ 2 false
    rfl rfl).2.1.mpr ⟨by decide, by decide, rfl, rfl⟩⟩

/-- C3: for every flush call in state `RESULT_WAIT` whose buffer's MD5 differs
from the md5 of the decoded header, flush returns false, the state becomes
`RESULT_ERR`, the recorded error has code `MSG_RESULT_MD5` and message "Result
message MD5 mismatch", the body is not decoded (the response is untouched and no
decoding happens) and the merger is not invoked. -/
theorem flush_md5_mismatch (P : Proto) (W : World) (h : MergingHandler) (r : WorkerResponse)
    (bLen : Int) (last : Bool) (hs : h._state = .RESULT_WAIT) (hr : h._response = some r)
    (hm : r.protoHeader.md5 ≠ P.getMd5 h._buffer) :
    (h.flush P W bLen last).ret = .returned false ∧
    (h.flush P W bLen last).h._state = .RESULT_ERR ∧
    (h.flush P W bLen last).h._error = ⟨P.MSG_RESULT_MD5, "Result message MD5 mismatch"⟩ ∧
    (h.flush P W bLen last).h._response = some r ∧
    (h.flush P W bLen last).events = sizeCheck h bLen ++ [.verifyMd5 false] ∧
    (∀ e ∈ (h.flush P W bLen last).events, e.isMerge = false ∧ ∀ ok, e ≠ .decodeBody ok) := by
  rw [flush_resultWait P W h r bLen last hs hr, flushResult_md5_mismatch P W h r last _ hm]
  refine ⟨rfl, rfl, rfl, hr, rfl, ?_⟩
  intro e he
  simp only [List.mem_append, List.mem_singleton] at he
  rcases he with he | he
  · refine ⟨sizeCheck_isMerge h bLen e he, ?_⟩
    intro ok hok
    subst hok
    unfold sizeCheck at he
    split at he
    · split at he <;> simp at he
    · simp at he
  · subst he
    exact ⟨rfl, fun ok hok => by cases hok⟩

/-- Witness for `flush_md5_mismatch`: the sample handler with a corrupted body. -/
theorem flush_md5_mismatch_witness :
    sampleCorrupted._state = .RESULT_WAIT ∧
    (sampleCorrupted.flush sampleProto goodWorld 2 false).ret = .returned false ∧
    (sampleCorrupted.flush sampleProto goodWorld 2 false).h._state = .RESULT_ERR :=
  ⟨rfl, (flush_md5_mismatch sampleProto goodWorld sampleCorrupted _ 2 false rfl rfl
      (by decide)).1,
    (flush_md5_mismatch sampleProto goodWorld sampleCorrupted _ 2 false rfl rfl
      (by decide)).2.1⟩

/-- C8: for every flush call in state `RESULT_WAIT` that reaches the merge step
(the MD5 matches and the body decodes) while the owning job is cancelled or no
longer exists, the merger's merge is not invoked (so nothing is written), flush
returns false, and the recorded error is the one recorded before the call. -/
theorem flush_job_cancelled (P : Proto) (W : World) (h : MergingHandler) (r : WorkerResponse)
    (bLen : Int) (last : Bool) (hs : h._state = .RESULT_WAIT) (hr : h._response = some r)
    (hm : r.protoHeader.md5 = P.getMd5 h._buffer)
    (hd : (P.setMsgFrom r.result h._buffer).1 = true)
    (hj : W.jobQuery = none ∨ W.jobQuery = some ⟨true⟩) :
    (∀ e ∈ (h.flush P W bLen last).events, e.isMerge = false) ∧
    (h.flush P W bLen last).ret = .returned false ∧
    (h.flush P W bLen last).h._error = h._error := by
  have hsz := sizeCheck_isMerge h bLen
  have hmerge : (h.beforeMerge P r)._merge P W
      { r with result := (P.setMsgFrom r.result h._buffer).2 } =
      ⟨h.beforeMerge P r, some false, []⟩ := by
    rcases hj with hj | hj
    · exact _merge_no_job P W _ _ hj
    · exact _merge_cancelled P W _ _ ⟨true⟩ hj rfl
  rw [flush_resultWait P W h r bLen last hs hr, flushResult_merge_step P W h r last _ hm hd]
  dsimp only
  rw [hmerge]
  refine ⟨?_, rfl, ?_⟩
  · intro e he
    simp only [List.append_nil, List.mem_append, List.mem_cons, List.mem_singleton,
      List.not_mem_nil, or_false] at he
    rcases he with he | he | he
    · exact hsz e he
    · subst he
      rfl
    · subst he
      rfl
  · have := beforeMerge_error P h r
    dsimp only
    split
    · exact this
    · exact this

/-- Witness for `flush_job_cancelled`: the sample handler, its job cancelled. -/
theorem flush_job_cancelled_witness :
    sampleResultWait._state = .RESULT_WAIT ∧
    (sampleResultWait.flush sampleProto cancelledWorld 2 false).ret = .returned false :=
  ⟨rfl, (flush_job_cancelled sampleProto cancelledWorld sampleResultWait _ 2 false rfl rfl
      (by decide) (by decide) (Or.inr rfl)).2.1⟩

theorem resize_length (buffer : List Nat) (n : Nat) : (resize buffer n).length = n := by
  simp only [resize, List.length_append, List.length_take, List.length_replicate]
  omega

theorem sizeCheck_fill (h : MergingHandler) (bytes : List Nat) :
    sizeCheck { h with _buffer := bytes } (bytes.length : Int) = [] := by
  have h0 : ¬ ((bytes.length : Int) < 0) := by omega
  simp [sizeCheck, h0]

theorem flushResult_merged (P : Proto) (W : World) (h : MergingHandler) (r : WorkerResponse)
    (last : Bool) (ev : List Event)
    (hm : r.protoHeader.md5 = P.getMd5 h._buffer)
    (hd : (P.setMsgFrom r.result h._buffer).1 = true)
    (hj : W.jobQuery = some ⟨false⟩) (hf : h._flushed = false)
    (hok : W.merge { r with result := (P.setMsgFrom r.result h._buffer).2 } = true) :
    h.flushResult P W r last ev =
      ⟨if (P.setMsgFrom r.result h._buffer).2.continues then
          { h with _response := some P.newWorkerResponse, _state := .RESULT_EXTRA,
                   _buffer := resize [] P.PROTO_HEADER_SIZE }
        else { h with _response := none, _state := .RESULT_RECV, _buffer := [] },
        if (P.setMsgFrom r.result h._buffer).2.continues then last else true,
        .returned true,
        ev ++ [.verifyMd5 true, .decodeBody true,
          .merge { r with result := (P.setMsgFrom r.result h._buffer).2 } true]⟩ := by
  rw [flushResult_merge_step P W h r last _ hm hd]
  dsimp only
  rw [_merge_called P W _ _ ⟨false⟩ hj rfl (by rw [beforeMerge_flushed]; exact hf), hok]
  by_cases hc : (P.setMsgFrom r.result h._buffer).2.continues = true <;>
    simp [hc, MergingHandler.beforeMerge]

/-- C4: for every flush call in state `RESULT_WAIT` where the MD5 matches, the
body decodes, the owning job exists and is not cancelled and the merger
succeeds, flush returns true and invokes the merger exactly once on that body;
if the decoded result has continues set, the state becomes `RESULT_EXTRA`, the
buffer is resized to `PROTO_HEADER_SIZE` and last is left as passed in; otherwise
the state becomes `RESULT_RECV`, the buffer is emptied and last is set to true.
Hence a two-frame stream (headers `hdrA`, `hdrB`, bodies `bodyA`, `bodyB`, the
first body continues, the second does not) drives a handler from
`HEADER_SIZE_WAIT` through `RESULT_WAIT`, `RESULT_EXTRA`, `RESULT_WAIT` to
`RESULT_RECV`, with two merger calls in wire order. -/
theorem flush_result_merged (P : Proto) :
    (∀ (W : World) (h : MergingHandler) (r : WorkerResponse) (bLen : Int) (last : Bool),
      h._state = .RESULT_WAIT → h._response = some r → h._flushed = false →
      r.protoHeader.md5 = P.getMd5 h._buffer →
      (P.setMsgFrom r.result h._buffer).1 = true →
      W.jobQuery = some ⟨false⟩ →
      W.merge { r with result := (P.setMsgFrom r.result h._buffer).2 } = true →
      (h.flush P W bLen last).ret = .returned true ∧
      (h.flush P W bLen last).events = sizeCheck h bLen ++
        [.verifyMd5 true, .decodeBody true,
          .merge { r with result := (P.setMsgFrom r.result h._buffer).2 } true] ∧
      ((P.setMsgFrom r.result h._buffer).2.continues = true →
        (h.flush P W bLen last).h._state = .RESULT_EXTRA ∧
        (h.flush P W bLen last).h._buffer.length = P.PROTO_HEADER_SIZE ∧
        (h.flush P W bLen last).last = last) ∧
      ((P.setMsgFrom r.result h._buffer).2.continues = false →
        (h.flush P W bLen last).h._state = .RESULT_RECV ∧
        (h.flush P W bLen last).h._buffer = [] ∧
        (h.flush P W bLen last).last = true)) ∧
    (∀ (W1 W2 W3 W4 : World) (h : MergingHandler) (r : WorkerResponse) (b0 : Nat)
      (hdrA bodyA hdrB bodyB : List Nat) (last : Bool),
      h._state = .HEADER_SIZE_WAIT → h._response = some r → h._flushed = false →
      (P.unwrap { r with headerSize := b0 % 256 } (b0 :: hdrA)).1 = true →
      (P.unwrap { r with headerSize := b0 % 256 } (b0 :: hdrA)).2.protoHeader.md5
        = P.getMd5 bodyA →
      (P.setMsgFrom (P.unwrap { r with headerSize := b0 % 256 } (b0 :: hdrA)).2.result
        bodyA).1 = true →
      (P.setMsgFrom (P.unwrap { r with headerSize := b0 % 256 } (b0 :: hdrA)).2.result
        bodyA).2.continues = true →
      W2.jobQuery = some ⟨false⟩ →
      W2.merge { (P.unwrap { r with headerSize := b0 % 256 } (b0 :: hdrA)).2 with
        result := (P.setMsgFrom
          (P.unwrap { r with headerSize := b0 % 256 } (b0 :: hdrA)).2.result bodyA).2 } = true →
      (P.unwrap P.newWorkerResponse hdrB).1 = true →
      (P.unwrap P.newWorkerResponse hdrB).2.protoHeader.md5 = P.getMd5 bodyB →
      (P.setMsgFrom (P.unwrap P.newWorkerResponse hdrB).2.result bodyB).1 = true →
      (P.setMsgFrom (P.unwrap P.newWorkerResponse hdrB).2.result bodyB).2.continues = false →
      W4.jobQuery = some ⟨false⟩ →
      W4.merge { (P.unwrap P.newWorkerResponse hdrB).2 with
        result := (P.setMsgFrom (P.unwrap P.newWorkerResponse hdrB).2.result bodyB).2 } = true →
      (h.receive P W1 (b0 :: hdrA) last).h._state = .RESULT_WAIT ∧
      ((h.receive P W1 (b0 :: hdrA) last).h.receive P W2 bodyA last).h._state = .RESULT_EXTRA ∧
      ((((h.receive P W1 (b0 :: hdrA) last).h.receive P W2 bodyA last).h.receive
        P W3 hdrB last).h._state = .RESULT_WAIT) ∧
      (((((h.receive P W1 (b0 :: hdrA) last).h.receive P W2 bodyA last).h.receive
        P W3 hdrB last).h.receive P W4 bodyB last).h._state = .RESULT_RECV) ∧
      (((((h.receive P W1 (b0 :: hdrA) last).h.receive P W2 bodyA last).h.receive
        P W3 hdrB last).h.receive P W4 bodyB last).last = true) ∧
      ((h.receive P W1 (b0 :: hdrA) last).events ++
        ((h.receive P W1 (b0 :: hdrA) last).h.receive P W2 bodyA last).events ++
        (((h.receive P W1 (b0 :: hdrA) last).h.receive P W2 bodyA last).h.receive
          P W3 hdrB last).events ++
        ((((h.receive P W1 (b0 :: hdrA) last).h.receive P W2 bodyA last).h.receive
          P W3 hdrB last).h.receive P W4 bodyB last).events).filter Event.isMerge =
        [.merge { (P.unwrap { r with headerSize := b0 % 256 } (b0 :: hdrA)).2 with
            result := (P.setMsgFrom
              (P.unwrap { r with headerSize := b0 % 256 } (b0 :: hdrA)).2.result bodyA).2 } true,
         .merge { (P.unwrap P.newWorkerResponse hdrB).2 with
            result := (P.setMsgFrom (P.unwrap P.newWorkerResponse hdrB).2.result bodyB).2 }
            true]) := by
  constructor
  · intro W h r bLen last hs hr hf hm hd hj hok
    rw [flush_resultWait P W h r bLen last hs hr,
      flushResult_merged P W h r last _ hm hd hj hf hok]
    refine ⟨rfl, rfl, ?_, ?_⟩
    · intro hc
      simp [hc, resize_length]
    · intro hc
      simp [hc]
  · intro W1 W2 W3 W4 h r b0 hdrA bodyA hdrB bodyB last hs hr hf hu1 hmA hdA hcA hj2 hok2
      hu3 hmB hdB hcB hj4 hok4
    -- first frame, header
    have p1 : (h.receive P W1 (b0 :: hdrA) last).h._state = .RESULT_WAIT ∧
        (h.receive P W1 (b0 :: hdrA) last).h._flushed = false ∧
        (h.receive P W1 (b0 :: hdrA) last).h._response =
          some (P.unwrap { r with headerSize := b0 % 256 } (b0 :: hdrA)).2 ∧
        (h.receive P W1 (b0 :: hdrA) last).events = [.unwrapHeader true] := by
      unfold MergingHandler.receive MergingHandler.flush
      rw [sizeCheck_fill]
      by_cases hw : h._wName = "~" <;>
        simp [hs, hr, MergingHandler.flushHeaderSizeWait, hu1, hw, hf]
    -- first frame, body
    have e2 : ∀ g : MergingHandler, g._state = .RESULT_WAIT → g._flushed = false →
        g._response = some (P.unwrap { r with headerSize := b0 % 256 } (b0 :: hdrA)).2 →
        (g.receive P W2 bodyA last).ret = .returned true ∧
        (g.receive P W2 bodyA last).last = last ∧
        (g.receive P W2 bodyA last).h._state = .RESULT_EXTRA ∧
        (g.receive P W2 bodyA last).h._flushed = false ∧
        (g.receive P W2 bodyA last).h._response = some P.newWorkerResponse ∧
        (g.receive P W2 bodyA last).events =
          [.verifyMd5 true, .decodeBody true,
            .merge { (P.unwrap { r with headerSize := b0 % 256 } (b0 :: hdrA)).2 with
              result := (P.setMsgFrom
                (P.unwrap { r with headerSize := b0 % 256 } (b0 :: hdrA)).2.result bodyA).2 }
              true] := by
      intro g gs gf gr
      unfold MergingHandler.receive
      rw [flush_resultWait P W2 { g with _buffer := bodyA } _ _ last gs gr,
        flushResult_merged P W2 { g with _buffer := bodyA } _ last _ hmA hdA hj2 gf hok2,
        sizeCheck_fill]
      simp [hcA, gf]
    -- second frame, header
    have e3 : ∀ g : MergingHandler, g._state = .RESULT_EXTRA → g._flushed = false →
        g._response = some P.newWorkerResponse →
        (g.receive P W3 hdrB last).last = last ∧
        (g.receive P W3 hdrB last).h._state = .RESULT_WAIT ∧
        (g.receive P W3 hdrB last).h._flushed = false ∧
        (g.receive P W3 hdrB last).h._response = some (P.unwrap P.newWorkerResponse hdrB).2 ∧
        (g.receive P W3 hdrB last).events = [.unwrapHeader true] := by
      intro g gs gf gr
      unfold MergingHandler.receive MergingHandler.flush
      rw [sizeCheck_fill]
      simp [gs, gr, MergingHandler.flushResultExtra, hu3, gf]
    -- second frame, body
    have e4 : ∀ g : MergingHandler, g._state = .RESULT_WAIT → g._flushed = false →
        g._response = some (P.unwrap P.newWorkerResponse hdrB).2 →
        (g.receive P W4 bodyB last).last = true ∧
        (g.receive P W4 bodyB last).h._state = .RESULT_RECV ∧
        (g.receive P W4 bodyB last).events =
          [.verifyMd5 true, .decodeBody true,
            .merge { (P.unwrap P.newWorkerResponse hdrB).2 with
              result := (P.setMsgFrom (P.unwrap P.newWorkerResponse hdrB).2.result bodyB).2 }
              true] := by
      intro g gs gf gr
      unfold MergingHandler.receive
      rw [flush_resultWait P W4 { g with _buffer := bodyB } _ _ last gs gr,
        flushResult_merged P W4 { g with _buffer := bodyB } _ last _ hmB hdB hj4 gf hok4,
        sizeCheck_fill]
      simp [hcB]
    generalize h.receive P W1 (b0 :: hdrA) last = o1 at p1 ⊢
    have s1 := e2 o1.h p1.1 p1.2.1 p1.2.2.1
    generalize o1.h.receive P W2 bodyA last = o2 at s1 ⊢
    have s2 := e3 o2.h s1.2.2.1 s1.2.2.2.1 s1.2.2.2.2.1
    generalize o2.h.receive P W3 hdrB last = o3 at s2 ⊢
    have s3 := e4 o3.h s2.2.1 s2.2.2.1 s2.2.2.2.1
    generalize o3.h.receive P W4 bodyB last = o4 at s3 ⊢
    refine ⟨p1.1, s1.2.2.1, s2.2.1, s3.2.1, s3.1, ?_⟩
    rw [p1.2.2.2, s1.2.2.2.2.2, s2.2.2.2.2, s3.2.2]
    simp [Event.isMerge]

/-- Witness for `flush_result_merged`: the sample handler receives its body, and
a constructed handler receives the stream `[3, 2, 8]`, `[1, 7]`, `[3, 2, 7]`,
`[0, 7]`. -/
theorem flush_result_merged_witness :
    (sampleResultWait.flush sampleProto goodWorld 2 false).ret = .returned true ∧
    (((((MergingHandler.new sampleProto "result_1").receive sampleProto goodWorld
      [3, 2, 8] false).h.receive sampleProto goodWorld [1, 7] false).h.receive
      sampleProto goodWorld [3, 2, 7] false).h.receive sampleProto goodWorld [0, 7]
      false).h._state = .RESULT_RECV :=
  ⟨((flush_result_merged sampleProto).1 goodWorld sampleResultWait _ 2 false rfl rfl rfl
      (by decide) (by decide) rfl (by decide)).1,
   ((flush_result_merged sampleProto).2 goodWorld goodWorld goodWorld goodWorld
      (MergingHandler.new sampleProto "result_1") sampleProto.newWorkerResponse 3
      [2, 8] [1, 7] [3, 2, 7] [0, 7] false rfl rfl rfl (by decide) (by decide) (by decide)
      (by decide) rfl (by decide) (by decide) (by decide) (by decide) (by decide) rfl
      (by decide)).2.2.2.1⟩

/-- The case `HEADER_SIZE_WAIT` of `flush` on a handler that holds a response and
a non-empty buffer: flush returns true if and only if unwrapping the header from
the buffer succeeds; on success the state becomes `RESULT_WAIT`,
the buffer is resized to exactly the decoded header's size field and the worker
name is taken from the header if none was recorded yet; on failure the state
becomes `HEADER_ERR`, the recorded error has code `MSG_RESULT_DECODE`, the buffer
is not resized and the merger is not invoked. -/
theorem flush_headerSizeWait (P : Proto) (W : World) (h : MergingHandler)
    (r : WorkerResponse) (b0 : Nat) (rest : List Nat) (bLen : Int) (last : Bool)
    (hs : h._state = .HEADER_SIZE_WAIT) (hr : h._response = some r)
    (hb : h._buffer = b0 :: rest) :
    ((h.flush P W bLen last).ret = .returned true ↔
      (P.unwrap { r with headerSize := b0 % 256 } h._buffer).1 = true) ∧
    ((P.unwrap { r with headerSize := b0 % 256 } h._buffer).1 = true →
      (h.flush P W bLen last).h._state = .RESULT_WAIT ∧
      (h.flush P W bLen last).h._buffer = resize h._buffer
        (P.unwrap { r with headerSize := b0 % 256 } h._buffer).2.protoHeader.size ∧
      (h.flush P W bLen last).h._buffer.length =
        (P.unwrap { r with headerSize := b0 % 256 } h._buffer).2.protoHeader.size ∧
      (h.flush P W bLen last).h._wName =
        (if h._wName = "~" then
          (P.unwrap { r with headerSize := b0 % 256 } h._buffer).2.protoHeader.wname
         else h._wName)) ∧
    ((P.unwrap { r with headerSize := b0 % 256 } h._buffer).1 = false →
      (h.flush P W bLen last).ret = .returned false ∧
      (h.flush P W bLen last).h._state = .HEADER_ERR ∧
      (h.flush P W bLen last).h._error.code = P.MSG_RESULT_DECODE ∧
      (h.flush P W bLen last).h._buffer = h._buffer ∧
      (∀ e ∈ (h.flush P W bLen last).events, e.isMerge = false)) := by
  have hsz := sizeCheck_isMerge h bLen
  have hfl : h.flush P W bLen last = h.flushHeaderSizeWait P r b0 last (sizeCheck h bLen) := by
    unfold MergingHandler.flush
    simp only [hs, hr, hb]
  rw [hfl]
  unfold MergingHandler.flushHeaderSizeWait
  by_cases hu : (P.unwrap { r with headerSize := b0 % 256 } h._buffer).1 = true
  · by_cases hw : h._wName = "~" <;> simp [hu, hw, resize_length]
  · have hu0 : (P.unwrap { r with headerSize := b0 % 256 } h._buffer).1 = false := by
      simpa using hu
    simp only [hu0]
    refine ⟨by simp, by simp, fun _ => ⟨by simp, by simp, by simp [MergingHandler._setError],
      by simp [MergingHandler._setError], ?_⟩⟩
    intro e he
    simp only [Bool.not_false, if_true, List.mem_append, List.mem_singleton] at he
    rcases he with he | he
    · exact hsz e he
    · subst he
      rfl

/-- C6: the states `RESULT_RECV`, `HEADER_ERR` and `RESULT_ERR` are absorbing: for
every flush call made in one of them, flush returns false, the state is
unchanged, the buffer is unchanged, last is unchanged, the merger is not
invoked, and the recorded error has code `MSG_RESULT_ERROR`. -/
theorem flush_terminal (P : Proto) (W : World) (h : MergingHandler) (bLen : Int) (last : Bool)
    (hs : h._state = .RESULT_RECV ∨ h._state = .HEADER_ERR ∨ h._state = .RESULT_ERR) :
    (h.flush P W bLen last).ret = .returned false ∧
    (h.flush P W bLen last).h._state = h._state ∧
    (h.flush P W bLen last).h._buffer = h._buffer ∧
    (h.flush P W bLen last).last = last ∧
    (∀ e ∈ (h.flush P W bLen last).events, e.isMerge = false) ∧
    (h.flush P W bLen last).h._error.code = P.MSG_RESULT_ERROR := by
  have hsz := sizeCheck_isMerge h bLen
  have hfl : h.flush P W bLen last =
      ⟨h._setError P.MSG_RESULT_ERROR (unexpectedMsg h last), last, .returned false,
        sizeCheck h bLen⟩ := by
    unfold MergingHandler.flush
    rcases hs with hs | hs | hs <;> simp only [hs]
  rw [hfl]
  exact ⟨rfl, rfl, rfl, rfl, hsz, rfl⟩

/-- Witness for `flush_terminal`: the sample handler after its last body. -/
theorem flush_terminal_witness :
    (sampleResultWait.flush sampleProto goodWorld 2 false).h._state = .RESULT_RECV ∧
    ((sampleResultWait.flush sampleProto goodWorld 2 false).h.flush
      sampleProto goodWorld 0 true).ret = .returned false :=
  ⟨by decide, (flush_terminal sampleProto goodWorld
      (sampleResultWait.flush sampleProto goodWorld 2 false).h 0 true
      (Or.inl (by decide))).1⟩

/-! ### The state after a call -/

theorem _merge_state (P : Proto) (W : World) (h : MergingHandler) (r : WorkerResponse) :
    (h._merge P W r).h._state = h._state ∨ (h._merge P W r).h._state = .RESULT_ERR := by
  unfold MergingHandler._merge
  cases W.jobQuery with
  | none => exact Or.inl rfl
  | some job =>
    by_cases hc : job.isCancelled = true
    · simp [hc]
    · by_cases hf : h._flushed = true
      · simp [hc, hf]
      · by_cases hm : W.merge r = true <;> simp [hc, hf, hm, MergingHandler._setError]

theorem beforeMerge_state (P : Proto) (h : MergingHandler) (r : WorkerResponse) :
    (h.beforeMerge P r)._state = .RESULT_EXTRA ∨ (h.beforeMerge P r)._state = .RESULT_RECV := by
  unfold MergingHandler.beforeMerge
  split
  · exact Or.inl rfl
  · exact Or.inr rfl

theorem flushResult_state (P : Proto) (W : World) (h : MergingHandler) (r : WorkerResponse)
    (last : Bool) (ev : List Event) :
    (h.flushResult P W r last ev).h._state = .RESULT_EXTRA ∨
    (h.flushResult P W r last ev).h._state = .RESULT_RECV ∨
    (h.flushResult P W r last ev).h._state = .RESULT_ERR := by
  by_cases hm : r.protoHeader.md5 = P.getMd5 h._buffer
  swap
  · rw [flushResult_md5_mismatch P W h r last ev hm]
    exact Or.inr (Or.inr rfl)
  by_cases hd : (P.setMsgFrom r.result h._buffer).1 = true
  swap
  · rw [flushResult_decode_error P W h r last ev hm (by simpa using hd)]
    exact Or.inr (Or.inr rfl)
  rw [flushResult_merge_step P W h r last ev hm hd]
  dsimp only
  have h1 := _merge_state P W (h.beforeMerge P r)
    { r with result := (P.setMsgFrom r.result h._buffer).2 }
  have h2 := beforeMerge_state P h r
  have h3 : ((h.beforeMerge P r)._merge P W
        { r with result := (P.setMsgFrom r.result h._buffer).2 }).h._state = .RESULT_EXTRA ∨
      ((h.beforeMerge P r)._merge P W
        { r with result := (P.setMsgFrom r.result h._buffer).2 }).h._state = .RESULT_RECV ∨
      ((h.beforeMerge P r)._merge P W
        { r with result := (P.setMsgFrom r.result h._buffer).2 }).h._state = .RESULT_ERR := by
    rcases h1 with h1 | h1
    · rw [h1]
      rcases h2 with h2 | h2
      · exact Or.inl h2
      · exact Or.inr (Or.inl h2)
    · exact Or.inr (Or.inr h1)
  split
  · exact h3
  · dsimp only
    split
    · exact h3
    · exact h3

theorem flushHeaderSizeWait_state (P : Proto) (h : MergingHandler) (r : WorkerResponse)
    (b0 : Nat) (last : Bool) (ev : List Event) :
    (h.flushHeaderSizeWait P r b0 last ev).h._state = .RESULT_WAIT ∨
    (h.flushHeaderSizeWait P r b0 last ev).h._state = .HEADER_ERR := by
  unfold MergingHandler.flushHeaderSizeWait
  dsimp only
  split
  · exact Or.inr rfl
  · exact Or.inl rfl

theorem flushResultExtra_state (P : Proto) (h : MergingHandler) (r : WorkerResponse)
    (last : Bool) (ev : List Event) :
    (h.flushResultExtra P r last ev).h._state = .RESULT_WAIT ∨
    (h.flushResultExtra P r last ev).h._state = .HEADER_ERR := by
  unfold MergingHandler.flushResultExtra
  dsimp only
  split
  · exact Or.inr rfl
  · exact Or.inl rfl

theorem flush_state_ne_INVALID (P : Proto) (W : World) (h : MergingHandler) (bLen : Int)
    (last : Bool) (hs : h._state ≠ .INVALID) : (h.flush P W bLen last).h._state ≠ .INVALID := by
  unfold MergingHandler.flush
  dsimp only
  split
  · split
    · rename_i r b0 _ _ _
      rcases flushHeaderSizeWait_state P h r b0 last (sizeCheck h bLen) with e | e <;>
        rw [e] <;> decide
    · exact hs
  · split
    · rename_i r _
      rcases flushResult_state P W h r last (sizeCheck h bLen) with e | e | e <;>
        rw [e] <;> decide
    · exact hs
  · split
    · rename_i r _
      rcases flushResultExtra_state P h r last (sizeCheck h bLen) with e | e <;>
        rw [e] <;> decide
    · exact hs
  · exact hs
  · exact hs
  · exact hs
  · exact hs

theorem reachable_state_ne_INVALID (P : Proto) (h : MergingHandler) (hr : Reachable P h) :
    h._state ≠ .INVALID := by
  induction hr with
  | new tableName =>
    intro e
    cases e
  | fill h bytes _ _ ih => exact ih
  | flush h W bLen last _ _ ih => exact flush_state_ne_INVALID P W h bLen last ih
  | reset h _ ih =>
    unfold MergingHandler.reset
    split
    · exact ih
    · simp [MergingHandler._initState, MergingHandler._setError]
  | errorFlush h msg code _ ih => exact ih

/-- The transitions of `flush` on a handler that holds a response (and a
non-empty buffer in state `HEADER_SIZE_WAIT`): a call made in a non-terminal
state performs exactly one transition of the receive state machine: from `HEADER_SIZE_WAIT` the state
after the call is `RESULT_WAIT` or `HEADER_ERR`; from `RESULT_WAIT` it is
`RESULT_EXTRA`, `RESULT_RECV` or `RESULT_ERR`; from `RESULT_EXTRA` it is
`RESULT_WAIT` or `HEADER_ERR`; in particular the state after the call differs
from the state before; and the state `INVALID` is never reached from a
constructed handler by any sequence of flush and reset calls (buffer fills and
errorFlush calls included). -/
theorem flush_one_transition (P : Proto) :
    (∀ (W : World) (h : MergingHandler) (r : WorkerResponse) (bLen : Int) (last : Bool),
      h._response = some r → (h._state = .HEADER_SIZE_WAIT → h._buffer ≠ []) →
      (h._state = .HEADER_SIZE_WAIT →
        (h.flush P W bLen last).h._state = .RESULT_WAIT ∨
        (h.flush P W bLen last).h._state = .HEADER_ERR) ∧
      (h._state = .RESULT_WAIT →
        (h.flush P W bLen last).h._state = .RESULT_EXTRA ∨
        (h.flush P W bLen last).h._state = .RESULT_RECV ∨
        (h.flush P W bLen last).h._state = .RESULT_ERR) ∧
      (h._state = .RESULT_EXTRA →
        (h.flush P W bLen last).h._state = .RESULT_WAIT ∨
        (h.flush P W bLen last).h._state = .HEADER_ERR) ∧
      (h._state = .HEADER_SIZE_WAIT ∨ h._state = .RESULT_WAIT ∨ h._state = .RESULT_EXTRA →
        (h.flush P W bLen last).h._state ≠ h._state ∧
        (h.flush P W bLen last).ret ≠ .undefinedBehaviour)) ∧
    (∀ h : MergingHandler, Reachable P h → h._state ≠ .INVALID) := by
  refine ⟨?_, reachable_state_ne_INVALID P⟩
  intro W h r bLen last hr hb
  have c1 : h._state = .HEADER_SIZE_WAIT →
      ((h.flush P W bLen last).h._state = .RESULT_WAIT ∨
        (h.flush P W bLen last).h._state = .HEADER_ERR) ∧
      (h.flush P W bLen last).ret ≠ .undefinedBehaviour := by
    intro hs
    cases hbuf : h._buffer with
    | nil => exact absurd hbuf (hb hs)
    | cons b0 rest =>
      have hfl : h.flush P W bLen last =
          h.flushHeaderSizeWait P r b0 last (sizeCheck h bLen) := by
        unfold MergingHandler.flush
        simp only [hs, hr, hbuf]
      rw [hfl]
      refine ⟨flushHeaderSizeWait_state P h r b0 last _, ?_⟩
      unfold MergingHandler.flushHeaderSizeWait
      dsimp only
      split <;> simp
  have c2 : h._state = .RESULT_WAIT →
      ((h.flush P W bLen last).h._state = .RESULT_EXTRA ∨
        (h.flush P W bLen last).h._state = .RESULT_RECV ∨
        (h.flush P W bLen last).h._state = .RESULT_ERR) ∧
      (h.flush P W bLen last).ret ≠ .undefinedBehaviour := by
    intro hs
    rw [flush_resultWait P W h r bLen last hs hr]
    refine ⟨flushResult_state P W h r last _, ?_⟩
    unfold MergingHandler.flushResult
    dsimp only
    split
    · simp
    · split
      · simp
      · split <;> simp
  have c3 : h._state = .RESULT_EXTRA →
      ((h.flush P W bLen last).h._state = .RESULT_WAIT ∨
        (h.flush P W bLen last).h._state = .HEADER_ERR) ∧
      (h.flush P W bLen last).ret ≠ .undefinedBehaviour := by
    intro hs
    have hfl : h.flush P W bLen last = h.flushResultExtra P r last (sizeCheck h bLen) := by
      unfold MergingHandler.flush
      simp only [hs, hr]
    rw [hfl]
    refine ⟨flushResultExtra_state P h r last _, ?_⟩
    unfold MergingHandler.flushResultExtra
    dsimp only
    split <;> simp
  refine ⟨fun hs => (c1 hs).1, fun hs => (c2 hs).1, fun hs => (c3 hs).1, ?_⟩
  rintro (hs | hs | hs)
  · refine ⟨?_, (c1 hs).2⟩
    rcases (c1 hs).1 with e | e <;> rw [e, hs] <;> decide
  · refine ⟨?_, (c2 hs).2⟩
    rcases (c2 hs).1 with e | e | e <;> rw [e, hs] <;> decide
  · refine ⟨?_, (c3 hs).2⟩
    rcases (c3 hs).1 with e | e <;> rw [e, hs] <;> decide

theorem sizeCheck_self (h : MergingHandler) : sizeCheck h (h._buffer.length : Int) = [] := by
  have h0 : ¬ ((h._buffer.length : Int) < 0) := by omega
  simp [sizeCheck, h0]

theorem flushResult_events (P : Proto) (W : World) (h : MergingHandler) (r : WorkerResponse)
    (last : Bool) (ev : List Event) :
    h.flushResult P W r last ev =
      { h.flushResult P W r last [] with events := ev ++ (h.flushResult P W r last []).events } := by
  unfold MergingHandler.flushResult
  dsimp only
  split
  · simp
  · split
    · simp
    · split <;> simp

/-- C7, the code at the failing input: a constructed handler receives the header
`[3, 2, 7]` and the body `[0, 7]`; the second flush returns true after the merger
accepted the body, and `reset` then returns true and puts the handler back into
`HEADER_SIZE_WAIT` with the error cleared, because `_flushed` is still false. -/
theorem reset_true_after_merge :
    (((MergingHandler.new sampleProto "result_1").receive sampleProto goodWorld
      [3, 2, 7] false).h.receive sampleProto goodWorld [0, 7] false).ret = .returned true ∧
    (((MergingHandler.new sampleProto "result_1").receive sampleProto goodWorld
      [3, 2, 7] false).h.receive sampleProto goodWorld [0, 7] false).events =
      [.verifyMd5 true, .decodeBody true,
        .merge ⟨3, ⟨2, [7], "worker1"⟩, ⟨false, [7]⟩⟩ true] ∧
    (((MergingHandler.new sampleProto "result_1").receive sampleProto goodWorld
      [3, 2, 7] false).h.receive sampleProto goodWorld [0, 7] false).h._flushed = false ∧
    ((((MergingHandler.new sampleProto "result_1").receive sampleProto goodWorld
      [3, 2, 7] false).h.receive sampleProto goodWorld [0, 7] false).h.reset sampleProto).1
      = true ∧
    ((((MergingHandler.new sampleProto "result_1").receive sampleProto goodWorld
      [3, 2, 7] false).h.receive sampleProto goodWorld [0, 7] false).h.reset sampleProto).2._state
      = .HEADER_SIZE_WAIT := by
  refine ⟨by decide, by decide, by decide, by decide, by decide⟩

/-- C10, as stated, fails: a constructed handler in state `HEADER_SIZE_WAIT` whose
buffer holds the header `[3, 2, 7]` is flushed with the negative length -1; flush
processes the header as usual (it returns true and goes to `RESULT_WAIT`) and
records no error. -/
theorem flush_size_mismatch_counterexample :
    ({ MergingHandler.new sampleProto "result_1" with _buffer := [3, 2, 7] }
      : MergingHandler)._state = .HEADER_SIZE_WAIT ∧
    (({ MergingHandler.new sampleProto "result_1" with _buffer := [3, 2, 7] }
      : MergingHandler).flush sampleProto goodWorld (-1) false).ret = .returned true ∧
    (({ MergingHandler.new sampleProto "result_1" with _buffer := [3, 2, 7] }
      : MergingHandler).flush sampleProto goodWorld (-1) false).h._state = .RESULT_WAIT ∧
    (({ MergingHandler.new sampleProto "result_1" with _buffer := [3, 2, 7] }
      : MergingHandler).flush sampleProto goodWorld (-1) false).h._error = ⟨0, ""⟩ := by
  refine ⟨rfl, by decide, by decide, by decide⟩

/-- C10, amended: for every flush call, whatever bLen is (negative, or different
from the current buffer size), the frame is processed exactly as with a matching
bLen, in every state: handler, `last` and return value are the same; the only
effect of a mismatch is a logged error, and none at all in state `RESULT_EXTRA`.
No size-mismatch error is recorded or raised. -/
theorem flush_size_mismatch_only_logged (P : Proto) (W : World) (h : MergingHandler)
    (bLen : Int) (last : Bool) :
    (h.flush P W bLen last).h = (h.flush P W h._buffer.length last).h ∧
    (h.flush P W bLen last).last = (h.flush P W h._buffer.length last).last ∧
    (h.flush P W bLen last).ret = (h.flush P W h._buffer.length last).ret ∧
    (h.flush P W bLen last).events =
      sizeCheck h bLen ++ (h.flush P W h._buffer.length last).events ∧
    (sizeCheck h bLen = [] ∨ sizeCheck h bLen = [.logSizeMismatch h._buffer.length bLen]) ∧
    (h._state = .RESULT_EXTRA → sizeCheck h bLen = []) := by
  have key : h.flush P W bLen last =
      { h.flush P W h._buffer.length last with
        events := sizeCheck h bLen ++ (h.flush P W h._buffer.length last).events } := by
    unfold MergingHandler.flush
    rw [sizeCheck_self]
    dsimp only
    split
    · split
      · simp [MergingHandler.flushHeaderSizeWait]
        split <;> simp
      · simp
    · split
      · rw [flushResult_events]
      · simp
    · split
      · simp [MergingHandler.flushResultExtra]
        split <;> simp
      · simp
    · simp
    · simp
    · simp
    · simp
  refine ⟨by rw [key], by rw [key], by rw [key], by rw [key], ?_, ?_⟩
  · unfold sizeCheck
    split
    · split
      · exact Or.inr rfl
      · exact Or.inl rfl
    · exact Or.inl rfl
  · intro hs
    simp [sizeCheck, hs]

/-! ### What every reachable handler satisfies -/

theorem _merge_flushed (P : Proto) (W : World) (h : MergingHandler) (r : WorkerResponse) :
    (h._merge P W r).h._flushed = h._flushed := by
  unfold MergingHandler._merge
  cases W.jobQuery with
  | none => rfl
  | some job =>
    by_cases hc : job.isCancelled = true
    · simp [hc]
    · by_cases hf : h._flushed = true
      · simp [hc, hf]
      · by_cases hm : W.merge r = true <;> simp [hc, hf, hm, MergingHandler._setError]

theorem flushResult_flushed (P : Proto) (W : World) (h : MergingHandler) (r : WorkerResponse)
    (last : Bool) (ev : List Event) :
    (h.flushResult P W r last ev).h._flushed = h._flushed := by
  by_cases hm : r.protoHeader.md5 = P.getMd5 h._buffer
  swap
  · rw [flushResult_md5_mismatch P W h r last ev hm]
  by_cases hd : (P.setMsgFrom r.result h._buffer).1 = true
  swap
  · rw [flushResult_decode_error P W h r last ev hm (by simpa using hd)]
  rw [flushResult_merge_step P W h r last ev hm hd]
  dsimp only
  have h1 := _merge_flushed P W (h.beforeMerge P r)
    { r with result := (P.setMsgFrom r.result h._buffer).2 }
  rw [beforeMerge_flushed] at h1
  split
  · exact h1
  · dsimp only
    split
    · exact h1
    · exact h1

/-- No call of `flush` changes `_flushed`. -/
theorem flush_flushed (P : Proto) (W : World) (h : MergingHandler) (bLen : Int) (last : Bool) :
    (h.flush P W bLen last).h._flushed = h._flushed := by
  unfold MergingHandler.flush
  dsimp only
  split
  · split
    · unfold MergingHandler.flushHeaderSizeWait
      dsimp only
      split
      · rfl
      · split <;> rfl
    · rfl
  · split
    · exact flushResult_flushed P W h _ last _
    · rfl
  · split
    · unfold MergingHandler.flushResultExtra
      dsimp only
      split <;> rfl
    · rfl
  · rfl
  · rfl
  · rfl
  · rfl

theorem flushResult_response (P : Proto) (W : World) (h : MergingHandler) (r : WorkerResponse)
    (last : Bool) (ev : List Event) (hf : h._flushed = false)
    (hs : (h.flushResult P W r last ev).h._state = .RESULT_EXTRA) :
    (h.flushResult P W r last ev).h._response ≠ none := by
  by_cases hm : r.protoHeader.md5 = P.getMd5 h._buffer
  swap
  · rw [flushResult_md5_mismatch P W h r last ev hm] at hs
    cases hs
  by_cases hd : (P.setMsgFrom r.result h._buffer).1 = true
  swap
  · rw [flushResult_decode_error P W h r last ev hm (by simpa using hd)] at hs
    cases hs
  rw [flushResult_merge_step P W h r last ev hm hd] at hs ⊢
  dsimp only at hs ⊢
  have hne : ((h.beforeMerge P r)._merge P W
      { r with result := (P.setMsgFrom r.result h._buffer).2 }).success ≠ none := by
    unfold MergingHandler._merge
    rw [beforeMerge_flushed, hf]
    cases W.jobQuery with
    | none => simp
    | some job => by_cases hc : job.isCancelled = true <;> simp [hc]
  split at hs
  · rename_i hnone
    exact absurd hnone hne
  · rename_i success hsome
    dsimp only at hs ⊢
    by_cases hc : (P.setMsgFrom r.result h._buffer).2.continues = true
    · simp [hc]
    · exfalso
      simp only [hc] at hs
      have h1 := _merge_state P W (h.beforeMerge P r)
        { r with result := (P.setMsgFrom r.result h._buffer).2 }
      have h2 : (h.beforeMerge P r)._state = .RESULT_RECV := by
        simp [MergingHandler.beforeMerge, hc]
      rw [h2] at h1
      simp only [Bool.false_eq_true, if_false] at hs
      rcases h1 with h1 | h1 <;> rw [h1] at hs <;> cases hs

/-- In every reachable handler nothing was ever marked as flushed, and a handler
waiting for a body or a continuation header holds a response. -/
theorem reachable_flushed_response (P : Proto) (h : MergingHandler) (hr : Reachable P h) :
    h._flushed = false ∧
    (h._state = .RESULT_WAIT ∨ h._state = .RESULT_EXTRA → h._response ≠ none) := by
  induction hr with
  | new tableName =>
    refine ⟨rfl, ?_⟩
    rintro (e | e) <;> cases e
  | fill h bytes _ _ ih => exact ih
  | reset h _ ih =>
    unfold MergingHandler.reset
    rw [ih.1]
    refine ⟨ih.1, ?_⟩
    rintro (e | e) <;> cases e
  | errorFlush h msg code _ ih => exact ih
  | flush h W bLen last _ hub ih =>
    refine ⟨by rw [flush_flushed]; exact ih.1, ?_⟩
    revert hub
    unfold MergingHandler.flush
    dsimp only
    split
    · split
      · intro _
        unfold MergingHandler.flushHeaderSizeWait
        dsimp only
        split
        · rintro (e | e) <;> cases e
        · split <;> simp
      · intro hub
        exact absurd rfl hub
    · split
      · rename_i r _
        intro _ hs
        have hst := flushResult_state P W h r last (sizeCheck h bLen)
        rcases hs with hs | hs
        · rcases hst with e | e | e <;> rw [e] at hs <;> cases hs
        · exact flushResult_response P W h r last _ ih.1 hs
      · intro hub
        exact absurd rfl hub
    · split
      · intro _
        unfold MergingHandler.flushResultExtra
        dsimp only
        split
        · rintro (e | e) <;> cases e
        · simp
      · intro hub
        exact absurd rfl hub
    · rename_i hs
      intro _ hs1
      simp [MergingHandler._setError, hs] at hs1
    · rename_i hs
      intro _ hs1
      simp [MergingHandler._setError, hs] at hs1
    · rename_i hs
      intro _ hs1
      simp [MergingHandler._setError, hs] at hs1
    · rename_i hs
      intro _ hs1
      simp [MergingHandler._setError, hs] at hs1

end ccontrol

namespace ccontrol

/-- C11, as stated, fails: on the same response container and the same buffer
`[0, 2, 7]`, whose header does not decode, a flush in `HEADER_SIZE_WAIT` records
the message "From:~Error decoding proto header for HEADER_SIZE_WAIT" and a flush
in `RESULT_EXTRA` records "Error decoding proto header for RESULT_EXTRA". -/
theorem flush_resultExtra_error_counterexample :
    (({ MergingHandler.new sampleProto "result_1" with _buffer := [0, 2, 7] }
      : MergingHandler).flush sampleProto goodWorld 3 false).h._error =
      ⟨1, "From:~Error decoding proto header for HEADER_SIZE_WAIT"⟩ ∧
    (({ MergingHandler.new sampleProto "result_1" with
        _buffer := [0, 2, 7], _state := .RESULT_EXTRA }
      : MergingHandler).flush sampleProto goodWorld 3 false).h._error =
      ⟨1, "Error decoding proto header for RESULT_EXTRA"⟩ := by
  refine ⟨by decide, by decide⟩

/-- C11, amended: a flush in `RESULT_EXTRA` and a flush in `HEADER_SIZE_WAIT` on
the same buffer and the same response container produce the same return value,
the same successor state (`RESULT_WAIT` or `HEADER_ERR`), the same resulting
buffer and the same error code, whenever the decoder gives the same verdict and
the same size field for the container as it is and for the container with the
header-size byte of `buffer[0]` stored in it (only `HEADER_SIZE_WAIT` stores that
byte before decoding). On success the recorded error is the same (unchanged); on
failure the messages differ. Only `HEADER_SIZE_WAIT` can change the worker
name. -/
theorem flush_resultExtra_as_headerSizeWait (P : Proto) (W : World) (h : MergingHandler)
    (r : WorkerResponse) (b0 : Nat) (rest : List Nat) (bLen : Int) (last : Bool)
    (hr : h._response = some r) (hb : h._buffer = b0 :: rest)
    (hu1 : (P.unwrap { r with headerSize := b0 % 256 } h._buffer).1 = (P.unwrap r h._buffer).1)
    (hu2 : (P.unwrap { r with headerSize := b0 % 256 } h._buffer).2.protoHeader.size
      = (P.unwrap r h._buffer).2.protoHeader.size) :
    (({ h with _state := .HEADER_SIZE_WAIT } : MergingHandler).flush P W bLen last).ret =
      (({ h with _state := .RESULT_EXTRA } : MergingHandler).flush P W bLen last).ret ∧
    (({ h with _state := .HEADER_SIZE_WAIT } : MergingHandler).flush P W bLen last).h._state =
      (({ h with _state := .RESULT_EXTRA } : MergingHandler).flush P W bLen last).h._state ∧
    (({ h with _state := .HEADER_SIZE_WAIT } : MergingHandler).flush P W bLen last).h._buffer =
      (({ h with _state := .RESULT_EXTRA } : MergingHandler).flush P W bLen last).h._buffer ∧
    (({ h with _state := .HEADER_SIZE_WAIT } : MergingHandler).flush P W bLen last).h._error.code
      = (({ h with _state := .RESULT_EXTRA } : MergingHandler).flush P W bLen last).h._error.code ∧
    (({ h with _state := .HEADER_SIZE_WAIT } : MergingHandler).flush P W bLen last).last =
      (({ h with _state := .RESULT_EXTRA } : MergingHandler).flush P W bLen last).last ∧
    ((({ h with _state := .RESULT_EXTRA } : MergingHandler).flush P W bLen last).ret
        = .returned true →
      (({ h with _state := .HEADER_SIZE_WAIT } : MergingHandler).flush P W bLen last).h._error =
        (({ h with _state := .RESULT_EXTRA } : MergingHandler).flush P W bLen last).h._error) ∧
    ((({ h with _state := .RESULT_EXTRA } : MergingHandler).flush P W bLen last).ret
        = .returned false →
      (({ h with _state := .HEADER_SIZE_WAIT } : MergingHandler).flush P W bLen last).h._error.msg
        ≠ (({ h with _state := .RESULT_EXTRA } : MergingHandler).flush P W bLen last).h._error.msg)
    ∧ (({ h with _state := .RESULT_EXTRA } : MergingHandler).flush P W bLen last).h._wName
      = h._wName := by
  have e1 : ({ h with _state := .HEADER_SIZE_WAIT } : MergingHandler).flush P W bLen last =
      ({ h with _state := .HEADER_SIZE_WAIT } : MergingHandler).flushHeaderSizeWait P r b0 last
        (sizeCheck { h with _state := .HEADER_SIZE_WAIT } bLen) := by
    unfold MergingHandler.flush
    simp only [hr, hb]
  have e2 : ({ h with _state := .RESULT_EXTRA } : MergingHandler).flush P W bLen last =
      ({ h with _state := .RESULT_EXTRA } : MergingHandler).flushResultExtra P r last
        (sizeCheck { h with _state := .RESULT_EXTRA } bLen) := by
    unfold MergingHandler.flush
    simp only [hr]
  rw [e1, e2]
  unfold MergingHandler.flushHeaderSizeWait MergingHandler.flushResultExtra
  dsimp only
  rw [hu1, hu2]
  by_cases hu : (P.unwrap r h._buffer).1 = true
  · by_cases hw : h._wName = "~" <;> simp [hu, hw]
  · have hu0 : (P.unwrap r h._buffer).1 = false := by simpa using hu
    simp only [hu0, MergingHandler._setError, getStateStr]
    refine ⟨by simp, by simp, by simp, by simp, by simp, by simp, ?_, by simp⟩
    intro _
    simp only [Bool.not_false, if_true]
    intro e
    have e3 := congrArg String.data e
    simp only [String.data_append] at e3
    have e4 := congrArg List.head? e3
    simp at e4

/-- Witness for `flush_resultExtra_as_headerSizeWait`: a constructed handler whose
buffer holds the header `[3, 2, 7]`. -/
theorem flush_resultExtra_as_headerSizeWait_witness :
    (({ ({ MergingHandler.new sampleProto "result_1" with _buffer := [3, 2, 7] }
          : MergingHandler) with _state := .HEADER_SIZE_WAIT }
        : MergingHandler).flush sampleProto goodWorld 3 false).ret =
    (({ ({ MergingHandler.new sampleProto "result_1" with _buffer := [3, 2, 7] }
          : MergingHandler) with _state := .RESULT_EXTRA }
        : MergingHandler).flush sampleProto goodWorld 3 false).ret :=
  (flush_resultExtra_as_headerSizeWait sampleProto goodWorld
    { MergingHandler.new sampleProto "result_1" with _buffer := [3, 2, 7] }
    sampleProto.newWorkerResponse 3 [2, 7] 3 false rfl rfl rfl rfl).1

end ccontrol

namespace wsched

/-! ### Popping the heap -/

theorem SlowTableHeap.pop_perm (H : StdHeap) (a : Task) (l : List Task) :
    List.Perm (SlowTableHeap.pop H (a :: l)) l := by
  have h1 := H.pop_heap_perm (a :: l)
  have h2 := H.pop_heap_back a l
  have h3 : (H.pop_heap (a :: l)).dropLast ++ [a] = H.pop_heap (a :: l) :=
    List.dropLast_append_getLast? a (by rw [h2]; rfl)
  have h4 : List.Perm (a :: (H.pop_heap (a :: l)).dropLast) (a :: l) := by
    refine List.Perm.trans ?_ h1
    rw [← h3]
    simp only [List.dropLast_concat]
    exact (List.perm_append_singleton a _).symm
  have h5 : SlowTableHeap.pop H (a :: l) = (H.pop_heap (a :: l)).dropLast := by
    simp [SlowTableHeap.pop]
  rw [h5]
  exact List.Perm.cons_inv h4

/-- C17: for every ChunkTasks with a non-empty active heap, no cached ready task
and a top task without memory handle, if `memMan.prepare` returns handle 0 with
`ENOENT`, `ChunkTasks::ready` attaches the handle `ISEMPTY` to the task, pops it
from the heap into the ready slot and returns `READY`; no error is raised, and
the result is exactly that of a prepare that succeeds with the handle
`ISEMPTY`. -/
theorem ChunkTasks.ready_ENOENT (H : StdHeap) (mm : MemMan) (flex : Bool)
    (asks : List PrepareCall) (ct : ChunkTasks) (top : Task) (rest : List Task)
    (h1 : ct._readyTask = none) (h2 : ct._activeTasks = top :: rest)
    (h3 : top.memHandle = none) (h4 : mm.answer asks.length = ⟨0, .ENOENT⟩) :
    (ct.ready H mm flex asks).state = some .READY ∧
    (ct.ready H mm flex asks).ct._readyTask = some { top with memHandle := some mm.ISEMPTY } ∧
    (ct.ready H mm flex asks).ct._activeTasks = SlowTableHeap.pop H ct._activeTasks ∧
    List.Perm (ct.ready H mm flex asks).ct._activeTasks rest ∧
    (ct.ready H mm flex asks).ct._pendingTasks = ct._pendingTasks ∧
    (ct.ready H mm flex asks).ct._inFlightTasks = ct._inFlightTasks ∧
    (∀ (mm1 : MemMan) (e : Errno), mm1.ISEMPTY = mm.ISEMPTY → mm.ISEMPTY ≠ 0 →
      mm1.answer asks.length = ⟨mm.ISEMPTY, e⟩ →
      ct.ready H mm1 flex asks = ct.ready H mm flex asks) := by
  have hm : top.hasMemHandle = false := by simp [Task.hasMemHandle, h3]
  have e : ct.ready H mm flex asks =
      ⟨({ ct with _resourceStarved := false }).takeTop H
          { top with memHandle := some mm.ISEMPTY },
        asks ++ [⟨top.infoTables.map (fun tbl => TableInfo.mk (tbl.db ++ "/" ++ tbl.table)
          (if flex then LockType.FLEXIBLE else LockType.REQUIRED) LockType.NOLOCK),
          top.chunkId⟩], some .READY⟩ := by
    simp [ChunkTasks.ready, h1, h2, hm, h4]
  refine ⟨by rw [e], by rw [e]; rfl, by rw [e]; rfl, ?_, by rw [e]; rfl, by rw [e]; rfl, ?_⟩
  · rw [e]
    show List.Perm (SlowTableHeap.pop H ct._activeTasks) rest
    rw [h2]
    exact SlowTableHeap.pop_perm H top rest
  · intro mm1 e1 hI hne ha
    rw [e]
    simp [ChunkTasks.ready, h1, h2, hm, ha, hne, hI]

/-- Witness for `ChunkTasks.ready_ENOENT`: the sample chunk and a memory manager
that finds no file. -/
theorem ChunkTasks.ready_ENOENT_witness :
    (sampleChunk.ready plainHeap notFoundMemMan false []).state = some .READY ∧
    (sampleChunk.ready plainHeap notFoundMemMan false []).ct._readyTask =
      some { sampleTask with memHandle := some 1 } :=
  ⟨(ChunkTasks.ready_ENOENT plainHeap notFoundMemMan false [] sampleChunk sampleTask []
      rfl rfl rfl rfl).1,
   (ChunkTasks.ready_ENOENT plainHeap notFoundMemMan false [] sampleChunk sampleTask []
      rfl rfl rfl rfl).2.1⟩

/-- C18: for every ChunkTasks with a non-empty active heap, no cached ready task
and a top task without memory handle, if `memMan.prepare` returns handle 0 with
an `errno` other than `ENOMEM` and `ENOENT`, `ChunkTasks::ready` throws instead of
returning a ReadyState and leaves the ChunkTasks unchanged: the task stays on the
heap without memory handle and no ready task is cached. -/
theorem ChunkTasks.ready_fatal (H : StdHeap) (mm : MemMan) (flex : Bool)
    (asks : List PrepareCall) (ct : ChunkTasks) (top : Task) (rest : List Task)
    (h1 : ct._readyTask = none) (h2 : ct._activeTasks = top :: rest)
    (h3 : top.memHandle = none) (h4 : mm.answer asks.length = ⟨0, .other⟩) :
    (ct.ready H mm flex asks).state = none ∧
    (ct.ready H mm flex asks).ct = ct ∧
    (ct.ready H mm flex asks).ct._activeTasks = top :: rest ∧
    (ct.ready H mm flex asks).ct._readyTask = none := by
  have hm : top.hasMemHandle = false := by simp [Task.hasMemHandle, h3]
  have e : (ct.ready H mm flex asks).state = none ∧ (ct.ready H mm flex asks).ct = ct := by
    simp [ChunkTasks.ready, h1, h2, hm, h4]
  refine ⟨e.1, e.2, by rw [e.2]; exact h2, by rw [e.2]; exact h1⟩

/-- Witness for `ChunkTasks.ready_fatal`: the sample chunk and a memory manager
whose file system fails. -/
theorem ChunkTasks.ready_fatal_witness :
    (sampleChunk.ready plainHeap brokenMemMan false []).state = none ∧
    (sampleChunk.ready plainHeap brokenMemMan false []).ct = sampleChunk :=
  ⟨(ChunkTasks.ready_fatal plainHeap brokenMemMan false [] sampleChunk sampleTask []
      rfl rfl rfl rfl).1,
   (ChunkTasks.ready_fatal plainHeap brokenMemMan false [] sampleChunk sampleTask []
      rfl rfl rfl rfl).2.1⟩

/-! ### Queueing and removing -/

theorem eraseFunc_eq (queryId : Nat) (jobId : Int) (l : List Task) :
    eraseFunc queryId jobId l =
      (l.find? (fun x => x.idsMatch queryId jobId), l.eraseP (fun x => x.idsMatch queryId jobId)) := by
  induction l with
  | nil => rfl
  | cons a l ih =>
    by_cases hm : a.idsMatch queryId jobId = true
    · simp [eraseFunc, hm]
    · simp [eraseFunc, hm, ih]

theorem ChunkMap.set_self (m : ChunkMap) (k : Int) (ct : ChunkTasks) (h : m.find k = some ct) :
    m.set k ct = m := by
  induction m with
  | nil => rfl
  | cons e rest ih =>
    obtain ⟨k1, c1⟩ := e
    by_cases hk : k1 = k
    · simp only [ChunkMap.find, hk, if_true, Option.some.injEq] at h
      simp [ChunkMap.set, hk, h]
    · simp only [ChunkMap.find, hk, if_false] at h
      simp [ChunkMap.set, hk, ih h]

/-- C15: for every scheduler state and task t with chunk id c, `queueTask`
creates a ChunkTasks entry for c if none exists, leaves every other chunk
untouched, increments `_taskCount` by exactly one, and adds t (stamped with its
entry time) at the end of c's pending list if c is flagged active, otherwise
pushes it onto c's active heap (which stays a heap under a strict weak
ordering); the other of the two collections, the in-flight set and the ready
slot of c are unchanged. -/
theorem queueTask_effect (H : StdHeap) (now : Nat) (q : ChunkTasksQueue) (t : Task) :
    (q.queueTask H now t)._taskCount = q._taskCount + 1 ∧
    (q.queueTask H now t)._chunkMap.find t.chunkId =
      some ((q.chunkOrNew t.chunkId).queTask H now t) ∧
    (∀ k, k ≠ t.chunkId → (q.queueTask H now t)._chunkMap.find k = q._chunkMap.find k) ∧
    (q._chunkMap.find t.chunkId = none → q.chunkOrNew t.chunkId = ChunkTasks.new t.chunkId) ∧
    (∀ ct, q._chunkMap.find t.chunkId = some ct → q.chunkOrNew t.chunkId = ct) ∧
    ((q.chunkOrNew t.chunkId)._active = true →
      ((q.chunkOrNew t.chunkId).queTask H now t)._pendingTasks =
        (q.chunkOrNew t.chunkId)._pendingTasks ++ [{ t with entryTime := now }] ∧
      ((q.chunkOrNew t.chunkId).queTask H now t)._activeTasks =
        (q.chunkOrNew t.chunkId)._activeTasks) ∧
    ((q.chunkOrNew t.chunkId)._active = false →
      ((q.chunkOrNew t.chunkId).queTask H now t)._activeTasks =
        SlowTableHeap.push H (q.chunkOrNew t.chunkId)._activeTasks { t with entryTime := now } ∧
      List.Perm ((q.chunkOrNew t.chunkId).queTask H now t)._activeTasks
        ({ t with entryTime := now } :: (q.chunkOrNew t.chunkId)._activeTasks) ∧
      (StrictWeakOrder H.compareFunc →
        IsHeap H.compareFunc (q.chunkOrNew t.chunkId)._activeTasks →
        IsHeap H.compareFunc ((q.chunkOrNew t.chunkId).queTask H now t)._activeTasks) ∧
      ((q.chunkOrNew t.chunkId).queTask H now t)._pendingTasks =
        (q.chunkOrNew t.chunkId)._pendingTasks) ∧
    ((q.chunkOrNew t.chunkId).queTask H now t)._inFlightTasks =
      (q.chunkOrNew t.chunkId)._inFlightTasks ∧
    ((q.chunkOrNew t.chunkId).queTask H now t)._readyTask =
      (q.chunkOrNew t.chunkId)._readyTask ∧
    ((q.chunkOrNew t.chunkId).queTask H now t)._active = (q.chunkOrNew t.chunkId)._active ∧
    (q.queueTask H now t)._activeChunk = q._activeChunk ∧
    (q.queueTask H now t)._readyChunk = q._readyChunk := by
  have hq : ∀ ct : ChunkTasks,
      (ct._active = true →
        (ct.queTask H now t)._pendingTasks = ct._pendingTasks ++ [{ t with entryTime := now }] ∧
        (ct.queTask H now t)._activeTasks = ct._activeTasks) ∧
      (ct._active = false →
        (ct.queTask H now t)._activeTasks =
          SlowTableHeap.push H ct._activeTasks { t with entryTime := now } ∧
        List.Perm (ct.queTask H now t)._activeTasks ({ t with entryTime := now } :: ct._activeTasks) ∧
        (StrictWeakOrder H.compareFunc → IsHeap H.compareFunc ct._activeTasks →
          IsHeap H.compareFunc (ct.queTask H now t)._activeTasks) ∧
        (ct.queTask H now t)._pendingTasks = ct._pendingTasks) ∧
      (ct.queTask H now t)._inFlightTasks = ct._inFlightTasks ∧
      (ct.queTask H now t)._readyTask = ct._readyTask ∧
      (ct.queTask H now t)._active = ct._active := by
    intro ct
    unfold ChunkTasks.queTask
    by_cases ha : ct._active = true
    · simp [ha]
    · have ha0 : ct._active = false := by simpa using ha
      simp only [ha0, SlowTableHeap.push]
      refine ⟨by simp, fun _ => ⟨rfl, ?_, ?_, rfl⟩, rfl, rfl, rfl⟩
      · exact (H.push_heap_perm _).trans (List.perm_append_singleton _ _)
      · intro hs hh
        exact H.push_heap_heap hs _ _ hh
  have hmain : (q.queueTask H now t)._taskCount = q._taskCount + 1 ∧
      (q.queueTask H now t)._chunkMap.find t.chunkId =
        some ((q.chunkOrNew t.chunkId).queTask H now t) ∧
      (∀ k, k ≠ t.chunkId → (q.queueTask H now t)._chunkMap.find k = q._chunkMap.find k) ∧
      (q.queueTask H now t)._activeChunk = q._activeChunk ∧
      (q.queueTask H now t)._readyChunk = q._readyChunk := by
    cases hf : q._chunkMap.find t.chunkId with
    | some ct =>
      have e : q.queueTask H now t =
          { q with _chunkMap := q._chunkMap.set t.chunkId (ct.queTask H now t),
                   _taskCount := q._taskCount + 1 } := by
        simp [ChunkTasksQueue.queueTask, hf]
      have e2 : q.chunkOrNew t.chunkId = ct := by simp [ChunkTasksQueue.chunkOrNew, hf]
      rw [e, e2]
      refine ⟨rfl, ChunkMap.find_set_self _ _ ct _ hf, ?_, rfl, rfl⟩
      intro k hk
      exact ChunkMap.find_set_ne _ _ _ _ hk
    | none =>
      have hself := ChunkMap.find_insert_self q._chunkMap t.chunkId (ChunkTasks.new t.chunkId) hf
      have e : q.queueTask H now t =
          { q with _chunkMap := (q._chunkMap.insert t.chunkId (ChunkTasks.new t.chunkId)).set
                      t.chunkId ((ChunkTasks.new t.chunkId).queTask H now t),
                   _taskCount := q._taskCount + 1 } := by
        simp [ChunkTasksQueue.queueTask, hf, hself]
      have e2 : q.chunkOrNew t.chunkId = ChunkTasks.new t.chunkId := by
        simp [ChunkTasksQueue.chunkOrNew, hf]
      rw [e, e2]
      refine ⟨rfl, ChunkMap.find_set_self _ _ _ _ hself, ?_, rfl, rfl⟩
      intro k hk
      show ChunkMap.find (ChunkMap.set _ _ _) k = _
      rw [ChunkMap.find_set_ne _ _ _ _ hk, ChunkMap.find_insert_ne _ _ _ _ hk]
  have h := hq (q.chunkOrNew t.chunkId)
  refine ⟨hmain.1, hmain.2.1, hmain.2.2.1, ?_, ?_, h.1, h.2.1, h.2.2.1, h.2.2.2.1, h.2.2.2.2,
    hmain.2.2.2.1, hmain.2.2.2.2⟩
  · intro hf
    simp [ChunkTasksQueue.chunkOrNew, hf]
  · intro ct hf
    simp [ChunkTasksQueue.chunkOrNew, hf]

theorem perm_cons_eraseP (p : Task → Bool) (l : List Task) (x : Task)
    (h : l.find? p = some x) : List.Perm (x :: l.eraseP p) l := by
  induction l with
  | nil => simp at h
  | cons a l ih =>
    by_cases hp : p a = true
    · simp only [List.find?_cons, hp, Option.some.injEq] at h
      subst h
      simp [List.eraseP_cons, hp]
    · simp only [List.find?_cons, hp] at h
      simp only [List.eraseP_cons, hp, Bool.false_eq_true, if_false]
      exact (List.Perm.swap a x _).trans ((ih h).cons a)

/-- C12: for every scheduler state and every task t that was handed out and is
in its chunk's in-flight set, the ids (queryId, jobId) being unique among the
tasks known to the scheduler (so that no task on the active heap or the pending
list of the chunk carries the ids of t), `removeTask` returns none and leaves
the queue as it is: `_taskCount` is not decremented and every chunk's active
heap, pending list and in-flight set are unchanged. -/
theorem removeTask_inFlight (H : StdHeap) (q : ChunkTasksQueue) (t : Task)
    (h : ∃ ct, q._chunkMap.find t.chunkId = some ct ∧ t.ptr ∈ ct._inFlightTasks ∧
      ∀ x ∈ ct._activeTasks ++ ct._pendingTasks, x.idsMatch t.queryId t.jobId = false) :
    q.removeTask H t = (none, q) := by
  obtain ⟨ct, hf, _, hu0⟩ := h
  have hu : ∀ x, x ∈ ct._activeTasks ∨ x ∈ ct._pendingTasks →
      x.idsMatch t.queryId t.jobId = false :=
    fun x hx => hu0 x (List.mem_append.mpr hx)
  have h1 : ct._activeTasks.find? (fun x => x.idsMatch t.queryId t.jobId) = none := by
    rw [List.find?_eq_none]
    intro x hx
    simp [hu x (Or.inl hx)]
  have h2 : ct._pendingTasks.find? (fun x => x.idsMatch t.queryId t.jobId) = none := by
    rw [List.find?_eq_none]
    intro x hx
    simp [hu x (Or.inr hx)]
  have h3 : ct._pendingTasks.eraseP (fun x => x.idsMatch t.queryId t.jobId) = ct._pendingTasks := by
    apply List.eraseP_of_forall_not
    intro x hx
    simp [hu x (Or.inr hx)]
  have e : ct.removeTask H t = (none, ct) := by
    simp [ChunkTasks.removeTask, eraseFunc_eq, h1, h2, h3]
  simp [ChunkTasksQueue.removeTask, hf, e, ChunkMap.set_self _ _ _ hf]

/-- Witness for `removeTask_inFlight`: `sampleTask` after it was handed out. -/
theorem removeTask_inFlight_witness :
    sampleInFlight.removeTask plainHeap sampleTask = (none, sampleInFlight) :=
  removeTask_inFlight plainHeap sampleInFlight sampleTask
    ⟨_, rfl, by decide, by decide⟩

/-- C13: for every scheduler state and task t: if t's chunk is in the map and a
task with t's ids is on that chunk's active heap, `removeTask` returns the first
such task, removes exactly that entry from the active heap, leaves the pending
list untouched, decrements `_taskCount` by one and leaves the active heap a
valid heap under the comparator (a strict weak ordering); otherwise, if such a
task is in the pending list, the first such task is removed from there with the
same decrement and the remaining pending tasks keep their order; if the chunk is
unknown or no such task is queued, `removeTask` returns none and changes
nothing. -/
theorem removeTask_effect (H : StdHeap) (q : ChunkTasksQueue) (t : Task) :
    (∀ ct x, q._chunkMap.find t.chunkId = some ct →
      ct._activeTasks.find? (fun x => x.idsMatch t.queryId t.jobId) = some x →
      q.removeTask H t =
        (some x,
         { q with
           _chunkMap := q._chunkMap.set t.chunkId
             { ct with _activeTasks := (H.make_heap
                 (ct._activeTasks.eraseP (fun x => x.idsMatch t.queryId t.jobId))) },
           _taskCount := q._taskCount - 1 }) ∧
      x ∈ ct._activeTasks ∧ x.idsMatch t.queryId t.jobId = true ∧
      List.Perm (x :: H.make_heap (ct._activeTasks.eraseP (fun x => x.idsMatch t.queryId t.jobId)))
        ct._activeTasks ∧
      (StrictWeakOrder H.compareFunc → IsHeap H.compareFunc
        (H.make_heap (ct._activeTasks.eraseP (fun x => x.idsMatch t.queryId t.jobId))))) ∧
    (∀ ct x, q._chunkMap.find t.chunkId = some ct →
      ct._activeTasks.find? (fun x => x.idsMatch t.queryId t.jobId) = none →
      ct._pendingTasks.find? (fun x => x.idsMatch t.queryId t.jobId) = some x →
      q.removeTask H t =
        (some x,
         { q with
           _chunkMap := q._chunkMap.set t.chunkId
             { ct with _pendingTasks :=
                 (ct._pendingTasks.eraseP (fun x => x.idsMatch t.queryId t.jobId)) },
           _taskCount := q._taskCount - 1 }) ∧
      x ∈ ct._pendingTasks ∧ x.idsMatch t.queryId t.jobId = true ∧
      List.Sublist (ct._pendingTasks.eraseP (fun x => x.idsMatch t.queryId t.jobId))
        ct._pendingTasks ∧
      List.Perm (x :: ct._pendingTasks.eraseP (fun x => x.idsMatch t.queryId t.jobId))
        ct._pendingTasks) ∧
    (q._chunkMap.find t.chunkId = none → q.removeTask H t = (none, q)) ∧
    (∀ ct, q._chunkMap.find t.chunkId = some ct →
      ct._activeTasks.find? (fun x => x.idsMatch t.queryId t.jobId) = none →
      ct._pendingTasks.find? (fun x => x.idsMatch t.queryId t.jobId) = none →
      q.removeTask H t = (none, q)) := by
  refine ⟨?_, ?_, ?_, ?_⟩
  · intro ct x hf hx
    have e : ct.removeTask H t = (some x, { ct with _activeTasks := (H.make_heap
        (ct._activeTasks.eraseP (fun x => x.idsMatch t.queryId t.jobId))) }) := by
      simp [ChunkTasks.removeTask, eraseFunc_eq, hx, SlowTableHeap.heapify]
    have hmem := List.mem_of_find?_eq_some hx
    have hp := List.find?_some hx
    refine ⟨by simp [ChunkTasksQueue.removeTask, hf, e], hmem, hp, ?_, ?_⟩
    · exact ((H.make_heap_perm _).cons x).trans (perm_cons_eraseP _ _ x hx)
    · intro hs
      exact H.make_heap_heap hs _
  · intro ct x hf hn hx
    have e : ct.removeTask H t = (some x, { ct with _pendingTasks :=
        (ct._pendingTasks.eraseP (fun x => x.idsMatch t.queryId t.jobId)) }) := by
      simp [ChunkTasks.removeTask, eraseFunc_eq, hn, hx]
    have hmem := List.mem_of_find?_eq_some hx
    have hp := List.find?_some hx
    exact ⟨by simp [ChunkTasksQueue.removeTask, hf, e], hmem, hp, List.eraseP_sublist _,
      perm_cons_eraseP _ _ x hx⟩
  · intro hf
    simp [ChunkTasksQueue.removeTask, hf]
  · intro ct hf hn hp
    have h3 : ct._pendingTasks.eraseP (fun x => x.idsMatch t.queryId t.jobId)
        = ct._pendingTasks := by
      apply List.eraseP_of_forall_not
      intro x hx
      have := List.find?_eq_none.mp hp x hx
      simpa using this
    have e : ct.removeTask H t = (none, ct) := by
      simp [ChunkTasks.removeTask, eraseFunc_eq, hn, hp, h3]
    simp [ChunkTasksQueue.removeTask, hf, e, ChunkMap.set_self _ _ _ hf]

/-- Witness for `removeTask_effect`: `sampleTask` is removed from the heap of
chunk 5. -/
theorem removeTask_effect_witness :
    (sampleQueued.removeTask plainHeap sampleTask).1 = some sampleTask :=
  congrArg Prod.fst ((removeTask_effect plainHeap sampleQueued sampleTask).1 _ _ rfl rfl).1

/-! ### The structure of `_ready` -/

theorem scanLoop_frame (H : StdHeap) (mm : MemMan) (sched : Option SchedulerPolicy)
    (flex : Bool) (fuel : Nat) : ∀ (q : ChunkTasksQueue) (asks : List PrepareCall) (iter : Int)
    (st : ReadyState), q._readyChunk = none →
    (ChunkTasksQueue.scanLoop H mm sched flex fuel q asks iter st).q._taskCount = q._taskCount ∧
    (ChunkTasksQueue.scanLoop H mm sched flex fuel q asks iter st).q._activeChunk
      = q._activeChunk ∧
    ((ChunkTasksQueue.scanLoop H mm sched flex fuel q asks iter st).q._readyChunk.isSome = true ↔
      (ChunkTasksQueue.scanLoop H mm sched flex fuel q asks iter st).ret = .value true) := by
  induction fuel with
  | zero =>
    intro q asks iter st hr
    simp [ChunkTasksQueue.scanLoop, hr]
  | succ fuel ih =>
    intro q asks iter st hr
    unfold ChunkTasksQueue.scanLoop
    split
    · dsimp only
      split
      · simp [hr]
      · split
        · simp [hr]
        · split
          · simp [hr]
          · split
            · simp [hr]
            · split
              · simp [hr]
              · exact ih _ _ _ _ hr
    · split
      · simp [hr]
      · simp

theorem readyScan_frame (H : StdHeap) (mm : MemMan) (sched : Option SchedulerPolicy)
    (flex : Bool) (q : ChunkTasksQueue) (asks : List PrepareCall) (hr : q._readyChunk = none) :
    (q.readyScan H mm sched flex asks).q._taskCount = q._taskCount ∧
    (q.readyScan H mm sched flex asks).q._activeChunk = q._activeChunk ∧
    ((q.readyScan H mm sched flex asks).q._readyChunk.isSome = true ↔
      (q.readyScan H mm sched flex asks).ret = .value true) := by
  unfold ChunkTasksQueue.readyScan
  split
  · simp [hr]
  · split
    · simp [hr]
    · dsimp only
      split
      · simp [hr]
      · exact scanLoop_frame H mm sched flex _ _ _ _ _ hr

theorem readyAdvance_frame (H : StdHeap) (mm : MemMan) (sched : Option SchedulerPolicy)
    (flex : Bool) (q : ChunkTasksQueue) (asks : List PrepareCall) (k : Int) (ct : ChunkTasks)
    (hr : q._readyChunk = none) :
    (q.readyAdvance H mm sched flex asks k ct).q._taskCount = q._taskCount ∧
    ((q.readyAdvance H mm sched flex asks k ct).q._readyChunk.isSome = true ↔
      (q.readyAdvance H mm sched flex asks k ct).ret = .value true) ∧
    (ct.readyToAdvance = false →
      (q.readyAdvance H mm sched flex asks k ct).q._activeChunk = q._activeChunk) := by
  unfold ChunkTasksQueue.readyAdvance
  split
  · rename_i hadv
    dsimp only
    split
    · simp [hr, hadv]
    · split
      · simp [hr, hadv]
      · refine ⟨(readyScan_frame H mm sched flex _ asks ?_).1,
          (readyScan_frame H mm sched flex _ asks ?_).2.2, by simp [hadv]⟩
        · exact hr
        · exact hr
  · have := readyScan_frame H mm sched flex q asks hr
    exact ⟨this.1, this.2.2, fun _ => this.2.1⟩

theorem _ready_frame (H : StdHeap) (mm : MemMan) (sched : Option SchedulerPolicy)
    (flex : Bool) (q : ChunkTasksQueue) (asks : List PrepareCall) :
    (q._ready H mm sched flex asks).q._taskCount = q._taskCount ∧
    ((q._ready H mm sched flex asks).q._readyChunk.isSome = true ↔
      (q._ready H mm sched flex asks).ret = .value true) := by
  unfold ChunkTasksQueue._ready
  split
  · rename_i h
    simp [h]
  · rename_i hrc
    have hr : q._readyChunk = none := by simpa using hrc
    split
    · simp [hr]
    · have h1 : ∀ q1 : ChunkTasksQueue, q1._taskCount = q._taskCount → q1._readyChunk = none →
          (match q1._activeChunk with
            | none => (⟨q1, asks, .invalidIterator⟩ : ReadyOut)
            | some k =>
              match q1._chunkMap.find k with
              | none => ⟨q1, asks, .invalidIterator⟩
              | some ct =>
                let r := ct.ready H mm flex asks
                let q2 := { q1 with _chunkMap := q1._chunkMap.set k r.ct }
                match r.state with
                | none => ⟨q2, r.asks, .thrown⟩
                | some .READY => ⟨{ q2 with _readyChunk := some k }, r.asks, .value true⟩
                | some _ => q2.readyAdvance H mm sched flex r.asks k r.ct).q._taskCount
            = q._taskCount ∧
          ((match q1._activeChunk with
            | none => (⟨q1, asks, .invalidIterator⟩ : ReadyOut)
            | some k =>
              match q1._chunkMap.find k with
              | none => ⟨q1, asks, .invalidIterator⟩
              | some ct =>
                let r := ct.ready H mm flex asks
                let q2 := { q1 with _chunkMap := q1._chunkMap.set k r.ct }
                match r.state with
                | none => ⟨q2, r.asks, .thrown⟩
                | some .READY => ⟨{ q2 with _readyChunk := some k }, r.asks, .value true⟩
                | some _ => q2.readyAdvance H mm sched flex r.asks k r.ct).q._readyChunk.isSome
              = true ↔
           (match q1._activeChunk with
            | none => (⟨q1, asks, .invalidIterator⟩ : ReadyOut)
            | some k =>
              match q1._chunkMap.find k with
              | none => ⟨q1, asks, .invalidIterator⟩
              | some ct =>
                let r := ct.ready H mm flex asks
                let q2 := { q1 with _chunkMap := q1._chunkMap.set k r.ct }
                match r.state with
                | none => ⟨q2, r.asks, .thrown⟩
                | some .READY => ⟨{ q2 with _readyChunk := some k }, r.asks, .value true⟩
                | some _ => q2.readyAdvance H mm sched flex r.asks k r.ct).ret = .value true) := by
        intro q1 e1 e3
        split
        · simp [e1, e3]
        · split
          · simp [e1, e3]
          · dsimp only
            split
            · simp [e1, e3]
            · simp [e1]
            · refine ⟨(readyAdvance_frame H mm sched flex _ _ _ _ ?_).1.trans e1,
                (readyAdvance_frame H mm sched flex _ _ _ _ ?_).2.1⟩
              · exact e3
              · exact e3
      apply h1
      · split
        · rfl
        · split
          · rfl
          · split <;> rfl
      · split
        · exact hr
        · split
          · exact hr
          · split <;> exact hr

theorem ChunkTasks.ready_not_READY (H : StdHeap) (mm : MemMan) (flex : Bool)
    (asks : List PrepareCall) (ct : ChunkTasks)
    (h : (ct.ready H mm flex asks).state ≠ some .READY) :
    ct._readyTask = none ∧
    (ct.ready H mm flex asks).ct._activeTasks = ct._activeTasks ∧
    (ct.ready H mm flex asks).ct._pendingTasks = ct._pendingTasks ∧
    (ct.ready H mm flex asks).ct._inFlightTasks = ct._inFlightTasks ∧
    (ct.ready H mm flex asks).ct._readyTask = none ∧
    (ct.ready H mm flex asks).ct._active = ct._active ∧
    (ct.ready H mm flex asks).ct._chunkId = ct._chunkId := by
  revert h
  unfold ChunkTasks.ready
  by_cases h0 : ct._readyTask.isSome = true
  · simp [h0]
  · rw [if_neg h0]
    have h1 : ct._readyTask = none := by simpa using h0
    cases hl : ct._activeTasks with
    | nil => simp [h1, hl]
    | cons a l =>
      simp only []
      by_cases hm : a.hasMemHandle = true
      · simp [hm]
      · by_cases hh : (mm.answer asks.length).handle = 0
        · cases he : (mm.answer asks.length).errno <;> simp [hm, hh, he, h1, hl]
        · simp [hm, hh]

theorem _ready_activeChunk (H : StdHeap) (mm : MemMan) (sched : Option SchedulerPolicy)
    (flex : Bool) (q : ChunkTasksQueue) (asks : List PrepareCall) (c : Int)
    (ha : q._activeChunk = some c)
    (hch : (q._ready H mm sched flex asks).q._activeChunk ≠ some c) :
    ∃ ct, q._chunkMap.find c = some ct ∧ ct._activeTasks = [] ∧ ct._readyTask = none ∧
      ct._inFlightTasks = [] := by
  obtain ⟨m, ac, rc, tc, rs⟩ := q
  dsimp only at ha
  subst ha
  unfold ChunkTasksQueue._ready at hch
  split at hch
  · exact absurd rfl hch
  · rename_i hrc
    have hr : rc = none := by simpa using hrc
    split at hch
    · exact absurd rfl hch
    · dsimp only at hch ⊢
      cases hf : ChunkMap.find m c with
      | none =>
        simp only [hf] at hch
        exact absurd rfl hch
      | some ct =>
        simp only [hf] at hch
        refine ⟨ct, rfl, ?_⟩
        split at hch
        · exact absurd rfl hch
        · exact absurd rfl hch
        · rename_i st hne hst
          have hnr : (ct.ready H mm flex asks).state ≠ some .READY := by
            rw [hst]
            intro e
            cases e
            exact hne rfl
          have hfacts := ChunkTasks.ready_not_READY H mm flex asks ct hnr
          have hfr := readyAdvance_frame H mm sched flex
            { _chunkMap := ChunkMap.set m c (ct.ready H mm flex asks).ct,
              _activeChunk := some c, _readyChunk := rc, _taskCount := tc,
              _resourceStarved := rs }
            (ct.ready H mm flex asks).asks c (ct.ready H mm flex asks).ct hr
          by_cases hadv : (ct.ready H mm flex asks).ct.readyToAdvance = true
          · unfold ChunkTasks.readyToAdvance at hadv
            simp only [Bool.and_eq_true, List.isEmpty_iff] at hadv
            rw [hfacts.2.1] at hadv
            rw [hfacts.2.2.2.1] at hadv
            exact ⟨hadv.1, hfacts.1, hadv.2⟩
          · have := hfr.2.2 (by simpa using hadv)
            exact absurd this hch

theorem getTask_activeChunk (H : StdHeap) (mm : MemMan) (sched : Option SchedulerPolicy)
    (flex : Bool) (q : ChunkTasksQueue) :
    (q.getTask H mm sched flex).q._activeChunk = (q._ready H mm sched flex []).q._activeChunk := by
  unfold ChunkTasksQueue.getTask
  dsimp only
  split
  · split
    · rfl
    · split
      · rfl
      · split <;> rfl
  · rfl

/-- C20: for every call to `ready` or `getTask` that changes which chunk
`_activeChunk` designates, from a valid chunk c to another chunk or to none: at
the time of the call c was a chunk of the map with an empty active heap, no
cached ready task and an empty in-flight set. -/
theorem activeChunk_leaves_drained (H : StdHeap) (mm : MemMan)
    (sched : Option SchedulerPolicy) (flex : Bool) (q : ChunkTasksQueue) (c : Int)
    (ha : q._activeChunk = some c) :
    ((q.ready H mm sched flex).q._activeChunk ≠ some c →
      ∃ ct, q._chunkMap.find c = some ct ∧ ct._activeTasks = [] ∧ ct._readyTask = none ∧
        ct._inFlightTasks = []) ∧
    ((q.getTask H mm sched flex).q._activeChunk ≠ some c →
      ∃ ct, q._chunkMap.find c = some ct ∧ ct._activeTasks = [] ∧ ct._readyTask = none ∧
        ct._inFlightTasks = []) := by
  constructor
  · intro hch
    exact _ready_activeChunk H mm sched flex q [] c ha hch
  · intro hch
    rw [getTask_activeChunk] at hch
    exact _ready_activeChunk H mm sched flex q [] c ha hch

/-- Witness for `activeChunk_leaves_drained`: the drained chunk 5 is left (and
erased) by the next `ready`. -/
theorem activeChunk_leaves_drained_witness :
    (sampleDrained.ready plainHeap grantingMemMan none false).q._activeChunk = none ∧
    ∃ ct, sampleDrained._chunkMap.find 5 = some ct ∧ ct._activeTasks = [] ∧
      ct._readyTask = none ∧ ct._inFlightTasks = [] :=
  ⟨by decide, (activeChunk_leaves_drained plainHeap grantingMemMan none false sampleDrained 5
    rfl).1 (by decide)⟩

/-! ### Out of memory -/

theorem ChunkTasks.ready_ENOMEM (H : StdHeap) (mm : MemMan) (flex : Bool)
    (asks : List PrepareCall) (ct : ChunkTasks) (top : Task) (rest : List Task)
    (h1 : ct._readyTask = none) (h2 : ct._activeTasks = top :: rest)
    (h3 : top.memHandle = none) (h4 : mm.answer asks.length = ⟨0, .ENOMEM⟩) :
    ct.ready H mm flex asks =
      ⟨{ ct with _resourceStarved := true }, asks ++ [prepareCallOf top flex],
        some .NO_RESOURCES⟩ := by
  have hm : top.hasMemHandle = false := by simp [Task.hasMemHandle, h3]
  simp [ChunkTasks.ready, h1, h2, hm, h4, prepareCallOf]

theorem ChunkTasks.ready_granted (H : StdHeap) (mm : MemMan) (flex : Bool)
    (asks : List PrepareCall) (ct : ChunkTasks) (top : Task) (rest : List Task)
    (h1 : ct._readyTask = none) (h2 : ct._activeTasks = top :: rest)
    (h3 : top.memHandle = none) (h4 : (mm.answer asks.length).handle ≠ 0) :
    ct.ready H mm flex asks =
      ⟨({ ct with _resourceStarved := false }).takeTop H
          { top with memHandle := some (mm.answer asks.length).handle },
        asks ++ [prepareCallOf top flex], some .READY⟩ := by
  have hm : top.hasMemHandle = false := by simp [Task.hasMemHandle, h3]
  simp [ChunkTasks.ready, h1, h2, hm, h4, prepareCallOf]

theorem ChunkMap.isEmpty_of_find (m : ChunkMap) (k : Int) (ct : ChunkTasks)
    (h : m.find k = some ct) : m.isEmpty = false := by
  cases m with
  | nil => simp [ChunkMap.find] at h
  | cons e rest => rfl

theorem _ready_ENOMEM (H : StdHeap) (mm : MemMan) (sched : Option SchedulerPolicy)
    (flex : Bool) (q : ChunkTasksQueue) (k : Int) (ct : ChunkTasks) (top : Task)
    (rest : List Task) (hrc : q._readyChunk = none) (ha : q._activeChunk = some k)
    (hf : q._chunkMap.find k = some ct) (h1 : ct._readyTask = none)
    (h2 : ct._activeTasks = top :: rest) (h3 : top.memHandle = none)
    (h4 : ∀ n, mm.answer n = ⟨0, .ENOMEM⟩) :
    q._ready H mm sched flex [] =
      ⟨{ q with _chunkMap := q._chunkMap.set k { ct with _resourceStarved := true } },
        [prepareCallOf top flex, prepareCallOf top flex], .value false⟩ := by
  obtain ⟨m, ac, rc, tc, rs⟩ := q
  dsimp only at hrc ha hf
  subst hrc ha
  have hne := ChunkMap.isEmpty_of_find m k ct hf
  have hr1 := ChunkTasks.ready_ENOMEM H mm flex [] ct top rest h1 h2 h3 (h4 _)
  have hr2 := ChunkTasks.ready_ENOMEM H mm flex [prepareCallOf top flex]
    { ct with _resourceStarved := true } top rest h1 h2 h3 (h4 _)
  have hself := ChunkMap.find_set_self m k ct { ct with _resourceStarved := true } hf
  have hadv : ({ ct with _resourceStarved := true } : ChunkTasks).readyToAdvance = false := by
    simp [ChunkTasks.readyToAdvance, h2]
  have hscan : ChunkTasksQueue.readyScan H mm sched flex
      { _chunkMap := ChunkMap.set m k { ct with _resourceStarved := true },
        _activeChunk := some k, _readyChunk := none, _taskCount := tc, _resourceStarved := rs }
      [prepareCallOf top flex] =
      ⟨{ _chunkMap := ChunkMap.set m k { ct with _resourceStarved := true },
         _activeChunk := some k, _readyChunk := none, _taskCount := tc,
         _resourceStarved := rs },
        [prepareCallOf top flex, prepareCallOf top flex], .value false⟩ := by
    unfold ChunkTasksQueue.readyScan
    simp only [hself, hr2]
    simp [ChunkTasksQueue.scanLoop, ChunkMap.set_self _ _ _ hself]
  unfold ChunkTasksQueue._ready
  simp only [Option.isSome_none, Bool.false_eq_true, if_false, ChunkTasksQueue._empty, hne, hf,
    hr1]
  unfold ChunkTasksQueue.readyAdvance
  simp only [hadv, Bool.false_eq_true, if_false]
  exact hscan

theorem _ready_granted (H : StdHeap) (mm : MemMan) (sched : Option SchedulerPolicy)
    (flex : Bool) (q : ChunkTasksQueue) (k : Int) (ct : ChunkTasks) (top : Task)
    (rest : List Task) (hrc : q._readyChunk = none) (ha : q._activeChunk = some k)
    (hf : q._chunkMap.find k = some ct) (h1 : ct._readyTask = none)
    (h2 : ct._activeTasks = top :: rest) (h3 : top.memHandle = none)
    (h4 : (mm.answer 0).handle ≠ 0) :
    q._ready H mm sched flex [] =
      ⟨{ q with
          _chunkMap := q._chunkMap.set k (({ ct with _resourceStarved := false }).takeTop H
            { top with memHandle := some (mm.answer 0).handle }),
          _readyChunk := some k },
        [prepareCallOf top flex], .value true⟩ := by
  obtain ⟨m, ac, rc, tc, rs⟩ := q
  dsimp only at hrc ha hf
  subst hrc ha
  have hne := ChunkMap.isEmpty_of_find m k ct hf
  have hr1 := ChunkTasks.ready_granted H mm flex [] ct top rest h1 h2 h3 h4
  unfold ChunkTasksQueue._ready
  simp only [Option.isSome_none, Bool.false_eq_true, if_false, ChunkTasksQueue._empty, hne, hf,
    hr1]
  rfl

/-- C16: if the active chunk has a non-empty active heap, no cached ready task,
its top task has no memory handle, and `memMan.prepare` fails with `ENOMEM`
whenever it is asked, then `ChunkTasks::ready` reports `NO_RESOURCES` and marks
the chunk resource-starved, `ChunkTasksQueue::ready` returns false and `getTask`
returns none, `_readyChunk` stays unset, `_activeChunk` still designates the
same chunk, every other chunk is untouched and the memory manager is asked for
this task only, and the task stays on top of the heap without a memory handle;
a later call in which prepare succeeds makes that same task ready and hands it
out. -/
theorem ready_out_of_memory (H : StdHeap) (mm : MemMan) (sched : Option SchedulerPolicy)
    (flex : Bool) (q : ChunkTasksQueue) (k : Int) (ct : ChunkTasks) (top : Task)
    (rest : List Task) (hrc : q._readyChunk = none) (ha : q._activeChunk = some k)
    (hf : q._chunkMap.find k = some ct) (h1 : ct._readyTask = none)
    (h2 : ct._activeTasks = top :: rest) (h3 : top.memHandle = none)
    (h4 : ∀ n, mm.answer n = ⟨0, .ENOMEM⟩) :
    (∀ asks, (ct.ready H mm flex asks).state = some .NO_RESOURCES ∧
      (ct.ready H mm flex asks).ct = { ct with _resourceStarved := true }) ∧
    (q.ready H mm sched flex).ret = .value false ∧
    (q.getTask H mm sched flex).task = none ∧
    (q.getTask H mm sched flex).q = (q.ready H mm sched flex).q ∧
    (q.ready H mm sched flex).q._readyChunk = none ∧
    (q.ready H mm sched flex).q._activeChunk = some k ∧
    (q.ready H mm sched flex).q._taskCount = q._taskCount ∧
    (q.ready H mm sched flex).q._chunkMap.find k = some { ct with _resourceStarved := true } ∧
    (∀ k1, k1 ≠ k → (q.ready H mm sched flex).q._chunkMap.find k1 = q._chunkMap.find k1) ∧
    (q.ready H mm sched flex).asks = [prepareCallOf top flex, prepareCallOf top flex] ∧
    (∀ (mm2 : MemMan) (sched2 : Option SchedulerPolicy) (flex2 : Bool),
      (mm2.answer 0).handle ≠ 0 →
      ((q.ready H mm sched flex).q.ready H mm2 sched2 flex2).ret = .value true ∧
      ((q.ready H mm sched flex).q.ready H mm2 sched2 flex2).q._readyChunk = some k ∧
      (∃ ct2, ((q.ready H mm sched flex).q.ready H mm2 sched2 flex2).q._chunkMap.find k
          = some ct2 ∧
        ct2._readyTask = some { top with memHandle := some (mm2.answer 0).handle }) ∧
      ((q.ready H mm sched flex).q.getTask H mm2 sched2 flex2).task =
        some { top with memHandle := some (mm2.answer 0).handle }) := by
  have e := _ready_ENOMEM H mm sched flex q k ct top rest hrc ha hf h1 h2 h3 h4
  have hself := ChunkMap.find_set_self q._chunkMap k ct { ct with _resourceStarved := true } hf
  have eg : q.getTask H mm sched flex =
      ⟨{ q with _chunkMap := q._chunkMap.set k { ct with _resourceStarved := true } },
        [prepareCallOf top flex, prepareCallOf top flex], none, .value false⟩ := by
    unfold ChunkTasksQueue.getTask
    rw [e]
    simp [hrc]
  have er : q.ready H mm sched flex = q._ready H mm sched flex [] := rfl
  rw [er, e, eg]
  refine ⟨?_, rfl, rfl, rfl, hrc, ha, rfl, hself, ?_, rfl, ?_⟩
  · intro asks
    rw [ChunkTasks.ready_ENOMEM H mm flex asks ct top rest h1 h2 h3 (h4 _)]
    exact ⟨rfl, rfl⟩
  · intro k1 hk1
    exact ChunkMap.find_set_ne _ _ _ _ hk1
  · intro mm2 sched2 flex2 hh
    have e2 := _ready_granted H mm2 sched2 flex2
      { q with _chunkMap := q._chunkMap.set k { ct with _resourceStarved := true } } k
      { ct with _resourceStarved := true } top rest hrc ha hself h1 h2 h3 hh
    have er2 : ∀ q1 : ChunkTasksQueue, q1.ready H mm2 sched2 flex2
        = q1._ready H mm2 sched2 flex2 [] := fun _ => rfl
    have hself2 := ChunkMap.find_set_self _ k _
      (({ ({ ct with _resourceStarved := true } : ChunkTasks) with
          _resourceStarved := false } : ChunkTasks).takeTop H
        { top with memHandle := some (mm2.answer 0).handle })
      hself
    dsimp only at e2 hself2 ⊢
    refine ⟨by rw [er2, e2], by rw [er2, e2], ⟨_, by rw [er2, e2]; exact hself2, rfl⟩, ?_⟩
    unfold ChunkTasksQueue.getTask
    rw [e2]
    dsimp only
    rw [hself2]
    dsimp only
    have hg := ChunkTasks.getTask_queued H mm2 flex2 [prepareCallOf top flex2]
      (({ ({ ct with _resourceStarved := true } : ChunkTasks) with
          _resourceStarved := false } : ChunkTasks).takeTop H
        { top with memHandle := some (mm2.answer 0).handle }) rfl
    rw [if_neg (by simp [hg.1])]
    dsimp only
    rw [hg.2.2]
    rfl

/-- Witness for `ready_out_of_memory`: chunk 5 is active with `sampleTask` on its
heap and the memory manager is out of memory. -/
theorem ready_out_of_memory_witness :
    sampleActive._activeChunk = some 5 ∧
    (sampleActive.ready plainHeap starvedMemMan none false).ret = .value false ∧
    (sampleActive.getTask plainHeap starvedMemMan none false).task = none :=
  ⟨rfl, (ready_out_of_memory plainHeap starvedMemMan none false sampleActive 5 _ sampleTask []
      rfl rfl rfl rfl rfl rfl (fun _ => rfl)).2.1,
   (ready_out_of_memory plainHeap starvedMemMan none false sampleActive 5 _ sampleTask []
      rfl rfl rfl rfl rfl rfl (fun _ => rfl)).2.2.1⟩

/-! ### Properties of all entries of the map -/

theorem ChunkMap.all_find (Pc : Int → ChunkTasks → Prop) (m : ChunkMap) (k : Int)
    (ct : ChunkTasks) (h : m.All Pc) (hf : m.find k = some ct) : Pc k ct := by
  induction m with
  | nil => simp [ChunkMap.find] at hf
  | cons e rest ih =>
    obtain ⟨k1, c1⟩ := e
    by_cases hk : k1 = k
    · simp only [ChunkMap.find, hk, if_true, Option.some.injEq] at hf
      have := h (k1, c1) (List.mem_cons_self _ _)
      rw [hk, hf] at this
      exact this
    · simp only [ChunkMap.find, hk, if_false] at hf
      exact ih (fun e he => h e (List.mem_cons_of_mem _ he)) hf

theorem ChunkMap.all_set (Pc : Int → ChunkTasks → Prop) (m : ChunkMap) (k : Int)
    (ct : ChunkTasks) (h : m.All Pc) (hc : Pc k ct) : (m.set k ct).All Pc := by
  induction m with
  | nil => exact h
  | cons e rest ih =>
    obtain ⟨k1, c1⟩ := e
    have hrest : ChunkMap.All Pc rest := fun e he => h e (List.mem_cons_of_mem _ he)
    by_cases hk : k1 = k
    · simp only [ChunkMap.set, hk, if_true]
      intro e he
      rcases List.mem_cons.mp he with he | he
      · rw [he]
        exact hc
      · exact hrest e he
    · simp only [ChunkMap.set, hk, if_false]
      intro e he
      rcases List.mem_cons.mp he with he | he
      · rw [he]
        exact h (k1, c1) (List.mem_cons_self _ _)
      · exact ih hrest e he

theorem ChunkMap.all_insert (Pc : Int → ChunkTasks → Prop) (m : ChunkMap) (k : Int)
    (ct : ChunkTasks) (h : m.All Pc) (hc : Pc k ct) : (m.insert k ct).All Pc := by
  induction m with
  | nil =>
    intro e he
    simp only [ChunkMap.insert, List.mem_singleton] at he
    rw [he]
    exact hc
  | cons e rest ih =>
    obtain ⟨k1, c1⟩ := e
    have hrest : ChunkMap.All Pc rest := fun e he => h e (List.mem_cons_of_mem _ he)
    by_cases hlt : k < k1
    · simp only [ChunkMap.insert, hlt, if_true]
      intro e he
      rcases List.mem_cons.mp he with he | he
      · rw [he]
        exact hc
      · exact h e he
    · by_cases hk : k1 = k
      · subst hk
        simp only [ChunkMap.insert, hlt, if_true, if_false]
        exact h
      · simp only [ChunkMap.insert, hlt, hk, if_false]
        intro e he
        rcases List.mem_cons.mp he with he | he
        · rw [he]
          exact h (k1, c1) (List.mem_cons_self _ _)
        · exact ih hrest e he

theorem ChunkMap.all_erase (Pc : Int → ChunkTasks → Prop) (m : ChunkMap) (k : Int)
    (h : m.All Pc) : (m.erase k).All Pc := by
  induction m with
  | nil => exact h
  | cons e rest ih =>
    obtain ⟨k1, c1⟩ := e
    have hrest : ChunkMap.All Pc rest := fun e he => h e (List.mem_cons_of_mem _ he)
    by_cases hk : k1 = k
    · simp only [ChunkMap.erase, hk, if_true]
      exact hrest
    · simp only [ChunkMap.erase, hk, if_false]
      intro e he
      rcases List.mem_cons.mp he with he | he
      · rw [he]
        exact h (k1, c1) (List.mem_cons_self _ _)
      · exact ih hrest e he

theorem scanLoop_all (H : StdHeap) (Pc : Int → ChunkTasks → Prop)
    (hready : ∀ k ct mm flex asks, Pc k ct → Pc k (ChunkTasks.ready H mm flex asks ct).ct)
    (mm : MemMan) (sched : Option SchedulerPolicy) (flex : Bool) (fuel : Nat) :
    ∀ (q : ChunkTasksQueue) (asks : List PrepareCall) (iter : Int) (st : ReadyState),
    q._chunkMap.All Pc →
    (ChunkTasksQueue.scanLoop H mm sched flex fuel q asks iter st).q._chunkMap.All Pc := by
  induction fuel with
  | zero =>
    intro q asks iter st h
    exact h
  | succ fuel ih =>
    intro q asks iter st h
    unfold ChunkTasksQueue.scanLoop
    split
    · dsimp only
      split
      · exact h
      · split
        · exact h
        · split
          · exact h
          · rename_i ct hfind
            have hc := hready _ _ mm flex asks (ChunkMap.all_find Pc _ _ _ h hfind)
            split
            · exact h
            · split
              · exact ChunkMap.all_set Pc _ _ _ h hc
              · exact ih _ _ _ _ (ChunkMap.all_set Pc _ _ _ h hc)
    · split
      · exact h
      · exact h

theorem readyScan_all (H : StdHeap) (Pc : Int → ChunkTasks → Prop)
    (hready : ∀ k ct mm flex asks, Pc k ct → Pc k (ChunkTasks.ready H mm flex asks ct).ct)
    (mm : MemMan) (sched : Option SchedulerPolicy) (flex : Bool) (q : ChunkTasksQueue)
    (asks : List PrepareCall) (h : q._chunkMap.All Pc) :
    (q.readyScan H mm sched flex asks).q._chunkMap.All Pc := by
  unfold ChunkTasksQueue.readyScan
  split
  · exact h
  · split
    · exact h
    · rename_i ct hfind
      have hc := hready _ _ mm flex asks (ChunkMap.all_find Pc _ _ _ h hfind)
      dsimp only
      split
      · exact ChunkMap.all_set Pc _ _ _ h hc
      · exact scanLoop_all H Pc hready mm sched flex _ _ _ _ _
          (ChunkMap.all_set Pc _ _ _ h hc)

theorem readyAdvance_all (H : StdHeap) (Pc : Int → ChunkTasks → Prop)
    (hready : ∀ k ct mm flex asks, Pc k ct → Pc k (ChunkTasks.ready H mm flex asks ct).ct)
    (hset : ∀ k ct b, Pc k ct → Pc k (ChunkTasks.setActive H ct b))
    (hmove : ∀ k ct, Pc k ct → Pc k (ChunkTasks.movePendingToActive H ct))
    (mm : MemMan) (sched : Option SchedulerPolicy) (flex : Bool) (q : ChunkTasksQueue)
    (asks : List PrepareCall) (k : Int) (ct : ChunkTasks) (h : q._chunkMap.All Pc)
    (hc : Pc k ct) :
    (q.readyAdvance H mm sched flex asks k ct).q._chunkMap.All Pc := by
  unfold ChunkTasksQueue.readyAdvance
  split
  · have h1 : (q._chunkMap.set k (ct.setActive H false)).All Pc :=
      ChunkMap.all_set Pc _ _ _ h (hset _ _ _ hc)
    have h2 : (if (ct.setActive H false).empty = true
        then (q._chunkMap.set k (ct.setActive H false)).erase k
        else q._chunkMap.set k (ct.setActive H false)).All Pc := by
      split
      · exact ChunkMap.all_erase Pc _ _ h1
      · exact h1
    dsimp only
    split
    · exact h2
    · split
      · exact h2
      · rename_i cn hcn
        apply readyScan_all H Pc hready
        exact ChunkMap.all_set Pc _ _ _ h2
          (hset _ _ _ (hmove _ _ (ChunkMap.all_find Pc _ _ _ h2 hcn)))
  · exact readyScan_all H Pc hready mm sched flex q asks h

theorem _ready_all (H : StdHeap) (Pc : Int → ChunkTasks → Prop)
    (hready : ∀ k ct mm flex asks, Pc k ct → Pc k (ChunkTasks.ready H mm flex asks ct).ct)
    (hset : ∀ k ct b, Pc k ct → Pc k (ChunkTasks.setActive H ct b))
    (hmove : ∀ k ct, Pc k ct → Pc k (ChunkTasks.movePendingToActive H ct))
    (mm : MemMan) (sched : Option SchedulerPolicy) (flex : Bool) (q : ChunkTasksQueue)
    (asks : List PrepareCall) (h : q._chunkMap.All Pc) :
    (q._ready H mm sched flex asks).q._chunkMap.All Pc := by
  unfold ChunkTasksQueue._ready
  split
  · exact h
  · split
    · exact h
    · have h1 : ∀ q1 : ChunkTasksQueue, q1._chunkMap.All Pc →
          (match q1._activeChunk with
            | none => (⟨q1, asks, .invalidIterator⟩ : ReadyOut)
            | some k =>
              match q1._chunkMap.find k with
              | none => ⟨q1, asks, .invalidIterator⟩
              | some ct =>
                let r := ct.ready H mm flex asks
                let q2 := { q1 with _chunkMap := q1._chunkMap.set k r.ct }
                match r.state with
                | none => ⟨q2, r.asks, .thrown⟩
                | some .READY => ⟨{ q2 with _readyChunk := some k }, r.asks, .value true⟩
                | some _ => q2.readyAdvance H mm sched flex r.asks k r.ct).q._chunkMap.All Pc := by
        intro q1 hq1
        split
        · exact hq1
        · split
          · exact hq1
          · rename_i ct hfind
            have hc := hready _ _ mm flex asks (ChunkMap.all_find Pc _ _ _ hq1 hfind)
            dsimp only
            split
            · exact ChunkMap.all_set Pc _ _ _ hq1 hc
            · exact ChunkMap.all_set Pc _ _ _ hq1 hc
            · exact readyAdvance_all H Pc hready hset hmove mm sched flex _ _ _ _
                (ChunkMap.all_set Pc _ _ _ hq1 hc) hc
      apply h1
      split
      · exact h
      · split
        · exact h
        · split
          · exact h
          · rename_i cb hcb
            exact ChunkMap.all_set Pc _ _ _ h (hset _ _ _ (ChunkMap.all_find Pc _ _ _ h hcb))

/-! ### The tasks of a chunk carry its id -/

theorem foldl_push_perm (H : StdHeap) (p l : List Task) :
    List.Perm (p.foldl (SlowTableHeap.push H) l) (l ++ p) := by
  induction p generalizing l with
  | nil => simp
  | cons a p ih =>
    simp only [List.foldl_cons]
    refine (ih _).trans ?_
    have h1 : List.Perm (SlowTableHeap.push H l a) (l ++ [a]) := H.push_heap_perm _
    refine (h1.append_right p).trans ?_
    simp

theorem ChunkTasks.keyed_movePendingToActive (H : StdHeap) (k : Int) (ct : ChunkTasks)
    (h : ct.keyed k) : (ct.movePendingToActive H).keyed k := by
  obtain ⟨h1, h2, h3, h4⟩ := h
  refine ⟨h1, ?_, ?_, h4⟩
  · intro t ht
    have := (foldl_push_perm H ct._pendingTasks ct._activeTasks).mem_iff.mp ht
    rcases List.mem_append.mp this with ht | ht
    · exact h2 t ht
    · exact h3 t ht
  · intro t ht
    simp [ChunkTasks.movePendingToActive] at ht

theorem ChunkTasks.keyed_setActive (H : StdHeap) (k : Int) (ct : ChunkTasks) (b : Bool)
    (h : ct.keyed k) : (ct.setActive H b).keyed k := by
  have hm := ChunkTasks.keyed_movePendingToActive H k ct h
  unfold ChunkTasks.setActive
  dsimp only
  split
  · split
    · exact hm
    · exact h
  · exact h

theorem ChunkTasks.keyed_takeTop (H : StdHeap) (k : Int) (ct : ChunkTasks) (a t : Task)
    (l : List Task) (h : ct.keyed k) (hl : ct._activeTasks = a :: l) (ht : t.chunkId = k) :
    (ct.takeTop H t).keyed k := by
  obtain ⟨h1, h2, h3, _⟩ := h
  refine ⟨h1, ?_, h3, ?_⟩
  · intro x hx
    have hx1 : x ∈ SlowTableHeap.pop H (a :: l) := by
      rw [← hl]
      exact hx
    have := (SlowTableHeap.pop_perm H a l).mem_iff.mp hx1
    exact h2 x (by rw [hl]; exact List.mem_cons_of_mem _ this)
  · intro x hx
    simp only [ChunkTasks.takeTop, Option.some.injEq] at hx
    rw [← hx]
    exact ht

theorem ChunkTasks.keyed_ready (H : StdHeap) (k : Int) (ct : ChunkTasks) (mm : MemMan)
    (flex : Bool) (asks : List PrepareCall) (h : ct.keyed k) :
    (ct.ready H mm flex asks).ct.keyed k := by
  unfold ChunkTasks.ready
  by_cases h0 : ct._readyTask.isSome = true
  · simp [h0, h]
  · rw [if_neg h0]
    cases hl : ct._activeTasks with
    | nil => exact h
    | cons a l =>
      have ha : a.chunkId = k := h.2.1 a (by rw [hl]; exact List.mem_cons_self _ _)
      have hC : ∀ b : Bool, ChunkTasks.keyed k
          { ct with _resourceStarved := b, _activeTasks := a :: l } :=
        fun b => ⟨h.1, by rw [← hl]; exact h.2.1, h.2.2.1, h.2.2.2⟩
      have key : ∀ (b : Bool) (t : Task), t.chunkId = k →
          (({ ct with _resourceStarved := b, _activeTasks := a :: l }
            : ChunkTasks).takeTop H t).keyed k :=
        fun b t ht => ChunkTasks.keyed_takeTop H k _ a t l (hC b) rfl ht
      simp only []
      by_cases hm : a.hasMemHandle = true
      · simp only [hm, Bool.not_true, Bool.false_eq_true, if_false]
        exact ChunkTasks.keyed_takeTop H k ct a a l h hl ha
      · by_cases hh : (mm.answer asks.length).handle = 0
        · cases he : (mm.answer asks.length).errno
          · simp only [hm, hh, he, Bool.not_false, if_true]
            exact hC true
          · simp only [hm, hh, he, Bool.not_false, if_true]
            exact key false _ ha
          · simp only [hm, hh, he, Bool.not_false, if_true]
            exact h
        · simp only [hm, hh, Bool.not_false, if_true, if_false]
          exact key false _ ha

theorem ChunkTasks.keyed_queTask (H : StdHeap) (now : Nat) (ct : ChunkTasks) (a : Task)
    (h : ct.keyed a.chunkId) : (ct.queTask H now a).keyed a.chunkId := by
  obtain ⟨h1, h2, h3, h4⟩ := h
  unfold ChunkTasks.queTask
  split
  · refine ⟨h1, h2, ?_, h4⟩
    intro t ht
    rcases List.mem_append.mp ht with ht | ht
    · exact h3 t ht
    · simp only [List.mem_singleton] at ht
      rw [ht]
  · refine ⟨h1, ?_, h3, h4⟩
    intro t ht
    have := (H.push_heap_perm _).mem_iff.mp ht
    rcases List.mem_append.mp this with ht | ht
    · exact h2 t ht
    · simp only [List.mem_singleton] at ht
      rw [ht]

theorem ChunkTasks.keyed_removeTask (H : StdHeap) (k : Int) (ct : ChunkTasks) (task : Task)
    (h : ct.keyed k) : (ct.removeTask H task).2.keyed k := by
  obtain ⟨h1, h2, h3, h4⟩ := h
  unfold ChunkTasks.removeTask
  rw [eraseFunc_eq, eraseFunc_eq]
  dsimp only
  split
  · rename_i r rest heq
    simp only [Prod.mk.injEq] at heq
    refine ⟨h1, ?_, h3, h4⟩
    intro t ht
    have := (H.make_heap_perm _).mem_iff.mp ht
    rw [← heq.2] at this
    exact h2 t (List.mem_of_mem_eraseP this)
  · refine ⟨h1, h2, ?_, h4⟩
    intro t ht
    exact h3 t (List.mem_of_mem_eraseP ht)

theorem ChunkTasks.getTask_eq (H : StdHeap) (mm : MemMan) (flex : Bool)
    (asks : List PrepareCall) (ct : ChunkTasks) (t : Task) (h : ct._readyTask = some t) :
    ct.getTask H mm flex asks =
      ⟨{ ct with
          _readyTask := none,
          _inFlightTasks := (if t.chunkId = ct._chunkId then inFlightInsert ct._inFlightTasks t.ptr
            else ct._inFlightTasks) },
        asks, some t, false⟩ := by
  have hr : ct.ready H mm flex asks = ⟨ct, asks, some .READY⟩ := by
    simp [ChunkTasks.ready, h]
  unfold ChunkTasks.getTask
  rw [hr]
  simp [h]

theorem ChunkTasks.keyed_getTask (H : StdHeap) (k : Int) (ct : ChunkTasks) (mm : MemMan)
    (flex : Bool) (asks : List PrepareCall) (h : ct.keyed k) :
    (ct.getTask H mm flex asks).ct.keyed k := by
  have hr := ChunkTasks.keyed_ready H k ct mm flex asks h
  unfold ChunkTasks.getTask
  dsimp only
  split
  · exact hr
  · split
    · exact hr
    · exact ⟨hr.1, hr.2.1, hr.2.2.1, fun t ht => by cases ht⟩
  · exact hr

/-- In every reachable state the tasks held for a chunk carry the id of that
chunk. -/
theorem reachable_keyed (H : StdHeap) (q : ChunkTasksQueue) (h : Reachable H q) :
    q._chunkMap.All ChunkTasks.keyed := by
  have hready : ∀ k ct mm flex asks, ChunkTasks.keyed k ct →
      ChunkTasks.keyed k (ChunkTasks.ready H mm flex asks ct).ct :=
    fun k ct mm flex asks hc => ChunkTasks.keyed_ready H k ct mm flex asks hc
  have hset : ∀ k ct b, ChunkTasks.keyed k ct → ChunkTasks.keyed k (ChunkTasks.setActive H ct b) :=
    fun k ct b hc => ChunkTasks.keyed_setActive H k ct b hc
  have hmove : ∀ k ct, ChunkTasks.keyed k ct →
      ChunkTasks.keyed k (ChunkTasks.movePendingToActive H ct) :=
    fun k ct hc => ChunkTasks.keyed_movePendingToActive H k ct hc
  induction h with
  | new =>
    intro e he
    cases he
  | queueTask q now task _ ih =>
    unfold ChunkTasksQueue.queueTask
    dsimp only
    cases hf : q._chunkMap.find task.chunkId with
    | some ct =>
      simp only [hf]
      exact ChunkMap.all_set _ _ _ _ ih
        (ChunkTasks.keyed_queTask H now ct task (ChunkMap.all_find _ _ _ _ ih hf))
    | none =>
      have hnew : (ChunkTasks.new task.chunkId).keyed task.chunkId := by
        simp [ChunkTasks.keyed, ChunkTasks.new]
      have hins := ChunkMap.all_insert _ _ _ _ ih hnew
      have hself := ChunkMap.find_insert_self q._chunkMap task.chunkId
        (ChunkTasks.new task.chunkId) hf
      simp only [hself]
      exact ChunkMap.all_set _ _ _ _ hins (ChunkTasks.keyed_queTask H now _ task hnew)
  | ready q mm sched flex _ ih =>
    exact _ready_all H _ hready hset hmove mm sched flex q [] ih
  | getTask q mm sched flex _ ih =>
    have hr := _ready_all H _ hready hset hmove mm sched flex q [] ih
    unfold ChunkTasksQueue.getTask
    dsimp only
    split
    · split
      · exact hr
      · split
        · exact hr
        · rename_i ct hfind
          have hc := ChunkTasks.keyed_getTask H _ ct mm flex (q._ready H mm sched flex []).asks
            (ChunkMap.all_find _ _ _ _ hr hfind)
          split
          · exact ChunkMap.all_set _ _ _ _ hr hc
          · exact ChunkMap.all_set _ _ _ _ hr hc
    · exact hr
  | taskComplete q task _ ih =>
    unfold ChunkTasksQueue.taskComplete
    split
    · exact ih
    · rename_i ct hfind
      have hc := ChunkMap.all_find _ _ _ _ ih hfind
      exact ChunkMap.all_set _ _ _ _ ih ⟨hc.1, hc.2.1, hc.2.2.1, hc.2.2.2⟩
  | removeTask q task _ ih =>
    unfold ChunkTasksQueue.removeTask
    split
    · exact ih
    · rename_i ct hfind
      have hc := ChunkTasks.keyed_removeTask H _ ct task (ChunkMap.all_find _ _ _ _ ih hfind)
      dsimp only
      split
      · exact ChunkMap.all_set _ _ _ _ ih hc
      · exact ChunkMap.all_set _ _ _ _ ih hc

theorem mem_inFlightInsert (s : List Nat) (p : Nat) : p ∈ inFlightInsert s p := by
  unfold inFlightInsert
  split
  · assumption
  · exact List.mem_cons_self _ _

/-- C14: in every reachable scheduler state, `getTask` returns a task if and only
if `ready` (with the same arguments, memory manager and policy) returns true in
that state; when it returns a task, that task is the ready task cached by the
ready chunk after the readiness check, `_taskCount` decreases by exactly one,
`_readyChunk` is cleared, the chunk's ready slot is cleared and the task is
inserted into that chunk's in-flight set, nothing else changes; when it returns
none, `_taskCount` is unchanged. -/
theorem getTask_iff_ready (H : StdHeap) (q : ChunkTasksQueue) (hq : Reachable H q)
    (mm : MemMan) (sched : Option SchedulerPolicy) (flex : Bool) :
    ((q.getTask H mm sched flex).task.isSome = true ↔
      (q.ready H mm sched flex).ret = .value true) ∧
    (∀ t, (q.getTask H mm sched flex).task = some t →
      ∃ k ct, (q.ready H mm sched flex).q._readyChunk = some k ∧
        (q.ready H mm sched flex).q._chunkMap.find k = some ct ∧
        ct._readyTask = some t ∧
        (q.getTask H mm sched flex).q =
          { (q.ready H mm sched flex).q with
            _chunkMap := (q.ready H mm sched flex).q._chunkMap.set k
              { ct with _readyTask := none,
                        _inFlightTasks := inFlightInsert ct._inFlightTasks t.ptr },
            _readyChunk := none,
            _taskCount := q._taskCount - 1 } ∧
        t.ptr ∈ inFlightInsert ct._inFlightTasks t.ptr) ∧
    ((q.getTask H mm sched flex).task = none →
      (q.getTask H mm sched flex).q._taskCount = q._taskCount) := by
  have hinv := _ready_countInv H mm sched flex q [] (reachable_countInv H q hq)
  have hkey : (q._ready H mm sched flex []).q._chunkMap.All ChunkTasks.keyed :=
    _ready_all H _ (fun k ct mm flex asks hc => ChunkTasks.keyed_ready H k ct mm flex asks hc)
      (fun k ct b hc => ChunkTasks.keyed_setActive H k ct b hc)
      (fun k ct hc => ChunkTasks.keyed_movePendingToActive H k ct hc) mm sched flex q []
      (reachable_keyed H q hq)
  have hfr := _ready_frame H mm sched flex q []
  have er : q.ready H mm sched flex = q._ready H mm sched flex [] := rfl
  rw [er]
  unfold ChunkTasksQueue.getTask
  dsimp only
  generalize q._ready H mm sched flex [] = r at hinv hkey hfr ⊢
  obtain ⟨rq, rasks, rret⟩ := r
  dsimp only at hinv hkey hfr ⊢
  cases hrc : rq._readyChunk with
  | none =>
    have hnt : rret ≠ .value true := by
      intro e
      have := hfr.2.mpr e
      rw [hrc] at this
      cases this
    cases rret with
    | value b =>
      simp only [hrc]
      refine ⟨by simpa using hnt, (by intro t ht; cases ht), fun _ => hfr.1⟩
    | thrown => exact ⟨by simp, (by intro t ht; cases ht), fun _ => hfr.1⟩
    | invalidIterator => exact ⟨by simp, (by intro t ht; cases ht), fun _ => hfr.1⟩
    | outOfFuel => exact ⟨by simp, (by intro t ht; cases ht), fun _ => hfr.1⟩
  | some k =>
    obtain ⟨ct, hct, hs⟩ := hinv.2 k hrc
    have hret : rret = .value true := hfr.2.mp (by rw [hrc]; rfl)
    obtain ⟨t, ht⟩ := Option.isSome_iff_exists.mp hs
    have hk := ChunkMap.all_find _ _ _ _ hkey hct
    have htk : t.chunkId = ct._chunkId := by rw [hk.1]; exact hk.2.2.2 t ht
    have hg := ChunkTasks.getTask_eq H mm flex rasks ct t ht
    subst hret
    simp only [hrc, hct, hg, htk, if_true]
    refine ⟨by simp, ?_, by intro h; cases h⟩
    intro t1 ht1
    simp only [Bool.false_eq_true, if_false, Option.some.injEq] at ht1
    subst ht1
    refine ⟨k, ct, rfl, hct, ht, ?_, mem_inFlightInsert _ _⟩
    simp [hfr.1]

/-- Witness for `getTask_iff_ready`: the queue that holds `sampleTask`. -/
theorem getTask_iff_ready_witness :
    Reachable plainHeap sampleQueued ∧
    ((sampleQueued.getTask plainHeap grantingMemMan none false).task.isSome = true ↔
      (sampleQueued.ready plainHeap grantingMemMan none false).ret = .value true) :=
  ⟨Reachable.queueTask _ _ _ Reachable.new,
   (getTask_iff_ready plainHeap sampleQueued (Reachable.queueTask _ _ _ Reachable.new)
      grantingMemMan none false).1⟩

/-! ### The order in which a chunk hands out its tasks -/

theorem byQueryId_strictWeakOrder : StrictWeakOrder byQueryId := by
  constructor
  · intro a b h
    simp only [byQueryId, decide_eq_true_eq, decide_eq_false_iff_not] at h ⊢
    omega
  · intro a b c h1 h2
    simp only [byQueryId, decide_eq_false_iff_not] at h1 h2 ⊢
    omega

theorem byQueryId_ignoresMemHandle : IgnoresMemHandle byQueryId := by
  intro a b h
  exact ⟨rfl, rfl⟩

theorem isHeap_head_max (cmp : Task → Task → Bool) (hs : StrictWeakOrder cmp) (a : Task)
    (l : List Task) (h : IsHeap cmp (a :: l)) : ∀ x ∈ a :: l, cmp a x = false := by
  have key : ∀ (n i : Nat) (x : Task), i ≤ n → (a :: l)[i]? = some x → cmp a x = false := by
    intro n
    induction n with
    | zero =>
      intro i x hi hx
      have : i = 0 := by omega
      subst this
      simp only [List.getElem?_cons_zero, Option.some.injEq] at hx
      subst hx
      cases hc : cmp a a
      · rfl
      · have := hs.1 a a hc
        rw [hc] at this
        cases this
    | succ n ih =>
      intro i x hi hx
      by_cases h0 : i = 0
      · exact ih i x (by omega) hx
      · have hlt : (i - 1) / 2 < i := by omega
        have hlen : i < (a :: l).length := by
          by_contra hcon
          rw [List.getElem?_eq_none (by omega)] at hx
          cases hx
        obtain ⟨p, hp⟩ : ∃ p, (a :: l)[(i - 1) / 2]? = some p :=
          ⟨(a :: l)[(i - 1) / 2], List.getElem?_eq_getElem (by omega)⟩
        have h1 := ih ((i - 1) / 2) p (by omega) hp
        have h2 := h i p x (by omega) hp hx
        exact hs.2 a p x h1 h2
  intro x hx
  obtain ⟨i, hi⟩ := List.getElem?_of_mem hx
  exact key i i x (le_refl _) hi

theorem SlowTableHeap.pop_isHeap (H : StdHeap) (hs : StrictWeakOrder H.compareFunc)
    (l : List Task) (h : IsHeap H.compareFunc l) :
    IsHeap H.compareFunc (SlowTableHeap.pop H l) := by
  unfold SlowTableHeap.pop
  split
  · exact h
  · exact H.pop_heap_heap hs l h

theorem ChunkTasks.ready_shape (H : StdHeap) (mm : MemMan) (flex : Bool)
    (asks : List PrepareCall) (ct : ChunkTasks) :
    (ct.ready H mm flex asks).ct._active = ct._active ∧
    (((ct.ready H mm flex asks).ct._activeTasks = ct._activeTasks ∧
        (ct.ready H mm flex asks).ct._readyTask = ct._readyTask) ∨
      (ct._readyTask = none ∧ ∃ a l h, ct._activeTasks = a :: l ∧
        (ct.ready H mm flex asks).ct._activeTasks = SlowTableHeap.pop H (a :: l) ∧
        (ct.ready H mm flex asks).ct._readyTask = some { a with memHandle := h })) := by
  unfold ChunkTasks.ready
  by_cases h0 : ct._readyTask.isSome = true
  · simp [h0]
  · rw [if_neg h0]
    have h1 : ct._readyTask = none := by simpa using h0
    cases hl : ct._activeTasks with
    | nil => simp [hl]
    | cons a l =>
      simp only []
      by_cases hm : a.hasMemHandle = true
      · refine ⟨by simp [hm, ChunkTasks.takeTop], Or.inr ⟨h1, a, l, a.memHandle, rfl, ?_, ?_⟩⟩
        · simp [hm, ChunkTasks.takeTop, hl]
        · simp [hm, ChunkTasks.takeTop]
      · by_cases hh : (mm.answer asks.length).handle = 0
        · cases he : (mm.answer asks.length).errno
          · simp [hm, hh, he, hl]
          · refine ⟨by simp [hm, hh, he, ChunkTasks.takeTop],
              Or.inr ⟨h1, a, l, some mm.ISEMPTY, rfl, ?_, ?_⟩⟩
            · simp [hm, hh, he, ChunkTasks.takeTop]
            · simp [hm, hh, he, ChunkTasks.takeTop]
          · simp [hm, hh, he, hl]
        · refine ⟨by simp [hm, hh, ChunkTasks.takeTop],
            Or.inr ⟨h1, a, l, some (mm.answer asks.length).handle, rfl, ?_, ?_⟩⟩
          · simp [hm, hh, ChunkTasks.takeTop]
          · simp [hm, hh, ChunkTasks.takeTop]

theorem ChunkTasks.ready_ordered (H : StdHeap) (hs : StrictWeakOrder H.compareFunc)
    (hi : IgnoresMemHandle H.compareFunc) (mm : MemMan) (flex : Bool)
    (asks : List PrepareCall) (ct : ChunkTasks) (h : ct.ordered H.compareFunc) :
    (ct.ready H mm flex asks).ct.ordered H.compareFunc ∧
    (∀ x ∈ (ct.ready H mm flex asks).ct._activeTasks, x ∈ ct._activeTasks) ∧
    (∀ b, ct.boundedBy H.compareFunc b →
      (ct.ready H mm flex asks).ct.boundedBy H.compareFunc b) := by
  obtain ⟨ha, hh, ho⟩ := h
  obtain ⟨sa, sh⟩ := ChunkTasks.ready_shape H mm flex asks ct
  rcases sh with ⟨e1, e2⟩ | ⟨hn, a, l, h0, hl, e1, e2⟩
  · refine ⟨⟨by rw [sa]; exact ha, by rw [e1]; exact hh, ?_⟩, by rw [e1]; exact fun x hx => hx, ?_⟩
    · intro r hr x hx
      rw [e2] at hr
      rw [e1] at hx
      exact ho r hr x hx
    · intro b hb
      refine ⟨by rw [e1]; exact hb.1, ?_⟩
      intro r hr
      rw [e2] at hr
      exact hb.2 r hr
  · have hmax := isHeap_head_max H.compareFunc hs a l (by rw [← hl]; exact hh)
    have hsub : ∀ x ∈ SlowTableHeap.pop H (a :: l), x ∈ a :: l := fun x hx =>
      List.mem_cons_of_mem _ ((SlowTableHeap.pop_perm H a l).mem_iff.mp hx)
    refine ⟨⟨by rw [sa]; exact ha, ?_, ?_⟩, ?_, ?_⟩
    · rw [e1]
      exact SlowTableHeap.pop_isHeap H hs _ (by rw [← hl]; exact hh)
    · intro r hr x hx
      rw [e2] at hr
      rw [e1] at hx
      simp only [Option.some.injEq] at hr
      rw [← hr, (hi a x h0).1]
      exact hmax x (hsub x hx)
    · intro x hx
      rw [e1] at hx
      rw [hl]
      exact hsub x hx
    · intro b hb
      refine ⟨?_, ?_⟩
      · intro x hx
        rw [e1] at hx
        exact hb.1 x (by rw [hl]; exact hsub x hx)
      · intro r hr
        rw [e2] at hr
        simp only [Option.some.injEq] at hr
        rw [← hr, (hi b a h0).2]
        exact hb.1 a (by rw [hl]; exact List.mem_cons_self _ _)

theorem ChunkTasks.getTask_shape (H : StdHeap) (mm : MemMan) (flex : Bool)
    (asks : List PrepareCall) (ct : ChunkTasks) :
    (ct.getTask H mm flex asks).ct._activeTasks = (ct.ready H mm flex asks).ct._activeTasks ∧
    (ct.getTask H mm flex asks).ct._active = (ct.ready H mm flex asks).ct._active ∧
    (((ct.getTask H mm flex asks).task = none ∧
        (ct.getTask H mm flex asks).ct._readyTask = (ct.ready H mm flex asks).ct._readyTask) ∨
      (∃ t, (ct.getTask H mm flex asks).task = some t ∧
        (ct.ready H mm flex asks).ct._readyTask = some t ∧
        (ct.getTask H mm flex asks).ct._readyTask = none)) := by
  unfold ChunkTasks.getTask
  dsimp only
  split
  · exact ⟨rfl, rfl, Or.inl ⟨rfl, rfl⟩⟩
  · split
    · exact ⟨rfl, rfl, Or.inl ⟨rfl, rfl⟩⟩
    · rename_i t ht
      exact ⟨rfl, rfl, Or.inr ⟨t, rfl, ht, rfl⟩⟩
  · exact ⟨rfl, rfl, Or.inl ⟨rfl, rfl⟩⟩

theorem ChunkTasks.removeTask_shape (H : StdHeap) (ct : ChunkTasks) (task : Task) :
    (ct.removeTask H task).2._active = ct._active ∧
    (ct.removeTask H task).2._readyTask = ct._readyTask ∧
    ((ct.removeTask H task).2._activeTasks = ct._activeTasks ∨
      (ct.removeTask H task).2._activeTasks = H.make_heap
        (ct._activeTasks.eraseP (fun x => x.idsMatch task.queryId task.jobId))) := by
  unfold ChunkTasks.removeTask
  rw [eraseFunc_eq, eraseFunc_eq]
  dsimp only
  split
  · rename_i r rest heq
    simp only [Prod.mk.injEq] at heq
    refine ⟨rfl, rfl, Or.inr ?_⟩
    simp [SlowTableHeap.heapify, heq.2]
  · exact ⟨rfl, rfl, Or.inl rfl⟩

theorem ChunkTasks.apply_ordered (H : StdHeap) (hs : StrictWeakOrder H.compareFunc)
    (hi : IgnoresMemHandle H.compareFunc) (ct : ChunkTasks) (op : ChunkOp)
    (h : ct.ordered H.compareFunc) :
    (ct.apply H op).1.ordered H.compareFunc ∧
    (∀ b, ct.boundedBy H.compareFunc b →
      (ct.apply H op).1.boundedBy H.compareFunc b ∧
      ∀ t, (ct.apply H op).2 = some t → H.compareFunc b t = false) ∧
    (∀ t, (ct.apply H op).2 = some t → (ct.apply H op).1.boundedBy H.compareFunc t) := by
  cases op with
  | ready mm flex =>
    have hr := ChunkTasks.ready_ordered H hs hi mm flex [] ct h
    refine ⟨hr.1, fun b hb => ⟨hr.2.2 b hb, ?_⟩, ?_⟩
    · intro t ht
      cases ht
    · intro t ht
      cases ht
  | getTask mm flex =>
    have hr := ChunkTasks.ready_ordered H hs hi mm flex [] ct h
    obtain ⟨g1, g2, g3⟩ := ChunkTasks.getTask_shape H mm flex [] ct
    obtain ⟨⟨ra, rh, ro⟩, _, rb⟩ := hr
    show ChunkTasks.ordered H.compareFunc (ct.getTask H mm flex []).ct ∧
      (∀ b, ct.boundedBy H.compareFunc b →
        (ct.getTask H mm flex []).ct.boundedBy H.compareFunc b ∧
        ∀ t, (ct.getTask H mm flex []).task = some t → H.compareFunc b t = false) ∧
      (∀ t, (ct.getTask H mm flex []).task = some t →
        (ct.getTask H mm flex []).ct.boundedBy H.compareFunc t)
    rcases g3 with ⟨gn, gs⟩ | ⟨t, gt, rs, gs⟩
    · refine ⟨⟨by rw [g2]; exact ra, by rw [g1]; exact rh, ?_⟩, ?_, ?_⟩
      · intro r hr x hx
        rw [gs] at hr
        rw [g1] at hx
        exact ro r hr x hx
      · intro b hb
        refine ⟨⟨by rw [g1]; exact (rb b hb).1, by rw [gs]; exact (rb b hb).2⟩, ?_⟩
        intro t ht
        rw [gn] at ht
        cases ht
      · intro t ht
        rw [gn] at ht
        cases ht
    · refine ⟨⟨by rw [g2]; exact ra, by rw [g1]; exact rh, ?_⟩, ?_, ?_⟩
      · intro r hr
        rw [gs] at hr
        cases hr
      · intro b hb
        refine ⟨⟨by rw [g1]; exact (rb b hb).1, ?_⟩, ?_⟩
        · intro r hr
          rw [gs] at hr
          cases hr
        · intro t1 ht1
          rw [gt] at ht1
          simp only [Option.some.injEq] at ht1
          rw [← ht1]
          exact (rb b hb).2 t rs
      · intro t1 ht1
        rw [gt] at ht1
        simp only [Option.some.injEq] at ht1
        rw [← ht1]
        refine ⟨?_, ?_⟩
        · intro x hx
          rw [g1] at hx
          exact ro t rs x hx
        · intro r hr
          rw [gs] at hr
          cases hr
  | queTask now task =>
    obtain ⟨ha, hh, ho⟩ := h
    have e : ct.queTask H now task =
        { ct with _pendingTasks := ct._pendingTasks ++ [{ task with entryTime := now }] } := by
      simp [ChunkTasks.queTask, ha]
    show ChunkTasks.ordered H.compareFunc (ct.queTask H now task) ∧
      (∀ b, ct.boundedBy H.compareFunc b →
        (ct.queTask H now task).boundedBy H.compareFunc b ∧
        ∀ t, (none : Option Task) = some t → H.compareFunc b t = false) ∧
      (∀ t, (none : Option Task) = some t → (ct.queTask H now task).boundedBy H.compareFunc t)
    rw [e]
    exact ⟨⟨ha, hh, ho⟩, fun b hb => ⟨hb, fun t ht => by cases ht⟩, fun t ht => by cases ht⟩
  | taskComplete task =>
    exact ⟨h, fun b hb => ⟨hb, fun t ht => by cases ht⟩, fun t ht => by cases ht⟩
  | removeTask task =>
    obtain ⟨ha, hh, ho⟩ := h
    obtain ⟨r1, r2, r3⟩ := ChunkTasks.removeTask_shape H ct task
    have hsub : ∀ x ∈ (ct.removeTask H task).2._activeTasks, x ∈ ct._activeTasks := by
      intro x hx
      rcases r3 with r3 | r3
      · rw [r3] at hx
        exact hx
      · rw [r3] at hx
        exact List.mem_of_mem_eraseP ((H.make_heap_perm _).mem_iff.mp hx)
    have hheap : IsHeap H.compareFunc (ct.removeTask H task).2._activeTasks := by
      rcases r3 with r3 | r3
      · rw [r3]
        exact hh
      · rw [r3]
        exact H.make_heap_heap hs _
    show ChunkTasks.ordered H.compareFunc (ct.removeTask H task).2 ∧
      (∀ b, ct.boundedBy H.compareFunc b →
        (ct.removeTask H task).2.boundedBy H.compareFunc b ∧
        ∀ t, (none : Option Task) = some t → H.compareFunc b t = false) ∧
      (∀ t, (none : Option Task) = some t →
        (ct.removeTask H task).2.boundedBy H.compareFunc t)
    refine ⟨⟨by rw [r1]; exact ha, hheap, ?_⟩, ?_, fun t ht => by cases ht⟩
    · intro r hr x hx
      rw [r2] at hr
      exact ho r hr x (hsub x hx)
    · intro b hb
      refine ⟨⟨fun x hx => hb.1 x (hsub x hx), ?_⟩, fun t ht => by cases ht⟩
      intro r hr
      rw [r2] at hr
      exact hb.2 r hr

theorem ChunkTasks.handedOut_bounded (H : StdHeap) (hs : StrictWeakOrder H.compareFunc)
    (hi : IgnoresMemHandle H.compareFunc) (b : Task) (ops : List ChunkOp) :
    ∀ ct : ChunkTasks, ct.ordered H.compareFunc → ct.boundedBy H.compareFunc b →
      ∀ t ∈ ct.handedOut H ops, H.compareFunc b t = false := by
  induction ops with
  | nil =>
    intro ct _ _ t ht
    cases ht
  | cons op ops ih =>
    intro ct ho hb t ht
    obtain ⟨a1, a2, _⟩ := ChunkTasks.apply_ordered H hs hi ct op ho
    unfold ChunkTasks.handedOut at ht
    split at ht
    · rename_i t1 ht1
      rcases List.mem_cons.mp ht with e | e
      · rw [e]
        exact (a2 b hb).2 t1 ht1
      · exact ih _ a1 (a2 b hb).1 t e
    · exact ih _ a1 (a2 b hb).1 t ht

/-- C19, as stated, fails for a chunk that is not the active chunk: `taskA` of
chunk 1 is queued and handed out (chunk 1 becomes the active chunk and `taskA`
stays in flight), then `taskB1` of chunk 2 is queued and handed out by the scan,
then `taskB2` of chunk 2 is queued and handed out. The comparator `byQueryId` is
a strict weak ordering, chunk 2 is not ready to advance at any moment in
between, and `taskB1` is ordered before `taskB2`. -/
theorem handedOut_order_counterexample :
    Reachable queryHeap runB2.q ∧
    StrictWeakOrder queryHeap.compareFunc ∧
    runA.task = some { taskA with memHandle := some 7 } ∧
    runB1.task = some { taskB1 with memHandle := some 7 } ∧
    runB2.task = some { taskB2 with memHandle := some 7 } ∧
    (runB1.q._chunkMap.find 2).map ChunkTasks.readyToAdvance = some false ∧
    ((runB1.q.queueTask queryHeap 0 taskB2)._chunkMap.find 2).map ChunkTasks.readyToAdvance
      = some false ∧
    queryHeap.compareFunc { taskB1 with memHandle := some 7 } { taskB2 with memHandle := some 7 }
      = true := by
  refine ⟨?_, byQueryId_strictWeakOrder, by decide, by decide, by decide, by decide, by decide,
    by decide⟩
  exact Reachable.getTask _ _ _ _ (Reachable.queueTask _ _ _
    (Reachable.getTask _ _ _ _ (Reachable.queueTask _ _ _
      (Reachable.getTask _ _ _ _ (Reachable.queueTask _ _ _ Reachable.new)))))

/-- C19, amended: for every chunk that is flagged active (so that `queTask`
appends to its pending list instead of pushing onto its heap), whose heap is a
valid heap and whose cached ready task, if any, is not ordered before a task on
the heap: the tasks handed out by `getTask` over every sequence of `ready`,
`getTask`, `queTask`, `taskComplete` and `removeTask` calls on that chunk form a
monotone non-increasing sequence under the slow-table comparator (no task handed
out is ordered before one handed out later), given the comparator is a strict
weak ordering that does not look at the memory handle. -/
theorem handedOut_monotone (H : StdHeap) (hs : StrictWeakOrder H.compareFunc)
    (hi : IgnoresMemHandle H.compareFunc) (ops : List ChunkOp) (ct : ChunkTasks)
    (h : ct.ordered H.compareFunc) :
    List.Pairwise (fun a b => H.compareFunc a b = false) (ct.handedOut H ops) := by
  induction ops generalizing ct with
  | nil => exact List.Pairwise.nil
  | cons op ops ih =>
    obtain ⟨a1, _, a3⟩ := ChunkTasks.apply_ordered H hs hi ct op h
    unfold ChunkTasks.handedOut
    split
    · rename_i t ht
      exact List.Pairwise.cons
        (ChunkTasks.handedOut_bounded H hs hi t ops _ a1 (a3 t ht)) (ih _ a1)
    · exact ih _ a1

/-- Witness for `handedOut_monotone`: the active chunk 5 with the tasks of
queries 2 and 1 on its heap hands out the task of query 2 first. -/
theorem handedOut_monotone_witness :
    sampleOrdered.handedOut queryHeap
        [.getTask grantingMemMan false, .getTask grantingMemMan false] =
      [{ sampleTask with queryId := 2, memHandle := some 7 },
       { sampleTask with memHandle := some 7 }] ∧
    List.Pairwise (fun a b => queryHeap.compareFunc a b = false)
      (sampleOrdered.handedOut queryHeap
        [.getTask grantingMemMan false, .getTask grantingMemMan false]) :=
  ⟨by decide,
   handedOut_monotone queryHeap byQueryId_strictWeakOrder byQueryId_ignoresMemHandle _
    sampleOrdered
    ⟨rfl, isHeap_of_pairwise byQueryId _ (by decide), fun r hr => by cases hr⟩⟩

end wsched

namespace master

/-! ### The task message of a chunk query -/

theorem foldl_add_subchunk (subChunks : List Int) : ∀ frag : Fragment,
    subChunks.foldl (fun f c => { f with subchunk := f.subchunk ++ [c] }) frag =
      { frag with subchunk := frag.subchunk ++ subChunks } := by
  induction subChunks with
  | nil => intro frag; simp
  | cons c rest ih => intro frag; simp [List.foldl, ih]

theorem Impl.addFragment_eq (m : TaskMsg) (resultName : String) (subChunks : List Int)
    (query : String) :
    Impl.addFragment m resultName subChunks query =
      { m with fragment := m.fragment ++ [⟨some resultName, some query, subChunks⟩] } := by
  simp [Impl.addFragment, foldl_add_subchunk]

theorem Impl.addChain_eq (resultTable : String) (s : ChunkQuerySpec) : ∀ m : TaskMsg,
    Impl.addChain resultTable m s =
      { m with fragment := m.fragment ++
          s.links.map (fun l => ⟨some resultTable, some l.query, l.subChunks⟩) } := by
  induction s using ChunkQuerySpec.rec
    (motive_2 := fun o => ∀ n, o = some n → ∀ m : TaskMsg,
      Impl.addChain resultTable m n =
        { m with fragment := m.fragment ++
            n.links.map (fun l => ⟨some resultTable, some l.query, l.subChunks⟩) }) with
  | mk db chunkId query subChunks next ih =>
    intro m
    cases next with
    | none =>
      simp [Impl.addChain, ChunkQuerySpec.links, Impl.addFragment_eq, ChunkQuerySpec.query,
        ChunkQuerySpec.subChunks]
    | some n =>
      simp [Impl.addChain, ChunkQuerySpec.links, Impl.addFragment_eq, ChunkQuerySpec.query,
        ChunkQuerySpec.subChunks, ih n rfl]
  | none => rename_i n h m; cases h
  | some n ih => rename_i n1 h m; cases h; exact ih m

/-- C26: the task message built by `makeMsg` carries the session of the factory,
the database and the chunk id of the chunk query, and one fragment per link of
the chain in chain order, each with the query and the sub-chunk ids of its link
in their order; the result table of every fragment is `chunkResultName` when
that is not empty and the result table of the factory otherwise. The message is
also what the factory keeps as `_taskMsg`. -/
theorem makeMsg_fields (self : Impl) (s : ChunkQuerySpec) (chunkResultName : String) :
    (self.makeMsg s chunkResultName).2.session = some self._session ∧
    (self.makeMsg s chunkResultName).2.db = some s.db ∧
    (self.makeMsg s chunkResultName).2.chunkid = some s.chunkId ∧
    (self.makeMsg s chunkResultName).2.fragment =
      s.links.map (fun l =>
        ⟨some (if chunkResultName.isEmpty then self._resultTable else chunkResultName),
          some l.query, l.subChunks⟩) ∧
    (self.makeMsg s chunkResultName).2.fragment.length = s.links.length ∧
    (self.makeMsg s chunkResultName).1._taskMsg = some (self.makeMsg s chunkResultName).2 ∧
    (TaskMsgFactory2.new self._session)._resultTable = "Asdfasfd" := by
  have key : (self.makeMsg s chunkResultName).2 =
      { session := some self._session, db := some s.db, chunkid := some s.chunkId,
        fragment := s.links.map (fun l =>
          ⟨some (if chunkResultName.isEmpty then self._resultTable else chunkResultName),
            some l.query, l.subChunks⟩) } := by
    obtain ⟨db, chunkId, query, subChunks, next⟩ := s
    cases next with
    | none =>
      cases he : chunkResultName.isEmpty <;>
        simp [Impl.makeMsg, he, ChunkQuerySpec.nextFragment, Impl.addFragment_eq, TaskMsg.new,
          ChunkQuerySpec.links, ChunkQuerySpec.query, ChunkQuerySpec.subChunks,
          ChunkQuerySpec.db, ChunkQuerySpec.chunkId]
    | some n =>
      cases he : chunkResultName.isEmpty <;>
        simp [Impl.makeMsg, he, ChunkQuerySpec.nextFragment, Impl.addChain_eq, TaskMsg.new,
          ChunkQuerySpec.db, ChunkQuerySpec.chunkId]
  refine ⟨by rw [key], by rw [key], by rw [key], by rw [key], by rw [key]; simp, rfl, rfl⟩

end master

namespace master

/-! ### The names a `TableMerger` fixes -/

/-- C27, as stated, fails: for the configuration that names neither a target
table nor a target database the assertion of `_fixupTargetName` fails in a build
with assertions, and no target table name results. -/
theorem fixupTargetName_counterexample :
    unnamedConfig.targetTable = "" ∧
    TableMerger.new false sampleClock unnamedConfig = none := by
  decide

/-- C27, amended: when no assertion fails (assertions are compiled out, or a
target table is configured, or the target database is not empty and the clock
call succeeds), the constructor gives a `TableMerger`; its target table is the
configured one if one is configured and otherwise
`targetDb ++ ".result_" ++ timestampId`, the timestamp id being the decimal
rendering of the seconds modulo 10000 followed by that of the microseconds; its
merge table is the target table when no fixup select is configured and the
target table with suffix `_m` otherwise. When an assertion fails there is no
`TableMerger`. -/
theorem fixupTargetName_names (NDEBUG : Bool) (clock : Clock) (c : TableMergerConfig)
    (h : c.targetTable.isEmpty = true →
      NDEBUG = true ∨ (c.targetDb.isEmpty = false ∧ clock.rc = 0)) :
    ∃ m, TableMerger.new NDEBUG clock c = some m ∧
      (c.targetTable.isEmpty = true →
        m._config.targetTable = c.targetDb ++ ".result_" ++
          (toString (clock.now.tv_sec.tmod 10000) ++ toString clock.now.tv_usec)) ∧
      (c.targetTable.isEmpty = false → m._config.targetTable = c.targetTable) ∧
      (c.fixupSelect.isEmpty = true → m._mergeTable = m._config.targetTable) ∧
      (c.fixupSelect.isEmpty = false → m._mergeTable = m._config.targetTable ++ "_m") ∧
      m._config = { c with targetTable := m._config.targetTable } := by
  cases ht : c.targetTable.isEmpty
  · cases hf : c.fixupSelect.isEmpty <;>
      simp [TableMerger.new, TableMerger._fixupTargetName, ht, hf]
  · have h1 := h ht
    have hts : getTimeStampId NDEBUG clock =
        some (toString (clock.now.tv_sec.tmod 10000) ++ toString clock.now.tv_usec) := by
      rcases h1 with h1 | ⟨_, h1⟩
      · simp [getTimeStampId, h1]
      · simp [getTimeStampId, h1]
    have hdb : (!NDEBUG && c.targetDb.isEmpty) = false := by
      rcases h1 with h1 | ⟨h1, _⟩
      · simp [h1]
      · simp [h1]
    cases hf : c.fixupSelect.isEmpty <;>
      simp [TableMerger.new, TableMerger._fixupTargetName, ht, hf, hts, hdb]

theorem fixupTargetName_names_witness :
    ∃ m, TableMerger.new false sampleClock sampleConfig = some m ∧
      m._config.targetTable = "qservResult.result_456789" ∧
      m._mergeTable = "qservResult.result_456789_m" := by
  obtain ⟨m, h1, h2, _, _, h4, _⟩ :=
    fixupTargetName_names false sampleClock sampleConfig (fun _ => Or.inr (by decide))
  have e1 : m._config.targetTable = "qservResult.result_456789" := by
    rw [h2 (by decide)]; decide
  exact ⟨m, h1, e1, by rw [h4 (by decide), e1]; decide⟩

end master

namespace ccontrol

/-! ### The user query built for a SELECT -/

/-- C28: for every text classified as SELECT, `newUserQuery` returns a
`UserQuerySelect`. If the analysis threw or the session reports an error, the
object has no executive and no merger configuration and neither `qMetaRegister`
nor `setupChunking` is called; otherwise it has both and both calls are made, in
this order. Its `errorExtra` is not empty exactly when the analysis threw. -/
theorem newUserQuery_select (C : Collaborators) (impl : FactoryImpl) (query : String)
    (defaultDb : String) (hs : C.queryType.isSelect query = true) :
    ∃ qs executive infileMergerConfig errorExtra,
      (UserQueryFactory.newUserQuery C impl query defaultDb).1 =
        .select qs executive infileMergerConfig impl.qMetaCzarId errorExtra ∧
      qs = ⟨defaultDb, query, (C.analyze defaultDb query).1, (C.analyze defaultDb query).2⟩ ∧
      (((C.analyze defaultDb query).1 = true ∨ (C.analyze defaultDb query).2.isEmpty = false) →
        executive = none ∧ infileMergerConfig = none ∧
        (UserQueryFactory.newUserQuery C impl query defaultDb).2 = []) ∧
      (errorExtra.isEmpty = false ↔ (C.analyze defaultDb query).1 = true) ∧
      (((C.analyze defaultDb query).1 = false ∧ (C.analyze defaultDb query).2.isEmpty = true) →
        executive = some ⟨impl.executiveConfig⟩ ∧
        infileMergerConfig = some ⟨impl.mysqlResultConfig⟩ ∧
        (UserQueryFactory.newUserQuery C impl query defaultDb).2 =
          [.qMetaRegister, .setupChunking]) := by
  have e : "Unknown failure occurred setting up QuerySession (query is invalid).".isEmpty
      = false := by decide
  have e0 : "".isEmpty = true := by decide
  cases ht : (C.analyze defaultDb query).1 <;> cases he : (C.analyze defaultDb query).2.isEmpty <;>
    simp only [UserQueryFactory.newUserQuery, hs, ht, he, if_true, Bool.not_false, Bool.not_true,
      Bool.false_eq_true, if_false] <;>
    refine ⟨_, _, _, _, rfl, rfl, ?_⟩ <;> simp [e, e0]

theorem newUserQuery_select_witness :
    (UserQueryFactory.newUserQuery sampleCollaborators sampleImpl "SELECT" "LSST").1 =
      .select ⟨"LSST", "SELECT", true, ""⟩ none none 1
        "Unknown failure occurred setting up QuerySession (query is invalid)." ∧
    (UserQueryFactory.newUserQuery sampleCollaborators sampleImpl
      "SELECT 1 AS a, 2 AS a" "LSST").1 =
      .select ⟨"LSST", "SELECT 1 AS a, 2 AS a", false, "AnalysisError:duplicate a"⟩ none none 1
        "" ∧
    ∃ qs executive infileMergerConfig errorExtra,
      (UserQueryFactory.newUserQuery sampleCollaborators sampleImpl "SELECT 1" "LSST").1 =
        .select qs executive infileMergerConfig 1 errorExtra ∧
      executive = some ⟨"localhost:1094"⟩ ∧ infileMergerConfig = some ⟨"qservResult"⟩ := by
  refine ⟨by decide, by decide, ?_⟩
  obtain ⟨qs, ex, cfg, ee, h1, _, _, _, h5⟩ :=
    newUserQuery_select sampleCollaborators sampleImpl "SELECT 1" "LSST" rfl
  exact ⟨qs, ex, cfg, ee, h1, (h5 (by decide)).1, (h5 (by decide)).2.1⟩

end ccontrol

namespace qana

/-! ### Duplicate output names of a select list -/

theorem positionsFrom_length (name : String) (names : List (Option String)) :
    ∀ i, (positionsFrom name i names).length =
      names.countP (fun x => decide (x = some name)) := by
  induction names with
  | nil => intro i; rfl
  | cons n rest ih =>
    intro i
    by_cases h : n = some name
    · subst h
      simp [positionsFrom, ih]
    · simp [positionsFrom, h, ih, List.countP_cons]

theorem two_le_countP_iff (names : List (Option String)) (n : String) :
    2 ≤ names.countP (fun x => decide (x = some n)) ↔ List.Sublist [some n, some n] names := by
  rw [← List.duplicate_iff_sublist]
  have e : names.countP (fun x => decide (x = some n)) =
      @List.count (Option String) instBEqOfDecidableEq (some n) names := rfl
  rw [e]
  exact (@List.duplicate_iff_two_le_count (Option String) names (some n) _).symm

theorem mem_positionsFrom (name : String) (names : List (Option String)) :
    ∀ i p, p ∈ positionsFrom name i names ↔ i ≤ p ∧ names[p - i]? = some (some name) := by
  induction names with
  | nil => intro i p; simp [positionsFrom]
  | cons n rest ih =>
    intro i p
    have step : ∀ q : Prop, (i + 1 ≤ p ∧ q) ↔ (i ≤ p ∧ p ≠ i ∧ q) := by
      intro q; constructor
      · rintro ⟨h1, h2⟩; exact ⟨by omega, by omega, h2⟩
      · rintro ⟨h1, h2, h3⟩; exact ⟨by omega, h3⟩
    have hidx : ∀ (hne : p ≠ i), i ≤ p → (n :: rest)[p - i]? = rest[p - (i + 1)]? := by
      intro hne hle
      have : p - i = (p - (i + 1)) + 1 := by omega
      rw [this, List.getElem?_cons_succ]
    by_cases h : n = some name
    · subst h
      simp only [positionsFrom, if_true, List.mem_cons, ih]
      constructor
      · rintro (h1 | ⟨h1, h2⟩)
        · subst h1; simp
        · exact ⟨by omega, by rw [hidx (by omega) (by omega)]; exact h2⟩
      · rintro ⟨h1, h2⟩
        by_cases hp : p = i
        · exact Or.inl hp
        · exact Or.inr ⟨by omega, by rw [← hidx hp h1]; exact h2⟩
    · simp only [positionsFrom, h, if_false, ih]
      constructor
      · rintro ⟨h1, h2⟩
        exact ⟨by omega, by rw [hidx (by omega) (by omega)]; exact h2⟩
      · rintro ⟨h1, h2⟩
        have hp : p ≠ i := by
          intro hp; subst hp
          simp at h2
          exact h h2
        exact ⟨by omega, by rw [← hidx hp h1]; exact h2⟩

theorem mem_duplicateNames (names : List (Option String)) (n : String) :
    n ∈ duplicateNames names ↔ List.Sublist [some n, some n] names := by
  rw [← two_le_countP_iff]
  simp only [duplicateNames, List.mem_dedup, List.mem_filter, List.mem_filterMap, id,
    exists_eq_right, decide_eq_true_eq]
  constructor
  · exact fun h => h.2
  · intro h
    refine ⟨?_, h⟩
    have hs := (two_le_countP_iff names n).mp h
    exact hs.subset (List.mem_cons_self _ _)

/-- C29: over the select list as the specification describes it, the analysis
reports an error if and only if two expressions of the select list have the
same output name; there is one error for each such name, with the code
`DUPLICATE_SELECT_EXPR` and a message that puts the lower-cased name and the
1-based positions of all its occurrences into `ERR_MSG`; the five select lists
of the test give what the test expects. -/
theorem duplicate_select_expr (P : PluginText) (selectList : List SelectExpr) :
    ((∃ n, List.Sublist [some n, some n] (selectList.map SelectExpr.outputName)) ↔
      (analyzeSelectList P selectList).isSome = true) ∧
    ((∀ n, ¬ List.Sublist [some n, some n] (selectList.map SelectExpr.outputName)) →
      analyzeSelectList P selectList = none) ∧
    (∀ n, List.Sublist [some n, some n] (selectList.map SelectExpr.outputName) →
      (⟨.DUPLICATE_SELECT_EXPR,
          P.ERR_MSG.1 ++ n ++ P.ERR_MSG.2.1 ++
            positionsText (positions n (selectList.map SelectExpr.outputName)) ++
            P.ERR_MSG.2.2⟩ : Error) ∈
        getDuplicateAndPosition P (selectList.map SelectExpr.outputName) ∧
      analyzeSelectList P selectList =
        some ("AnalysisError:" ++ P.EXCEPTION_MSG ++
          P.toOneLineString
            (getDuplicateAndPosition P (selectList.map SelectExpr.outputName)))) ∧
    (∀ e ∈ getDuplicateAndPosition P (selectList.map SelectExpr.outputName),
      e.code = .DUPLICATE_SELECT_EXPR ∧
      ∃ n, List.Sublist [some n, some n] (selectList.map SelectExpr.outputName) ∧
        e.msg = P.ERR_MSG.1 ++ n ++ P.ERR_MSG.2.1 ++
          positionsText (positions n (selectList.map SelectExpr.outputName)) ++
          P.ERR_MSG.2.2) ∧
    (∀ n p, p ∈ positions n (selectList.map SelectExpr.outputName) ↔
      1 ≤ p ∧ (selectList.map SelectExpr.outputName)[p - 1]? = some (some n)) ∧
    (∀ table name, SelectExpr.outputName (.column table name "") = some (lower name)) ∧
    (analyzeSelectList P selectAlias = some (build_exception_msg P "2" "f1" " 1 2") ∧
     analyzeSelectList P selectCaseInsensitive =
       some (build_exception_msg P "2" "chunkid" " 1 2") ∧
     analyzeSelectList P selectFunction = some (build_exception_msg P "2" "f1" " 2 3") ∧
     analyzeSelectList P selectSimple = none ∧
     analyzeSelectList P selectSameNameDifferentTable =
       some (build_exception_msg P "2" "objectid" " 1 2")) := by
  have hdup : ∀ n, List.Sublist [some n, some n] (selectList.map SelectExpr.outputName) ↔
      n ∈ duplicateNames (selectList.map SelectExpr.outputName) := by
    intro n
    exact (mem_duplicateNames _ n).symm
  have hsome : (analyzeSelectList P selectList).isSome = true ↔
      duplicateNames (selectList.map SelectExpr.outputName) ≠ [] := by
    unfold analyzeSelectList getDuplicateAndPosition
    cases hd : duplicateNames (selectList.map SelectExpr.outputName) <;> simp
  have hmem : ∀ n, n ∈ duplicateNames (selectList.map SelectExpr.outputName) →
      analyzeSelectList P selectList =
        some ("AnalysisError:" ++ P.EXCEPTION_MSG ++
          P.toOneLineString
            (getDuplicateAndPosition P (selectList.map SelectExpr.outputName))) := by
    intro n hn
    unfold analyzeSelectList getDuplicateAndPosition
    cases hd : duplicateNames (selectList.map SelectExpr.outputName) with
    | nil => rw [hd] at hn; cases hn
    | cons a l => simp
  refine ⟨?_, ?_, ?_, ?_, ?_, ?_, ?_⟩
  · rw [hsome]
    constructor
    · rintro ⟨n, hn⟩ he
      rw [hdup, he] at hn
      cases hn
    · intro he
      cases hd : duplicateNames (selectList.map SelectExpr.outputName) with
      | nil => exact absurd hd he
      | cons a l => exact ⟨a, (hdup a).mpr (by rw [hd]; exact List.mem_cons_self _ _)⟩
  · intro h
    have hd : duplicateNames (selectList.map SelectExpr.outputName) = [] := by
      cases hd : duplicateNames (selectList.map SelectExpr.outputName) with
      | nil => rfl
      | cons a l =>
        have : a ∈ duplicateNames (selectList.map SelectExpr.outputName) := by
          rw [hd]; exact List.mem_cons_self _ _
        exact absurd ((mem_duplicateNames _ a).mp this) (h a)
    simp [analyzeSelectList, getDuplicateAndPosition, hd]
  · intro n hn
    rw [hdup] at hn
    refine ⟨?_, hmem n hn⟩
    simp only [getDuplicateAndPosition, List.mem_map]
    exact ⟨n, hn, rfl⟩
  · intro e he
    simp only [getDuplicateAndPosition, List.mem_map] at he
    obtain ⟨n, hn, rfl⟩ := he
    exact ⟨rfl, n, (hdup n).mpr hn, rfl⟩
  · intro n p
    exact mem_positionsFrom n _ 1 p
  · intro table name
    rfl
  · have t1 : getDuplicateAndPosition P (selectAlias.map SelectExpr.outputName) =
        [⟨.DUPLICATE_SELECT_EXPR, P.format "f1" " 1 2"⟩] := by
      have h1 : duplicateNames (selectAlias.map SelectExpr.outputName) = ["f1"] := by decide
      have h2 : positionsText (positions "f1" (selectAlias.map SelectExpr.outputName))
          = " 1 2" := by decide
      simp [getDuplicateAndPosition, h1, h2]
    have t2 : getDuplicateAndPosition P (selectCaseInsensitive.map SelectExpr.outputName) =
        [⟨.DUPLICATE_SELECT_EXPR, P.format "chunkid" " 1 2"⟩] := by
      have h1 : duplicateNames (selectCaseInsensitive.map SelectExpr.outputName)
          = ["chunkid"] := by decide
      have h2 : positionsText
          (positions "chunkid" (selectCaseInsensitive.map SelectExpr.outputName))
          = " 1 2" := by decide
      simp [getDuplicateAndPosition, h1, h2]
    have t3 : getDuplicateAndPosition P (selectFunction.map SelectExpr.outputName) =
        [⟨.DUPLICATE_SELECT_EXPR, P.format "f1" " 2 3"⟩] := by
      have h1 : duplicateNames (selectFunction.map SelectExpr.outputName) = ["f1"] := by decide
      have h2 : positionsText (positions "f1" (selectFunction.map SelectExpr.outputName))
          = " 2 3" := by decide
      simp [getDuplicateAndPosition, h1, h2]
    have t4 : getDuplicateAndPosition P (selectSimple.map SelectExpr.outputName) = [] := by
      have h1 : duplicateNames (selectSimple.map SelectExpr.outputName) = [] := by decide
      simp [getDuplicateAndPosition, h1]
    have t5 : getDuplicateAndPosition P
        (selectSameNameDifferentTable.map SelectExpr.outputName) =
        [⟨.DUPLICATE_SELECT_EXPR, P.format "objectid" " 1 2"⟩] := by
      have h1 : duplicateNames (selectSameNameDifferentTable.map SelectExpr.outputName)
          = ["objectid"] := by decide
      have h2 : positionsText
          (positions "objectid" (selectSameNameDifferentTable.map SelectExpr.outputName))
          = " 1 2" := by decide
      simp [getDuplicateAndPosition, h1, h2]
    refine ⟨?_, ?_, ?_, ?_, ?_⟩
    · simp only [analyzeSelectList, t1]; rfl
    · simp only [analyzeSelectList, t2]; rfl
    · simp only [analyzeSelectList, t3]; rfl
    · simp only [analyzeSelectList, t4]; rfl
    · simp only [analyzeSelectList, t5]; rfl

end qana

namespace wsched

/-! ### What the calls between two `ready` calls leave alone -/

theorem chunkOrNew_of_find (q : ChunkTasksQueue) (c : Int) (ct : ChunkTasks)
    (h : q._chunkMap.find c = some ct) : q.chunkOrNew c = ct := by
  simp [ChunkTasksQueue.chunkOrNew, h]

theorem queueTask_find (H : StdHeap) (now : Nat) (q : ChunkTasksQueue) (t : Task) :
    (q.queueTask H now t)._chunkMap.find t.chunkId =
      some ((q.chunkOrNew t.chunkId).queTask H now t) ∧
    (∀ k, k ≠ t.chunkId → (q.queueTask H now t)._chunkMap.find k = q._chunkMap.find k) ∧
    (q.queueTask H now t)._activeChunk = q._activeChunk ∧
    (q.queueTask H now t)._readyChunk = q._readyChunk := by
  cases hf : q._chunkMap.find t.chunkId with
  | some ct =>
    have e : q.queueTask H now t =
        { q with _chunkMap := q._chunkMap.set t.chunkId (ct.queTask H now t),
                 _taskCount := q._taskCount + 1 } := by
      simp [ChunkTasksQueue.queueTask, hf]
    rw [e, chunkOrNew_of_find q _ ct hf]
    refine ⟨ChunkMap.find_set_self _ _ ct _ hf, ?_, rfl, rfl⟩
    intro k hk
    exact ChunkMap.find_set_ne _ _ _ _ hk
  | none =>
    have hself := ChunkMap.find_insert_self q._chunkMap t.chunkId (ChunkTasks.new t.chunkId) hf
    have e : q.queueTask H now t =
        { q with _chunkMap := (q._chunkMap.insert t.chunkId (ChunkTasks.new t.chunkId)).set
                    t.chunkId ((ChunkTasks.new t.chunkId).queTask H now t),
                 _taskCount := q._taskCount + 1 } := by
      simp [ChunkTasksQueue.queueTask, hf, hself]
    have e2 : q.chunkOrNew t.chunkId = ChunkTasks.new t.chunkId := by
      simp [ChunkTasksQueue.chunkOrNew, hf]
    rw [e, e2]
    refine ⟨ChunkMap.find_set_self _ _ _ _ hself, ?_, rfl, rfl⟩
    intro k hk
    show ChunkMap.find (ChunkMap.set _ _ _) k = _
    rw [ChunkMap.find_set_ne _ _ _ _ hk, ChunkMap.find_insert_ne _ _ _ _ hk]

theorem taskComplete_find (q : ChunkTasksQueue) (t : Task) :
    (∀ ct, q._chunkMap.find t.chunkId = some ct →
      (q.taskComplete t)._chunkMap.find t.chunkId = some (ct.taskComplete t)) ∧
    (∀ k, k ≠ t.chunkId → (q.taskComplete t)._chunkMap.find k = q._chunkMap.find k) ∧
    (q.taskComplete t)._activeChunk = q._activeChunk ∧
    (q.taskComplete t)._readyChunk = q._readyChunk := by
  cases hf : q._chunkMap.find t.chunkId with
  | none => simp [ChunkTasksQueue.taskComplete, hf]
  | some ct =>
    have e : q.taskComplete t =
        { q with _chunkMap := q._chunkMap.set t.chunkId (ct.taskComplete t) } := by
      simp [ChunkTasksQueue.taskComplete, hf]
    rw [e]
    refine ⟨?_, ?_, rfl, rfl⟩
    · intro ct1 h1
      cases h1
      exact ChunkMap.find_set_self _ _ ct _ hf
    · intro k hk
      exact ChunkMap.find_set_ne _ _ _ _ hk

theorem removeTask_find (H : StdHeap) (q : ChunkTasksQueue) (t : Task) :
    (∀ ct, q._chunkMap.find t.chunkId = some ct →
      (q.removeTask H t).2._chunkMap.find t.chunkId = some (ct.removeTask H t).2) ∧
    (∀ k, k ≠ t.chunkId → (q.removeTask H t).2._chunkMap.find k = q._chunkMap.find k) ∧
    (q.removeTask H t).2._activeChunk = q._activeChunk ∧
    (q.removeTask H t).2._readyChunk = q._readyChunk := by
  cases hf : q._chunkMap.find t.chunkId with
  | none => simp [ChunkTasksQueue.removeTask, hf]
  | some ct =>
    have e : (q.removeTask H t).2._chunkMap = q._chunkMap.set t.chunkId (ct.removeTask H t).2 ∧
        (q.removeTask H t).2._activeChunk = q._activeChunk ∧
        (q.removeTask H t).2._readyChunk = q._readyChunk := by
      unfold ChunkTasksQueue.removeTask
      simp only [hf]
      cases (ct.removeTask H t).1 <;> exact ⟨rfl, rfl, rfl⟩
    rw [e.1]
    refine ⟨?_, ?_, e.2.1, e.2.2⟩
    · intro ct1 h1
      cases h1
      exact ChunkMap.find_set_self _ _ ct _ hf
    · intro k hk
      exact ChunkMap.find_set_ne _ _ _ _ hk

theorem _ready_of_readyChunk (H : StdHeap) (mm : MemMan) (sched : Option SchedulerPolicy)
    (flex : Bool) (q : ChunkTasksQueue) (asks : List PrepareCall) (r : Int)
    (h : q._readyChunk = some r) : q._ready H mm sched flex asks = ⟨q, asks, .value true⟩ := by
  simp [ChunkTasksQueue._ready, h]

theorem applyOp_readyIs (H : StdHeap) (q : ChunkTasksQueue) (r : Int) (t : Task) (op : QueueOp)
    (h : q.readyIs r t) : (q.applyOp H op).readyIs r t := by
  obtain ⟨h1, ct, h2, h3⟩ := h
  cases op with
  | queueTask now task =>
    obtain ⟨e1, e2, _, e4⟩ := queueTask_find H now q task
    refine ⟨by simp only [ChunkTasksQueue.applyOp]; rw [e4]; exact h1, ?_⟩
    by_cases hk : r = task.chunkId
    · subst hk
      refine ⟨_, e1, ?_⟩
      rw [chunkOrNew_of_find q _ ct h2, (ChunkTasks.queTask_queued H now ct task).2]
      exact h3
    · exact ⟨ct, by simp only [ChunkTasksQueue.applyOp]; rw [e2 r hk]; exact h2, h3⟩
  | taskComplete task =>
    obtain ⟨e1, e2, _, e4⟩ := taskComplete_find q task
    refine ⟨by simp only [ChunkTasksQueue.applyOp]; rw [e4]; exact h1, ?_⟩
    by_cases hk : r = task.chunkId
    · subst hk
      exact ⟨_, e1 ct h2, h3⟩
    · exact ⟨ct, by simp only [ChunkTasksQueue.applyOp]; rw [e2 r hk]; exact h2, h3⟩
  | removeTask task =>
    obtain ⟨e1, e2, _, e4⟩ := removeTask_find H q task
    refine ⟨by simp only [ChunkTasksQueue.applyOp]; rw [e4]; exact h1, ?_⟩
    by_cases hk : r = task.chunkId
    · subst hk
      refine ⟨_, e1 ct h2, ?_⟩
      rw [(ChunkTasks.removeTask_queued H ct task).1]
      exact h3
    · exact ⟨ct, by simp only [ChunkTasksQueue.applyOp]; rw [e2 r hk]; exact h2, h3⟩
  | ready mm sched flex =>
    simp only [ChunkTasksQueue.applyOp, ChunkTasksQueue.ready,
      _ready_of_readyChunk H mm sched flex q [] r h1]
    exact ⟨h1, ct, h2, h3⟩

theorem applyOps_readyIs (H : StdHeap) (r : Int) (t : Task) (ops : List QueueOp) :
    ∀ q : ChunkTasksQueue, q.readyIs r t → (q.applyOps H ops).readyIs r t := by
  induction ops with
  | nil => intro q h; exact h
  | cons op ops ih =>
    intro q h
    exact ih _ (applyOp_readyIs H q r t op h)

theorem getTask_of_readyIs (H : StdHeap) (mm : MemMan) (sched : Option SchedulerPolicy)
    (flex : Bool) (q : ChunkTasksQueue) (r : Int) (t : Task) (h : q.readyIs r t) :
    (q.getTask H mm sched flex).task = some t ∧ (q.getTask H mm sched flex).asks = [] ∧
    (q.getTask H mm sched flex).ret = .value true := by
  obtain ⟨h1, ct, h2, h3⟩ := h
  unfold ChunkTasksQueue.getTask
  simp only [_ready_of_readyChunk H mm sched flex q [] r h1, h1, h2,
    ChunkTasks.getTask_eq H mm flex [] ct t h3]
  simp

/-- C30: once `ready` has returned true on a reachable queue, a ready chunk and
the task in its ready slot are fixed; after every sequence of `queueTask`,
`taskComplete`, `removeTask` and `ready` calls, a further `ready` call returns
true whatever its arguments are, leaves the queue as it is and makes no request
to the memory manager, and `getTask` hands out that task, again without a
request to the memory manager. -/
theorem ready_sticky (H : StdHeap) (q : ChunkTasksQueue) (hq : Reachable H q) (mm : MemMan)
    (sched : Option SchedulerPolicy) (flex : Bool)
    (hr : (q.ready H mm sched flex).ret = .value true) :
    ∃ r ct t, (q.ready H mm sched flex).q._readyChunk = some r ∧
      (q.ready H mm sched flex).q._chunkMap.find r = some ct ∧ ct._readyTask = some t ∧
      ∀ (ops : List QueueOp) (mm2 : MemMan) (sched2 : Option SchedulerPolicy) (flex2 : Bool),
        ((q.ready H mm sched flex).q.applyOps H ops).ready H mm2 sched2 flex2 =
          ⟨(q.ready H mm sched flex).q.applyOps H ops, [], .value true⟩ ∧
        (((q.ready H mm sched flex).q.applyOps H ops).getTask H mm2 sched2 flex2).task
          = some t ∧
        (((q.ready H mm sched flex).q.applyOps H ops).getTask H mm2 sched2 flex2).asks = [] := by
  have hinv := reachable_countInv H _ (Reachable.ready q mm sched flex hq)
  have hsome : (q.ready H mm sched flex).q._readyChunk.isSome = true :=
    (_ready_frame H mm sched flex q []).2.mpr hr
  obtain ⟨r, hrc⟩ := Option.isSome_iff_exists.mp hsome
  obtain ⟨ct, hf, hs⟩ := hinv.2 r hrc
  obtain ⟨t, ht⟩ := Option.isSome_iff_exists.mp hs
  refine ⟨r, ct, t, hrc, hf, ht, ?_⟩
  intro ops mm2 sched2 flex2
  have hk := applyOps_readyIs H r t ops _ ⟨hrc, ct, hf, ht⟩
  have hg := getTask_of_readyIs H mm2 sched2 flex2 _ r t hk
  exact ⟨_ready_of_readyChunk H mm2 sched2 flex2 _ [] r hk.1, hg.1, hg.2.1⟩

theorem ready_sticky_witness :
    Reachable plainHeap sampleQueued ∧
    ∃ r ct t, (sampleQueued.ready plainHeap grantingMemMan none false).q._readyChunk = some r ∧
      (sampleQueued.ready plainHeap grantingMemMan none false).q._chunkMap.find r = some ct ∧
      ct._readyTask = some t ∧
      (((sampleQueued.ready plainHeap grantingMemMan none false).q.applyOps plainHeap
        [.removeTask sampleTask, .ready starvedMemMan none true]).getTask
          plainHeap starvedMemMan none true).task = some t :=
  ⟨Reachable.queueTask _ 0 sampleTask Reachable.new,
    (ready_sticky plainHeap sampleQueued (Reachable.queueTask _ 0 sampleTask Reachable.new)
      grantingMemMan none false (by decide)).imp fun _ h => h.imp fun _ h => h.imp fun _ h =>
        ⟨h.1, h.2.1, h.2.2.1,
          (h.2.2.2 [.removeTask sampleTask, .ready starvedMemMan none true]
            starvedMemMan none true).2.1⟩⟩

end wsched

namespace wsched

/-! ### The limit on the active chunks -/

theorem scanLoop_step (H : StdHeap) (mm : MemMan) (sched : Option SchedulerPolicy)
    (flex : Bool) (fuel : Nat) (q : ChunkTasksQueue) (asks : List PrepareCall) (iter : Int)
    (k : Int) (ct : ChunkTasks) (hn : q._chunkMap.nextWrap iter = some k)
    (hk : some k ≠ q._activeChunk) (hf : q._chunkMap.find k = some ct) :
    ChunkTasksQueue.scanLoop H mm sched flex (fuel + 1) q asks iter .NOT_READY =
      if (match sched with
          | none => false
          | some s => decide (s.getActiveChunkCount ≥ s.getMaxActiveChunks)
              && !s.chunkAlreadyActive ct._chunkId) then
        ⟨q, asks, .value false⟩
      else
        match (ct.ready H mm flex asks).state with
        | none =>
          ⟨{ q with _chunkMap := q._chunkMap.set k (ct.ready H mm flex asks).ct },
            (ct.ready H mm flex asks).asks, .thrown⟩
        | some st =>
          ChunkTasksQueue.scanLoop H mm sched flex fuel
            { q with _chunkMap := q._chunkMap.set k (ct.ready H mm flex asks).ct }
            (ct.ready H mm flex asks).asks k st := by
  unfold ChunkMap.nextWrap at hn
  rw [ChunkTasksQueue.scanLoop]
  simp only [hn, hk, hf]
  simp

theorem scanLoop_below_limit (H : StdHeap) (mm : MemMan) (s : SchedulerPolicy) (flex : Bool)
    (hs : s.getActiveChunkCount < s.getMaxActiveChunks) (fuel : Nat) :
    ∀ (q : ChunkTasksQueue) (asks : List PrepareCall) (iter : Int) (st : ReadyState),
      ChunkTasksQueue.scanLoop H mm none flex fuel q asks iter st =
        ChunkTasksQueue.scanLoop H mm (some s) flex fuel q asks iter st := by
  have hc : decide (s.getActiveChunkCount ≥ s.getMaxActiveChunks) = false := by
    simp only [decide_eq_false_iff_not]; omega
  induction fuel with
  | zero => intro q asks iter st; rfl
  | succ fuel ih =>
    intro q asks iter st
    rw [ChunkTasksQueue.scanLoop, ChunkTasksQueue.scanLoop]
    simp only [hc, Bool.false_and, ih]

theorem readyScan_below_limit (H : StdHeap) (mm : MemMan) (s : SchedulerPolicy) (flex : Bool)
    (hs : s.getActiveChunkCount < s.getMaxActiveChunks) (q : ChunkTasksQueue)
    (asks : List PrepareCall) :
    q.readyScan H mm none flex asks = q.readyScan H mm (some s) flex asks := by
  unfold ChunkTasksQueue.readyScan
  simp only [scanLoop_below_limit H mm s flex hs]

theorem readyAdvance_below_limit (H : StdHeap) (mm : MemMan) (s : SchedulerPolicy)
    (flex : Bool) (hs : s.getActiveChunkCount < s.getMaxActiveChunks) (q : ChunkTasksQueue)
    (asks : List PrepareCall) (k : Int) (ct : ChunkTasks) :
    q.readyAdvance H mm none flex asks k ct = q.readyAdvance H mm (some s) flex asks k ct := by
  unfold ChunkTasksQueue.readyAdvance
  simp only [readyScan_below_limit H mm s flex hs]

theorem _ready_below_limit (H : StdHeap) (mm : MemMan) (s : SchedulerPolicy) (flex : Bool)
    (hs : s.getActiveChunkCount < s.getMaxActiveChunks) (q : ChunkTasksQueue)
    (asks : List PrepareCall) :
    q._ready H mm none flex asks = q._ready H mm (some s) flex asks := by
  unfold ChunkTasksQueue._ready
  simp only [readyAdvance_below_limit H mm s flex hs]

/-- C22: in the scan of `ready`, when the policy reports at least as many active
chunks as its maximum and does not report the id of the next candidate chunk as
already active, the call returns false at once: the queue is as the scan found
it (so `_readyChunk` stays unset) and no request was added to those made to the
memory manager, the candidate was not asked. Without a policy the candidate is
asked, and the whole call is the one made with a policy below its limit. -/
theorem scan_respects_limit (H : StdHeap) (mm : MemMan) (flex : Bool) :
    (∀ (s : SchedulerPolicy) (fuel : Nat) (q : ChunkTasksQueue) (asks : List PrepareCall)
      (iter k : Int) (ct : ChunkTasks),
      q._chunkMap.nextWrap iter = some k → some k ≠ q._activeChunk →
      q._chunkMap.find k = some ct →
      s.getActiveChunkCount ≥ s.getMaxActiveChunks → s.chunkAlreadyActive ct._chunkId = false →
      ChunkTasksQueue.scanLoop H mm (some s) flex (fuel + 1) q asks iter .NOT_READY =
        ⟨q, asks, .value false⟩ ∧
      (q._readyChunk = none →
        (ChunkTasksQueue.scanLoop H mm (some s) flex (fuel + 1) q asks iter
          .NOT_READY).q._readyChunk = none)) ∧
    (∀ (fuel : Nat) (q : ChunkTasksQueue) (asks : List PrepareCall) (iter k : Int)
      (ct : ChunkTasks),
      q._chunkMap.nextWrap iter = some k → some k ≠ q._activeChunk →
      q._chunkMap.find k = some ct →
      ChunkTasksQueue.scanLoop H mm none flex (fuel + 1) q asks iter .NOT_READY =
        match (ct.ready H mm flex asks).state with
        | none =>
          ⟨{ q with _chunkMap := q._chunkMap.set k (ct.ready H mm flex asks).ct },
            (ct.ready H mm flex asks).asks, .thrown⟩
        | some st =>
          ChunkTasksQueue.scanLoop H mm none flex fuel
            { q with _chunkMap := q._chunkMap.set k (ct.ready H mm flex asks).ct }
            (ct.ready H mm flex asks).asks k st) ∧
    (∀ (s : SchedulerPolicy) (q : ChunkTasksQueue),
      s.getActiveChunkCount < s.getMaxActiveChunks →
      q.ready H mm none flex = q.ready H mm (some s) flex) := by
  refine ⟨?_, ?_, ?_⟩
  · intro s fuel q asks iter k ct hn hk hf hl ha
    have e : ChunkTasksQueue.scanLoop H mm (some s) flex (fuel + 1) q asks iter .NOT_READY =
        ⟨q, asks, .value false⟩ := by
      rw [scanLoop_step H mm (some s) flex fuel q asks iter k ct hn hk hf]
      simp [hl, ha]
    exact ⟨e, fun h => by rw [e]; exact h⟩
  · intro fuel q asks iter k ct hn hk hf
    rw [scanLoop_step H mm none flex fuel q asks iter k ct hn hk hf]
    simp
  · intro s q hs
    exact _ready_below_limit H mm s flex hs q []

theorem scan_respects_limit_witness :
    Reachable queryHeap sampleTwoChunks ∧
    (sampleTwoChunks.ready queryHeap grantingMemMan (some fullPolicy) false).ret
      = .value false ∧
    (sampleTwoChunks.ready queryHeap grantingMemMan (some fullPolicy) false).asks = [] ∧
    (sampleTwoChunks.ready queryHeap grantingMemMan (some fullPolicy) false).q
      = sampleTwoChunks ∧
    (sampleTwoChunks.ready queryHeap grantingMemMan none false).ret = .value true ∧
    ChunkTasksQueue.scanLoop queryHeap grantingMemMan (some fullPolicy) false 3 sampleTwoChunks
      [] 1 .NOT_READY = ⟨sampleTwoChunks, [], .value false⟩ :=
  ⟨Reachable.queueTask _ 0 taskB1
      (Reachable.getTask _ grantingMemMan none false (Reachable.queueTask _ 0 taskA Reachable.new)),
    by decide, by decide, by decide, by decide,
    ((scan_respects_limit queryHeap grantingMemMan false).1 fullPolicy 2 sampleTwoChunks [] 1 2
      { ChunkTasks.new 2 with _activeTasks := [{ taskB1 with entryTime := 0 }] }
      (by decide) (by decide) (by decide) (by decide) (by decide)).1⟩

end wsched

namespace wsched

/-! ### Leaving the active chunk -/

theorem ChunkMap.erase_set (m : ChunkMap) (k : Int) (ct : ChunkTasks) :
    (m.set k ct).erase k = m.erase k := by
  induction m with
  | nil => rfl
  | cons e rest ih =>
    obtain ⟨k1, c1⟩ := e
    by_cases hk : k1 = k
    · simp [ChunkMap.set, ChunkMap.erase, hk]
    · simp [ChunkMap.set, ChunkMap.erase, hk, ih]

theorem ChunkMap.set_set (m : ChunkMap) (k : Int) (c1 c2 : ChunkTasks) :
    (m.set k c1).set k c2 = m.set k c2 := by
  induction m with
  | nil => rfl
  | cons e rest ih =>
    obtain ⟨k1, c⟩ := e
    by_cases hk : k1 = k
    · simp [ChunkMap.set, hk]
    · simp [ChunkMap.set, hk, ih]

theorem ChunkTasks.ready_idle (H : StdHeap) (mm : MemMan) (flex : Bool)
    (asks : List PrepareCall) (ct : ChunkTasks) (h1 : ct._readyTask = none)
    (h2 : ct._activeTasks = []) : ct.ready H mm flex asks = ⟨ct, asks, some .NOT_READY⟩ := by
  simp [ChunkTasks.ready, h1, h2]

theorem _ready_idle (H : StdHeap) (mm : MemMan) (sched : Option SchedulerPolicy) (flex : Bool)
    (q : ChunkTasksQueue) (asks : List PrepareCall) (c : Int) (ct : ChunkTasks)
    (hrc : q._readyChunk = none) (ha : q._activeChunk = some c)
    (hf : q._chunkMap.find c = some ct) (h1 : ct._readyTask = none)
    (h2 : ct._activeTasks = []) :
    q._ready H mm sched flex asks = q.readyAdvance H mm sched flex asks c ct := by
  obtain ⟨m, ac, rc, tc, rs⟩ := q
  dsimp only at hrc ha hf
  subst hrc ha
  have he : ChunkTasksQueue._empty ⟨m, some c, none, tc, rs⟩ = false :=
    ChunkMap.isEmpty_of_find _ _ _ hf
  unfold ChunkTasksQueue._ready
  simp only [he, hf, ChunkTasks.ready_idle H mm flex asks ct h1 h2, ChunkMap.set_self m c ct hf]
  simp

theorem ChunkTasks.setActive_false_drained (H : StdHeap) (ct : ChunkTasks)
    (h2 : ct._activeTasks = []) (hp : ct._pendingTasks = []) :
    (ct.setActive H false).empty = true := by
  cases ha : ct._active <;>
    simp [ChunkTasks.setActive, ChunkTasks.movePendingToActive, ChunkTasks.empty, ha, h2, hp]

/-- C24, as stated, fails: `samplePending` is reachable, its active chunk 1 is
ready to advance and is the only chunk of the map, and `ready` returns true: the
pending task of the chunk moves to its heap and is found ready. -/
theorem ready_only_chunk_counterexample :
    Reachable queryHeap samplePending ∧
    samplePending._activeChunk = some 1 ∧
    samplePending._chunkMap.length = 1 ∧
    (samplePending._chunkMap.find 1).map ChunkTasks.readyToAdvance = some true ∧
    samplePending._chunkMap.nextWrap 1 = some 1 ∧
    (samplePending.ready queryHeap grantingMemMan none false).ret = .value true :=
  ⟨Reachable.taskComplete _ taskA (Reachable.queueTask _ 0 taskA2
      (Reachable.getTask _ grantingMemMan none false
        (Reachable.queueTask _ 0 taskA Reachable.new))),
    by decide, by decide, by decide, by decide, by decide⟩

/-- C24, amended: when no chunk is cached as ready, the active chunk is ready to
advance and holds no pending task and no cached ready task, and the chunk after
it with wrap-around is that same chunk, `ready` returns false without a request
to the memory manager; the chunk is erased from the map (which is then empty if
it was the only entry) and `_activeChunk` is at the end. If the chunk holds
pending tasks instead, it stays the active chunk, its pending tasks move to its
heap, and the scan of `ready` starts at it. -/
theorem ready_only_chunk (H : StdHeap) (mm : MemMan) (sched : Option SchedulerPolicy)
    (flex : Bool) (q : ChunkTasksQueue) (c : Int) (ct : ChunkTasks)
    (hrc : q._readyChunk = none) (ha : q._activeChunk = some c)
    (hf : q._chunkMap.find c = some ct) (hadv : ct.readyToAdvance = true)
    (hslot : ct._readyTask = none) (hnext : q._chunkMap.nextWrap c = some c) :
    (ct._pendingTasks = [] →
      q.ready H mm sched flex =
        ⟨{ q with _chunkMap := q._chunkMap.erase c, _activeChunk := none }, [], .value false⟩ ∧
      (q._chunkMap = [(c, ct)] → (q.ready H mm sched flex).q._chunkMap = [])) ∧
    (ct._pendingTasks ≠ [] →
      q.ready H mm sched flex =
        ChunkTasksQueue.readyScan H mm sched flex
          { q with _chunkMap := (q._chunkMap.set c
              (((ct.setActive H false).movePendingToActive H).setActive H true)) } []) := by
  have h2 : ct._activeTasks = [] := by
    simp only [ChunkTasks.readyToAdvance, Bool.and_eq_true, List.isEmpty_iff] at hadv
    exact hadv.1
  unfold ChunkMap.nextWrap at hnext
  have e0 := _ready_idle H mm sched flex q [] c ct hrc ha hf hslot h2
  constructor
  · intro hp
    have hemp := ChunkTasks.setActive_false_drained H ct h2 hp
    have e : q.ready H mm sched flex =
        ⟨{ q with _chunkMap := q._chunkMap.erase c, _activeChunk := none }, [],
          .value false⟩ := by
      unfold ChunkTasksQueue.ready
      rw [e0]
      unfold ChunkTasksQueue.readyAdvance
      simp only [hadv, hnext, hemp, if_true, ChunkMap.erase_set]
    refine ⟨e, ?_⟩
    intro hm
    rw [e]
    simp [hm, ChunkMap.erase]
  · intro hp
    have hemp : (ct.setActive H false).empty = false := by
      have hlen : (ct.setActive H false).queued = ct.queued :=
        (ChunkTasks.setActive_queued H ct false).1
      have hs : (ct.setActive H false)._readyTask = none := by
        rw [(ChunkTasks.setActive_queued H ct false).2]; exact hslot
      cases he : (ct.setActive H false).empty with
      | false => rfl
      | true =>
        have h0 := ChunkTasks.queued_eq_zero_of_empty _ he hs
        rw [hlen] at h0
        simp only [ChunkTasks.queued, hslot, Option.isSome_none] at h0
        have : ct._pendingTasks.length = 0 := by
          simp only [Bool.false_eq_true, if_false] at h0
          omega
        exact absurd (List.length_eq_zero.mp this) hp
    unfold ChunkTasksQueue.ready
    rw [e0]
    unfold ChunkTasksQueue.readyAdvance
    simp only [hadv, hnext, hemp, if_true, Bool.false_eq_true, if_false,
      ChunkMap.find_set_self _ _ ct _ hf, ChunkMap.set_set]
    rw [ha]

theorem ready_only_chunk_witness :
    sampleDrained._activeChunk = some 5 ∧
    (sampleDrained.ready plainHeap grantingMemMan none false).ret = .value false ∧
    (sampleDrained.ready plainHeap grantingMemMan none false).q._chunkMap = [] :=
  ⟨by decide,
    congrArg ReadyOut.ret
      ((ready_only_chunk plainHeap grantingMemMan none false sampleDrained 5
        { ChunkTasks.new 5 with _active := true } (by decide) (by decide) (by decide)
        (by decide) (by decide) (by decide)).1 rfl).1,
    by decide⟩

end wsched

namespace wsched

/-! ### Whether the next task comes from a different chunk -/

theorem readyAdvance_activeChunk (H : StdHeap) (mm : MemMan) (sched : Option SchedulerPolicy)
    (flex : Bool) (q : ChunkTasksQueue) (asks : List PrepareCall) (k : Int) (ct : ChunkTasks)
    (hr : q._readyChunk = none) (hadv : ct.readyToAdvance = true) :
    (q.readyAdvance H mm sched flex asks k ct).q._activeChunk =
      if (ct.setActive H false).empty then
        (if q._chunkMap.nextWrap k = some k then none else q._chunkMap.nextWrap k)
      else q._chunkMap.nextWrap k := by
  unfold ChunkTasksQueue.readyAdvance ChunkMap.nextWrap
  simp only [hadv, if_true]
  split
  · rfl
  · split
    · rfl
    · refine (readyScan_frame H mm sched flex _ asks ?_).2.1
      exact hr

/-- C25 fails on the code: on the reachable queue `sampleReadyCached` (one task
queued on chunk 5, then `ready`) the active chunk 5 has its task cached as
ready, `nextTaskDifferentChunkId` returns true, and the following `getTask` hands
out that task and leaves `_activeChunk` at chunk 5. -/
theorem nextTaskDifferentChunkId_counterexample :
    Reachable plainHeap sampleReadyCached ∧
    sampleReadyCached.nextTaskDifferentChunkId = true ∧
    sampleReadyCached._activeChunk = some 5 ∧
    (sampleReadyCached.getTask plainHeap grantingMemMan none false).q._activeChunk = some 5 ∧
    (sampleReadyCached.getTask plainHeap grantingMemMan none false).task =
      some { sampleTask with memHandle := some 7 } :=
  ⟨Reachable.ready _ grantingMemMan none false (Reachable.queueTask _ 0 sampleTask Reachable.new),
    by decide, by decide, by decide, by decide⟩

/-- What `nextTaskDifferentChunkId` announces: whenever it returns false, the
following `getTask` leaves `_activeChunk` unchanged. Whenever it returns true for
an active chunk while no chunk is cached as ready, the chunk has no cached ready
task, and the chunk holds no pending task or is not its own successor with
wrap-around, the following `getTask` moves `_activeChunk` away from that
chunk. -/
theorem nextTaskDifferentChunkId_getTask (H : StdHeap) (mm : MemMan)
    (sched : Option SchedulerPolicy) (flex : Bool) (q : ChunkTasksQueue) :
    (q.nextTaskDifferentChunkId = false →
      (q.getTask H mm sched flex).q._activeChunk = q._activeChunk) ∧
    (∀ c ct, q.nextTaskDifferentChunkId = true → q._activeChunk = some c →
      q._chunkMap.find c = some ct → q._readyChunk = none → ct._readyTask = none →
      (ct._pendingTasks = [] ∨ q._chunkMap.nextWrap c ≠ some c) →
      (q.getTask H mm sched flex).q._activeChunk ≠ some c) := by
  constructor
  · intro h
    rw [getTask_activeChunk]
    cases ha : q._activeChunk with
    | none => simp [ChunkTasksQueue.nextTaskDifferentChunkId, ha] at h
    | some k =>
      cases hf : q._chunkMap.find k with
      | none => simp [ChunkTasksQueue.nextTaskDifferentChunkId, ha, hf] at h
      | some ct =>
        simp only [ChunkTasksQueue.nextTaskDifferentChunkId, ha, hf] at h
        by_contra hne
        obtain ⟨ct1, h1, h2, _, h4⟩ := _ready_activeChunk H mm sched flex q [] k ha hne
        rw [hf] at h1
        cases h1
        simp [ChunkTasks.readyToAdvance, h2, h4] at h
  · intro c ct h ha hf hrc hslot hor
    simp only [ChunkTasksQueue.nextTaskDifferentChunkId, ha, hf] at h
    have h2 : ct._activeTasks = [] := by
      simp only [ChunkTasks.readyToAdvance, Bool.and_eq_true, List.isEmpty_iff] at h
      exact h.1
    rw [getTask_activeChunk, _ready_idle H mm sched flex q [] c ct hrc ha hf hslot h2,
      readyAdvance_activeChunk H mm sched flex q [] c ct hrc h]
    cases he : (ct.setActive H false).empty with
    | true =>
      simp only [if_true]
      split
      · simp
      · assumption
    | false =>
      simp only [Bool.false_eq_true, if_false]
      rcases hor with hp | hn
      · rw [ChunkTasks.setActive_false_drained H ct h2 hp] at he
        cases he
      · exact hn

end wsched

namespace wsched

/-! ### The keys of the map -/

theorem ChunkMap.keys_set (m : ChunkMap) (k : Int) (ct : ChunkTasks) :
    (m.set k ct).keys = m.keys := by
  induction m with
  | nil => rfl
  | cons e rest ih =>
    obtain ⟨k1, c1⟩ := e
    have ih1 : List.map Prod.fst (ChunkMap.set rest k ct) = List.map Prod.fst rest := ih
    by_cases hk : k1 = k
    · simp [ChunkMap.set, ChunkMap.keys, hk]
    · simp [ChunkMap.set, ChunkMap.keys, hk, ih1]

theorem ChunkMap.mem_keys_iff (m : ChunkMap) (k : Int) :
    k ∈ m.keys ↔ ∃ ct, m.find k = some ct := by
  induction m with
  | nil => simp [ChunkMap.keys, ChunkMap.find]
  | cons e rest ih =>
    obtain ⟨k1, c1⟩ := e
    have ih1 : k ∈ List.map Prod.fst rest ↔ ∃ ct, ChunkMap.find rest k = some ct := ih
    by_cases hk : k1 = k
    · simp [ChunkMap.keys, ChunkMap.find, hk]
    · have hk2 : ¬ k = k1 := fun e => hk e.symm
      simp only [ChunkMap.keys, List.map_cons, List.mem_cons, hk2, false_or, ChunkMap.find, hk,
        if_false]
      exact ih1

theorem ChunkMap.keys_erase_sublist (m : ChunkMap) (k : Int) :
    List.Sublist (m.erase k).keys m.keys := by
  induction m with
  | nil => exact List.Sublist.refl _
  | cons e rest ih =>
    obtain ⟨k1, c1⟩ := e
    by_cases hk : k1 = k
    · simp only [ChunkMap.erase, hk, if_true, ChunkMap.keys, List.map_cons]
      exact List.sublist_cons_self _ _
    · simp only [ChunkMap.erase, hk, if_false, ChunkMap.keys, List.map_cons]
      exact List.Sublist.cons₂ _ ih

theorem ChunkMap.mem_keys_erase (m : ChunkMap) (k n : Int) (h : n ∈ m.keys) (hn : n ≠ k) :
    n ∈ (m.erase k).keys := by
  rw [ChunkMap.mem_keys_iff] at h ⊢
  obtain ⟨ct, h⟩ := h
  exact ⟨ct, by rw [ChunkMap.find_erase_ne _ _ _ hn]; exact h⟩

theorem ChunkMap.keys_insert (m : ChunkMap) (k : Int) (ct : ChunkTasks)
    (h : m.keys.Pairwise (fun a b => a < b)) :
    (m.insert k ct).keys.Pairwise (fun a b => a < b) ∧
    ∀ x, x ∈ (m.insert k ct).keys → x = k ∨ x ∈ m.keys := by
  induction m with
  | nil => simp [ChunkMap.insert, ChunkMap.keys]
  | cons e rest ih =>
    obtain ⟨k1, c1⟩ := e
    simp only [ChunkMap.keys, List.map_cons, List.pairwise_cons] at h
    have ih1 := ih h.2
    simp only [ChunkMap.keys] at ih1
    by_cases hlt : k < k1
    · simp only [ChunkMap.insert, hlt, if_true, ChunkMap.keys, List.map_cons,
        List.pairwise_cons, List.mem_cons]
      refine ⟨⟨?_, h.1, h.2⟩, ?_⟩
      · intro x hx
        rcases hx with hx | hx
        · omega
        · have := h.1 x hx
          omega
      · intro x hx
        rcases hx with hx | hx | hx
        · exact Or.inl hx
        · exact Or.inr (Or.inl hx)
        · exact Or.inr (Or.inr hx)
    · by_cases hk : k1 = k
      · subst hk
        have e : ChunkMap.insert ((k1, c1) :: rest) k1 ct = (k1, c1) :: rest := by
          simp [ChunkMap.insert]
        rw [e]
        simp only [ChunkMap.keys, List.map_cons, List.pairwise_cons, List.mem_cons]
        exact ⟨⟨h.1, h.2⟩, fun x hx => Or.inr hx⟩
      · simp only [ChunkMap.insert, hlt, if_false, hk, ChunkMap.keys, List.map_cons,
          List.pairwise_cons, List.mem_cons]
        refine ⟨⟨?_, ih1.1⟩, ?_⟩
        · intro x hx
          rcases ih1.2 x hx with hx | hx
          · omega
          · exact h.1 x hx
        · intro x hx
          rcases hx with hx | hx
          · exact Or.inr (Or.inl hx)
          · rcases ih1.2 x hx with hx | hx
            · exact Or.inl hx
            · exact Or.inr (Or.inr hx)

theorem ChunkMap.next_spec (m : ChunkMap) (i : Int) :
    (∀ k, m.next i = some k →
      i < k ∧ k ∈ m.keys ∧ (m.keys.Pairwise (fun a b => a < b) → ∀ x ∈ m.keys, i < x → k ≤ x)) ∧
    (m.next i = none → ∀ x ∈ m.keys, x ≤ i) := by
  induction m with
  | nil => simp [ChunkMap.next, ChunkMap.keys]
  | cons e rest ih =>
    obtain ⟨k1, c1⟩ := e
    have ih1 := ih
    simp only [ChunkMap.keys] at ih1
    by_cases hlt : i < k1
    · simp only [ChunkMap.next, hlt, if_true, Option.some.injEq, ChunkMap.keys, List.map_cons,
        List.mem_cons, List.pairwise_cons]
      constructor
      · intro k hk
        subst hk
        refine ⟨hlt, Or.inl rfl, ?_⟩
        intro hs x hx _
        rcases hx with hx | hx
        · omega
        · have := hs.1 x hx
          omega
      · intro h; cases h
    · simp only [ChunkMap.next, hlt, if_false, ChunkMap.keys, List.map_cons, List.mem_cons,
        List.pairwise_cons]
      constructor
      · intro k hk
        obtain ⟨h1, h2, h3⟩ := ih1.1 k hk
        refine ⟨h1, Or.inr h2, ?_⟩
        intro hs x hx hix
        rcases hx with hx | hx
        · omega
        · exact h3 hs.2 x hx hix
      · intro hn x hx
        rcases hx with hx | hx
        · omega
        · exact ih1.2 hn x hx

theorem ChunkMap.begin_spec (m : ChunkMap) :
    (∀ b, m.begin = some b →
      b ∈ m.keys ∧ (m.keys.Pairwise (fun a b => a < b) → ∀ x ∈ m.keys, b ≤ x)) ∧
    (m.begin = none → m = []) := by
  cases m with
  | nil => simp [ChunkMap.begin, ChunkMap.keys]
  | cons e rest =>
    obtain ⟨k1, c1⟩ := e
    simp only [ChunkMap.begin, List.head?_cons, Option.map_some', Option.some.injEq,
      ChunkMap.keys, List.map_cons, List.mem_cons, List.pairwise_cons]
    constructor
    · intro b hb
      subst hb
      refine ⟨Or.inl rfl, ?_⟩
      intro hs x hx
      rcases hx with hx | hx
      · omega
      · have := hs.1 x hx
        omega
    · intro h; cases h

theorem ChunkMap.nextWrap_spec (m : ChunkMap) (a i k : Int)
    (hs : m.keys.Pairwise (fun a b => a < b)) (ha : a ∈ m.keys)
    (hn : m.nextWrap i = some k) (hk : k ≠ a) :
    k ∈ m.keys ∧
    ((a ≤ i ∧ i < k ∧ a < k) ∨ (i < a ∧ i < k ∧ k < a) ∨ (a ≤ i ∧ k < a ∧ ∀ x ∈ m.keys, x ≤ i)) ∧
    (∀ x ∈ m.keys, i < x → k ≤ x ∨ k < a) := by
  unfold ChunkMap.nextWrap at hn
  cases hnx : m.next i with
  | some n =>
    rw [hnx] at hn
    cases hn
    obtain ⟨h1, h2, h3⟩ := (ChunkMap.next_spec m i).1 k hnx
    refine ⟨h2, ?_, fun x hx hix => Or.inl (h3 hs x hx hix)⟩
    by_cases hai : a ≤ i
    · exact Or.inl ⟨hai, h1, by omega⟩
    · have := h3 hs a ha (by omega)
      exact Or.inr (Or.inl ⟨by omega, h1, by omega⟩)
  | none =>
    rw [hnx] at hn
    simp only at hn
    have hall := (ChunkMap.next_spec m i).2 hnx
    obtain ⟨h2, h3⟩ := (ChunkMap.begin_spec m).1 k hn
    have h4 := h3 hs a ha
    have h5 := hall a ha
    refine ⟨h2, Or.inr (Or.inr ⟨h5, by omega, hall⟩), ?_⟩
    intro x hx hix
    have := hall x hx
    omega

theorem ChunkMap.nextWrap_isSome (m : ChunkMap) (a i : Int) (ha : a ∈ m.keys) :
    ∃ k, m.nextWrap i = some k ∧ k ∈ m.keys := by
  unfold ChunkMap.nextWrap
  cases hnx : m.next i with
  | some n => exact ⟨n, rfl, ((ChunkMap.next_spec m i).1 n hnx).2.1⟩
  | none =>
    cases hb : m.begin with
    | some b => exact ⟨b, rfl, ((ChunkMap.begin_spec m).1 b hb).1⟩
    | none =>
      have := (ChunkMap.begin_spec m).2 hb
      subst this
      simp [ChunkMap.keys] at ha

theorem countP_lt_of_imp (l : List Int) (p q : Int → Bool) (k : Int) (hk : k ∈ l)
    (hpq : ∀ x ∈ l, p x = true → q x = true) (hqk : q k = true) (hpk : p k = false) :
    l.countP p < l.countP q := by
  induction l with
  | nil => cases hk
  | cons x rest ih =>
    have hmono : rest.countP p ≤ rest.countP q :=
      List.countP_mono_left (fun y hy h => hpq y (List.mem_cons_of_mem _ hy) h)
    rcases List.mem_cons.mp hk with h | h
    · subst h
      simp only [List.countP_cons, hqk, hpk, if_true, Bool.false_eq_true, if_false]
      omega
    · have ih1 := ih h (fun y hy => hpq y (List.mem_cons_of_mem _ hy))
      have hx := hpq x (List.mem_cons_self _ _)
      simp only [List.countP_cons]
      cases hp : p x
      · cases hq : q x <;> simp <;> omega
      · simp [hx hp]
        omega

theorem ChunkMap.remaining_lt (m : ChunkMap) (a i k : Int)
    (hs : m.keys.Pairwise (fun a b => a < b)) (ha : a ∈ m.keys)
    (hn : m.nextWrap i = some k) (hk : k ≠ a) : m.remaining a k < m.remaining a i := by
  obtain ⟨h1, h2, _⟩ := ChunkMap.nextWrap_spec m a i k hs ha hn hk
  unfold ChunkMap.remaining
  refine countP_lt_of_imp _ _ _ k h1 ?_ ?_ ?_
  · intro x _ hx
    rcases h2 with ⟨c1, c2, c3⟩ | ⟨c1, c2, c3⟩ | ⟨c1, c2, _⟩
    · have e1 : a ≤ k := by omega
      simp only [e1, c1, if_true, decide_eq_true_eq] at hx ⊢
      omega
    · have e1 : ¬ a ≤ k := by omega
      have e2 : ¬ a ≤ i := by omega
      simp only [e1, e2, if_false, decide_eq_true_eq] at hx ⊢
      omega
    · have e1 : ¬ a ≤ k := by omega
      simp only [e1, c1, if_false, if_true, decide_eq_true_eq] at hx ⊢
      omega
  · rcases h2 with ⟨c1, c2, c3⟩ | ⟨c1, c2, c3⟩ | ⟨c1, c2, _⟩
    · simp only [c1, if_true, decide_eq_true_eq]; omega
    · have e2 : ¬ a ≤ i := by omega
      simp only [e2, if_false, decide_eq_true_eq]; omega
    · simp only [c1, if_true, decide_eq_true_eq]; omega
  · by_cases e1 : a ≤ k
    · simp only [e1, if_true, decide_eq_false_iff_not]; omega
    · simp only [e1, if_false, decide_eq_false_iff_not]; omega

theorem ChunkMap.remaining_le (m : ChunkMap) (a i : Int) : m.remaining a i ≤ m.length := by
  unfold ChunkMap.remaining
  have := List.countP_le_length (l := m.keys)
    (fun x => if a ≤ i then decide (i < x ∨ x < a) else decide (i < x ∧ x < a))
  simpa [ChunkMap.keys] using this

end wsched

namespace wsched

/-! ### The scan loop, case by case -/

theorem scanLoopLog_fst (H : StdHeap) (mm : MemMan) (sched : Option SchedulerPolicy)
    (flex : Bool) (fuel : Nat) :
    ∀ (q : ChunkTasksQueue) (asks : List PrepareCall) (iter : Int) (st : ReadyState),
      (ChunkTasksQueue.scanLoopLog H mm sched flex fuel q asks iter st).1 =
        ChunkTasksQueue.scanLoop H mm sched flex fuel q asks iter st := by
  induction fuel with
  | zero => intro q asks iter st; rfl
  | succ fuel ih =>
    intro q asks iter st
    unfold ChunkTasksQueue.scanLoopLog ChunkTasksQueue.scanLoop
    split
    · dsimp only
      split
      · rfl
      · split
        · rfl
        · split
          · rfl
          · split
            · rfl
            · split
              · rfl
              · exact ih _ _ _ _
    · split
      · rfl
      · rfl

theorem scanLoopLog_READY (H : StdHeap) (mm : MemMan) (sched : Option SchedulerPolicy)
    (flex : Bool) (fuel : Nat) (q : ChunkTasksQueue) (asks : List PrepareCall) (iter : Int) :
    ChunkTasksQueue.scanLoopLog H mm sched flex (fuel + 1) q asks iter .READY =
      (⟨{ q with _readyChunk := some iter }, asks, .value true⟩, []) := by
  simp [ChunkTasksQueue.scanLoopLog]

theorem scanLoopLog_NO_RESOURCES (H : StdHeap) (mm : MemMan) (sched : Option SchedulerPolicy)
    (flex : Bool) (fuel : Nat) (q : ChunkTasksQueue) (asks : List PrepareCall) (iter : Int) :
    ChunkTasksQueue.scanLoopLog H mm sched flex (fuel + 1) q asks iter .NO_RESOURCES =
      (⟨q, asks, .value false⟩, []) := by
  simp [ChunkTasksQueue.scanLoopLog]

theorem scanLoopLog_back (H : StdHeap) (mm : MemMan) (sched : Option SchedulerPolicy)
    (flex : Bool) (fuel : Nat) (q : ChunkTasksQueue) (asks : List PrepareCall) (iter : Int)
    (hn : q._chunkMap.nextWrap iter = q._activeChunk) :
    ChunkTasksQueue.scanLoopLog H mm sched flex (fuel + 1) q asks iter .NOT_READY =
      (⟨q, asks, .value false⟩, []) := by
  unfold ChunkMap.nextWrap at hn
  rw [ChunkTasksQueue.scanLoopLog]
  simp only [hn]
  simp

theorem scanLoopLog_step (H : StdHeap) (mm : MemMan) (sched : Option SchedulerPolicy)
    (flex : Bool) (fuel : Nat) (q : ChunkTasksQueue) (asks : List PrepareCall) (iter : Int)
    (k : Int) (ct : ChunkTasks) (hn : q._chunkMap.nextWrap iter = some k)
    (hk : some k ≠ q._activeChunk) (hf : q._chunkMap.find k = some ct) :
    ChunkTasksQueue.scanLoopLog H mm sched flex (fuel + 1) q asks iter .NOT_READY =
      if (match sched with
          | none => false
          | some s => decide (s.getActiveChunkCount ≥ s.getMaxActiveChunks)
              && !s.chunkAlreadyActive ct._chunkId) then
        (⟨q, asks, .value false⟩, [])
      else
        match (ct.ready H mm flex asks).state with
        | none =>
          (⟨{ q with _chunkMap := q._chunkMap.set k (ct.ready H mm flex asks).ct },
            (ct.ready H mm flex asks).asks, .thrown⟩, [k])
        | some st =>
          ((ChunkTasksQueue.scanLoopLog H mm sched flex fuel
              { q with _chunkMap := q._chunkMap.set k (ct.ready H mm flex asks).ct }
              (ct.ready H mm flex asks).asks k st).1,
            k :: (ChunkTasksQueue.scanLoopLog H mm sched flex fuel
              { q with _chunkMap := q._chunkMap.set k (ct.ready H mm flex asks).ct }
              (ct.ready H mm flex asks).asks k st).2) := by
  unfold ChunkMap.nextWrap at hn
  rw [ChunkTasksQueue.scanLoopLog]
  simp only [hn, hk, hf]
  simp

end wsched

namespace wsched

/-! ### The scan visits every chunk at most once -/

theorem scanOrder_nil (a iter : Int) : scanOrder a iter [] :=
  ⟨[], [], rfl, List.Pairwise.nil, List.Pairwise.nil, by simp, by simp, fun _ => ⟨rfl, by simp⟩⟩

theorem scanOrder_cons (a iter k : Int) (log : List Int)
    (hcase : (a ≤ iter ∧ iter < k ∧ a < k) ∨ (iter < a ∧ iter < k ∧ k < a) ∨
      (a ≤ iter ∧ k < a))
    (h : scanOrder a k log) : scanOrder a iter (k :: log) := by
  obtain ⟨l1, l2, e, p1, p2, h1, h2, h3⟩ := h
  rcases hcase with ⟨c1, c2, c3⟩ | ⟨c1, c2, c3⟩ | ⟨c1, c2⟩
  · refine ⟨k :: l1, l2, by simp [e], List.pairwise_cons.mpr ⟨fun x hx => (h1 x hx).2, p1⟩, p2,
      ?_, h2, fun hlt => by omega⟩
    intro x hx
    rcases List.mem_cons.mp hx with hx | hx
    · subst hx; exact ⟨c3, c2⟩
    · have := h1 x hx
      exact ⟨this.1, by omega⟩
  · obtain ⟨e1, h4⟩ := h3 c3
    subst e1
    refine ⟨[], k :: l2, by simp [e], List.Pairwise.nil, List.pairwise_cons.mpr ⟨h4, p2⟩,
      by simp, ?_, fun _ => ⟨rfl, ?_⟩⟩
    · intro x hx
      rcases List.mem_cons.mp hx with hx | hx
      · subst hx; exact c3
      · exact h2 x hx
    · intro x hx
      rcases List.mem_cons.mp hx with hx | hx
      · subst hx; exact c2
      · have := h4 x hx
        omega
  · obtain ⟨e1, h4⟩ := h3 c2
    subst e1
    refine ⟨[], k :: l2, by simp [e], List.Pairwise.nil, List.pairwise_cons.mpr ⟨h4, p2⟩,
      by simp, ?_, fun hlt => by omega⟩
    intro x hx
    rcases List.mem_cons.mp hx with hx | hx
    · subst hx; exact c2
    · exact h2 x hx

theorem ChunkMap.remaining_set (m : ChunkMap) (k : Int) (ct : ChunkTasks) (a i : Int) :
    (m.set k ct).remaining a i = m.remaining a i := by
  unfold ChunkMap.remaining
  rw [ChunkMap.keys_set]

theorem scanLoopLog_spec (H : StdHeap) (mm : MemMan) (sched : Option SchedulerPolicy)
    (flex : Bool) (a : Int) (fuel : Nat) :
    ∀ (q : ChunkTasksQueue) (asks : List PrepareCall) (iter : Int) (st : ReadyState),
      q._chunkMap.keys.Pairwise (fun x y => x < y) → q._activeChunk = some a →
      a ∈ q._chunkMap.keys → q._readyChunk = none → q._chunkMap.remaining a iter < fuel →
      (iter ≠ a → q.activeIdle a) → (iter = a → st = .NOT_READY → q.activeIdle a) →
      ScanPost a iter q (ChunkTasksQueue.scanLoopLog H mm sched flex fuel q asks iter st) := by
  induction fuel with
  | zero =>
    intro q asks iter st _ _ _ _ hm
    omega
  | succ fuel ih =>
    intro q asks iter st hs ha hmem hrc hm hX hY
    have hvac : ∀ r, q._readyChunk = some r → r ≠ a → q.activeIdle a := by
      intro r hr
      rw [hrc] at hr
      cases hr
    cases st with
    | READY =>
      rw [scanLoopLog_READY]
      refine ⟨rfl, rfl, ha, ?_, by simp, by simp, scanOrder_nil a iter, by simp⟩
      intro r hr hne
      have e : iter = r := by
        have : some iter = some r := hr
        exact Option.some.inj this
      subst e
      exact hX hne
    | NO_RESOURCES =>
      rw [scanLoopLog_NO_RESOURCES]
      exact ⟨rfl, rfl, ha, hvac, by simp, by simp, scanOrder_nil a iter, by simp⟩
    | NOT_READY =>
      have hidle : q.activeIdle a := by
        by_cases hi : iter = a
        · exact hY hi rfl
        · exact hX hi
      obtain ⟨k, hn, hkmem⟩ := ChunkMap.nextWrap_isSome q._chunkMap a iter hmem
      by_cases hka : k = a
      · rw [scanLoopLog_back H mm sched flex fuel q asks iter (by rw [hn, ha, hka])]
        exact ⟨rfl, rfl, ha, hvac, by simp, by simp, scanOrder_nil a iter, by simp⟩
      · obtain ⟨ct, hf⟩ := (ChunkMap.mem_keys_iff _ _).mp hkmem
        have hk : some k ≠ q._activeChunk := by
          rw [ha]
          intro e
          exact hka (Option.some.inj e)
        have hak : a ≠ k := fun e => hka e.symm
        obtain ⟨_, hcase, _⟩ := ChunkMap.nextWrap_spec q._chunkMap a iter k hs hmem hn hka
        have hcase1 : (a ≤ iter ∧ iter < k ∧ a < k) ∨ (iter < a ∧ iter < k ∧ k < a) ∨
            (a ≤ iter ∧ k < a) := by
          rcases hcase with c | c | c
          · exact Or.inl c
          · exact Or.inr (Or.inl c)
          · exact Or.inr (Or.inr ⟨c.1, c.2.1⟩)
        rw [scanLoopLog_step H mm sched flex fuel q asks iter k ct hn hk hf]
        split
        · exact ⟨rfl, rfl, ha, hvac, by simp, by simp, scanOrder_nil a iter, by simp⟩
        · split
          · refine ⟨ChunkMap.keys_set _ _ _, ChunkMap.find_set_ne _ _ _ _ hak, ha, hvac, by simp,
              by simp, scanOrder_cons a iter k [] hcase1 (scanOrder_nil a k), ?_⟩
            intro x hx
            rcases List.mem_cons.mp hx with hx | hx
            · subst hx; exact hkmem
            · cases hx
          · rename_i st1 hstate
            have hm1 : (q._chunkMap.set k (ct.ready H mm flex asks).ct).remaining a k < fuel := by
              rw [ChunkMap.remaining_set]
              have := ChunkMap.remaining_lt q._chunkMap a iter k hs hmem hn hka
              omega
            have hih := ih
              { q with _chunkMap := q._chunkMap.set k (ct.ready H mm flex asks).ct }
              (ct.ready H mm flex asks).asks k st1
              (by rw [ChunkMap.keys_set]; exact hs) ha
              (by rw [ChunkMap.keys_set]; exact hmem) hrc hm1
              (fun _ ct1 h1 => hidle ct1 (by rw [← ChunkMap.find_set_ne _ _ _ _ hak]; exact h1))
              (fun h => absurd h hka)
            obtain ⟨g1, g2, g3, _, g5, g6, g7, g8⟩ := hih
            refine ⟨?_, ?_, g3, fun _ _ _ => hidle, g5, g6, scanOrder_cons a iter k _ hcase1 g7,
              ?_⟩
            · rw [g1]; exact ChunkMap.keys_set _ _ _
            · rw [g2]; exact ChunkMap.find_set_ne _ _ _ _ hak
            · intro x hx
              rcases List.mem_cons.mp hx with hx | hx
              · subst hx; exact hkmem
              · have := g8 x hx
                rw [ChunkMap.keys_set] at this
                exact this

end wsched

namespace wsched

/-! ### `_ready` keeps the representation invariants and ends -/

theorem ChunkTasks.setActive_active (H : StdHeap) (ct : ChunkTasks) (b : Bool) :
    (ct.setActive H b)._active = b := by
  simp [ChunkTasks.setActive]

theorem ChunkTasks.ready_gives_NOT_READY (H : StdHeap) (mm : MemMan) (flex : Bool)
    (asks : List PrepareCall) (ct : ChunkTasks)
    (h : (ct.ready H mm flex asks).state = some .NOT_READY) :
    (ct.ready H mm flex asks).ct._activeTasks = [] ∧
    (ct.ready H mm flex asks).ct._readyTask = none := by
  have h1 := ChunkTasks.ready_not_READY H mm flex asks ct (by rw [h]; simp)
  refine ⟨?_, h1.2.2.2.2.1⟩
  rw [h1.2.1]
  cases hl : ct._activeTasks with
  | nil => rfl
  | cons top rest =>
    exfalso
    unfold ChunkTasks.ready at h
    simp only [h1.1, Option.isSome_none, Bool.false_eq_true, if_false, hl] at h
    split at h
    · split at h
      · split at h <;> simp at h
      · simp at h
    · simp at h

theorem valid_of (q : ChunkTasksQueue) (a : Int) (ct : ChunkTasks)
    (hs : q._chunkMap.keys.Pairwise (fun x y => x < y)) (ha : q._activeChunk = some a)
    (hf : q._chunkMap.find a = some ct) (hfl : ct._active = true)
    (hr : ∀ r, q._readyChunk = some r → r ≠ a → ct._activeTasks = [] ∧ ct._readyTask = none) :
    q.Valid := by
  refine ⟨hs, ?_⟩
  intro a1 ha1
  rw [ha] at ha1
  cases ha1
  exact ⟨ct, hf, hfl, hr⟩

theorem readyScan_valid (H : StdHeap) (mm : MemMan) (sched : Option SchedulerPolicy)
    (flex : Bool) (q : ChunkTasksQueue) (asks : List PrepareCall) (a : Int) (ct : ChunkTasks)
    (hs : q._chunkMap.keys.Pairwise (fun x y => x < y)) (ha : q._activeChunk = some a)
    (hf : q._chunkMap.find a = some ct) (hfl : ct._active = true)
    (hrc : q._readyChunk = none) : ReadyPost (q.readyScan H mm sched flex asks) := by
  obtain ⟨m, ac, rc, tc, rs⟩ := q
  dsimp only at hs ha hf hrc
  subst ha hrc
  have hself := ChunkMap.find_set_self m a ct (ct.ready H mm flex asks).ct hf
  have hfl1 : (ct.ready H mm flex asks).ct._active = true := by
    rw [(ChunkTasks.ready_shape H mm flex asks ct).1]; exact hfl
  have hs1 : (m.set a (ct.ready H mm flex asks).ct).keys.Pairwise (fun x y => x < y) := by
    rw [ChunkMap.keys_set]; exact hs
  unfold ChunkTasksQueue.readyScan
  simp only [hf]
  cases hstate : (ct.ready H mm flex asks).state with
  | none =>
    dsimp only
    refine ⟨valid_of _ a _ hs1 rfl hself hfl1 ?_, by simp, by simp⟩
    intro r hr
    cases hr
  | some st =>
    dsimp only
    rw [← scanLoopLog_fst]
    have hmem : a ∈ (m.set a (ct.ready H mm flex asks).ct).keys :=
      (ChunkMap.mem_keys_iff _ _).mpr ⟨_, hself⟩
    have hpost := scanLoopLog_spec H mm sched flex a
      ((m.set a (ct.ready H mm flex asks).ct).length + 1)
      ⟨m.set a (ct.ready H mm flex asks).ct, some a, none, tc, rs⟩
      (ct.ready H mm flex asks).asks a st hs1 rfl hmem rfl
      (by
        have := ChunkMap.remaining_le (m.set a (ct.ready H mm flex asks).ct) a a
        show ChunkMap.remaining (m.set a (ct.ready H mm flex asks).ct) a a < _
        omega)
      (fun h => absurd rfl h)
      (fun _ hst ct1 h1 => by
        have e : (ct.ready H mm flex asks).ct = ct1 := by
          have h2 : (m.set a (ct.ready H mm flex asks).ct).find a = some ct1 := h1
          rw [hself] at h2
          exact Option.some.inj h2
        subst e
        exact ChunkTasks.ready_gives_NOT_READY H mm flex asks ct (by rw [hstate, hst]))
    obtain ⟨g1, g2, g3, g4, g5, g6, _, _⟩ := hpost
    have g2a := g2.trans hself
    refine ⟨valid_of _ a _ (by rw [g1]; exact hs1) g3 g2a hfl1 ?_, g5, g6⟩
    intro r hr hne
    exact g4 r hr hne _ hself

theorem readyAdvance_valid (H : StdHeap) (mm : MemMan) (sched : Option SchedulerPolicy)
    (flex : Bool) (q : ChunkTasksQueue) (asks : List PrepareCall) (k : Int) (ct : ChunkTasks)
    (c0 : ChunkTasks) (hs : q._chunkMap.keys.Pairwise (fun x y => x < y))
    (ha : q._activeChunk = some k) (hf : q._chunkMap.find k = some c0) (he0 : c0 = ct)
    (hfl : ct._active = true) (hrc : q._readyChunk = none) :
    ReadyPost (q.readyAdvance H mm sched flex asks k ct) := by
  subst he0
  obtain ⟨m, ac, rc, tc, rs⟩ := q
  dsimp only at hs ha hf hrc
  subst ha hrc
  unfold ChunkTasksQueue.readyAdvance
  by_cases hadv : c0.readyToAdvance = true
  · simp only [hadv, if_true]
    have hkmem : k ∈ m.keys := (ChunkMap.mem_keys_iff _ _).mpr ⟨_, hf⟩
    obtain ⟨n, hn, hnmem⟩ := ChunkMap.nextWrap_isSome m k k hkmem
    unfold ChunkMap.nextWrap at hn
    simp only [hn]
    have hself := ChunkMap.find_set_self m k c0 (c0.setActive H false) hf
    have hs1 : (m.set k (c0.setActive H false)).keys.Pairwise (fun x y => x < y) := by
      rw [ChunkMap.keys_set]; exact hs
    have hs2 : ((m.set k (c0.setActive H false)).erase k).keys.Pairwise
        (fun x y => x < y) := hs1.sublist (ChunkMap.keys_erase_sublist _ _)
    have hn1 : ∃ cn, (m.set k (c0.setActive H false)).find n = some cn := by
      apply (ChunkMap.mem_keys_iff _ _).mp
      rw [ChunkMap.keys_set]
      exact hnmem
    obtain ⟨cn, hcn⟩ := hn1
    cases hemp : (c0.setActive H false).empty with
    | true =>
      simp only [if_true]
      by_cases hnk : n = k
      · subst hnk
        simp only [if_true]
        exact ⟨⟨hs2, fun a h => by cases h⟩, by simp, by simp⟩
      · have hnk1 : ¬ (some n = some k) := fun e => hnk (Option.some.inj e)
        have hcn2 : ((m.set k (c0.setActive H false)).erase k).find n = some cn := by
          rw [ChunkMap.find_erase_ne _ _ _ hnk]; exact hcn
        simp only [hnk1, if_false, hcn2]
        refine readyScan_valid H mm sched flex _ asks n
          ((cn.movePendingToActive H).setActive H true) ?_ rfl ?_
          (ChunkTasks.setActive_active H _ true) rfl
        · show (ChunkMap.set _ _ _).keys.Pairwise _
          rw [ChunkMap.keys_set]; exact hs2
        · exact ChunkMap.find_set_self _ _ cn _ hcn2
    | false =>
      simp only [Bool.false_eq_true, if_false, hcn]
      refine readyScan_valid H mm sched flex _ asks n
        ((cn.movePendingToActive H).setActive H true) ?_ rfl ?_
        (ChunkTasks.setActive_active H _ true) rfl
      · show (ChunkMap.set _ _ _).keys.Pairwise _
        rw [ChunkMap.keys_set]; exact hs1
      · exact ChunkMap.find_set_self _ _ cn _ hcn
  · simp only [hadv, if_false]
    exact readyScan_valid H mm sched flex ⟨m, some k, none, tc, rs⟩ asks k c0 hs rfl hf hfl rfl

theorem _ready_active_valid (H : StdHeap) (mm : MemMan) (sched : Option SchedulerPolicy)
    (flex : Bool) (q : ChunkTasksQueue) (asks : List PrepareCall) (k : Int) (ct : ChunkTasks)
    (hs : q._chunkMap.keys.Pairwise (fun x y => x < y)) (ha : q._activeChunk = some k)
    (hf : q._chunkMap.find k = some ct) (hfl : ct._active = true)
    (hrc : q._readyChunk = none) : ReadyPost (q._ready H mm sched flex asks) := by
  obtain ⟨m, ac, rc, tc, rs⟩ := q
  dsimp only at hs ha hf hrc
  subst ha hrc
  have he : ChunkTasksQueue._empty ⟨m, some k, none, tc, rs⟩ = false :=
    ChunkMap.isEmpty_of_find _ _ _ hf
  have hself := ChunkMap.find_set_self m k ct (ct.ready H mm flex asks).ct hf
  have hfl1 : (ct.ready H mm flex asks).ct._active = true := by
    rw [(ChunkTasks.ready_shape H mm flex asks ct).1]; exact hfl
  have hs1 : (m.set k (ct.ready H mm flex asks).ct).keys.Pairwise (fun x y => x < y) := by
    rw [ChunkMap.keys_set]; exact hs
  unfold ChunkTasksQueue._ready
  simp only [he, hf, Option.isSome_none, Bool.false_eq_true, if_false]
  cases hstate : (ct.ready H mm flex asks).state with
  | none =>
    dsimp only
    refine ⟨valid_of _ k _ hs1 rfl hself hfl1 ?_, by simp, by simp⟩
    intro r hr
    cases hr
  | some st =>
    cases st with
    | READY =>
      dsimp only
      refine ⟨valid_of _ k _ hs1 rfl hself hfl1 ?_, by simp, by simp⟩
      intro r hr hne
      exact absurd (Option.some.inj hr).symm hne
    | NOT_READY =>
      dsimp only
      exact readyAdvance_valid H mm sched flex _ _ k _ _ hs1 rfl hself rfl hfl1 rfl
    | NO_RESOURCES =>
      dsimp only
      exact readyAdvance_valid H mm sched flex _ _ k _ _ hs1 rfl hself rfl hfl1 rfl

theorem _ready_start (H : StdHeap) (mm : MemMan) (sched : Option SchedulerPolicy) (flex : Bool)
    (q : ChunkTasksQueue) (asks : List PrepareCall) (b : Int) (cb : ChunkTasks)
    (hrc : q._readyChunk = none) (ha : q._activeChunk = none)
    (hb : q._chunkMap.begin = some b) (hf : q._chunkMap.find b = some cb) :
    q._ready H mm sched flex asks =
      ChunkTasksQueue._ready H mm sched flex
        { q with _activeChunk := some b,
                 _chunkMap := (q._chunkMap.set b (cb.setActive H true)) } asks := by
  obtain ⟨m, ac, rc, tc, rs⟩ := q
  dsimp only at hrc ha hb hf
  subst ha hrc
  have he : ChunkTasksQueue._empty ⟨m, none, none, tc, rs⟩ = false :=
    ChunkMap.isEmpty_of_find _ _ _ hf
  have hself := ChunkMap.find_set_self m b cb (cb.setActive H true) hf
  have he1 : ChunkTasksQueue._empty ⟨m.set b (cb.setActive H true), some b, none, tc, rs⟩
      = false := ChunkMap.isEmpty_of_find _ _ _ hself
  unfold ChunkTasksQueue._ready
  simp only [he, he1, hb, hf, hself, Option.isSome_none, Bool.false_eq_true, if_false]

theorem _ready_valid (H : StdHeap) (mm : MemMan) (sched : Option SchedulerPolicy) (flex : Bool)
    (q : ChunkTasksQueue) (asks : List PrepareCall) (hv : q.Valid) :
    ReadyPost (q._ready H mm sched flex asks) := by
  cases hrc : q._readyChunk with
  | some r =>
    rw [_ready_of_readyChunk H mm sched flex q asks r hrc]
    exact ⟨hv, by simp, by simp⟩
  | none =>
    cases he : q._empty with
    | true =>
      have e : q._ready H mm sched flex asks = ⟨q, asks, .value false⟩ := by
        simp [ChunkTasksQueue._ready, hrc, he]
      rw [e]
      exact ⟨hv, by simp, by simp⟩
    | false =>
      cases ha : q._activeChunk with
      | some k =>
        obtain ⟨ct, hf, hfl, _⟩ := hv.2 k ha
        exact _ready_active_valid H mm sched flex q asks k ct hv.1 ha hf hfl hrc
      | none =>
        cases hb : q._chunkMap.begin with
        | none =>
          have := (ChunkMap.begin_spec q._chunkMap).2 hb
          simp [ChunkTasksQueue._empty, this] at he
        | some b =>
          obtain ⟨cb, hf⟩ := (ChunkMap.mem_keys_iff _ _).mp
            ((ChunkMap.begin_spec q._chunkMap).1 b hb).1
          rw [_ready_start H mm sched flex q asks b cb hrc ha hb hf]
          refine _ready_active_valid H mm sched flex _ asks b (cb.setActive H true) ?_ rfl
            (ChunkMap.find_set_self _ _ cb _ hf) (ChunkTasks.setActive_active H cb true) hrc
          show (ChunkMap.set _ _ _).keys.Pairwise _
          rw [ChunkMap.keys_set]; exact hv.1

end wsched

namespace wsched

/-! ### Every reachable queue satisfies the representation invariants -/

theorem valid_of_find (q q1 : ChunkTasksQueue) (hv : q.Valid)
    (hs : q1._chunkMap.keys.Pairwise (fun x y => x < y))
    (ha : q1._activeChunk = q._activeChunk)
    (hr : q1._readyChunk = q._readyChunk ∨ q1._readyChunk = none)
    (hfind : ∀ a ct, q._activeChunk = some a → q._chunkMap.find a = some ct →
      ∃ ct1, q1._chunkMap.find a = some ct1 ∧ ct1._active = ct._active ∧
        (ct._activeTasks = [] ∧ ct._readyTask = none →
          ct1._activeTasks = [] ∧ ct1._readyTask = none)) : q1.Valid := by
  refine ⟨hs, ?_⟩
  intro a ha1
  rw [ha] at ha1
  obtain ⟨ct, hf, hfl, hidle⟩ := hv.2 a ha1
  obtain ⟨ct1, h1, h2, h3⟩ := hfind a ct ha1 hf
  refine ⟨ct1, h1, by rw [h2]; exact hfl, ?_⟩
  intro r hr1 hne
  rcases hr with hr | hr
  · rw [hr] at hr1
    exact h3 (hidle r hr1 hne)
  · rw [hr] at hr1
    cases hr1

theorem queueTask_keys (H : StdHeap) (now : Nat) (q : ChunkTasksQueue) (t : Task)
    (hs : q._chunkMap.keys.Pairwise (fun x y => x < y)) :
    (q.queueTask H now t)._chunkMap.keys.Pairwise (fun x y => x < y) := by
  cases hf : q._chunkMap.find t.chunkId with
  | some ct =>
    have e : q.queueTask H now t =
        { q with _chunkMap := q._chunkMap.set t.chunkId (ct.queTask H now t),
                 _taskCount := q._taskCount + 1 } := by
      simp [ChunkTasksQueue.queueTask, hf]
    rw [e]
    show (ChunkMap.set _ _ _).keys.Pairwise _
    rw [ChunkMap.keys_set]
    exact hs
  | none =>
    have hself := ChunkMap.find_insert_self q._chunkMap t.chunkId (ChunkTasks.new t.chunkId) hf
    have e : q.queueTask H now t =
        { q with _chunkMap := (q._chunkMap.insert t.chunkId (ChunkTasks.new t.chunkId)).set
                    t.chunkId ((ChunkTasks.new t.chunkId).queTask H now t),
                 _taskCount := q._taskCount + 1 } := by
      simp [ChunkTasksQueue.queueTask, hf, hself]
    rw [e]
    show (ChunkMap.set _ _ _).keys.Pairwise _
    rw [ChunkMap.keys_set]
    exact (ChunkMap.keys_insert _ _ _ hs).1

theorem taskComplete_keys (q : ChunkTasksQueue) (t : Task) :
    (q.taskComplete t)._chunkMap.keys = q._chunkMap.keys := by
  unfold ChunkTasksQueue.taskComplete
  cases q._chunkMap.find t.chunkId with
  | none => rfl
  | some ct => exact ChunkMap.keys_set _ _ _

theorem removeTask_keys (H : StdHeap) (q : ChunkTasksQueue) (t : Task) :
    (q.removeTask H t).2._chunkMap.keys = q._chunkMap.keys := by
  unfold ChunkTasksQueue.removeTask
  cases q._chunkMap.find t.chunkId with
  | none => rfl
  | some ct =>
    dsimp only
    cases (ct.removeTask H t).1 <;> exact ChunkMap.keys_set _ _ _

theorem ChunkTasks.queTask_idle (H : StdHeap) (now : Nat) (ct : ChunkTasks) (a : Task) :
    (ct.queTask H now a)._active = ct._active ∧
    (ct._active = true → ct._activeTasks = [] ∧ ct._readyTask = none →
      (ct.queTask H now a)._activeTasks = [] ∧ (ct.queTask H now a)._readyTask = none) := by
  unfold ChunkTasks.queTask
  cases h : ct._active
  · simp
  · simp

theorem ChunkTasks.removeTask_idle (H : StdHeap) (ct : ChunkTasks) (task : Task) :
    (ct.removeTask H task).2._active = ct._active ∧
    (ct._activeTasks = [] ∧ ct._readyTask = none →
      (ct.removeTask H task).2._activeTasks = [] ∧ (ct.removeTask H task).2._readyTask = none) := by
  obtain ⟨h1, h2, h3⟩ := ChunkTasks.removeTask_shape H ct task
  refine ⟨h1, ?_⟩
  intro hi
  refine ⟨?_, by rw [h2]; exact hi.2⟩
  rcases h3 with h3 | h3
  · rw [h3]; exact hi.1
  · rw [h3, hi.1]
    exact List.Perm.eq_nil (H.make_heap_perm _)

theorem queueTask_valid (H : StdHeap) (now : Nat) (q : ChunkTasksQueue) (t : Task)
    (hv : q.Valid) : (q.queueTask H now t).Valid := by
  obtain ⟨e1, e2, e3, e4⟩ := queueTask_find H now q t
  refine valid_of_find q _ hv (queueTask_keys H now q t hv.1) e3 (Or.inl e4) ?_
  intro a ct ha hf
  by_cases hk : a = t.chunkId
  · subst hk
    obtain ⟨ct0, hf0, hfl, _⟩ := hv.2 _ ha
    rw [hf] at hf0
    cases hf0
    rw [chunkOrNew_of_find q _ ct hf] at e1
    exact ⟨_, e1, (ChunkTasks.queTask_idle H now ct t).1,
      (ChunkTasks.queTask_idle H now ct t).2 hfl⟩
  · exact ⟨ct, by rw [e2 a hk]; exact hf, rfl, fun h => h⟩

theorem taskComplete_valid (q : ChunkTasksQueue) (t : Task) (hv : q.Valid) :
    (q.taskComplete t).Valid := by
  obtain ⟨e1, e2, e3, e4⟩ := taskComplete_find q t
  refine valid_of_find q _ hv (by rw [taskComplete_keys]; exact hv.1) e3 (Or.inl e4) ?_
  intro a ct ha hf
  by_cases hk : a = t.chunkId
  · subst hk
    exact ⟨_, e1 ct hf, rfl, fun h => h⟩
  · exact ⟨ct, by rw [e2 a hk]; exact hf, rfl, fun h => h⟩

theorem removeTask_valid (H : StdHeap) (q : ChunkTasksQueue) (t : Task) (hv : q.Valid) :
    (q.removeTask H t).2.Valid := by
  obtain ⟨e1, e2, e3, e4⟩ := removeTask_find H q t
  refine valid_of_find q _ hv (by rw [removeTask_keys]; exact hv.1) e3 (Or.inl e4) ?_
  intro a ct ha hf
  by_cases hk : a = t.chunkId
  · subst hk
    exact ⟨_, e1 ct hf, (ChunkTasks.removeTask_idle H ct t).1,
      (ChunkTasks.removeTask_idle H ct t).2⟩
  · exact ⟨ct, by rw [e2 a hk]; exact hf, rfl, fun h => h⟩

theorem valid_set_readyChunk (H : StdHeap) (mm : MemMan) (flex : Bool)
    (asks : List PrepareCall) (q q1 : ChunkTasksQueue) (k : Int) (ct : ChunkTasks)
    (hv : q.Valid) (hrc : q._readyChunk = some k) (hf : q._chunkMap.find k = some ct)
    (hm : q1._chunkMap = q._chunkMap.set k (ct.getTask H mm flex asks).ct)
    (ha : q1._activeChunk = q._activeChunk)
    (hr : q1._readyChunk = q._readyChunk ∨ q1._readyChunk = none) : q1.Valid := by
  refine valid_of_find q q1 hv (by rw [hm, ChunkMap.keys_set]; exact hv.1) ha hr ?_
  intro a cta ha1 hfa
  by_cases hk : a = k
  · subst hk
    rw [hf] at hfa
    cases hfa
    refine ⟨_, by rw [hm]; exact ChunkMap.find_set_self _ _ ct _ hf, ?_, ?_⟩
    · rw [(ChunkTasks.getTask_shape H mm flex asks ct).2.1,
        (ChunkTasks.ready_shape H mm flex asks ct).1]
    · intro hi
      have hrd := ChunkTasks.ready_idle H mm flex asks ct hi.2 hi.1
      have hg : ct.getTask H mm flex asks = ⟨ct, asks, none, false⟩ := by
        simp [ChunkTasks.getTask, hrd]
      rw [hg]
      exact hi
  · exact ⟨cta, by rw [hm, ChunkMap.find_set_ne _ _ _ _ hk]; exact hfa, rfl, fun h => h⟩

theorem getTask_valid (H : StdHeap) (mm : MemMan) (sched : Option SchedulerPolicy) (flex : Bool)
    (q : ChunkTasksQueue) (hv : q.Valid) : (q.getTask H mm sched flex).q.Valid := by
  have hr := (_ready_valid H mm sched flex q [] hv).1
  unfold ChunkTasksQueue.getTask
  dsimp only
  split
  · split
    · exact hr
    · rename_i k hk
      split
      · exact hr
      · rename_i ct hf
        split
        · exact valid_set_readyChunk H mm flex _ _ _ k ct hr hk hf rfl rfl (Or.inl rfl)
        · exact valid_set_readyChunk H mm flex _ _ _ k ct hr hk hf rfl rfl (Or.inr rfl)
  · exact hr

theorem reachable_valid (H : StdHeap) (q : ChunkTasksQueue) (h : Reachable H q) : q.Valid := by
  induction h with
  | new =>
    refine ⟨List.Pairwise.nil, ?_⟩
    intro a ha
    cases ha
  | queueTask q now task _ ih => exact queueTask_valid H now q task ih
  | ready q mm sched flex _ ih => exact (_ready_valid H mm sched flex q [] ih).1
  | getTask q mm sched flex _ ih => exact getTask_valid H mm sched flex q ih
  | taskComplete q task _ ih => exact taskComplete_valid q task ih
  | removeTask q task _ ih => exact removeTask_valid H q task ih

end wsched

namespace wsched

/-! ### The active chunk is served first -/

theorem ChunkTasks.busy_not_NOT_READY (H : StdHeap) (mm : MemMan) (flex : Bool)
    (asks : List PrepareCall) (ct : ChunkTasks)
    (hbusy : ct._activeTasks ≠ [] ∨ ct._readyTask.isSome = true) :
    (ct.ready H mm flex asks).state ≠ some .NOT_READY := by
  intro h
  have h1 := ChunkTasks.ready_gives_NOT_READY H mm flex asks ct h
  have h2 := ChunkTasks.ready_not_READY H mm flex asks ct (by rw [h]; simp)
  rcases hbusy with hb | hb
  · exact hb (by rw [← h2.2.1]; exact h1.1)
  · rw [h2.1] at hb
    cases hb

theorem ChunkTasks.busy_after_NO_RESOURCES (H : StdHeap) (mm : MemMan) (flex : Bool)
    (asks : List PrepareCall) (ct : ChunkTasks)
    (hbusy : ct._activeTasks ≠ [] ∨ ct._readyTask.isSome = true)
    (h : (ct.ready H mm flex asks).state = some .NO_RESOURCES) :
    (ct.ready H mm flex asks).ct._activeTasks ≠ [] ∧
    (ct.ready H mm flex asks).ct.readyToAdvance = false := by
  have h2 := ChunkTasks.ready_not_READY H mm flex asks ct (by rw [h]; simp)
  have hne : (ct.ready H mm flex asks).ct._activeTasks ≠ [] := by
    rw [h2.2.1]
    rcases hbusy with hb | hb
    · exact hb
    · rw [h2.1] at hb
      cases hb
  refine ⟨hne, ?_⟩
  cases hl : (ct.ready H mm flex asks).ct._activeTasks with
  | nil => exact absurd hl hne
  | cons x l => simp [ChunkTasks.readyToAdvance, hl]

theorem _ready_busy (H : StdHeap) (mm : MemMan) (sched : Option SchedulerPolicy) (flex : Bool)
    (q : ChunkTasksQueue) (asks : List PrepareCall) (a : Int) (ct : ChunkTasks)
    (hrc : q._readyChunk = none) (ha : q._activeChunk = some a)
    (hf : q._chunkMap.find a = some ct)
    (hbusy : ct._activeTasks ≠ [] ∨ ct._readyTask.isSome = true) :
    (q._ready H mm sched flex asks).q._activeChunk = some a ∧
    ((q._ready H mm sched flex asks).q._readyChunk = none ∨
      (q._ready H mm sched flex asks).q._readyChunk = some a) := by
  obtain ⟨m, ac, rc, tc, rs⟩ := q
  dsimp only at hrc ha hf
  subst hrc ha
  have he : ChunkTasksQueue._empty ⟨m, some a, none, tc, rs⟩ = false :=
    ChunkMap.isEmpty_of_find _ _ _ hf
  have hself := ChunkMap.find_set_self m a ct (ct.ready H mm flex asks).ct hf
  have hnn := ChunkTasks.busy_not_NOT_READY H mm flex asks ct hbusy
  unfold ChunkTasksQueue._ready
  simp only [he, hf, Option.isSome_none, Bool.false_eq_true, if_false]
  cases hstate : (ct.ready H mm flex asks).state with
  | none => simp
  | some st =>
    cases st with
    | READY => simp
    | NOT_READY => exact absurd hstate hnn
    | NO_RESOURCES =>
      dsimp only
      obtain ⟨hne, hadv⟩ := ChunkTasks.busy_after_NO_RESOURCES H mm flex asks ct hbusy hstate
      have hnn2 := ChunkTasks.busy_not_NOT_READY H mm flex (ct.ready H mm flex asks).asks
        (ct.ready H mm flex asks).ct (Or.inl hne)
      unfold ChunkTasksQueue.readyAdvance
      simp only [hadv, Bool.false_eq_true, if_false]
      unfold ChunkTasksQueue.readyScan
      simp only [hself]
      cases hstate2 : ((ct.ready H mm flex asks).ct.ready H mm flex
          (ct.ready H mm flex asks).asks).state with
      | none => simp
      | some st2 =>
        cases st2 with
        | READY => simp [ChunkTasksQueue.scanLoop]
        | NOT_READY => exact absurd hstate2 hnn2
        | NO_RESOURCES => simp [ChunkTasksQueue.scanLoop]

/-- C21: in every reachable queue whose active chunk has a task on its heap or
in its ready slot, `getTask` hands out no task or a task of the active chunk:
the task carries the chunk id of the active chunk and comes from the ready slot
of that chunk, the chunk `ready` has cached as ready chunk; `_activeChunk` stays
where it is. -/
theorem getTask_serves_active_chunk (H : StdHeap) (q : ChunkTasksQueue) (hq : Reachable H q)
    (mm : MemMan) (sched : Option SchedulerPolicy) (flex : Bool) (a : Int) (ct : ChunkTasks)
    (ha : q._activeChunk = some a) (hf : q._chunkMap.find a = some ct)
    (hbusy : ct._activeTasks ≠ [] ∨ ct._readyTask.isSome = true) :
    (q.getTask H mm sched flex).q._activeChunk = some a ∧
    ∀ t, (q.getTask H mm sched flex).task = some t →
      t.chunkId = a ∧ (q.ready H mm sched flex).q._readyChunk = some a ∧
      ∃ ct1, (q.ready H mm sched flex).q._chunkMap.find a = some ct1 ∧
        ct1._readyTask = some t := by
  have hv := reachable_valid H q hq
  have hinv := _ready_countInv H mm sched flex q [] (reachable_countInv H q hq)
  have hkey : (q._ready H mm sched flex []).q._chunkMap.All ChunkTasks.keyed :=
    _ready_all H _ (fun k ct mm flex asks hc => ChunkTasks.keyed_ready H k ct mm flex asks hc)
      (fun k ct b hc => ChunkTasks.keyed_setActive H k ct b hc)
      (fun k ct hc => ChunkTasks.keyed_movePendingToActive H k ct hc) mm sched flex q []
      (reachable_keyed H q hq)
  have hact : (q._ready H mm sched flex []).q._activeChunk = some a ∧
      ((q._ready H mm sched flex []).q._readyChunk = none ∨
        (q._ready H mm sched flex []).q._readyChunk = some a) := by
    cases hrc : q._readyChunk with
    | none => exact _ready_busy H mm sched flex q [] a ct hrc ha hf hbusy
    | some r =>
      rw [_ready_of_readyChunk H mm sched flex q [] r hrc]
      refine ⟨ha, Or.inr ?_⟩
      by_cases hra : r = a
      · rw [← hra]; exact hrc
      · obtain ⟨ct0, hf0, _, hidle⟩ := hv.2 a ha
        rw [hf] at hf0
        cases hf0
        obtain ⟨h1, h2⟩ := hidle r hrc hra
        rcases hbusy with hb | hb
        · exact absurd h1 hb
        · rw [h2] at hb
          cases hb
  refine ⟨by rw [getTask_activeChunk]; exact hact.1, ?_⟩
  have er : q.ready H mm sched flex = q._ready H mm sched flex [] := rfl
  rw [er]
  unfold ChunkTasksQueue.getTask
  dsimp only
  generalize q._ready H mm sched flex [] = r at hinv hkey hact ⊢
  obtain ⟨rq, rasks, rret⟩ := r
  dsimp only at hinv hkey hact ⊢
  intro t ht
  rcases hact.2 with hrc | hrc
  · rw [hrc] at ht
    cases rret <;> simp at ht
  · obtain ⟨ct1, hct, hs⟩ := hinv.2 a hrc
    obtain ⟨t1, ht1⟩ := Option.isSome_iff_exists.mp hs
    have hk := ChunkMap.all_find _ _ _ _ hkey hct
    have hg := ChunkTasks.getTask_eq H mm flex rasks ct1 t1 ht1
    rw [hrc] at ht
    simp only [hct, hg] at ht
    cases rret with
    | value b =>
      simp only [Bool.false_eq_true, if_false, Option.some.injEq] at ht
      subst ht
      exact ⟨hk.2.2.2 t1 ht1, hrc, ct1, hct, ht1⟩
    | thrown => simp at ht
    | invalidIterator => simp at ht
    | outOfFuel => simp at ht

theorem getTask_serves_active_chunk_witness :
    Reachable plainHeap sampleReadyCached ∧
    sampleReadyCached._activeChunk = some 5 ∧
    (sampleReadyCached.getTask plainHeap grantingMemMan none false).task =
      some { sampleTask with memHandle := some 7 } ∧
    ∀ t, (sampleReadyCached.getTask plainHeap grantingMemMan none false).task = some t →
      t.chunkId = 5 :=
  ⟨Reachable.ready _ grantingMemMan none false (Reachable.queueTask _ 0 sampleTask Reachable.new),
    by decide, by decide,
    fun t ht => ((getTask_serves_active_chunk plainHeap sampleReadyCached
      (Reachable.ready _ grantingMemMan none false
        (Reachable.queueTask _ 0 sampleTask Reachable.new))
      grantingMemMan none false 5 sampleReadySlot
      (by decide) (by decide) (Or.inr (by decide))).2 t ht).1⟩

end wsched

namespace wsched

/-! ### Every call of `ready` ends -/

theorem scanOrder_nodup (a iter : Int) (log : List Int) (h : scanOrder a iter log) :
    log.Nodup ∧ a ∉ log ∧
    ∃ l1 l2, log = l1 ++ l2 ∧ l1.Pairwise (fun x y => x < y) ∧
      l2.Pairwise (fun x y => x < y) ∧ (∀ x ∈ l1, a < x) ∧ (∀ x ∈ l2, x < a) := by
  obtain ⟨l1, l2, e, p1, p2, h1, h2, _⟩ := h
  subst e
  refine ⟨?_, ?_, l1, l2, rfl, p1, p2, fun x hx => (h1 x hx).1, h2⟩
  · rw [List.nodup_append]
    refine ⟨p1.imp (fun h => by omega), p2.imp (fun h => by omega), ?_⟩
    intro x hx1 hx2
    have := (h1 x hx1).1
    have := h2 x hx2
    omega
  · intro hmem
    rcases List.mem_append.mp hmem with hx | hx
    · have := (h1 a hx).1
      omega
    · have := h2 a hx
      omega

theorem length_lt_of_nodup_subset (l keys : List Int) (a : Int) (hn : l.Nodup) (ha : a ∉ l)
    (hs : ∀ x ∈ l, x ∈ keys) (hk : a ∈ keys) : l.length < keys.length := by
  have h1 : (a :: l).Nodup := List.nodup_cons.mpr ⟨ha, hn⟩
  have h2 : (a :: l) ⊆ keys := by
    intro x hx
    rcases List.mem_cons.mp hx with hx | hx
    · subst hx; exact hk
    · exact hs x hx
  have := (List.Nodup.subperm h1 h2).length_le
  simp only [List.length_cons] at this
  omega

/-- C23: every call of `ready` on a reachable queue ends: it returns true or
false or is left by the exception of `ChunkTasks::ready`; the bound of the
embedding on the scan loop is never used up and no iterator that designates no
entry is dereferenced. The scan loop, started at the active chunk `a` as `_ready`
starts it, asks the chunks in one ascending run of keys above `a` followed,
after at most one wrap-around, by one ascending run of keys below `a`: it asks no
chunk twice, never the active chunk, and fewer chunks than the map has; and the
loop returns false, leaving the queue as it is, as soon as the iterator comes
back to the active chunk. -/
theorem ready_terminates (H : StdHeap) (q : ChunkTasksQueue) (hq : Reachable H q)
    (mm : MemMan) (sched : Option SchedulerPolicy) (flex : Bool) :
    q.Valid ∧
    ((q.ready H mm sched flex).ret = .value true ∨ (q.ready H mm sched flex).ret = .value false ∨
      (q.ready H mm sched flex).ret = .thrown) ∧
    (∀ (q1 : ChunkTasksQueue) (a : Int) (asks : List PrepareCall) (st : ReadyState),
      q1.Valid → q1._readyChunk = none → q1._activeChunk = some a →
      (st = .NOT_READY → q1.activeIdle a) →
      (ChunkTasksQueue.scanLoopLog H mm sched flex (q1._chunkMap.length + 1) q1 asks a st).1 =
        ChunkTasksQueue.scanLoop H mm sched flex (q1._chunkMap.length + 1) q1 asks a st ∧
      (ChunkTasksQueue.scanLoop H mm sched flex (q1._chunkMap.length + 1) q1 asks a st).ret
        ≠ .outOfFuel ∧
      (ChunkTasksQueue.scanLoop H mm sched flex (q1._chunkMap.length + 1) q1 asks a st).ret
        ≠ .invalidIterator ∧
      (∃ l1 l2,
        (ChunkTasksQueue.scanLoopLog H mm sched flex (q1._chunkMap.length + 1) q1 asks a st).2
          = l1 ++ l2 ∧
        l1.Pairwise (fun x y => x < y) ∧ l2.Pairwise (fun x y => x < y) ∧
        (∀ x ∈ l1, a < x) ∧ (∀ x ∈ l2, x < a)) ∧
      (ChunkTasksQueue.scanLoopLog H mm sched flex (q1._chunkMap.length + 1) q1 asks a
        st).2.Nodup ∧
      a ∉ (ChunkTasksQueue.scanLoopLog H mm sched flex (q1._chunkMap.length + 1) q1 asks a
        st).2 ∧
      (∀ x ∈ (ChunkTasksQueue.scanLoopLog H mm sched flex (q1._chunkMap.length + 1) q1 asks a
        st).2, ∃ ct, q1._chunkMap.find x = some ct) ∧
      (ChunkTasksQueue.scanLoopLog H mm sched flex (q1._chunkMap.length + 1) q1 asks a
        st).2.length < q1._chunkMap.length) ∧
    (∀ (q1 : ChunkTasksQueue) (fuel : Nat) (asks : List PrepareCall) (iter : Int),
      q1._chunkMap.nextWrap iter = q1._activeChunk →
      ChunkTasksQueue.scanLoop H mm sched flex (fuel + 1) q1 asks iter .NOT_READY =
        ⟨q1, asks, .value false⟩) := by
  have hv := reachable_valid H q hq
  refine ⟨hv, ?_, ?_, ?_⟩
  · obtain ⟨_, h1, h2⟩ := _ready_valid H mm sched flex q [] hv
    have er : q.ready H mm sched flex = q._ready H mm sched flex [] := rfl
    rw [er]
    cases hret : (q._ready H mm sched flex []).ret with
    | value b => cases b <;> simp
    | thrown => simp
    | invalidIterator => exact absurd hret h2
    | outOfFuel => exact absurd hret h1
  · intro q1 a asks st hv1 hrc ha hst
    obtain ⟨ct, hf, _, _⟩ := hv1.2 a ha
    have hmem : a ∈ q1._chunkMap.keys := (ChunkMap.mem_keys_iff _ _).mpr ⟨ct, hf⟩
    have hpost := scanLoopLog_spec H mm sched flex a (q1._chunkMap.length + 1) q1 asks a st
      hv1.1 ha hmem hrc
      (by have := ChunkMap.remaining_le q1._chunkMap a a; omega)
      (fun h => absurd rfl h) (fun _ h => hst h)
    obtain ⟨_, _, _, _, g5, g6, g7, g8⟩ := hpost
    obtain ⟨n1, n2, n3⟩ := scanOrder_nodup a a _ g7
    rw [scanLoopLog_fst] at g5 g6
    refine ⟨scanLoopLog_fst H mm sched flex _ q1 asks a st, g5, g6, n3, n1, n2, ?_, ?_⟩
    · intro x hx
      exact (ChunkMap.mem_keys_iff _ _).mp (g8 x hx)
    · have := length_lt_of_nodup_subset _ q1._chunkMap.keys a n1 n2 g8 hmem
      simpa [ChunkMap.keys] using this
  · intro q1 fuel asks iter hn
    rw [← scanLoopLog_fst, scanLoopLog_back H mm sched flex fuel q1 asks iter hn]

theorem ready_terminates_witness :
    Reachable queryHeap sampleTwoChunks ∧
    sampleTwoChunks.Valid ∧
    (sampleTwoChunks.ready queryHeap starvedMemMan none false).ret = .value false ∧
    (ChunkTasksQueue.scanLoopLog queryHeap starvedMemMan none false 3 sampleTwoChunks [] 1
      .NOT_READY).2 = [2] :=
  ⟨Reachable.queueTask _ 0 taskB1
      (Reachable.getTask _ grantingMemMan none false (Reachable.queueTask _ 0 taskA Reachable.new)),
    (ready_terminates queryHeap sampleTwoChunks
      (Reachable.queueTask _ 0 taskB1
        (Reachable.getTask _ grantingMemMan none false
          (Reachable.queueTask _ 0 taskA Reachable.new)))
      starvedMemMan none false).1,
    by decide, by decide⟩

end wsched

namespace wsched

/-- C31: `ChunkTasks::ready` sends at most one request to the memory manager.
Either it sends none and answers READY or NOT_READY (a ready task is cached, or
the heap is empty, or the top task already has a memory handle), or no ready
task is cached, the heap is not empty, its top task has no memory handle, and
exactly one request is added: its chunk id is the chunk id of the top task and
its vector has one entry per table of the scan info of the task, in order, named
`db/table`, table lock REQUIRED (FLEXIBLE for the flexible lock), index lock
NOLOCK; without tables the vector is empty. -/
theorem ChunkTasks.ready_asks_once (H : StdHeap) (mm : MemMan) (useFlexibleLock : Bool)
    (asks : List PrepareCall) (ct : ChunkTasks) :
    ((ct.ready H mm useFlexibleLock asks).asks = asks ∧
      ((ct.ready H mm useFlexibleLock asks).state = some .READY ∨
        (ct.ready H mm useFlexibleLock asks).state = some .NOT_READY) ∧
      (ct._readyTask.isSome = true ∨ ct._activeTasks = [] ∨
        ∃ task rest, ct._activeTasks = task :: rest ∧ task.hasMemHandle = true)) ∨
    (∃ task rest call, ct._readyTask = none ∧ ct._activeTasks = task :: rest ∧
      task.hasMemHandle = false ∧
      (ct.ready H mm useFlexibleLock asks).asks = asks ++ [call] ∧
      call.chunkId = task.chunkId ∧
      call.tblVect.length = task.infoTables.length ∧
      call.tblVect = task.infoTables.map (fun tbl =>
        TableInfo.mk (tbl.db ++ "/" ++ tbl.table)
          (if useFlexibleLock then LockType.FLEXIBLE else LockType.REQUIRED) LockType.NOLOCK) ∧
      (task.infoTables = [] → call.tblVect = [])) := by
  unfold ChunkTasks.ready
  cases hr : ct._readyTask with
  | some t => left; simp
  | none =>
    cases ha : ct._activeTasks with
    | nil => left; simp
    | cons task rest =>
      cases hm : task.hasMemHandle with
      | true => left; simp [hm]
      | false =>
        right
        refine ⟨task, rest, prepareCallOf task useFlexibleLock, rfl, rfl, hm, ?_, rfl, ?_, rfl, ?_⟩
        · simp only [Option.isSome_none, hm, prepareCallOf, Bool.not_false, if_true,
            Bool.false_eq_true, if_false]
          split
          · split <;> rfl
          · rfl
        · simp [prepareCallOf]
        · intro h; simp [prepareCallOf, h]

end wsched

namespace wsched

/-- C34: in every state of the queue reachable from the empty queue by
`queueTask`, `ready`, `getTask`, `taskComplete` and `removeTask`, `_taskCount`
is the sum over the chunks of the map of the size of the active heap plus the
size of the pending list plus one if the chunk has a cached ready task; the
in-flight set does not enter the sum (completing a task leaves the count as it
is), and `_taskCount` is not negative. -/
theorem taskCount_queued_not_handed_out (H : StdHeap) (q : ChunkTasksQueue)
    (h : Reachable H q) :
    q._taskCount =
      (((q._chunkMap.map (fun e => e.2._activeTasks.length + e.2._pendingTasks.length +
          (if e.2._readyTask.isSome then 1 else 0))).sum : Nat) : Int) ∧
    0 ≤ q._taskCount ∧
    (∀ task, (q.taskComplete task)._taskCount = q._taskCount ∧
      (q.taskComplete task)._chunkMap.sumQueued = q._chunkMap.sumQueued) := by
  have h1 := (reachable_countInv H q h).1
  refine ⟨h1, ?_, ?_⟩
  · rw [h1]; exact Int.natCast_nonneg _
  · intro task
    have h2 := (reachable_countInv H (q.taskComplete task) (Reachable.taskComplete q task h)).1
    have h3 : (q.taskComplete task)._taskCount = q._taskCount := by
      unfold ChunkTasksQueue.taskComplete
      split <;> rfl
    refine ⟨h3, ?_⟩
    rw [h3, h1] at h2
    exact_mod_cast h2.symm

/-- Witness for `taskCount_queued_not_handed_out`: the queue after `sampleTask`
was queued and handed out; the task is in flight and the count is 0. -/
theorem taskCount_queued_not_handed_out_witness :
    Reachable plainHeap sampleInFlight ∧ sampleInFlight._taskCount = 0 ∧
    0 ≤ sampleInFlight._taskCount :=
  ⟨Reachable.getTask _ _ _ _ (Reachable.queueTask _ _ _ Reachable.new), by decide,
   (taskCount_queued_not_handed_out plainHeap sampleInFlight
     (Reachable.getTask _ _ _ _ (Reachable.queueTask _ _ _ Reachable.new))).2.1⟩

end wsched

namespace wsched

/-- C37: for every scheduler state in which the task `t` sits in the ready slot
of its chunk and that chunk is the ready chunk (`ready` has selected `t` and
popped it from the active heap, so that no task on the heap or the pending list
of the chunk carries the ids of `t`), `removeTask` on `t` returns none and
leaves the queue as it is, and the following `getTask` hands out `t`. -/
theorem removeTask_ready_slot (H : StdHeap) (mm : MemMan) (sched : Option SchedulerPolicy)
    (flex : Bool) (q : ChunkTasksQueue) (t : Task)
    (h : q._readyChunk = some t.chunkId ∧
      ∃ ct, q._chunkMap.find t.chunkId = some ct ∧ ct._readyTask = some t ∧
        ∀ x ∈ ct._activeTasks ++ ct._pendingTasks, x.idsMatch t.queryId t.jobId = false) :
    q.removeTask H t = (none, q) ∧
    ((q.removeTask H t).2.getTask H mm sched flex).task = some t ∧
    ((q.removeTask H t).2.getTask H mm sched flex).ret = .value true := by
  obtain ⟨hrc, ct, hf, hs, hu0⟩ := h
  have hu : ∀ x, x ∈ ct._activeTasks ∨ x ∈ ct._pendingTasks →
      x.idsMatch t.queryId t.jobId = false :=
    fun x hx => hu0 x (List.mem_append.mpr hx)
  have h1 : ct._activeTasks.find? (fun x => x.idsMatch t.queryId t.jobId) = none := by
    rw [List.find?_eq_none]
    intro x hx
    simp [hu x (Or.inl hx)]
  have h2 : ct._pendingTasks.find? (fun x => x.idsMatch t.queryId t.jobId) = none := by
    rw [List.find?_eq_none]
    intro x hx
    simp [hu x (Or.inr hx)]
  have h3 : ct._pendingTasks.eraseP (fun x => x.idsMatch t.queryId t.jobId) = ct._pendingTasks := by
    apply List.eraseP_of_forall_not
    intro x hx
    simp [hu x (Or.inr hx)]
  have e : ct.removeTask H t = (none, ct) := by
    simp [ChunkTasks.removeTask, eraseFunc_eq, h1, h2, h3]
  have e1 : q.removeTask H t = (none, q) := by
    simp [ChunkTasksQueue.removeTask, hf, e, ChunkMap.set_self _ _ _ hf]
  have hr : q.readyIs t.chunkId t := ⟨hrc, ct, hf, hs⟩
  have hg := getTask_of_readyIs H mm sched flex q t.chunkId t hr
  rw [e1]
  exact ⟨rfl, hg.1, hg.2.2⟩

/-- Witness for `removeTask_ready_slot`: `sampleTask`, with the memory handle it
was given, in the ready slot of chunk 5. -/
theorem removeTask_ready_slot_witness :
    sampleReadyCached.removeTask plainHeap { sampleTask with memHandle := some 7 } =
      (none, sampleReadyCached) ∧
    ((sampleReadyCached.removeTask plainHeap { sampleTask with memHandle := some 7 }).2.getTask
      plainHeap grantingMemMan none false).task = some { sampleTask with memHandle := some 7 } ∧
    ((sampleReadyCached.removeTask plainHeap { sampleTask with memHandle := some 7 }).2.getTask
      plainHeap grantingMemMan none false).ret = .value true :=
  removeTask_ready_slot plainHeap grantingMemMan none false sampleReadyCached
    { sampleTask with memHandle := some 7 }
    ⟨by decide, sampleReadySlot, by decide, by decide, by decide⟩

end wsched

namespace ccontrol

/-- C32: for every call of `flush` on a reachable handler in state `RESULT_WAIT`
where the MD5 matches, the body decodes, the job is alive and not cancelled, and
the merger returns false: `flush` returns false after one call of the merger,
the state becomes `RESULT_ERR`, whether or not the decoded body has `continues`
set, and the error recorded has the code `MSG_RESULT_ERROR` and the message of
the merger. -/
theorem flush_merge_failed (P : Proto) (W : World) (h : MergingHandler) (r : WorkerResponse)
    (bLen : Int) (last : Bool) (hreach : Reachable P h) (hs : h._state = .RESULT_WAIT)
    (hr : h._response = some r) (hm : r.protoHeader.md5 = P.getMd5 h._buffer)
    (hd : (P.setMsgFrom r.result h._buffer).1 = true)
    (hj : ∃ job, W.jobQuery = some job ∧ job.isCancelled = false)
    (hfail : W.merge { r with result := (P.setMsgFrom r.result h._buffer).2 } = false) :
    (h.flush P W bLen last).ret = .returned false ∧
    (h.flush P W bLen last).h._state = .RESULT_ERR ∧
    (h.flush P W bLen last).h._error = ⟨P.MSG_RESULT_ERROR, W.mergerErrorMsg⟩ ∧
    (h.flush P W bLen last).events = sizeCheck h bLen ++
      [.verifyMd5 true, .decodeBody true,
        .merge { r with result := (P.setMsgFrom r.result h._buffer).2 } false] := by
  obtain ⟨job, hj1, hj2⟩ := hj
  have hf : h._flushed = false := (reachable_flushed_response P h hreach).1
  have hbf : (h.beforeMerge P r)._flushed = false := by rw [beforeMerge_flushed]; exact hf
  rw [flush_resultWait P W h r bLen last hs hr,
    flushResult_merge_step P W h r last _ hm hd]
  dsimp only
  rw [_merge_called P W _ _ job hj1 hj2 hbf]
  simp only [hfail, Bool.false_eq_true, if_false]
  by_cases hc : (P.setMsgFrom r.result h._buffer).2.continues = true
  · simp [hc]
  · simp [hc]

/-- Witness for `flush_merge_failed`: a constructed handler that received a
header and its body, with a merger that rejects the body. -/
theorem flush_merge_failed_witness :
    Reachable sampleProto sampleBodyArrived ∧
    (sampleBodyArrived.flush sampleProto failingWorld 2 false).ret = .returned false ∧
    (sampleBodyArrived.flush sampleProto failingWorld 2 false).h._state = .RESULT_ERR ∧
    (sampleBodyArrived.flush sampleProto failingWorld 2 false).h._error = ⟨3, "merge failed"⟩ :=
  ⟨Reachable.fill _ [0, 7]
      (Reachable.flush _ goodWorld 3 false
        (Reachable.fill _ [3, 2, 7] (Reachable.new "result_1") (by decide)) (by decide))
      (by decide),
   (flush_merge_failed sampleProto failingWorld sampleBodyArrived
      ⟨3, ⟨2, [7], "worker1"⟩, ⟨false, []⟩⟩ 2 false
      (Reachable.fill _ [0, 7]
        (Reachable.flush _ goodWorld 3 false
          (Reachable.fill _ [3, 2, 7] (Reachable.new "result_1") (by decide)) (by decide))
        (by decide))
      (by decide) (by decide) (by decide) (by decide) ⟨⟨false⟩, rfl, rfl⟩ (by decide)).1,
   (flush_merge_failed sampleProto failingWorld sampleBodyArrived
      ⟨3, ⟨2, [7], "worker1"⟩, ⟨false, []⟩⟩ 2 false
      (Reachable.fill _ [0, 7]
        (Reachable.flush _ goodWorld 3 false
          (Reachable.fill _ [3, 2, 7] (Reachable.new "result_1") (by decide)) (by decide))
        (by decide))
      (by decide) (by decide) (by decide) (by decide) ⟨⟨false⟩, rfl, rfl⟩ (by decide)).2.1,
   (flush_merge_failed sampleProto failingWorld sampleBodyArrived
      ⟨3, ⟨2, [7], "worker1"⟩, ⟨false, []⟩⟩ 2 false
      (Reachable.fill _ [0, 7]
        (Reachable.flush _ goodWorld 3 false
          (Reachable.fill _ [3, 2, 7] (Reachable.new "result_1") (by decide)) (by decide))
        (by decide))
      (by decide) (by decide) (by decide) (by decide) ⟨⟨false⟩, rfl, rfl⟩ (by decide)).2.2.1⟩

/-- C36 fails on the code: a constructed handler receives a header and its body
(no continuation), the merger rejects the body, and `_merge` releases the
response. `reset` then returns true and leaves the state `HEADER_SIZE_WAIT`, a
buffer of the size of the header envelope and a cleared error, but no response:
the next `flush` dereferences the null `_response`. -/
theorem reset_true_without_response :
    Reachable sampleProto sampleMergeFailed ∧
    sampleMergeFailed._state = .RESULT_ERR ∧
    (sampleMergeFailed.reset sampleProto).1 = true ∧
    (sampleMergeFailed.reset sampleProto).2._state = .HEADER_SIZE_WAIT ∧
    (sampleMergeFailed.reset sampleProto).2._buffer.length = sampleProto.PROTO_HEADER_SIZE ∧
    (sampleMergeFailed.reset sampleProto).2._error = ⟨0, ""⟩ ∧
    (sampleMergeFailed.reset sampleProto).2._response = none ∧
    ((sampleMergeFailed.reset sampleProto).2.receive sampleProto goodWorld [3, 2, 7] false).ret
      = .undefinedBehaviour :=
  ⟨Reachable.flush _ failingWorld 2 false
      (Reachable.fill _ [0, 7]
        (Reachable.flush _ goodWorld 3 false
          (Reachable.fill _ [3, 2, 7] (Reachable.new "result_1") (by decide)) (by decide))
        (by decide))
      (by decide),
    by decide, by decide, by decide, by decide, by decide, by decide, by decide⟩

end ccontrol

namespace master

/-! ### The statements of `merge` -/

theorem _buildMergeSql_create (self : TableMerger) (t : String) :
    self._buildMergeSql t true = createStatement self._mergeTable t := by
  have h1 : ∀ x : String, ";" ++ ("CREATE TABLE IF NOT EXISTS " ++ x) =
      ";CREATE TABLE IF NOT EXISTS " ++ x := fun x => by
    rw [← String.append_assoc]; rfl
  have h2 : ∀ x : String, ";" ++ ("DROP TABLE IF EXISTS " ++ x) =
      ";DROP TABLE IF EXISTS " ++ x := fun x => by
    rw [← String.append_assoc]; rfl
  simp [TableMerger._buildMergeSql, TableMerger._dropSql, TableMerger._createSql,
    TableMerger._cleanupSql, createStatement, String.append_assoc, h1, h2]

theorem _buildMergeSql_insert (self : TableMerger) (t : String) :
    self._buildMergeSql t false = insertStatement self._mergeTable t := by
  have h2 : ∀ x : String, ";" ++ ("DROP TABLE IF EXISTS " ++ x) =
      ";DROP TABLE IF EXISTS " ++ x := fun x => by
    rw [← String.append_assoc]; rfl
  simp [TableMerger._buildMergeSql, TableMerger._insertSql, TableMerger._cleanupSql,
    insertStatement, String.append_assoc, h2]

theorem _applySql_fwrite (w : Shell) (self : TableMerger) (sql s : String)
    (h : LibCall.fwrite s ∈ (self._applySql w sql).calls) : s = sql := by
  unfold TableMerger._applySql at h
  dsimp only at h
  split at h
  · simp at h
  · split at h
    · simpa using h
    · split at h <;> simpa using h

theorem _importResult_calls (w : Shell) (self : TableMerger) (dumpFile : String) :
    (self._importResult w dumpFile).calls = [.system (self._loadCmd ++ "<" ++ dumpFile)] := by
  unfold TableMerger._importResult
  dsimp only
  split <;> rfl

theorem merge_first (w : Shell) (self : TableMerger) (dumpFile t : String)
    (h : self._tableCount = 0) :
    self.merge w dumpFile t =
      ⟨{ self with _tableCount :=
          if (self._applySql w (createStatement self._mergeTable t)).ret then 1 else 0 },
        (self._applySql w (createStatement self._mergeTable t)).ret,
        laterError (self._importResult w dumpFile).error
          (self._applySql w (createStatement self._mergeTable t)).error,
        [.system (self._loadCmd ++ "<" ++ dumpFile)] ++
          (self._applySql w (createStatement self._mergeTable t)).calls⟩ := by
  unfold TableMerger.merge
  simp only [h, zero_add, if_true, _buildMergeSql_create, _importResult_calls]
  cases (self._applySql w (createStatement self._mergeTable t)).ret <;> simp

theorem merge_other (w : Shell) (self : TableMerger) (dumpFile t : String)
    (h : self._tableCount ≠ 0) :
    self.merge w dumpFile t =
      ⟨{ self with _tableCount := self._tableCount + 1 },
        (self._applySql w (insertStatement self._mergeTable t)).ret,
        laterError (self._importResult w dumpFile).error
          (self._applySql w (insertStatement self._mergeTable t)).error,
        [.system (self._loadCmd ++ "<" ++ dumpFile)] ++
          (self._applySql w (insertStatement self._mergeTable t)).calls⟩ := by
  unfold TableMerger.merge
  have h1 : ¬ (self._tableCount + 1 = 1) := by omega
  simp only [h1, if_false, _buildMergeSql_insert, _importResult_calls]

theorem merge_mergeTable (w : Shell) (self : TableMerger) (dumpFile t : String) :
    (self.merge w dumpFile t).self._mergeTable = self._mergeTable ∧
    (self.merge w dumpFile t).self._loadCmd = self._loadCmd := by
  unfold TableMerger.merge
  dsimp only
  split <;> exact ⟨rfl, rfl⟩

end master

namespace master

/-! ### The value of `fwrite` in `_applySql` -/

theorem utf8ByteSize_go_append (l1 l2 : List Char) :
    String.utf8ByteSize.go (l1 ++ l2) =
      String.utf8ByteSize.go l1 + String.utf8ByteSize.go l2 := by
  induction l1 with
  | nil => simp [String.utf8ByteSize.go]
  | cons c l ih =>
    show String.utf8ByteSize.go (l ++ l2) + c.utf8Size =
      (String.utf8ByteSize.go l + c.utf8Size) + String.utf8ByteSize.go l2
    rw [ih]; omega

theorem utf8ByteSize_append (a b : String) :
    (a ++ b).utf8ByteSize = a.utf8ByteSize + b.utf8ByteSize := by
  cases a with
  | mk l1 =>
    cases b with
    | mk l2 => exact utf8ByteSize_go_append l1 l2

/-- The call `fwrite(sql.c_str(), sql.size(), sizeof(char), fp)` gives the number
of items written, which is at most 1, and `_applySql` compares it with the
number of bytes: for a statement of two or more bytes `_applySql` returns false,
with `MYSQLOPEN` if `popen` failed and with `MERGEWRITE` otherwise. -/
theorem _applySql_two_bytes (w : Shell) (self : TableMerger) (sql : String)
    (h : 2 ≤ sql.utf8ByteSize) : (self._applySql w sql).ret = false := by
  unfold TableMerger._applySql
  dsimp only
  split
  · rfl
  · have hw : fwriteItems w sql ≠ (sql.utf8ByteSize : Int) := by
      unfold fwriteItems
      split
      · omega
      · split <;> omega
    simp [hw]

theorem createStatement_size (m t : String) : 2 ≤ (createStatement m t).utf8ByteSize := by
  unfold createStatement
  simp only [utf8ByteSize_append]
  have : ("DROP TABLE IF EXISTS " : String).utf8ByteSize = 21 := by decide
  omega

theorem insertStatement_size (m t : String) : 2 ≤ (insertStatement m t).utf8ByteSize := by
  unfold insertStatement
  simp only [utf8ByteSize_append]
  have : ("INSERT INTO " : String).utf8ByteSize = 12 := by decide
  omega

/-- Every call of `merge` returns false and leaves the table count at 0 when it
was 0: the statement it passes to `_applySql` has more than one byte. -/
theorem merge_ret_false (w : Shell) (self : TableMerger) (dumpFile t : String) :
    (self.merge w dumpFile t).ret = false := by
  by_cases h : self._tableCount = 0
  · rw [merge_first w self dumpFile t h]
    exact _applySql_two_bytes w self _ (createStatement_size _ _)
  · rw [merge_other w self dumpFile t h]
    exact _applySql_two_bytes w self _ (insertStatement_size _ _)

set_option maxRecDepth 100000 in
/-- C40 fails on the code: on the constructed merger `sampleMerger`, when
the import fails (`system` returns 256), `_importResult` returns false and
records the `IMPORT` error, yet `merge` goes on: it opens the `mysql` process
and writes the create statement for the table that was not imported. The value
returned is false only because `_applySql` reports `MERGEWRITE`, which also
replaces the import error. -/
theorem merge_applies_sql_after_failed_import :
    TableMerger.new false sampleClock namedConfig = some sampleMerger ∧
    (sampleMerger._importResult importFailsShell "/tmp/r_1.dump").ret = false ∧
    (sampleMerger._importResult importFailsShell "/tmp/r_1.dump").error =
      some ⟨.IMPORT, 256, "Error importing result db."⟩ ∧
    (sampleMerger.merge importFailsShell "/tmp/r_1.dump" "r_1").calls =
      [.system "mysql --socket=/tmp/mysql.sock -u qsmaster qservResult</tmp/r_1.dump",
       .popen "mysql --socket=/tmp/mysql.sock -u qsmaster qservResult",
       .fwrite ("DROP TABLE IF EXISTS qservResult.result_1;" ++
         "CREATE TABLE IF NOT EXISTS qservResult.result_1 SELECT * FROM r_1;" ++
         "DROP TABLE IF EXISTS r_1;"),
       .pclose] ∧
    (sampleMerger.merge importFailsShell "/tmp/r_1.dump" "r_1").error =
      some ⟨.MERGEWRITE, 1, "Error writing sql to mysql process.."⟩ ∧
    (sampleMerger.merge importFailsShell "/tmp/r_1.dump" "r_1").ret = false ∧
    (sampleMerger.merge importFailsShell "/tmp/r_1.dump" "r_1").calls =
      (sampleMerger.merge goodShell "/tmp/r_1.dump" "r_1").calls := by
  refine ⟨by decide, by decide, by decide, ?_, ?_, ?_, ?_⟩
  · rfl
  · rfl
  · exact merge_ret_false _ _ _ _
  · rfl

end master

namespace master

/-! ### The decimal rendering of a number -/


theorem digitChar_inj : ∀ a b : Nat, a < 10 → b < 10 → Nat.digitChar a = Nat.digitChar b → a = b := by
  intro a b ha hb h
  interval_cases a <;> interval_cases b <;> first | rfl | (exact absurd h (by decide))

theorem map_digitChar_inj : ∀ l1 l2 : List Nat, (∀ x ∈ l1, x < 10) → (∀ x ∈ l2, x < 10) →
    l1.map Nat.digitChar = l2.map Nat.digitChar → l1 = l2 := by
  intro l1
  induction l1 with
  | nil => intro l2 _ _ h; cases l2 with
    | nil => rfl
    | cons b l => simp at h
  | cons a l ih =>
    intro l2 h1 h2 h
    cases l2 with
    | nil => simp at h
    | cons b l2 =>
      simp only [List.map_cons, List.cons.injEq] at h
      have e1 := digitChar_inj a b (h1 a (List.mem_cons_self _ _)) (h2 b (List.mem_cons_self _ _)) h.1
      have e2 := ih l2 (fun x hx => h1 x (List.mem_cons_of_mem _ hx))
        (fun x hx => h2 x (List.mem_cons_of_mem _ hx)) h.2
      rw [e1, e2]

theorem toDigitsCore_eq (fuel : Nat) : ∀ (n : Nat) (ds : List Char), n < fuel → 0 < n →
    Nat.toDigitsCore 10 fuel n ds = ((Nat.digits 10 n).reverse.map Nat.digitChar) ++ ds := by
  induction fuel with
  | zero => intro n ds h; omega
  | succ f ih =>
    intro n ds h hn
    rw [Nat.toDigitsCore]
    have hd : Nat.digits 10 n = (n % 10) :: Nat.digits 10 (n / 10) :=
      Nat.digits_def' (by norm_num) hn
    by_cases h0 : n / 10 = 0
    · simp [h0, hd]
    · have hlt : n / 10 < f := by omega
      have hpos : 0 < n / 10 := by omega
      simp only [h0, if_false]
      rw [ih (n / 10) _ hlt hpos, hd]
      simp

theorem toDigits_eq (n : Nat) (hn : 0 < n) :
    Nat.toDigits 10 n = (Nat.digits 10 n).reverse.map Nat.digitChar := by
  unfold Nat.toDigits
  rw [toDigitsCore_eq (n + 1) n [] (by omega) hn]
  simp

theorem toDigits_inj (n m : Nat) (h : Nat.toDigits 10 n = Nat.toDigits 10 m) : n = m := by
  have key : ∀ a b : Nat, 0 < a → 0 < b → Nat.toDigits 10 a = Nat.toDigits 10 b → a = b := by
    intro a b ha hb hab
    rw [toDigits_eq a ha, toDigits_eq b hb] at hab
    have h1 := map_digitChar_inj _ _
      (fun x hx => Nat.digits_lt_base (by norm_num) (List.mem_reverse.mp hx))
      (fun x hx => Nat.digits_lt_base (by norm_num) (List.mem_reverse.mp hx)) hab
    have h2 : Nat.digits 10 a = Nat.digits 10 b := List.reverse_injective h1
    exact (Nat.digits_inj_iff).mp h2
  have zero : ∀ b : Nat, 0 < b → Nat.toDigits 10 0 ≠ Nat.toDigits 10 b := by
    intro b hb hab
    rw [toDigits_eq b hb] at hab
    have h0 : Nat.toDigits 10 0 = [0].map Nat.digitChar := by decide
    rw [h0] at hab
    have h1 := map_digitChar_inj [0] _ (by simp)
      (fun x hx => Nat.digits_lt_base (by norm_num) (List.mem_reverse.mp hx)) hab
    have h2 : Nat.digits 10 b = [0] := by
      have := congrArg List.reverse h1
      simpa using this.symm
    have h3 := Nat.getLast_digit_ne_zero 10 (Nat.pos_iff_ne_zero.mp hb)
    simp [h2] at h3
  rcases Nat.eq_zero_or_pos n with hn | hn <;> rcases Nat.eq_zero_or_pos m with hm | hm
  · rw [hn, hm]
  · rw [hn] at h; exact absurd h (zero m hm)
  · rw [hm] at h; exact absurd h.symm (zero n hn)
  · exact key n m hn hm h

theorem natRepr_inj (n m : Nat) (h : Nat.repr n = Nat.repr m) : n = m := by
  unfold Nat.repr at h
  exact toDigits_inj n m (congrArg String.data h)


theorem toString_int_inj (x y : Int) (hx : 0 ≤ x) (hy : 0 ≤ y) (h : toString x = toString y) :
    x = y := by
  obtain ⟨n, rfl⟩ := Int.eq_ofNat_of_zero_le hx
  obtain ⟨m, rfl⟩ := Int.eq_ofNat_of_zero_le hy
  have : Nat.repr n = Nat.repr m := h
  rw [natRepr_inj n m this]

theorem string_append_inj (a b c d : String) (h : a ++ b = c ++ d) (hl : a.length = c.length) :
    a = c ∧ b = d := by
  have h1 : a.data ++ b.data = c.data ++ d.data := by
    rw [← String.data_append, ← String.data_append, h]
  have h2 := List.append_inj h1 hl
  exact ⟨String.ext h2.1, String.ext h2.2⟩

/-- C39, as stated, fails: the clock readings 1 s, 23 µs and 12 s, 3 µs are
different instants of the window, and both give the timestamp id "123"; two
mergers constructed at these instants for the database `qservResult` get the
same generated table name. -/
theorem getTimeStampId_counterexample :
    getTimeStampId false ⟨0, ⟨1, 23⟩⟩ = some "123" ∧
    getTimeStampId false ⟨0, ⟨12, 3⟩⟩ = some "123" ∧
    ((1 : Int), (23 : Int)) ≠ (12, 3) ∧ (23 : Int) < 1000000 ∧ (3 : Int) < 1000000 ∧
    (TableMerger.new false ⟨0, ⟨1, 23⟩⟩ sampleConfig).map (fun m => m._config.targetTable) =
      some "qservResult.result_123" ∧
    (TableMerger.new false ⟨0, ⟨12, 3⟩⟩ sampleConfig).map (fun m => m._config.targetTable) =
      some "qservResult.result_123" := by
  refine ⟨by decide, by decide, by decide, by decide, by decide, by decide, by decide⟩

/-- C39, amended: the timestamp id is the decimal rendering of the seconds
modulo 10000 followed, without padding, by the decimal rendering of the
microseconds. For every two clock readings (seconds and microseconds not
negative) whose seconds modulo 10000 have the same number of decimal digits,
equal timestamp ids mean equal pairs (seconds modulo 10000, microseconds): such
different pairs yield different ids. -/
theorem getTimeStampId_same_width (NDEBUG : Bool) (c1 c2 : Clock) (id : String)
    (h1 : 0 ≤ c1.now.tv_sec ∧ 0 ≤ c1.now.tv_usec) (h2 : 0 ≤ c2.now.tv_sec ∧ 0 ≤ c2.now.tv_usec)
    (hw : (toString (c1.now.tv_sec.tmod 10000)).length =
      (toString (c2.now.tv_sec.tmod 10000)).length)
    (e1 : getTimeStampId NDEBUG c1 = some id) (e2 : getTimeStampId NDEBUG c2 = some id) :
    id = toString (c1.now.tv_sec.tmod 10000) ++ toString c1.now.tv_usec ∧
    c1.now.tv_sec.tmod 10000 = c2.now.tv_sec.tmod 10000 ∧
    c1.now.tv_usec = c2.now.tv_usec := by
  unfold getTimeStampId at e1 e2
  split at e1
  · cases e1
  · split at e2
    · cases e2
    · simp only [Option.some.injEq] at e1 e2
      have h := string_append_inj _ _ _ _ (e1.trans e2.symm) hw
      exact ⟨e1.symm,
        toString_int_inj _ _ (Int.tmod_nonneg _ h1.1) (Int.tmod_nonneg _ h2.1) h.1,
        toString_int_inj _ _ h1.2 h2.2 h.2⟩

/-- Witness for `getTimeStampId_same_width`: two readings of the clock with the
same id. -/
theorem getTimeStampId_same_width_witness :
    "456789" = toString ((1234567 : Int).tmod 10000) ++ toString (89 : Int) ∧
    (1234567 : Int).tmod 10000 = (4567 : Int).tmod 10000 ∧ (89 : Int) = 89 :=
  getTimeStampId_same_width false sampleClock ⟨0, ⟨4567, 89⟩⟩ "456789"
    (by decide) (by decide) (by decide) (by decide) (by decide)

end master

namespace master

/-! ### Rendering a query template -/

theorem callString_last_empty (sss : String → Char → Char → Bool) (so : SpacedOutput)
    (s : String) (hl : so.last = "") :
    so.callString sss s = if s.isEmpty then some so else none := by
  unfold SpacedOutput.callString
  rw [hl]
  rfl

theorem foldlM_callEntry_none (sss : String → Char → Char → Bool) (c : List Entry) :
    ∀ so : SpacedOutput, so.last = "" → (∃ e ∈ c, e.getValue.isEmpty = false) →
      c.foldlM (SpacedOutput.callEntry sss) so = none := by
  induction c with
  | nil => intro so _ h; obtain ⟨e, he, _⟩ := h; cases he
  | cons a rest ih =>
    intro so hl h
    rw [List.foldlM_cons]
    cases ha : a.getValue.isEmpty with
    | true =>
      have h1 : so.callEntry sss a = some { so with count := so.count + 1 } := by
        unfold SpacedOutput.callEntry
        rw [callString_last_empty sss so _ hl, ha]
        rfl
      rw [h1]
      show List.foldlM (SpacedOutput.callEntry sss) { so with count := so.count + 1 } rest = none
      refine ih { so with count := so.count + 1 } hl ?_
      obtain ⟨e, he, hne⟩ := h
      rcases List.mem_cons.mp he with he | he
      · rw [he, ha] at hne; cases hne
      · exact ⟨e, he, hne⟩
    | false =>
      have h1 : so.callEntry sss a = none := by
        unfold SpacedOutput.callEntry
        rw [callString_last_empty sss so _ hl, ha]
        rfl
      rw [h1]
      rfl

/-- Every rendering of a list with an entry whose value is not empty reads the
last character of the empty string `last`, when the first such entry is
streamed. -/
theorem outputString_reads_empty (sss : String → Char → Char → Bool) (c : List Entry)
    (h : ∃ e ∈ c, e.getValue.isEmpty = false) : outputString sss c = none := by
  unfold outputString
  rw [foldlM_callEntry_none sss c _ rfl h]

/-- C38 fails on the code: rendering the template with the single entry
`SELECT`, whatever `sqlShouldSeparate` is, evaluates `*(last.end()-1)` while
`last` is still the empty string: `outputString`, `dbgStr` and `generate` (with
the identity mapping) read the last character of an empty string. -/
theorem dbgStr_reads_empty (sqlShouldSeparate : String → Char → Char → Bool)
    (stringIsDynamic : Bool) :
    (SpacedOutput.new "" " ").last = "" ∧
    (SpacedOutput.new "" " ").callString sqlShouldSeparate "SELECT" = none ∧
    outputString sqlShouldSeparate [.StringEntry "SELECT"] = none ∧
    QueryTemplate.dbgStr sqlShouldSeparate stringIsDynamic [.StringEntry "SELECT"] = none ∧
    QueryTemplate.generate sqlShouldSeparate id [.StringEntry "SELECT"] = none := by
  have h : outputString sqlShouldSeparate [.StringEntry "SELECT"] = none :=
    outputString_reads_empty _ _ ⟨_, List.mem_singleton.mpr rfl, by decide⟩
  refine ⟨rfl, ?_, h, ?_, ?_⟩
  · rw [callString_last_empty _ _ _ rfl]; rfl
  · unfold QueryTemplate.dbgStr
    rw [h]
    split <;> rfl
  · exact h

end master

namespace wsched

/-! ### Sums over the chunks of the map -/

theorem ChunkMap.sumOver_set (w : ChunkTasks → Nat) (m : ChunkMap) (k : Int)
    (c ct : ChunkTasks) (h : m.find k = some c) :
    (m.set k ct).sumOver w + w c = m.sumOver w + w ct := by
  induction m with
  | nil => simp [ChunkMap.find] at h
  | cons e rest ih =>
    obtain ⟨k1, c1⟩ := e
    by_cases hk : k1 = k
    · simp only [ChunkMap.find, hk, if_true, Option.some.injEq] at h
      subst h
      simp [ChunkMap.set, ChunkMap.sumOver, hk]
      omega
    · simp only [ChunkMap.find, hk, if_false] at h
      have := ih h
      simp only [ChunkMap.sumOver] at this
      simp [ChunkMap.set, ChunkMap.sumOver, hk]
      omega

theorem ChunkMap.sumOver_set_eq (w : ChunkTasks → Nat) (m : ChunkMap) (k : Int)
    (c ct : ChunkTasks) (h : m.find k = some c) (hq : w ct = w c) :
    (m.set k ct).sumOver w = m.sumOver w := by
  have := ChunkMap.sumOver_set w m k c ct h
  omega

theorem ChunkMap.sumOver_insert (w : ChunkTasks → Nat) (m : ChunkMap) (k : Int)
    (ct : ChunkTasks) (h : m.find k = none) :
    (m.insert k ct).sumOver w = m.sumOver w + w ct := by
  induction m with
  | nil => simp [ChunkMap.insert, ChunkMap.sumOver]
  | cons e rest ih =>
    obtain ⟨k1, c1⟩ := e
    by_cases hk : k1 = k
    · simp [ChunkMap.find, hk] at h
    · simp only [ChunkMap.find, hk, if_false] at h
      have := ih h
      simp only [ChunkMap.sumOver] at this
      by_cases hlt : k < k1
      · simp [ChunkMap.insert, ChunkMap.sumOver, hlt]
        omega
      · simp [ChunkMap.insert, ChunkMap.sumOver, hlt, hk, this]
        omega

theorem ChunkMap.sumOver_erase (w : ChunkTasks → Nat) (m : ChunkMap) (k : Int)
    (c : ChunkTasks) (h : m.find k = some c) :
    (m.erase k).sumOver w + w c = m.sumOver w := by
  induction m with
  | nil => simp [ChunkMap.find] at h
  | cons e rest ih =>
    obtain ⟨k1, c1⟩ := e
    by_cases hk : k1 = k
    · simp only [ChunkMap.find, hk, if_true, Option.some.injEq] at h
      subst h
      simp [ChunkMap.erase, ChunkMap.sumOver, hk]
      omega
    · simp only [ChunkMap.find, hk, if_false] at h
      have := ih h
      simp only [ChunkMap.sumOver] at this
      simp [ChunkMap.erase, ChunkMap.sumOver, hk]
      omega

/-! ### A number kept by the chunk operations is kept by `_ready` -/

theorem scanLoop_sumOver (H : StdHeap) (w : ChunkTasks → Nat)
    (hready : ∀ ct mm flex asks, w (ChunkTasks.ready H mm flex asks ct).ct = w ct)
    (mm : MemMan) (sched : Option SchedulerPolicy) (flex : Bool) (fuel : Nat) :
    ∀ (q : ChunkTasksQueue) (asks : List PrepareCall) (iter : Int) (st : ReadyState),
    (ChunkTasksQueue.scanLoop H mm sched flex fuel q asks iter st).q._chunkMap.sumOver w =
      q._chunkMap.sumOver w := by
  induction fuel with
  | zero => intro q asks iter st; rfl
  | succ fuel ih =>
    intro q asks iter st
    unfold ChunkTasksQueue.scanLoop
    split
    · simp only []
      split
      · rfl
      · split
        · rfl
        · rename_i k _
          split
          · rfl
          · rename_i ct hfind
            split
            · rfl
            · have hsum := ChunkMap.sumOver_set_eq w q._chunkMap k ct _ hfind
                (hready ct mm flex asks)
              split
              · exact hsum
              · rw [ih]
                exact hsum
    · split <;> rfl

theorem readyScan_sumOver (H : StdHeap) (w : ChunkTasks → Nat)
    (hready : ∀ ct mm flex asks, w (ChunkTasks.ready H mm flex asks ct).ct = w ct)
    (mm : MemMan) (sched : Option SchedulerPolicy) (flex : Bool) (q : ChunkTasksQueue)
    (asks : List PrepareCall) :
    (q.readyScan H mm sched flex asks).q._chunkMap.sumOver w = q._chunkMap.sumOver w := by
  unfold ChunkTasksQueue.readyScan
  split
  · rfl
  · rename_i k _
    split
    · rfl
    · rename_i ct hfind
      have hsum := ChunkMap.sumOver_set_eq w q._chunkMap k ct _ hfind (hready ct mm flex asks)
      simp only []
      split
      · exact hsum
      · rw [scanLoop_sumOver H w hready]
        exact hsum

theorem readyAdvance_sumOver (H : StdHeap) (w : ChunkTasks → Nat)
    (hready : ∀ ct mm flex asks, w (ChunkTasks.ready H mm flex asks ct).ct = w ct)
    (hset : ∀ ct b, w (ChunkTasks.setActive H ct b) = w ct)
    (hmove : ∀ ct, w (ChunkTasks.movePendingToActive H ct) = w ct)
    (hzero : ∀ ct, ct.empty = true → ct._readyTask = none → w ct = 0)
    (mm : MemMan) (sched : Option SchedulerPolicy) (flex : Bool) (q : ChunkTasksQueue)
    (asks : List PrepareCall) (k : Int) (ct : ChunkTasks)
    (hfind : q._chunkMap.find k = some ct) (hslot : ct._readyTask = none) :
    (q.readyAdvance H mm sched flex asks k ct).q._chunkMap.sumOver w =
      q._chunkMap.sumOver w := by
  unfold ChunkTasksQueue.readyAdvance
  split
  · have hsum1 := ChunkMap.sumOver_set_eq w q._chunkMap k ct _ hfind (hset ct false)
    have hfind1 := ChunkMap.find_set_self q._chunkMap k ct (ct.setActive H false) hfind
    have hsum2 : (if (ct.setActive H false).empty = true
        then (q._chunkMap.set k (ct.setActive H false)).erase k
        else q._chunkMap.set k (ct.setActive H false)).sumOver w = q._chunkMap.sumOver w := by
      split
      · rename_i he
        have h0 := hzero _ he (by rw [(ChunkTasks.setActive_queued H ct false).2]; exact hslot)
        have := ChunkMap.sumOver_erase w _ k _ hfind1
        omega
      · exact hsum1
    simp only []
    split
    · exact hsum2
    · rename_i n _
      split
      · exact hsum2
      · rename_i cn hcn
        rw [readyScan_sumOver H w hready]
        have hq3 : w ((cn.movePendingToActive H).setActive H true) = w cn := by
          rw [hset, hmove]
        have hsum3 := ChunkMap.sumOver_set_eq w _ n cn _ hcn hq3
        show ChunkMap.sumOver w (ChunkMap.set _ n _) = _
        rw [hsum3, hsum2]
  · exact readyScan_sumOver H w hready mm sched flex q asks

theorem _ready_sumOver (H : StdHeap) (w : ChunkTasks → Nat)
    (hready : ∀ ct mm flex asks, w (ChunkTasks.ready H mm flex asks ct).ct = w ct)
    (hset : ∀ ct b, w (ChunkTasks.setActive H ct b) = w ct)
    (hmove : ∀ ct, w (ChunkTasks.movePendingToActive H ct) = w ct)
    (hzero : ∀ ct, ct.empty = true → ct._readyTask = none → w ct = 0)
    (mm : MemMan) (sched : Option SchedulerPolicy) (flex : Bool) (q : ChunkTasksQueue)
    (asks : List PrepareCall) :
    (q._ready H mm sched flex asks).q._chunkMap.sumOver w = q._chunkMap.sumOver w := by
  unfold ChunkTasksQueue._ready
  split
  · rfl
  · split
    · rfl
    · have h1 : ∀ q1 : ChunkTasksQueue, q1._chunkMap.sumOver w = q._chunkMap.sumOver w →
          (match q1._activeChunk with
            | none => (⟨q1, asks, .invalidIterator⟩ : ReadyOut)
            | some k =>
              match q1._chunkMap.find k with
              | none => ⟨q1, asks, .invalidIterator⟩
              | some ct =>
                let r := ct.ready H mm flex asks
                let q2 := { q1 with _chunkMap := q1._chunkMap.set k r.ct }
                match r.state with
                | none => ⟨q2, r.asks, .thrown⟩
                | some .READY => ⟨{ q2 with _readyChunk := some k }, r.asks, .value true⟩
                | some _ => q2.readyAdvance H mm sched flex r.asks k r.ct).q._chunkMap.sumOver w
            = q._chunkMap.sumOver w := by
        intro q1 e2
        split
        · exact e2
        · rename_i k _
          split
          · exact e2
          · rename_i ct hfind
            have hsum := ChunkMap.sumOver_set_eq w q1._chunkMap k ct _ hfind
              (hready ct mm flex asks)
            have hself := ChunkMap.find_set_self q1._chunkMap k ct (ct.ready H mm flex asks).ct
              hfind
            simp only []
            split
            · exact hsum.trans e2
            · exact hsum.trans e2
            · rename_i st hne hst
              rw [readyAdvance_sumOver H w hready hset hmove hzero mm sched flex _ _ k _ hself]
              · exact hsum.trans e2
              · apply (ChunkTasks.ready_slot H mm flex asks ct).2
                rw [hst]
                intro e
                cases e
                exact hne rfl
      apply h1
      split
      · rfl
      · split
        · rfl
        · split
          · rfl
          · rename_i b hb _ cb hcb
            exact ChunkMap.sumOver_set_eq w _ b cb _ hcb (hset cb true)

end wsched

namespace wsched

/-! ### The tasks held by one chunk -/

theorem ChunkTasks.countCore_eq (x : Task) (ct : ChunkTasks) :
    ct.countCore x = (ct._activeTasks.map Task.core).count x +
      (ct._pendingTasks.map Task.core).count x + (ct._readyTask.toList.map Task.core).count x := by
  simp only [ChunkTasks.countCore, ChunkTasks.held, List.map_append, List.count_append]

theorem count_core_of_perm (x : Task) (l1 l2 : List Task) (h : List.Perm l1 l2) :
    (l1.map Task.core).count x = (l2.map Task.core).count x :=
  (h.map Task.core).count_eq x

theorem ChunkTasks.countCore_zero (x : Task) (ct : ChunkTasks) (h1 : ct.empty = true)
    (h2 : ct._readyTask = none) : ct.countCore x = 0 := by
  unfold ChunkTasks.empty at h1
  simp only [Bool.and_eq_true, List.isEmpty_iff] at h1
  simp [ChunkTasks.countCore_eq, h1.1, h1.2, h2]

theorem ChunkTasks.movePendingToActive_countCore (H : StdHeap) (x : Task) (ct : ChunkTasks) :
    (ct.movePendingToActive H).countCore x = ct.countCore x := by
  rw [ChunkTasks.countCore_eq, ChunkTasks.countCore_eq]
  simp only [ChunkTasks.movePendingToActive]
  rw [count_core_of_perm x _ _ (foldl_push_perm H ct._pendingTasks ct._activeTasks)]
  simp [List.count_append]

theorem ChunkTasks.setActive_countCore (H : StdHeap) (x : Task) (ct : ChunkTasks)
    (active : Bool) : (ct.setActive H active).countCore x = ct.countCore x := by
  have h := ChunkTasks.movePendingToActive_countCore H x ct
  unfold ChunkTasks.setActive
  by_cases h1 : (ct._active != active) = true
  · by_cases h2 : (ct._active && !active) = true
    · simp only [h1, h2, if_true]
      exact h
    · simp only [h1, h2, if_true]
      rfl
  · simp only [h1]
    rfl

theorem ChunkTasks.takeTop_countCore (H : StdHeap) (x : Task) (ct : ChunkTasks) (a t : Task)
    (l : List Task) (h1 : ct._activeTasks = a :: l) (h2 : ct._readyTask = none)
    (ht : t.core = a.core) : (ct.takeTop H t).countCore x = ct.countCore x := by
  rw [ChunkTasks.countCore_eq, ChunkTasks.countCore_eq]
  simp only [ChunkTasks.takeTop, h1, h2]
  rw [count_core_of_perm x _ _ (SlowTableHeap.pop_perm H a l)]
  simp only [Option.toList, List.map_cons, List.map_nil, List.count_cons, List.count_nil, ht]
  omega

theorem ChunkTasks.ready_countCore (H : StdHeap) (x : Task) (ct : ChunkTasks) (mm : MemMan)
    (flex : Bool) (asks : List PrepareCall) :
    (ct.ready H mm flex asks).ct.countCore x = ct.countCore x := by
  obtain ⟨cid, act, rs, heap, pend, infl, slot⟩ := ct
  cases slot with
  | some t => rfl
  | none =>
    cases heap with
    | nil => rfl
    | cons a l =>
      have tk : ∀ (rs1 : Bool) (t : Task), t.core = a.core →
          ((⟨cid, act, rs1, a :: l, pend, infl, none⟩ : ChunkTasks).takeTop H t).countCore x =
            (⟨cid, act, rs, a :: l, pend, infl, none⟩ : ChunkTasks).countCore x := by
        intro rs1 t ht
        rw [ChunkTasks.takeTop_countCore H x _ a t l rfl rfl ht]
        rfl
      unfold ChunkTasks.ready
      simp only [Option.isSome_none, Bool.false_eq_true, if_false]
      by_cases hm : a.hasMemHandle = true
      · simp only [hm, Bool.not_true, Bool.false_eq_true, if_false]
        exact tk rs a rfl
      · simp only [hm, Bool.not_false, if_true]
        by_cases hh : (mm.answer asks.length).handle = 0
        · simp only [hh, if_true]
          cases he : (mm.answer asks.length).errno
          · rfl
          · exact tk false _ rfl
          · rfl
        · simp only [hh, if_false]
          exact tk false _ rfl

theorem ChunkTasks.queTask_countCore (H : StdHeap) (x : Task) (now : Nat) (ct : ChunkTasks)
    (a : Task) :
    (ct.queTask H now a).countCore x = ct.countCore x + [a.core].count x := by
  rw [ChunkTasks.countCore_eq, ChunkTasks.countCore_eq]
  unfold ChunkTasks.queTask
  have hc : ({ a with entryTime := now } : Task).core = a.core := rfl
  by_cases h : ct._active = true
  · simp only [h, if_true, List.map_append, List.count_append, List.map_cons, List.map_nil, hc]
    omega
  · simp only [h, Bool.false_eq_true, if_false, SlowTableHeap.push]
    rw [count_core_of_perm x _ _ (H.push_heap_perm _)]
    simp only [List.map_append, List.count_append, List.map_cons, List.map_nil, hc]
    omega

theorem eraseFunc_count (x : Task) (queryId : Nat) (jobId : Int) (l : List Task) :
    ((eraseFunc queryId jobId l).2.map Task.core).count x +
      ((eraseFunc queryId jobId l).1.toList.map Task.core).count x =
      (l.map Task.core).count x := by
  induction l with
  | nil => rfl
  | cons t rest ih =>
    by_cases hm : t.idsMatch queryId jobId = true
    · simp only [eraseFunc, hm, if_true, Option.toList, List.map_cons, List.map_nil,
        List.count_cons, List.count_nil]
      omega
    · simp only [eraseFunc, hm, Bool.false_eq_true, if_false, List.map_cons, List.count_cons]
      omega

theorem ChunkTasks.removeTask_countCore (H : StdHeap) (x : Task) (ct : ChunkTasks)
    (task : Task) :
    (ct.removeTask H task).2.countCore x +
      ((ct.removeTask H task).1.toList.map Task.core).count x = ct.countCore x := by
  rw [ChunkTasks.countCore_eq, ChunkTasks.countCore_eq]
  have ha := eraseFunc_count x task.queryId task.jobId ct._activeTasks
  have hp := eraseFunc_count x task.queryId task.jobId ct._pendingTasks
  unfold ChunkTasks.removeTask
  cases he : eraseFunc task.queryId task.jobId ct._activeTasks with
  | mk r rest =>
    rw [he] at ha
    cases r with
    | some r =>
      simp only [SlowTableHeap.heapify]
      rw [count_core_of_perm x _ _ (H.make_heap_perm rest)]
      simp only [] at ha
      omega
    | none =>
      simp only [] at ha ⊢
      simp only [Option.toList, List.map_nil, List.count_nil] at ha
      omega

theorem ChunkTasks.getTask_countCore (H : StdHeap) (x : Task) (mm : MemMan) (flex : Bool)
    (asks : List PrepareCall) (ct : ChunkTasks) (t : Task) (h : ct._readyTask = some t) :
    (ct.getTask H mm flex asks).ct.countCore x + [t.core].count x = ct.countCore x ∧
    (ct.getTask H mm flex asks).task = some t ∧ (ct.getTask H mm flex asks).thrown = false := by
  rw [ChunkTasks.getTask_eq H mm flex asks ct t h]
  refine ⟨?_, rfl, rfl⟩
  rw [ChunkTasks.countCore_eq, ChunkTasks.countCore_eq]
  simp [h]

theorem ChunkTasks.taskComplete_countCore (x : Task) (ct : ChunkTasks) (task : Task) :
    (ct.taskComplete task).countCore x = ct.countCore x := rfl

end wsched

namespace wsched

/-! ### The tasks held by the queue -/

theorem ChunkMap.sumOver_countCore (x : Task) (m : ChunkMap) :
    m.sumOver (ChunkTasks.countCore x) = (m.held.map Task.core).count x := by
  induction m with
  | nil => rfl
  | cons e rest ih =>
    simp only [ChunkMap.sumOver, List.map_cons, List.sum_cons] at ih ⊢
    rw [ih]
    simp [ChunkMap.held, ChunkTasks.countCore, List.count_append]

theorem queueTask_sumOver (H : StdHeap) (x : Task) (now : Nat) (q : ChunkTasksQueue)
    (task : Task) :
    (q.queueTask H now task)._chunkMap.sumOver (ChunkTasks.countCore x) =
      q._chunkMap.sumOver (ChunkTasks.countCore x) + [task.core].count x := by
  unfold ChunkTasksQueue.queueTask
  simp only []
  cases hf : q._chunkMap.find task.chunkId with
  | some ct =>
    simp only [hf]
    have hq := ChunkTasks.queTask_countCore H x now ct task
    have hsum := ChunkMap.sumOver_set (ChunkTasks.countCore x) _ task.chunkId ct
      (ct.queTask H now task) hf
    omega
  | none =>
    simp only []
    have hself := ChunkMap.find_insert_self q._chunkMap task.chunkId
      (ChunkTasks.new task.chunkId) hf
    rw [hself]
    simp only []
    have hins := ChunkMap.sumOver_insert (ChunkTasks.countCore x) q._chunkMap task.chunkId
      (ChunkTasks.new task.chunkId) hf
    have hq := ChunkTasks.queTask_countCore H x now (ChunkTasks.new task.chunkId) task
    have hsum := ChunkMap.sumOver_set (ChunkTasks.countCore x) _ task.chunkId
      (ChunkTasks.new task.chunkId) ((ChunkTasks.new task.chunkId).queTask H now task) hself
    have h0 : (ChunkTasks.new task.chunkId).countCore x = 0 := rfl
    omega

theorem taskComplete_sumOver (x : Task) (q : ChunkTasksQueue) (task : Task) :
    (q.taskComplete task)._chunkMap.sumOver (ChunkTasks.countCore x) =
      q._chunkMap.sumOver (ChunkTasks.countCore x) := by
  unfold ChunkTasksQueue.taskComplete
  split
  · rfl
  · rename_i ct hf
    exact ChunkMap.sumOver_set_eq _ _ task.chunkId ct (ct.taskComplete task) hf
      (ChunkTasks.taskComplete_countCore x ct task)

theorem removeTask_sumOver (H : StdHeap) (x : Task) (q : ChunkTasksQueue) (task : Task) :
    (q.removeTask H task).2._chunkMap.sumOver (ChunkTasks.countCore x) +
      ((q.removeTask H task).1.toList.map Task.core).count x =
      q._chunkMap.sumOver (ChunkTasks.countCore x) := by
  unfold ChunkTasksQueue.removeTask
  split
  · rfl
  · rename_i ct hf
    have hq := ChunkTasks.removeTask_countCore H x ct task
    have hsum := ChunkMap.sumOver_set (ChunkTasks.countCore x) _ task.chunkId ct
      (ct.removeTask H task).2 hf
    simp only []
    split
    · rename_i t ht
      rw [ht] at hq
      dsimp only
      omega
    · rename_i ht
      rw [ht] at hq
      dsimp only
      omega

theorem ready_sumOver (H : StdHeap) (x : Task) (mm : MemMan) (sched : Option SchedulerPolicy)
    (flex : Bool) (q : ChunkTasksQueue) (asks : List PrepareCall) :
    (q._ready H mm sched flex asks).q._chunkMap.sumOver (ChunkTasks.countCore x) =
      q._chunkMap.sumOver (ChunkTasks.countCore x) :=
  _ready_sumOver H (ChunkTasks.countCore x)
    (fun ct mm flex asks => ChunkTasks.ready_countCore H x ct mm flex asks)
    (fun ct b => ChunkTasks.setActive_countCore H x ct b)
    (fun ct => ChunkTasks.movePendingToActive_countCore H x ct)
    (fun ct h1 h2 => ChunkTasks.countCore_zero x ct h1 h2) mm sched flex q asks

theorem getTask_sumOver (H : StdHeap) (x : Task) (mm : MemMan) (sched : Option SchedulerPolicy)
    (flex : Bool) (q : ChunkTasksQueue) (h : CountInv q) :
    (q.getTask H mm sched flex).q._chunkMap.sumOver (ChunkTasks.countCore x) +
      ((q.getTask H mm sched flex).task.toList.map Task.core).count x =
      q._chunkMap.sumOver (ChunkTasks.countCore x) := by
  have hr := _ready_countInv H mm sched flex q [] h
  have hs := ready_sumOver H x mm sched flex q []
  unfold ChunkTasksQueue.getTask
  simp only []
  split
  · split
    · exact hs
    · rename_i k hk
      obtain ⟨ct, hct, hslot⟩ := hr.2 k hk
      rw [hct]
      simp only []
      obtain ⟨t, ht⟩ := Option.isSome_iff_exists.mp hslot
      have hg := ChunkTasks.getTask_countCore H x mm flex (q._ready H mm sched flex []).asks ct t ht
      rw [if_neg (by simp [hg.2.2])]
      have hsum := ChunkMap.sumOver_set (ChunkTasks.countCore x) _ k ct
        (ct.getTask H mm flex (q._ready H mm sched flex []).asks).ct hct
      dsimp only
      rw [hg.2.1]
      have := hg.1
      simp only [Option.toList, List.map_cons, List.map_nil] at this ⊢
      omega
  · exact hs

/-- Every state of a run is a reachable state of the queue. -/
theorem step_reachable (H : StdHeap) (r : Run) (c : SchedCall) (h : Reachable H r.q) :
    Reachable H (r.step H c).q := by
  cases c with
  | queueTask now task => exact Reachable.queueTask _ _ _ h
  | ready mm sched flex => exact Reachable.ready _ _ _ _ h
  | getTask mm sched flex => exact Reachable.getTask _ _ _ _ h
  | taskComplete task => exact Reachable.taskComplete _ _ h
  | removeTask task => exact Reachable.removeTask _ _ h

theorem foldl_reachable (H : StdHeap) (calls : List SchedCall) :
    ∀ r : Run, Reachable H r.q → Reachable H (calls.foldl (Run.step H) r).q := by
  induction calls with
  | nil => intro r h; exact h
  | cons c cs ih => intro r h; exact ih _ (step_reachable H r c h)

theorem run_reachable (H : StdHeap) (calls : List SchedCall) :
    Reachable H (Run.run H calls).q :=
  foldl_reachable H calls _ Reachable.new

theorem step_conserved (H : StdHeap) (x : Task) (r : Run) (c : SchedCall)
    (hr : Reachable H r.q) (h : r.Conserved x) : (r.step H c).Conserved x := by
  unfold Run.Conserved at h ⊢
  cases c with
  | queueTask now task =>
    have := queueTask_sumOver H x now r.q task
    simp only [Run.step, List.map_append, List.count_append, List.map_cons, List.map_nil]
    omega
  | ready mm sched flex =>
    have := ready_sumOver H x mm sched flex r.q []
    simp only [Run.step, ChunkTasksQueue.ready]
    omega
  | getTask mm sched flex =>
    have := getTask_sumOver H x mm sched flex r.q (reachable_countInv H r.q hr)
    simp only [Run.step, List.map_append, List.count_append]
    omega
  | taskComplete task =>
    have := taskComplete_sumOver x r.q task
    simp only [Run.step]
    omega
  | removeTask task =>
    have := removeTask_sumOver H x r.q task
    simp only [Run.step, List.map_append, List.count_append]
    omega

theorem foldl_conserved (H : StdHeap) (x : Task) (calls : List SchedCall) :
    ∀ r : Run, Reachable H r.q → r.Conserved x →
      (calls.foldl (Run.step H) r).Conserved x := by
  induction calls with
  | nil => intro r _ h; exact h
  | cons c cs ih =>
    intro r hr h
    exact ih _ (step_reachable H r c hr) (step_conserved H x r c hr h)

theorem run_conserved (H : StdHeap) (x : Task) (calls : List SchedCall) :
    (Run.run H calls).Conserved x :=
  foldl_conserved H x calls _ Reachable.new rfl

theorem run_perm (H : StdHeap) (calls : List SchedCall) :
    List.Perm ((Run.run H calls).queued.map Task.core)
      (((Run.run H calls).q._chunkMap.held ++ (Run.run H calls).handedOut ++
        (Run.run H calls).removed).map Task.core) := by
  rw [List.perm_iff_count]
  intro x
  have h := run_conserved H x calls
  unfold Run.Conserved at h
  rw [ChunkMap.sumOver_countCore] at h
  simp only [List.map_append, List.count_append]
  exact h

end wsched

namespace wsched

/-! ### A chunk leaves the map only when it holds nothing -/

theorem ChunkMap.find_set_isSome (m : ChunkMap) (k c : Int) (ct : ChunkTasks)
    (h : (m.find c).isSome = true) : ((m.set k ct).find c).isSome = true := by
  by_cases e : c = k
  · subst e
    obtain ⟨c0, hc0⟩ := Option.isSome_iff_exists.mp h
    rw [ChunkMap.find_set_self m c c0 ct hc0]
    rfl
  · rw [ChunkMap.find_set_ne m k c ct e]
    exact h

theorem scanLoop_find_isSome (H : StdHeap) (mm : MemMan) (sched : Option SchedulerPolicy)
    (flex : Bool) (fuel : Nat) :
    ∀ (q : ChunkTasksQueue) (asks : List PrepareCall) (iter : Int) (st : ReadyState) (c : Int),
    (q._chunkMap.find c).isSome = true →
    ((ChunkTasksQueue.scanLoop H mm sched flex fuel q asks iter st).q._chunkMap.find c).isSome
      = true := by
  induction fuel with
  | zero => intro q asks iter st c h; exact h
  | succ fuel ih =>
    intro q asks iter st c h
    unfold ChunkTasksQueue.scanLoop
    split
    · simp only []
      split
      · exact h
      · split
        · exact h
        · rename_i k _
          split
          · exact h
          · rename_i ct hfind
            split
            · exact h
            · split
              · exact ChunkMap.find_set_isSome _ k c _ h
              · apply ih
                exact ChunkMap.find_set_isSome _ k c _ h
    · split <;> exact h

theorem readyScan_find_isSome (H : StdHeap) (mm : MemMan) (sched : Option SchedulerPolicy)
    (flex : Bool) (q : ChunkTasksQueue) (asks : List PrepareCall) (c : Int)
    (h : (q._chunkMap.find c).isSome = true) :
    ((q.readyScan H mm sched flex asks).q._chunkMap.find c).isSome = true := by
  unfold ChunkTasksQueue.readyScan
  split
  · exact h
  · rename_i k _
    split
    · exact h
    · rename_i ct hfind
      simp only []
      split
      · exact ChunkMap.find_set_isSome _ k c _ h
      · apply scanLoop_find_isSome
        exact ChunkMap.find_set_isSome _ k c _ h

theorem ChunkTasks.drained_of_empty (H : StdHeap) (ct : ChunkTasks)
    (h1 : ct.readyToAdvance = true) (h2 : (ct.setActive H false).empty = true) :
    ct._activeTasks = [] ∧ ct._pendingTasks = [] ∧ ct._inFlightTasks = [] := by
  unfold ChunkTasks.readyToAdvance at h1
  simp only [Bool.and_eq_true, List.isEmpty_iff] at h1
  refine ⟨h1.1, ?_, h1.2⟩
  unfold ChunkTasks.empty ChunkTasks.setActive at h2
  simp only [Bool.and_eq_true, List.isEmpty_iff] at h2
  by_cases ha : ct._active = true
  · simp [ha, ChunkTasks.movePendingToActive] at h2
    have hp := foldl_push_perm H ct._pendingTasks ct._activeTasks
    rw [h2, h1.1] at hp
    simpa using hp.symm.eq_nil
  · have ha1 : ct._active = false := by simpa using ha
    simp only [ha1, bne_self_eq_false, Bool.false_eq_true, if_false] at h2
    exact h2.2

theorem readyAdvance_erased (H : StdHeap) (mm : MemMan) (sched : Option SchedulerPolicy)
    (flex : Bool) (q : ChunkTasksQueue) (asks : List PrepareCall) (k : Int) (ct : ChunkTasks)
    (hfind : q._chunkMap.find k = some ct) (c : Int)
    (h : (q._chunkMap.find c).isSome = true)
    (hn : (q.readyAdvance H mm sched flex asks k ct).q._chunkMap.find c = none) :
    c = k ∧ ct._activeTasks = [] ∧ ct._pendingTasks = [] ∧ ct._inFlightTasks = [] := by
  have contra : ∀ o : Option ChunkTasks, o.isSome = true → o = none → False := by
    intro o h1 h2; rw [h2] at h1; cases h1
  unfold ChunkTasksQueue.readyAdvance at hn
  split at hn
  · rename_i hadv
    have hfind1 := ChunkMap.find_set_self q._chunkMap k ct (ct.setActive H false) hfind
    by_cases he : (ct.setActive H false).empty = true
    · by_cases e : c = k
      · exact ⟨e, ChunkTasks.drained_of_empty H ct hadv he⟩
      · exfalso
        have h2 : (((q._chunkMap.set k (ct.setActive H false)).erase k).find c).isSome = true := by
          rw [ChunkMap.find_erase_ne _ k c e, ChunkMap.find_set_ne _ k c _ e]
          exact h
        simp only [he, if_true] at hn
        split at hn
        · exact contra _ h2 hn
        · split at hn
          · exact contra _ h2 hn
          · exact contra _ (readyScan_find_isSome H mm sched flex _ asks c
              (ChunkMap.find_set_isSome _ _ c _ h2)) hn
    · exfalso
      have h2 : ((q._chunkMap.set k (ct.setActive H false)).find c).isSome = true :=
        ChunkMap.find_set_isSome _ k c _ h
      simp only [he, Bool.false_eq_true, if_false] at hn
      split at hn
      · exact contra _ h2 hn
      · split at hn
        · exact contra _ h2 hn
        · exact contra _ (readyScan_find_isSome H mm sched flex _ asks c
            (ChunkMap.find_set_isSome _ _ c _ h2)) hn
  · exact (contra _ (readyScan_find_isSome H mm sched flex q asks c h) hn).elim

theorem ChunkTasks.setActive_true_tasks (H : StdHeap) (ct : ChunkTasks) :
    (ct.setActive H true)._activeTasks = ct._activeTasks ∧
    (ct.setActive H true)._pendingTasks = ct._pendingTasks ∧
    (ct.setActive H true)._inFlightTasks = ct._inFlightTasks ∧
    (ct.setActive H true)._readyTask = ct._readyTask := by
  unfold ChunkTasks.setActive
  cases ct._active <;> simp

/-- A call of `_ready` removes a chunk from the map only if the chunk holds
nothing: its heap, its pending list, its ready slot and its in-flight set are
empty. -/
theorem _ready_erased (H : StdHeap) (mm : MemMan) (sched : Option SchedulerPolicy)
    (flex : Bool) (q : ChunkTasksQueue) (asks : List PrepareCall) (c : Int) (ct0 : ChunkTasks)
    (h : q._chunkMap.find c = some ct0)
    (hn : (q._ready H mm sched flex asks).q._chunkMap.find c = none) :
    ct0._activeTasks = [] ∧ ct0._pendingTasks = [] ∧ ct0._readyTask = none ∧
    ct0._inFlightTasks = [] := by
  have contra : ∀ o : Option ChunkTasks, o.isSome = true → o = none → False := by
    intro o h1 h2; rw [h2] at h1; cases h1
  unfold ChunkTasksQueue._ready at hn
  split at hn
  · rw [h] at hn; cases hn
  · split at hn
    · rw [h] at hn; cases hn
    · have h1 : ∀ q1 : ChunkTasksQueue,
          (∃ ct1, q1._chunkMap.find c = some ct1 ∧ ct1._activeTasks = ct0._activeTasks ∧
            ct1._pendingTasks = ct0._pendingTasks ∧ ct1._inFlightTasks = ct0._inFlightTasks ∧
            ct1._readyTask = ct0._readyTask) →
          (match q1._activeChunk with
            | none => (⟨q1, asks, .invalidIterator⟩ : ReadyOut)
            | some k =>
              match q1._chunkMap.find k with
              | none => ⟨q1, asks, .invalidIterator⟩
              | some ct =>
                let r := ct.ready H mm flex asks
                let q2 := { q1 with _chunkMap := q1._chunkMap.set k r.ct }
                match r.state with
                | none => ⟨q2, r.asks, .thrown⟩
                | some .READY => ⟨{ q2 with _readyChunk := some k }, r.asks, .value true⟩
                | some _ => q2.readyAdvance H mm sched flex r.asks k r.ct).q._chunkMap.find c
            = none →
          ct0._activeTasks = [] ∧ ct0._pendingTasks = [] ∧ ct0._readyTask = none ∧
            ct0._inFlightTasks = [] := by
        intro q1 hq1 hn1
        obtain ⟨ct1, hc1, e1, e2, e3, e4⟩ := hq1
        have hs1 : (q1._chunkMap.find c).isSome = true := by rw [hc1]; rfl
        split at hn1
        · exact (contra _ hs1 hn1).elim
        · rename_i k _
          split at hn1
          · exact (contra _ hs1 hn1).elim
          · rename_i ct hfind
            have hself := ChunkMap.find_set_self q1._chunkMap k ct (ct.ready H mm flex asks).ct
              hfind
            have hs2 := ChunkMap.find_set_isSome q1._chunkMap k c (ct.ready H mm flex asks).ct hs1
            simp only [] at hn1
            split at hn1
            · exact (contra _ hs2 hn1).elim
            · exact (contra _ hs2 hn1).elim
            · rename_i st hne hst
              have hadv := readyAdvance_erased H mm sched flex _ _ k _ hself c hs2 hn1
              have hnr : (ct.ready H mm flex asks).state ≠ some .READY := by
                rw [hst]
                intro e
                cases e
                exact hne rfl
              have hshape := ChunkTasks.ready_not_READY H mm flex asks ct hnr
              obtain ⟨hck, ha, hp, hi⟩ := hadv
              subst hck
              rw [hfind] at hc1
              cases hc1
              refine ⟨?_, ?_, ?_, ?_⟩
              · rw [← e1, ← hshape.2.1]; exact ha
              · rw [← e2, ← hshape.2.2.1]; exact hp
              · rw [← e4]; exact hshape.1
              · rw [← e3, ← hshape.2.2.2.1]; exact hi
      apply h1 _ _ hn
      split
      · exact ⟨ct0, h, rfl, rfl, rfl, rfl⟩
      · split
        · exact ⟨ct0, h, rfl, rfl, rfl, rfl⟩
        · split
          · exact ⟨ct0, h, rfl, rfl, rfl, rfl⟩
          · rename_i b hb _ cb hcb
            by_cases e : c = b
            · subst e
              rw [hcb] at h
              cases h
              have hs := ChunkTasks.setActive_true_tasks H ct0
              exact ⟨_, ChunkMap.find_set_self _ c ct0 _ hcb, hs.1, hs.2.1, hs.2.2.1, hs.2.2.2⟩
            · exact ⟨ct0, by rw [ChunkMap.find_set_ne _ b c _ e]; exact h, rfl, rfl, rfl, rfl⟩

theorem getTask_erased (H : StdHeap) (mm : MemMan) (sched : Option SchedulerPolicy)
    (flex : Bool) (q : ChunkTasksQueue) (c : Int) (ct0 : ChunkTasks)
    (h : q._chunkMap.find c = some ct0)
    (hn : (q.getTask H mm sched flex).q._chunkMap.find c = none) :
    ct0._activeTasks = [] ∧ ct0._pendingTasks = [] ∧ ct0._readyTask = none ∧
    ct0._inFlightTasks = [] := by
  have contra : ∀ o : Option ChunkTasks, o.isSome = true → o = none → False := by
    intro o h1 h2; rw [h2] at h1; cases h1
  apply _ready_erased H mm sched flex q [] c ct0 h
  cases hf : (q._ready H mm sched flex []).q._chunkMap.find c with
  | none => rfl
  | some c1 =>
    exfalso
    have hs : ((q._ready H mm sched flex []).q._chunkMap.find c).isSome = true := by
      rw [hf]; rfl
    unfold ChunkTasksQueue.getTask at hn
    simp only [] at hn
    split at hn
    · split at hn
      · exact contra _ hs hn
      · rename_i k hk
        split at hn
        · exact contra _ hs hn
        · split at hn
          · exact contra _ (ChunkMap.find_set_isSome _ k c _ hs) hn
          · exact contra _ (ChunkMap.find_set_isSome _ k c _ hs) hn
    · exact contra _ hs hn

end wsched

namespace wsched

theorem queueTask_find_isSome (H : StdHeap) (now : Nat) (q : ChunkTasksQueue) (task : Task)
    (c : Int) (h : (q._chunkMap.find c).isSome = true) :
    ((q.queueTask H now task)._chunkMap.find c).isSome = true := by
  unfold ChunkTasksQueue.queueTask
  simp only []
  cases hf : q._chunkMap.find task.chunkId with
  | some ct =>
    simp only [hf]
    exact ChunkMap.find_set_isSome _ _ c _ h
  | none =>
    simp only []
    have hne : c ≠ task.chunkId := by
      intro e
      rw [e, hf] at h
      cases h
    have h2 : ((q._chunkMap.insert task.chunkId (ChunkTasks.new task.chunkId)).find c).isSome
        = true := by
      rw [ChunkMap.find_insert_ne _ _ _ _ hne]
      exact h
    split
    · exact h2
    · exact ChunkMap.find_set_isSome _ _ c _ h2

theorem taskComplete_find_isSome (q : ChunkTasksQueue) (task : Task) (c : Int)
    (h : (q._chunkMap.find c).isSome = true) :
    ((q.taskComplete task)._chunkMap.find c).isSome = true := by
  unfold ChunkTasksQueue.taskComplete
  split
  · exact h
  · exact ChunkMap.find_set_isSome _ _ c _ h

theorem removeTask_find_isSome (H : StdHeap) (q : ChunkTasksQueue) (task : Task) (c : Int)
    (h : (q._chunkMap.find c).isSome = true) :
    ((q.removeTask H task).2._chunkMap.find c).isSome = true := by
  unfold ChunkTasksQueue.removeTask
  split
  · exact h
  · simp only []
    split <;> exact ChunkMap.find_set_isSome _ _ c _ h

/-- A call removes a chunk from the map only if the chunk holds nothing. -/
theorem step_erased (H : StdHeap) (r : Run) (call : SchedCall) (c : Int) (ct0 : ChunkTasks)
    (h : r.q._chunkMap.find c = some ct0)
    (hn : (r.step H call).q._chunkMap.find c = none) :
    ct0._activeTasks = [] ∧ ct0._pendingTasks = [] ∧ ct0._readyTask = none ∧
    ct0._inFlightTasks = [] := by
  have contra : ∀ o : Option ChunkTasks, o.isSome = true → o = none → False := by
    intro o h1 h2; rw [h2] at h1; cases h1
  have hs : (r.q._chunkMap.find c).isSome = true := by rw [h]; rfl
  cases call with
  | queueTask now task => exact (contra _ (queueTask_find_isSome H now r.q task c hs) hn).elim
  | ready mm sched flex => exact _ready_erased H mm sched flex r.q [] c ct0 h hn
  | getTask mm sched flex => exact getTask_erased H mm sched flex r.q c ct0 h hn
  | taskComplete task => exact (contra _ (taskComplete_find_isSome r.q task c hs) hn).elim
  | removeTask task => exact (contra _ (removeTask_find_isSome H r.q task c hs) hn).elim

theorem map_ids_core (l : List Task) : (l.map Task.core).map Task.ids = l.map Task.ids := by
  induction l with
  | nil => rfl
  | cons a l ih => simp only [List.map_cons, ih]; rfl

/-- C35: for every sequence of calls of `queueTask`, `ready`, `getTask`,
`taskComplete` and `removeTask` on a constructed queue in which the tasks queued
have pairwise distinct ids: the tasks queued are, apart from entry time and
memory handle, exactly the tasks on the active heaps, in the pending lists and
in the ready slots of the chunks together with the tasks returned by `getTask`
and by `removeTask`; no id occurs twice among these, so every queued task is in
exactly one of these places and was returned at most once; a task held by the
map is held by the chunk of its chunk id; and whatever the next call is, a chunk
leaves the map only if its active heap, its pending list, its ready slot and its
in-flight set are empty. -/
theorem tasks_conserved (H : StdHeap) (calls : List SchedCall)
    (hd : ((Run.run H calls).queued.map Task.ids).Nodup) :
    List.Perm ((Run.run H calls).queued.map Task.core)
      (((Run.run H calls).q._chunkMap.held ++ (Run.run H calls).handedOut ++
        (Run.run H calls).removed).map Task.core) ∧
    (((Run.run H calls).q._chunkMap.held ++ (Run.run H calls).handedOut ++
        (Run.run H calls).removed).map Task.ids).Nodup ∧
    (∀ t ∈ (Run.run H calls).queued,
      (((Run.run H calls).q._chunkMap.held ++ (Run.run H calls).handedOut ++
        (Run.run H calls).removed).map Task.ids).countP (fun x => decide (x = t.ids)) = 1) ∧
    (∀ e ∈ (Run.run H calls).q._chunkMap, ∀ t ∈ e.2.held, t.chunkId = e.1) ∧
    (∀ (call : SchedCall) (c : Int) (ct : ChunkTasks),
      (Run.run H calls).q._chunkMap.find c = some ct →
      ((Run.run H calls).step H call).q._chunkMap.find c = none →
      ct._activeTasks = [] ∧ ct._pendingTasks = [] ∧ ct._readyTask = none ∧
        ct._inFlightTasks = []) := by
  have hp := run_perm H calls
  have hpi : List.Perm ((Run.run H calls).queued.map Task.ids)
      (((Run.run H calls).q._chunkMap.held ++ (Run.run H calls).handedOut ++
        (Run.run H calls).removed).map Task.ids) := by
    have := hp.map Task.ids
    rw [map_ids_core, map_ids_core] at this
    exact this
  have hnd := hpi.nodup_iff.mp hd
  refine ⟨hp, hnd, ?_, ?_, ?_⟩
  · intro t ht
    exact @List.count_eq_one_of_mem _ instDecidableEqProd _ _ hnd
      (hpi.subset (List.mem_map_of_mem _ ht))
  · intro e he t ht
    have hk := reachable_keyed H _ (run_reachable H calls) e he
    obtain ⟨_, h1, h2, h3⟩ := hk
    simp only [ChunkTasks.held, List.mem_append, Option.mem_toList, Option.mem_def] at ht
    rcases ht with (ht | ht) | ht
    · exact h1 t ht
    · exact h2 t ht
    · exact h3 t ht
  · intro call c ct h hn
    exact step_erased H _ call c ct h hn

/-- Witness for `tasks_conserved`: two tasks are queued on chunk 5, one is handed
out, the other is removed, and the first is completed. -/
theorem tasks_conserved_witness :
    ((Run.run plainHeap [.queueTask 0 sampleTask, .queueTask 0 sampleTask2,
        .getTask grantingMemMan none false, .removeTask sampleTask2,
        .taskComplete sampleTask]).queued.map Task.ids).Nodup ∧
    (((Run.run plainHeap [.queueTask 0 sampleTask, .queueTask 0 sampleTask2,
        .getTask grantingMemMan none false, .removeTask sampleTask2,
        .taskComplete sampleTask]).q._chunkMap.held ++
      (Run.run plainHeap [.queueTask 0 sampleTask, .queueTask 0 sampleTask2,
        .getTask grantingMemMan none false, .removeTask sampleTask2,
        .taskComplete sampleTask]).handedOut ++
      (Run.run plainHeap [.queueTask 0 sampleTask, .queueTask 0 sampleTask2,
        .getTask grantingMemMan none false, .removeTask sampleTask2,
        .taskComplete sampleTask]).removed).map Task.ids).Nodup ∧
    (Run.run plainHeap [.queueTask 0 sampleTask, .queueTask 0 sampleTask2,
        .getTask grantingMemMan none false, .removeTask sampleTask2,
        .taskComplete sampleTask]).handedOut.map Task.ids = [(1, 0)] ∧
    (Run.run plainHeap [.queueTask 0 sampleTask, .queueTask 0 sampleTask2,
        .getTask grantingMemMan none false, .removeTask sampleTask2,
        .taskComplete sampleTask]).removed.map Task.ids = [(2, 0)] :=
  ⟨by decide,
   (tasks_conserved plainHeap [.queueTask 0 sampleTask, .queueTask 0 sampleTask2,
      .getTask grantingMemMan none false, .removeTask sampleTask2,
      .taskComplete sampleTask] (by decide)).2.1,
   by decide, by decide⟩

end wsched

namespace ccontrol

/-- C5 fails on the code: the handler `sampleAfterReset` is reached from a
constructed handler (header, body rejected by the merger, `reset`, next header
in the buffer); it is in state `HEADER_SIZE_WAIT` and the header in its buffer
unwraps, but it holds no response, and `flush` dereferences the null `_response`:
it neither returns true nor leaves the state `RESULT_WAIT`. -/
theorem flush_headerSizeWait_null_response :
    Reachable sampleProto sampleAfterReset ∧
    sampleAfterReset._state = .HEADER_SIZE_WAIT ∧
    sampleAfterReset._buffer = [3, 2, 7] ∧
    (sampleProto.unwrap { sampleProto.newWorkerResponse with headerSize := 3 }
      sampleAfterReset._buffer).1 = true ∧
    ((MergingHandler.new sampleProto "result_1").receive sampleProto goodWorld
      [3, 2, 7] false).ret = .returned true ∧
    sampleAfterReset._response = none ∧
    (sampleAfterReset.flush sampleProto goodWorld 3 false).ret = .undefinedBehaviour ∧
    (sampleAfterReset.flush sampleProto goodWorld 3 false).ret ≠ .returned true ∧
    (sampleAfterReset.flush sampleProto goodWorld 3 false).h._state ≠ .RESULT_WAIT :=
  ⟨Reachable.fill _ [3, 2, 7]
      (Reachable.reset _
        (Reachable.flush _ failingWorld 2 false
          (Reachable.fill _ [0, 7]
            (Reachable.flush _ goodWorld 3 false
              (Reachable.fill _ [3, 2, 7] (Reachable.new "result_1") (by decide)) (by decide))
            (by decide))
          (by decide)))
      (by decide),
    by decide, by decide, by decide, by decide, by decide, by decide, by decide, by decide⟩

/-- C9 fails on the code: on the reachable handler `sampleAfterReset`, which is
in the non-terminal state `HEADER_SIZE_WAIT` and holds no response, the call of
`flush` performs no transition: it dereferences the null `_response` before any
assignment to the state, so the state after the call is neither `RESULT_WAIT`
nor `HEADER_ERR`. -/
theorem flush_no_transition_null_response :
    Reachable sampleProto sampleAfterReset ∧
    sampleAfterReset._state = .HEADER_SIZE_WAIT ∧
    sampleAfterReset._response = none ∧
    (sampleAfterReset.flush sampleProto goodWorld 3 false).ret = .undefinedBehaviour ∧
    (sampleAfterReset.flush sampleProto goodWorld 3 false).events = [] ∧
    (sampleAfterReset.flush sampleProto goodWorld 3 false).h._state = sampleAfterReset._state ∧
    ¬ ((sampleAfterReset.flush sampleProto goodWorld 3 false).h._state = .RESULT_WAIT ∨
      (sampleAfterReset.flush sampleProto goodWorld 3 false).h._state = .HEADER_ERR) :=
  ⟨Reachable.fill _ [3, 2, 7]
      (Reachable.reset _
        (Reachable.flush _ failingWorld 2 false
          (Reachable.fill _ [0, 7]
            (Reachable.flush _ goodWorld 3 false
              (Reachable.fill _ [3, 2, 7] (Reachable.new "result_1") (by decide)) (by decide))
            (by decide))
          (by decide)))
      (by decide),
    by decide, by decide, by decide, by decide, by decide, by decide⟩

end ccontrol

namespace master

/-- On a merger whose table count is 0, as the constructor leaves it, every call
of every sequence of calls of `merge` is a creating call: it finds the count at
0, makes the calls of `_applySql` on the create statement, returns false and
leaves the count at 0. -/
theorem merges_create_again (calls : List MergeCall) :
    ∀ self : TableMerger, self._tableCount = 0 → ∀ e ∈ self.merges calls,
      e.1._tableCount = 0 ∧ e.1._mergeTable = self._mergeTable ∧
      e.2.2.ret = false ∧ e.2.2.self._tableCount = 0 ∧
      e.2.2.calls = [.system (e.1._loadCmd ++ "<" ++ e.2.1.dumpFile)] ++
        (e.1._applySql e.2.1.w (createStatement self._mergeTable e.2.1.tableName)).calls := by
  induction calls with
  | nil => intro self _ e he; cases he
  | cons c cs ih =>
    intro self h0 e he
    have hr := merge_ret_false c.w self c.dumpFile c.tableName
    have hm := merge_first c.w self c.dumpFile c.tableName h0
    have hret : (self._applySql c.w (createStatement self._mergeTable c.tableName)).ret
        = false := by
      rw [hm] at hr; exact hr
    simp only [TableMerger.merges, List.mem_cons] at he
    rcases he with he | he
    · subst he
      refine ⟨h0, rfl, hr, ?_, ?_⟩
      · rw [hm]; simp [hret]
      · rw [hm]
    · have hc : (self.merge c.w c.dumpFile c.tableName).self._tableCount = 0 := by
        rw [hm]; simp [hret]
      have := ih _ hc e he
      rw [(merge_mergeTable c.w self c.dumpFile c.tableName).1] at this
      exact this

set_option maxRecDepth 100000 in
/-- C33 fails on the code: on the constructed merger `sampleMerger`, two calls of
`merge` one after the other, for the tables `r_1` and `r_2`, with every command
succeeding and every block written completely: the first call writes the create
statement, reports `MERGEWRITE`, returns false and puts the count back to 0; the
second call does not write the insert statement but the create statement again,
which drops the merge table with the rows of `r_1`. -/
theorem merge_recreates_table :
    TableMerger.new false sampleClock namedConfig = some sampleMerger ∧
    (sampleMerger.merges sampleMergeCalls).map (fun e => e.2.2.ret) = [false, false] ∧
    (sampleMerger.merges sampleMergeCalls).map (fun e => e.2.2.self._tableCount) = [0, 0] ∧
    (sampleMerger.merges sampleMergeCalls).map (fun e => e.2.2.error) =
      [some ⟨.MERGEWRITE, 1, "Error writing sql to mysql process.."⟩,
       some ⟨.MERGEWRITE, 1, "Error writing sql to mysql process.."⟩] ∧
    (sampleMerger.merges sampleMergeCalls).map (fun e => e.2.2.calls) =
      [[.system "mysql --socket=/tmp/mysql.sock -u qsmaster qservResult</tmp/r_1.dump",
        .popen "mysql --socket=/tmp/mysql.sock -u qsmaster qservResult",
        .fwrite ("DROP TABLE IF EXISTS qservResult.result_1;" ++
          "CREATE TABLE IF NOT EXISTS qservResult.result_1 SELECT * FROM r_1;" ++
          "DROP TABLE IF EXISTS r_1;"),
        .pclose],
       [.system "mysql --socket=/tmp/mysql.sock -u qsmaster qservResult</tmp/r_2.dump",
        .popen "mysql --socket=/tmp/mysql.sock -u qsmaster qservResult",
        .fwrite ("DROP TABLE IF EXISTS qservResult.result_1;" ++
          "CREATE TABLE IF NOT EXISTS qservResult.result_1 SELECT * FROM r_2;" ++
          "DROP TABLE IF EXISTS r_2;"),
        .pclose]] ∧
    sampleMerger._buildMergeSql "r_2" false =
      "INSERT INTO qservResult.result_1 SELECT * FROM r_2;DROP TABLE IF EXISTS r_2;" := by
  refine ⟨by decide, ?_, ?_, ?_, ?_, ?_⟩
  · rfl
  · rfl
  · rfl
  · rfl
  · rfl

end master
